import Mathlib

/-!
# BioheatExpan: a shallow embedding of `BioheatExpan.cpp`

The solver advances nodal displacements and temperatures of a tetrahedral mesh
with an explicit scheme.  The embedding below follows `src/BioheatExpan.cpp`
function by function.

Conventions of the embedding.

* The source's `float` is a type parameter `α` carrying the arithmetic the code
  uses.  Theorems about algebraic identities are stated over a linearly ordered
  field (exact arithmetic); theorems about `isnan` and about a step that must
  report no divergence are stated over `FVal`, the rationals extended with the
  two infinities and NaN, where a result above `FLT_MAX` in magnitude overflows
  to an infinity; the step count and the ramp factor of the last step, where
  rounding decides the outcome, are computed over `F32`, which rounds every
  finite result to the nearest binary32 value.
* `sqrt`, `powf` and `isnan` come from the C library; they are the fields of
  `Libm`.  The stress theorems take them on the reals, with `sqrt` the square
  root and `powf` the real power.
* `std::vector<T>` is `List T`.  A read is `rd`, a write is `List.set`; the
  source has undefined behaviour on an index out of range, the embedding reads
  `0` and ignores the write, and theorems carry the range hypotheses.
* Indices (`unsigned int`, `size_t`, `int`) are natural numbers: the source's
  index arithmetic is the same as long as `12 * N_tets` and `3 * N_nodes` stay
  below `2^31`.
* `float[3][3]`, `float[3][4]`, `float[4][4]` are functions on `Fin`.
* The OpenMP region is run thread after thread: thread `id` visits
  `id, id + NUM_THREADS, ...` in the element loop, and after the barrier in the
  node loop.
-/

namespace BioheatExpan

/-- The C library functions the solver calls. -/
structure Libm (α : Type) where
  sqrt : α → α
  powf : α → α → α
  isnan : α → Bool

abbrev Mat33 (α : Type) := Fin 3 → Fin 3 → α
abbrev Mat34 (α : Type) := Fin 3 → Fin 4 → α
abbrev Mat44 (α : Type) := Fin 4 → Fin 4 → α

section Kernels

variable {α : Type} [Add α] [Sub α] [Mul α] [Div α] [Zero α]

/-- Read of `v[i]`. -/
def rd (v : List α) (i : Nat) : α := v.getD i 0

/-- `mat33x33`: `AB = A * B`. -/
def mat33x33 (A B : Mat33 α) : Mat33 α :=
  fun i j => 0 + A i 0 * B 0 j + A i 1 * B 1 j + A i 2 * B 2 j

/-- `mat33x34`: `AB = A * B`. -/
def mat33x34 (A : Mat33 α) (B : Mat34 α) : Mat34 α :=
  fun i j => 0 + A i 0 * B 0 j + A i 1 * B 1 j + A i 2 * B 2 j

/-- `mat33Tx33`: `AB = Aᵀ * B`. -/
def mat33Tx33 (A B : Mat33 α) : Mat33 α :=
  fun i j => 0 + A 0 i * B 0 j + A 1 i * B 1 j + A 2 i * B 2 j

/-- `mat33Tx34`: `AB = Aᵀ * B`. -/
def mat33Tx34 (A : Mat33 α) (B : Mat34 α) : Mat34 α :=
  fun i j => 0 + A 0 i * B 0 j + A 1 i * B 1 j + A 2 i * B 2 j

/-- `mat34Tx34`: `AB = Aᵀ * B`, a 4x4 matrix. -/
def mat34Tx34 (A B : Mat34 α) : Mat44 α :=
  fun i j => 0 + A 0 i * B 0 j + A 1 i * B 1 j + A 2 i * B 2 j

/-- `mat33x33T`: `AB = A * Bᵀ`. -/
def mat33x33T (A B : Mat33 α) : Mat33 α :=
  fun i j => 0 + A i 0 * B j 0 + A i 1 * B j 1 + A i 2 * B j 2

/-- `mat34x34T`: `AB = A * Bᵀ`, a 3x3 matrix. -/
def mat34x34T (A B : Mat34 α) : Mat33 α :=
  fun i j => 0 + A i 0 * B j 0 + A i 1 * B j 1 + A i 2 * B j 2 + A i 3 * B j 3

/-- `mat33xScalar`. -/
def mat33xScalar (A : Mat33 α) (b : α) : Mat33 α := fun i j => A i j * b

/-- `mat44xScalar`. -/
def mat44xScalar (A : Mat44 α) (b : α) : Mat44 α := fun i j => A i j * b

/-- `matDet33`. -/
def matDet33 (A : Mat33 α) : α :=
  A 0 0 * (A 1 1 * A 2 2 - A 1 2 * A 2 1) - A 1 0 * (A 0 1 * A 2 2 - A 0 2 * A 2 1)
    + A 2 0 * (A 0 1 * A 1 2 - A 0 2 * A 1 1)

/-- `matInv33`: the pair `(invA, detA)`. -/
def matInv33 (A : Mat33 α) : Mat33 α × α :=
  let detA := matDet33 A
  let invA : Mat33 α := fun i j =>
    match i, j with
    | 0, 0 => (A 1 1 * A 2 2 - A 1 2 * A 2 1) / detA
    | 0, 1 => (A 0 2 * A 2 1 - A 0 1 * A 2 2) / detA
    | 0, 2 => (A 0 1 * A 1 2 - A 0 2 * A 1 1) / detA
    | 1, 0 => (A 1 2 * A 2 0 - A 1 0 * A 2 2) / detA
    | 1, 1 => (A 0 0 * A 2 2 - A 0 2 * A 2 0) / detA
    | 1, 2 => (A 0 2 * A 1 0 - A 0 0 * A 1 2) / detA
    | 2, 0 => (A 1 0 * A 2 1 - A 1 1 * A 2 0) / detA
    | 2, 1 => (A 0 1 * A 2 0 - A 0 0 * A 2 1) / detA
    | 2, 2 => (A 0 0 * A 1 1 - A 0 1 * A 1 0) / detA
  (invA, detA)

end Kernels

/-- The class `Node`. -/
structure Node (α : Type) where
  m_idx : Nat
  m_x : α
  m_y : α
  m_z : α

/-- The class `T4`: a linear tetrahedron with its reference data and its
per-step scratch. -/
structure T4 (α : Type) where
  m_idx : Nat
  m_n_idx : Fin 4 → Nat
  m_DHDr : Mat34 α
  m_DHDX : Mat34 α
  m_DHDx : Mat34 α
  m_S : Mat33 α
  m_X : Mat33 α
  m_X_expan : Mat33 α
  m_D : Mat33 α
  m_K : Mat44 α
  m_Vol : α
  m_vol : α
  m_mass : α
  m_M_material_type : String
  m_T_material_type : String
  m_T_expan_type : String
  m_M_material_vals : List α
  m_T_material_vals : List α
  m_T_expan_vals : List α

section Element

variable {α : Type} [Add α] [Sub α] [Mul α] [Div α] [Neg α] [Zero α] [One α] [NatCast α]

/-- The constant member `m_DHDr` of `T4`. -/
def DHDr : Mat34 α := fun i j =>
  match i, j with
  | 0, 0 => -1 | 0, 1 => 1 | 0, 2 => 0 | 0, 3 => 0
  | 1, 0 => -1 | 1, 1 => 0 | 1, 2 => 1 | 1, 3 => 0
  | 2, 0 => -1 | 2, 1 => 0 | 2, 2 => 0 | 2, 3 => 1

/-- The local `n_coords` of the `T4` constructor: column `k` holds the
coordinates of the `k`-th node. -/
def n_coords (n1 n2 n3 n4 : Node α) : Mat34 α := fun i j =>
  match i, j with
  | 0, 0 => n1.m_x | 1, 0 => n1.m_y | 2, 0 => n1.m_z
  | 0, 1 => n2.m_x | 1, 1 => n2.m_y | 2, 1 => n2.m_z
  | 0, 2 => n3.m_x | 1, 2 => n3.m_y | 2, 2 => n3.m_z
  | 0, 3 => n4.m_x | 1, 3 => n4.m_y | 2, 3 => n4.m_z

/-- The conductivity tensor `m_D` the `T4` constructor builds.  For a thermal
type other than `T_ISO`, `T_ORTHO`, `T_ANISO` the source leaves `m_D`
uninitialised: its content is then `D_uninit`. -/
def conductivity (D_uninit : Mat33 α) (T_material_type : String) (T_material_vals : List α) :
    Mat33 α :=
  if T_material_type = "T_ISO" then
    fun i j => if i = j then rd T_material_vals 1 else 0
  else if T_material_type = "T_ORTHO" then
    fun i j =>
      match i, j with
      | 0, 0 => rd T_material_vals 1
      | 1, 1 => rd T_material_vals 2
      | 2, 2 => rd T_material_vals 3
      | _, _ => 0
  else if T_material_type = "T_ANISO" then
    fun i j =>
      match i, j with
      | 0, 0 => rd T_material_vals 1 | 0, 1 => rd T_material_vals 2 | 0, 2 => rd T_material_vals 3
      | 1, 0 => rd T_material_vals 2 | 1, 1 => rd T_material_vals 4 | 1, 2 => rd T_material_vals 5
      | 2, 0 => rd T_material_vals 3 | 2, 1 => rd T_material_vals 5 | 2, 2 => rd T_material_vals 6
  else D_uninit

/-- The constructor `T4::T4`.  It has no failure path: whatever the four nodes
are, it returns an element. -/
def T4.new (D_uninit : Mat33 α) (idx : Nat) (n1 n2 n3 n4 : Node α) (rho : α)
    (M_material_type : String) (M_material_vals : List α)
    (T_material_type : String) (T_material_vals : List α)
    (T_expan_type : String) (T_expan_vals : List α) : T4 α :=
  let J0 := mat34x34T (DHDr : Mat34 α) (n_coords n1 n2 n3 n4)
  let invJ0 := (matInv33 J0).1
  let detJ0 := (matInv33 J0).2
  let Vol := detJ0 / ((6 : ℕ) : α)
  let DHDX := mat33x34 invJ0 (DHDr : Mat34 α)
  let D := conductivity D_uninit T_material_type T_material_vals
  let temp := mat33x34 D DHDX
  let K := mat34Tx34 DHDX temp
  { m_idx := idx
    m_n_idx := fun m =>
      match m with
      | 0 => n1.m_idx | 1 => n2.m_idx | 2 => n3.m_idx | 3 => n4.m_idx
    m_DHDr := DHDr
    m_DHDX := DHDX
    m_DHDx := fun _ _ => 0
    m_S := fun _ _ => 0
    m_X := fun _ _ => 0
    m_X_expan := fun _ _ => 0
    m_D := D
    m_K := mat44xScalar K Vol
    m_Vol := Vol
    m_vol := Vol
    m_mass := rho * Vol
    m_M_material_type := M_material_type
    m_T_material_type := T_material_type
    m_T_expan_type := T_expan_type
    m_M_material_vals := M_material_vals
    m_T_material_vals := T_material_vals
    m_T_expan_vals := T_expan_vals }

end Element

/-- The class `Model`. -/
structure Model (α : Type) where
  m_nodes : List (Node α)
  m_tets : List (T4 α)
  m_num_BCs : Nat
  m_num_steps : Nat
  m_num_M_DOFs : Nat
  m_num_T_DOFs : Nat
  m_disp_idx_x : List Nat
  m_disp_idx_y : List Nat
  m_disp_idx_z : List Nat
  m_fixP_idx_x : List Nat
  m_fixP_idx_y : List Nat
  m_fixP_idx_z : List Nat
  m_hflux_idx : List Nat
  m_perfu_idx : List Nat
  m_fixT_idx : List Nat
  m_bhflux_idx : List Nat
  m_disp_mag_x : List α
  m_disp_mag_y : List α
  m_disp_mag_z : List α
  m_grav_f_x : List α
  m_grav_f_y : List α
  m_grav_f_z : List α
  m_hflux_mag : List α
  m_perfu_refT : List α
  m_perfu_const1 : List α
  m_fixT_mag : List α
  m_bhflux_mag : List α
  m_metabo_mag : List α
  m_M_material_vals : List α
  m_T_material_vals : List α
  m_T_expan_vals : List α
  m_dt : α
  m_total_t : α
  m_alpha : α
  m_T0 : α
  m_rho : α
  m_fname : String
  m_ele_type : String
  m_M_material_type : String
  m_T_material_type : String
  m_T_expan_type : String
  m_node_begin_index : Nat
  m_ele_begin_index : Nat
  m_ele_node_local_idx_pair : List Nat
  m_tracking_num_eles_i_eles_per_node_j : List Nat

section PostCreate

variable {α : Type}

/-- The statement `v[i].push_back(x)` on a vector of vectors. -/
def pushAt (v : List (List Nat)) (i x : Nat) : List (List Nat) :=
  v.set i (v.getD i [] ++ [x])

/-- Inner loop of the first loop of `postCreate`: every corner `m` of `tet`
appends `tet.m_idx` and `m` to the list of its node. -/
def pushCorners (acc : List (List Nat)) (tet : T4 α) : List (List Nat) :=
  (List.finRange 4).foldl
    (fun acc m => pushAt (pushAt acc (tet.m_n_idx m) tet.m_idx) (tet.m_n_idx m) m.val) acc

/-- First loop of `postCreate`, over the tetrahedra: the local
`nodes_ele_node_local_idx_pair`. -/
def nodes_ele_node_local_idx_pair (num_nodes : Nat) (tets : List (T4 α)) : List (List Nat) :=
  tets.foldl pushCorners (List.replicate num_nodes [])

/-- Second loop of `postCreate`: `eles_per_node` and `length`. -/
def elesPerNode (pairs : List (List Nat)) (num_nodes : Nat) : List Nat × Nat :=
  (List.range num_nodes).foldl
    (fun (st : List Nat × Nat) m =>
      let e := st.1.set m ((pairs.getD m []).length / 2)
      (e, st.2 + e.getD m 0))
    (List.replicate num_nodes 0, 0)

/-- State of the third loop of `postCreate`: the pair buffer, the write
position `p_ele_node_local_idx_pair` (as an index into the buffer), the
directory and `tracking`. -/
structure FlattenState where
  buf : List Nat
  p : Nat
  dir : List Nat
  tracking : Nat

/-- Inner loop body of the third loop of `postCreate`: the `n`-th pair of the
node's list `pairs_m` is copied to the write position, which moves on by two. -/
def copyPair (pairs_m : List Nat) (s : FlattenState) (n : Nat) : FlattenState :=
  let buf := s.buf.set s.p (pairs_m.getD (n * 2 + 0) 0)
  let buf := buf.set (s.p + 1) (pairs_m.getD (n * 2 + 1) 0)
  { s with buf := buf, p := s.p + 2 }

/-- Third loop of `postCreate`: the directory entry of node `m` and the copy of
its pairs into the buffer. -/
def flattenNode (pairs : List (List Nat)) (eles_per_node : List Nat) (st : FlattenState)
    (m : Nat) : FlattenState :=
  let dir := (st.dir.set (m * 2 + 0) st.tracking).set (m * 2 + 1) (eles_per_node.getD m 0)
  let tracking := st.tracking + eles_per_node.getD m 0
  (List.range (eles_per_node.getD m 0)).foldl (copyPair (pairs.getD m []))
    { st with dir := dir, tracking := tracking }

/-- The method `Model::postCreate`: it builds the connectivity index, the
buffer `m_ele_node_local_idx_pair` and the directory
`m_tracking_num_eles_i_eles_per_node_j`. -/
def Model.postCreate (model : Model α) : Model α :=
  let num_nodes := model.m_nodes.length
  let pairs := nodes_ele_node_local_idx_pair num_nodes model.m_tets
  let eles_per_node := (elesPerNode pairs num_nodes).1
  let length := (elesPerNode pairs num_nodes).2
  let st := (List.range num_nodes).foldl (flattenNode pairs eles_per_node)
    { buf := List.replicate (length * 2) 0
      p := 0
      dir := List.replicate (num_nodes * 2) 0
      tracking := 0 }
  { model with
    m_ele_node_local_idx_pair := st.buf
    m_tracking_num_eles_i_eles_per_node_j := st.dir }

end PostCreate

/-- The class `ModelStates`. -/
structure ModelStates (α : Type) where
  m_external_F : List α
  m_ele_nodal_internal_F : List α
  m_disp_mag_t : List α
  m_central_diff_const1 : List α
  m_central_diff_const2 : List α
  m_central_diff_const3 : List α
  m_prev_U : List α
  m_curr_U : List α
  m_next_U : List α
  m_external_Q : List α
  m_external_Q0 : List α
  m_ele_nodal_internal_Q : List α
  m_fixT_mag : List α
  m_constA : List α
  m_curr_T : List α
  m_next_T : List α
  m_fixP_flag : List Bool
  m_fixT_flag : List Bool

section States

variable {α : Type} [Add α] [Sub α] [Mul α] [Div α] [Neg α] [Zero α] [One α] [NatCast α]

/-- The statement `v[i] += x`. -/
def addAt (v : List α) (i : Nat) (x : α) : List α := v.set i (rd v i + x)

/-- The local `nodal_M_mass` of the `ModelStates` constructor: every corner adds
a quarter of the element mass to the three DOFs of its node. -/
def nodal_M_mass (model : Model α) : List α :=
  model.m_tets.foldl
    (fun acc tet =>
      (List.finRange 4).foldl
        (fun acc m =>
          (List.finRange 3).foldl
            (fun acc n => addAt acc (tet.m_n_idx m * 3 + n.val) (tet.m_mass / ((4 : ℕ) : α)))
            acc)
        acc)
    (List.replicate model.m_num_M_DOFs 0)

/-- The local `nodal_T_mass` of the `ModelStates` constructor. -/
def nodal_T_mass (model : Model α) : List α :=
  model.m_tets.foldl
    (fun acc tet =>
      (List.finRange 4).foldl
        (fun acc m => addAt acc (tet.m_n_idx m) (tet.m_mass / ((4 : ℕ) : α)))
        acc)
    (List.replicate model.m_num_T_DOFs 0)

/-- One iteration of the loop of the `ModelStates` constructor that fills the
three central-difference constants of DOF `i`. -/
def centralDiffIter (model : Model α) (mass : List α) (c : List α × List α × List α) (i : Nat) :
    List α × List α × List α :=
  let c1 := c.1.set i
    (1 / (model.m_alpha * rd mass i / ((2 : ℕ) : α) / model.m_dt
      + rd mass i / model.m_dt / model.m_dt))
  let c2 := c.2.1.set i
    (((2 : ℕ) : α) * rd mass i * rd c1 i / model.m_dt / model.m_dt)
  let c3 := c.2.2.set i
    (model.m_alpha * rd mass i * rd c1 i / ((2 : ℕ) : α) / model.m_dt
      - rd c2 i / ((2 : ℕ) : α))
  (c1, c2, c3)

/-- The three vectors `m_central_diff_const1..3` after the constructor's loop. -/
def centralDiffConsts (model : Model α) : List α × List α × List α :=
  (List.range model.m_num_M_DOFs).foldl (centralDiffIter model (nodal_M_mass model))
    (List.replicate model.m_num_M_DOFs 0, List.replicate model.m_num_M_DOFs 0,
      List.replicate model.m_num_M_DOFs 0)

/-- The vector `m_constA` after the constructor's loop. -/
def constA (model : Model α) : List α :=
  (List.range model.m_num_T_DOFs).foldl
    (fun acc i => acc.set i (model.m_dt / (rd (nodal_T_mass model) i * rd model.m_T_material_vals 0)))
    (List.replicate model.m_num_T_DOFs 0)

/-- The constructor `ModelStates::ModelStates`. -/
def ModelStates.new (model : Model α) : ModelStates α :=
  { m_external_F := List.replicate model.m_num_M_DOFs 0
    m_ele_nodal_internal_F := List.replicate (model.m_tets.length * 4 * 3) 0
    m_disp_mag_t := List.replicate model.m_num_M_DOFs 0
    m_central_diff_const1 := (centralDiffConsts model).1
    m_central_diff_const2 := (centralDiffConsts model).2.1
    m_central_diff_const3 := (centralDiffConsts model).2.2
    m_prev_U := List.replicate model.m_num_M_DOFs 0
    m_curr_U := List.replicate model.m_num_M_DOFs 0
    m_next_U := List.replicate model.m_num_M_DOFs 0
    m_external_Q := List.replicate model.m_num_T_DOFs 0
    m_external_Q0 := List.replicate model.m_num_T_DOFs 0
    m_ele_nodal_internal_Q := List.replicate (model.m_tets.length * 4) 0
    m_fixT_mag := List.replicate model.m_num_T_DOFs 0
    m_constA := constA model
    m_curr_T := List.replicate model.m_num_T_DOFs model.m_T0
    m_next_T := List.replicate model.m_num_T_DOFs model.m_T0
    m_fixP_flag := List.replicate model.m_num_M_DOFs false
    m_fixT_flag := List.replicate model.m_num_T_DOFs false }

/-- The loop `for i < mag.size(): v[i * 3 + axis] += mag[i]` of `initBC`
(gravity). -/
def addGravity (v : List α) (mag : List α) (axis : Nat) : List α :=
  (List.range mag.length).foldl (fun acc i => addAt acc (i * 3 + axis) (rd mag i)) v

/-- The loop `for i < idx.size(): flag[idx[i] * 3 + axis] = true` of `initBC`
(fixed positions). -/
def setFixP (flag : List Bool) (idx : List Nat) (axis : Nat) : List Bool :=
  (List.range idx.length).foldl (fun acc i => acc.set (idx.getD i 0 * 3 + axis) true) flag

/-- The loop `for i < idx.size(): v[idx[i]] += mag[i]` of `initBC` (nodal and
body heat flux). -/
def addIndexed (v : List α) (idx : List Nat) (mag : List α) : List α :=
  (List.range idx.length).foldl (fun acc i => addAt acc (idx.getD i 0) (rd mag i)) v

/-- The loop `for i < mag.size(): v[i] += mag[i]` of `initBC` (metabolic heat). -/
def addAll (v : List α) (mag : List α) : List α :=
  (List.range mag.length).foldl (fun acc i => addAt acc i (rd mag i)) v

/-- The loop of `initBC` for the fixed temperatures: flag and magnitude of every
listed node. -/
def setFixT (st : List Bool × List α) (idx : List Nat) (mag : List α) : List Bool × List α :=
  (List.range idx.length).foldl
    (fun (acc : List Bool × List α) i =>
      (acc.1.set (idx.getD i 0) true, acc.2.set (idx.getD i 0) (rd mag i)))
    st

/-- The function `initBC`. -/
def initBC (model : Model α) (modelstates : ModelStates α) : ModelStates α :=
  let external_F := modelstates.m_external_F.map (fun _ => (0 : α))
  let external_F := addGravity external_F model.m_grav_f_x 0
  let external_F := addGravity external_F model.m_grav_f_y 1
  let external_F := addGravity external_F model.m_grav_f_z 2
  let fixP_flag := setFixP modelstates.m_fixP_flag model.m_fixP_idx_x 0
  let fixP_flag := setFixP fixP_flag model.m_fixP_idx_y 1
  let fixP_flag := setFixP fixP_flag model.m_fixP_idx_z 2
  let external_Q0 := modelstates.m_external_Q0.map (fun _ => (0 : α))
  let external_Q0 := addIndexed external_Q0 model.m_hflux_idx model.m_hflux_mag
  let external_Q0 := addIndexed external_Q0 model.m_bhflux_idx model.m_bhflux_mag
  let external_Q0 := addAll external_Q0 model.m_metabo_mag
  let fixT := setFixT (modelstates.m_fixT_flag, modelstates.m_fixT_mag) model.m_fixT_idx
    model.m_fixT_mag
  { modelstates with
    m_external_F := external_F
    m_fixP_flag := fixP_flag
    m_external_Q0 := external_Q0
    m_external_Q := external_Q0
    m_fixT_flag := fixT.1
    m_fixT_mag := fixT.2 }

/-- The loop `for i < idx.size(): disp_mag_t[idx[i] * 3 + axis] = mag[i] * n` of
`computeRunTimeBC`. -/
def setDisp (v : List α) (idx : List Nat) (mag : List α) (axis : Nat) (n : α) : List α :=
  (List.range idx.length).foldl (fun acc i => acc.set (idx.getD i 0 * 3 + axis) (rd mag i * n)) v

/-- The perfusion loop of `computeRunTimeBC`. -/
def setPerfu (model : Model α) (modelstates : ModelStates α) : List α :=
  (List.range model.m_perfu_idx.length).foldl
    (fun acc i =>
      acc.set (model.m_perfu_idx.getD i 0)
        (rd modelstates.m_external_Q0 (model.m_perfu_idx.getD i 0)
          - rd model.m_perfu_const1 i
            * (rd modelstates.m_curr_T (model.m_perfu_idx.getD i 0) - rd model.m_perfu_refT i)))
    modelstates.m_external_Q

/-- The function `computeRunTimeBC`. -/
def computeRunTimeBC (model : Model α) (modelstates : ModelStates α) (curr_step : Nat) :
    ModelStates α :=
  let n : α := ((curr_step + 1 : ℕ) : α) * model.m_dt / model.m_total_t
  let disp_mag_t := setDisp modelstates.m_disp_mag_t model.m_disp_idx_x model.m_disp_mag_x 0 n
  let disp_mag_t := setDisp disp_mag_t model.m_disp_idx_y model.m_disp_mag_y 1 n
  let disp_mag_t := setDisp disp_mag_t model.m_disp_idx_z model.m_disp_mag_z 2 n
  { modelstates with
    m_disp_mag_t := disp_mag_t
    m_external_Q := setPerfu model modelstates }

end States

section Step

variable {α : Type} [Add α] [Sub α] [Mul α] [Div α] [Neg α] [Zero α] [One α] [NatCast α]
  [DecidableEq α]

/-- The visiting order of `for (int i = id; i < size; i += NUM_THREADS)`, with
a bound on the number of iterations. -/
def stridedLoop (NUM_THREADS size : Nat) : Nat → Nat → List Nat
  | 0, _ => []
  | fuel + 1, i =>
    if i < size then i :: stridedLoop NUM_THREADS size fuel (i + NUM_THREADS) else []

/-- The indices thread `id` visits: `size` iterations are enough as soon as
`NUM_THREADS` is positive. -/
def strided (NUM_THREADS size id : Nat) : List Nat := stridedLoop NUM_THREADS size size id

/-- Element pass: the local `u`, the current displacements of the four corners. -/
def cornerDisp (curr_U : List α) (tet : T4 α) : Mat34 α :=
  fun n m => rd curr_U (tet.m_n_idx m * 3 + n.val)

/-- Element pass: the deformation gradient `m_X = u * DHDXᵀ`, then `+= 1` on the
diagonal. -/
def deformationGradient (curr_U : List α) (tet : T4 α) : Mat33 α :=
  fun i j =>
    if i = j then mat34x34T (cornerDisp curr_U tet) tet.m_DHDX i j + 1
    else mat34x34T (cornerDisp curr_U tet) tet.m_DHDX i j

/-- Element pass: `T_diff`, the mean corner temperature minus `m_T0`. -/
def T_diff (T0 : α) (curr_T : List α) (tet : T4 α) : α :=
  (rd curr_T (tet.m_n_idx 0) + rd curr_T (tet.m_n_idx 1) + rd curr_T (tet.m_n_idx 2)
    + rd curr_T (tet.m_n_idx 3)) / ((4 : ℕ) : α) - T0

/-- Element pass: the entries of `m_X_expan` after the branch on
`m_T_expan_type`; an entry the branch does not assign keeps its old content. -/
def expansionGradient (tet : T4 α) (T_diff : α) : Mat33 α :=
  let v := fun k => rd tet.m_T_expan_vals k
  if tet.m_T_expan_type = "T_EXPAN_ISO" then
    let lamda_i := 1 + v 0 * T_diff
    fun i j => if i = j then lamda_i else tet.m_X_expan i j
  else if tet.m_T_expan_type = "T_EXPAN_TI" then
    let lamda_i := 1 + v 0 * T_diff
    let lamda_m_minus_i := v 1 * T_diff
    fun i j =>
      match i, j with
      | 0, 0 => lamda_m_minus_i * v 2 + lamda_i
      | 0, 1 => lamda_m_minus_i * v 3
      | 0, 2 => lamda_m_minus_i * v 4
      | 1, 0 => lamda_m_minus_i * v 3
      | 1, 1 => lamda_m_minus_i * v 5 + lamda_i
      | 1, 2 => lamda_m_minus_i * v 6
      | 2, 0 => lamda_m_minus_i * v 4
      | 2, 1 => lamda_m_minus_i * v 6
      | 2, 2 => lamda_m_minus_i * v 7 + lamda_i
  else if tet.m_T_expan_type = "T_EXPAN_ORTHO" then
    let lamda_i := 1 + v 0 * T_diff
    let lamda_m_minus_i := v 1 * T_diff
    let lamda_n_minus_i := v 8 * T_diff
    fun i j =>
      match i, j with
      | 0, 0 => lamda_m_minus_i * v 2 + lamda_n_minus_i * v 9 + lamda_i
      | 0, 1 => lamda_m_minus_i * v 3 + lamda_n_minus_i * v 10
      | 0, 2 => lamda_m_minus_i * v 4 + lamda_n_minus_i * v 11
      | 1, 0 => lamda_m_minus_i * v 3 + lamda_n_minus_i * v 10
      | 1, 1 => lamda_m_minus_i * v 5 + lamda_n_minus_i * v 12 + lamda_i
      | 1, 2 => lamda_m_minus_i * v 6 + lamda_n_minus_i * v 13
      | 2, 0 => lamda_m_minus_i * v 4 + lamda_n_minus_i * v 11
      | 2, 1 => lamda_m_minus_i * v 6 + lamda_n_minus_i * v 13
      | 2, 2 => lamda_m_minus_i * v 7 + lamda_n_minus_i * v 14 + lamda_i
  else tet.m_X_expan

/-- Element pass: the literal `-0.66666667f`, the `float` nearest to
`-0.66666667` (and to `-2/3`): `-11184811 / 2^24`. -/
def minusTwoThirds : α := -(((11184811 : ℕ) : α) / ((16777216 : ℕ) : α))

/-- Element pass, branch `NH`: the second Piola-Kirchhoff stress. -/
def stressNH (lm : Libm α) (vals : List α) (C invC : Mat33 α) (J : α) : Mat33 α :=
  let J23 := lm.powf J minusTwoThirds
  let I1 := C 0 0 + C 1 1 + C 2 2
  let const1 := J23 * rd vals 0
  let const2 := (-const1) * I1 / ((3 : ℕ) : α) + rd vals 1 * J * (J - 1)
  fun i j =>
    match i, j with
    | 0, 0 => const2 * invC 0 0 + const1
    | 0, 1 => const2 * invC 0 1
    | 0, 2 => const2 * invC 0 2
    | 1, 0 => const2 * invC 0 1
    | 1, 1 => const2 * invC 1 1 + const1
    | 1, 2 => const2 * invC 1 2
    | 2, 0 => const2 * invC 0 2
    | 2, 1 => const2 * invC 1 2
    | 2, 2 => const2 * invC 2 2 + const1

/-- Element pass, branch `TI`: the second Piola-Kirchhoff stress. -/
def stressTI (lm : Libm α) (vals : List α) (C invC : Mat33 α) (J : α) : Mat33 α :=
  let v := fun k => rd vals k
  let two : α := ((2 : ℕ) : α)
  let J23 := lm.powf J minusTwoThirds
  let I1 := C 0 0 + C 1 1 + C 2 2
  let I4 := v 3 * C 0 0 + two * v 4 * C 0 1 + two * v 5 * C 0 2 + v 6 * C 1 1
    + two * v 7 * C 1 2 + v 8 * C 2 2
  let I4cap := J23 * I4
  let const1 := J23 * v 0
  let const2 := v 2 * (I4cap - 1)
  let const3 := two * J23 * const2
  let const4 := (-(const1 * I1 + two * const2 * I4cap)) / ((3 : ℕ) : α) + v 1 * J * (J - 1)
  fun i j =>
    match i, j with
    | 0, 0 => const4 * invC 0 0 + const3 * v 3 + const1
    | 0, 1 => const4 * invC 0 1 + const3 * v 4
    | 0, 2 => const4 * invC 0 2 + const3 * v 5
    | 1, 0 => const4 * invC 0 1 + const3 * v 4
    | 1, 1 => const4 * invC 1 1 + const3 * v 6 + const1
    | 1, 2 => const4 * invC 1 2 + const3 * v 7
    | 2, 0 => const4 * invC 0 2 + const3 * v 5
    | 2, 1 => const4 * invC 1 2 + const3 * v 7
    | 2, 2 => const4 * invC 2 2 + const3 * v 8 + const1

/-- What one iteration of the element loop computes for its tetrahedron: the
element with its scratch rewritten, the corner forces `f` and the corner heat
flows. -/
structure ElementOut (α : Type) where
  tet : T4 α
  f : Mat34 α
  q : Fin 4 → α

/-- The body of the element loop of `computeOneStep` for one tetrahedron, up to
the writes into the per-corner buffers. -/
def elementKernel (lm : Libm α) (T0 : α) (curr_U curr_T : List α) (tet : T4 α) : ElementOut α :=
  let X := deformationGradient curr_U tet
  let expan := tet.m_T_expan_vals.length ≠ 0
  let X_expan := if expan then expansionGradient tet (T_diff T0 curr_T tet) else tet.m_X_expan
  let invX_expan := (matInv33 X_expan).1
  let J_invX_expan := (matInv33 X_expan).2
  let temp_X := if expan then mat33x33 X invX_expan else X
  let C := mat33Tx33 temp_X temp_X
  let invC := (matInv33 C).1
  let Jsq := (matInv33 C).2
  let J := lm.sqrt Jsq
  let S :=
    if tet.m_M_material_type = "NH" then stressNH lm tet.m_M_material_vals C invC J
    else if tet.m_M_material_type = "TI" then stressTI lm tet.m_M_material_vals C invC J
    else tet.m_S
  let S :=
    if expan then mat33xScalar (mat33x33T (mat33x33 invX_expan S) invX_expan) J_invX_expan
    else S
  let XSVol := mat33xScalar (mat33x33 X S) tet.m_Vol
  let f := mat33x34 XSVol tet.m_DHDX
  let invX := (matInv33 X).1
  let J := (matInv33 X).2
  let DHDx := mat33Tx34 invX tet.m_DHDX
  let vol := tet.m_Vol * J
  let K :=
    if tet.m_T_material_type = "T_ISO" then
      mat44xScalar (mat34Tx34 DHDx DHDx) (vol * tet.m_D 0 0)
    else mat44xScalar (mat34Tx34 DHDx (mat33x34 tet.m_D DHDx)) vol
  { tet := { tet with
      m_X := X, m_X_expan := X_expan, m_S := S, m_DHDx := DHDx, m_vol := vol, m_K := K }
    f := f
    q := fun m =>
      K m 0 * rd curr_T (tet.m_n_idx 0) + K m 1 * rd curr_T (tet.m_n_idx 1)
        + K m 2 * rd curr_T (tet.m_n_idx 2) + K m 3 * rd curr_T (tet.m_n_idx 3) }

/-- The scatter `m_ele_nodal_internal_F[tet.m_idx * 12 + m * 3 + n] = f[n][m]`. -/
def scatterF (buf : List α) (idx : Nat) (f : Mat34 α) : List α :=
  (List.finRange 4).foldl
    (fun acc m =>
      (List.finRange 3).foldl (fun acc n => acc.set (idx * 12 + m.val * 3 + n.val) (f n m)) acc)
    buf

/-- The scatter `m_ele_nodal_internal_Q[tet.m_idx * 4 + m] = q[m]`. -/
def scatterQ (buf : List α) (idx : Nat) (q : Fin 4 → α) : List α :=
  (List.finRange 4).foldl (fun acc m => acc.set (idx * 4 + m.val) (q m)) buf

/-- One iteration `i` of the element loop: the tetrahedron `m_tets[i]` gets its
scratch rewritten and its slice of the two per-corner buffers is written. -/
def elementIter (lm : Libm α) (T0 : α) (st : List (T4 α) × ModelStates α) (i : Nat) :
    List (T4 α) × ModelStates α :=
  match st.1.get? i with
  | none => st
  | some tet =>
    let out := elementKernel lm T0 st.2.m_curr_U st.2.m_curr_T tet
    (st.1.set i out.tet,
      { st.2 with
        m_ele_nodal_internal_F := scatterF st.2.m_ele_nodal_internal_F tet.m_idx out.f
        m_ele_nodal_internal_Q := scatterQ st.2.m_ele_nodal_internal_Q tet.m_idx out.q })

/-- Node pass: the gather of node `i`, the sums `nodal_internal_F[3]` and
`nodal_internal_Q` over the node's slice of the connectivity index. -/
def gather (model : Model α) (modelstates : ModelStates α) (i : Nat) : (Fin 3 → α) × α :=
  let tracking_num_eles := model.m_tracking_num_eles_i_eles_per_node_j.getD (i * 2 + 0) 0
  let eles_per_node := model.m_tracking_num_eles_i_eles_per_node_j.getD (i * 2 + 1) 0
  (List.range eles_per_node).foldl
    (fun (acc : (Fin 3 → α) × α) j =>
      let ele_idx := model.m_ele_node_local_idx_pair.getD ((tracking_num_eles + j) * 2 + 0) 0
      let node_local_idx := model.m_ele_node_local_idx_pair.getD ((tracking_num_eles + j) * 2 + 1) 0
      (fun n => acc.1 n
          + rd modelstates.m_ele_nodal_internal_F (ele_idx * 12 + node_local_idx * 3 + n.val),
        acc.2 + rd modelstates.m_ele_nodal_internal_Q (ele_idx * 4 + node_local_idx)))
    (fun _ => 0, 0)

/-- Node pass: the update of DOF `i * 3 + j`, on the pair (`m_next_U`,
`no_err`). -/
def dofIter (lm : Libm α) (modelstates : ModelStates α) (nodal_internal_F : Fin 3 → α) (i : Nat)
    (s : List α × Bool) (j : Fin 3) : List α × Bool :=
  let n_DOF := i * 3 + j.val
  if rd modelstates.m_disp_mag_t n_DOF ≠ 0 then
    (s.1.set n_DOF (rd modelstates.m_disp_mag_t n_DOF), s.2)
  else if modelstates.m_fixP_flag.getD n_DOF false = true then
    (s.1.set n_DOF 0, s.2)
  else
    let next_U := s.1.set n_DOF
      (rd modelstates.m_central_diff_const1 n_DOF
          * (rd modelstates.m_external_F n_DOF - nodal_internal_F j)
        + rd modelstates.m_central_diff_const2 n_DOF * rd modelstates.m_curr_U n_DOF
        + rd modelstates.m_central_diff_const3 n_DOF * rd modelstates.m_prev_U n_DOF)
    (next_U, if lm.isnan (rd next_U n_DOF) then false else s.2)

/-- One iteration `i` of the node loop, on the pair (state, `no_err`). -/
def nodeIter (lm : Libm α) (model : Model α) (st : ModelStates α × Bool) (i : Nat) :
    ModelStates α × Bool :=
  let modelstates := st.1
  let g := gather model modelstates i
  let u := (List.finRange 3).foldl (dofIter lm modelstates g.1 i) (modelstates.m_next_U, st.2)
  if modelstates.m_fixT_flag.getD i false = true then
    ({ modelstates with
        m_next_U := u.1
        m_next_T := modelstates.m_next_T.set i (rd modelstates.m_fixT_mag i) }, u.2)
  else
    let next_T := modelstates.m_next_T.set i
      (rd modelstates.m_curr_T i + rd modelstates.m_constA i * (rd modelstates.m_external_Q i - g.2))
    ({ modelstates with m_next_U := u.1, m_next_T := next_T },
      if lm.isnan (rd next_T i) then false else u.2)

/-- The element pass of `computeOneStep`: the element loops of the threads
`0 .. NUM_THREADS - 1`. -/
def elementPass (lm : Libm α) (NUM_THREADS : Nat) (model : Model α) (modelstates : ModelStates α) :
    List (T4 α) × ModelStates α :=
  (List.range NUM_THREADS).foldl
    (fun st id => (strided NUM_THREADS model.m_tets.length id).foldl (elementIter lm model.m_T0) st)
    (model.m_tets, modelstates)

/-- The node pass of `computeOneStep`, after the barrier: the node loops of the
threads `0 .. NUM_THREADS - 1`, started with `no_err = true`. -/
def nodePass (lm : Libm α) (NUM_THREADS : Nat) (model : Model α) (modelstates : ModelStates α) :
    ModelStates α × Bool :=
  (List.range NUM_THREADS).foldl
    (fun st id => (strided NUM_THREADS model.m_nodes.length id).foldl (nodeIter lm model) st)
    (modelstates, true)

/-- The three `swap` calls at the end of a successful `computeOneStep`. -/
def rotate (modelstates : ModelStates α) : ModelStates α :=
  { modelstates with
    m_prev_U := modelstates.m_curr_U
    m_curr_U := modelstates.m_next_U
    m_next_U := modelstates.m_prev_U
    m_curr_T := modelstates.m_next_T
    m_next_T := modelstates.m_curr_T }

/-- What `computeOneStep` leaves: its return value, the model (whose elements
carry rewritten scratch) and the state. -/
structure StepResult (α : Type) where
  no_err : Bool
  model : Model α
  modelstates : ModelStates α

/-- The function `computeOneStep`. -/
def computeOneStep (lm : Libm α) (NUM_THREADS : Nat) (model : Model α)
    (modelstates : ModelStates α) : StepResult α :=
  let e := elementPass lm NUM_THREADS model modelstates
  let model1 := { model with m_tets := e.1 }
  let n := nodePass lm NUM_THREADS model1 e.2
  if n.2 = false then { no_err := false, model := model1, modelstates := n.1 }
  else { no_err := true, model := model1, modelstates := rotate n.1 }

/-- What `runSimulation` leaves: the returned pointer (`none` is `nullptr`), the
number of calls of `computeOneStep` it made, and the model. -/
structure RunResult (α : Type) where
  modelstates : Option (ModelStates α)
  steps_run : Nat
  model : Model α

/-- The simulation loop of `runSimulation` from step `step` on, with `todo`
iterations left. -/
def simulationLoop (lm : Libm α) (NUM_THREADS : Nat) :
    Nat → Nat → Nat → Model α → ModelStates α → RunResult α
  | 0, _, steps_run, model, modelstates =>
    { modelstates := some modelstates, steps_run := steps_run, model := model }
  | todo + 1, step, steps_run, model, modelstates =>
    let r := computeOneStep lm NUM_THREADS model (computeRunTimeBC model modelstates step)
    if r.no_err = false then { modelstates := none, steps_run := steps_run + 1, model := r.model }
    else simulationLoop lm NUM_THREADS todo (step + 1) (steps_run + 1) r.model r.modelstates

/-- The function `runSimulation` (its console output left out). -/
def runSimulation (lm : Libm α) (NUM_THREADS : Nat) (model : Model α) : RunResult α :=
  simulationLoop lm NUM_THREADS model.m_num_steps 0 0 model (initBC model (ModelStates.new model))

/-- What `main` leaves: its exit code and, when it called `exportVTK`, the state
it exported. -/
structure MainResult (α : Type) where
  exit_code : Int
  exported : Option (ModelStates α)

/-- The constant `EXIT_FAILURE`. -/
def EXIT_FAILURE : Int := 1

/-- The function `main`.  The model loader and the VTK exporter do file I/O:
`readModel_result` is the pointer `readModel` returned and `exportVTK` gives
the exit code of the exporter. -/
def main (lm : Libm α) (NUM_THREADS : Nat) (readModel_result : Option (Model α))
    (exportVTK : Model α → ModelStates α → Int) : MainResult α :=
  match readModel_result with
  | some model =>
    let r := runSimulation lm NUM_THREADS model
    match r.modelstates with
    | some modelstates => { exit_code := exportVTK r.model modelstates, exported := some modelstates }
    | none => { exit_code := EXIT_FAILURE, exported := none }
  | none => { exit_code := EXIT_FAILURE, exported := none }

end Step

section Notions

variable {α : Type}

/-- A list of pairs written out as `[a₀, b₀, a₁, b₁, ...]`, the layout of the
connectivity buffer. -/
def flatPairs (l : List (Nat × Nat)) : List Nat := l.flatMap fun c => [c.1, c.2]

/-- The corners `(tet.m_idx, m)` of the mesh that lie on node `i`, in mesh
order: tetrahedra in the order of `m_tets`, local corners ascending. -/
def cornersAt (tets : List (T4 α)) (i : Nat) : List (Nat × Nat) :=
  tets.flatMap fun tet =>
    ((List.finRange 4).filter fun m => tet.m_n_idx m = i).map fun m => (tet.m_idx, m.val)

/-- Number of corners on the nodes before node `n`, for corner lists `c`. -/
def offsetOf (c : Nat → List (Nat × Nat)) (n : Nat) : Nat :=
  ((List.range n).map fun m => (c m).length).sum

/-- The slice of the connectivity buffer the directory assigns to node `i`, as
the list of pairs `(ele_idx, node_local_idx)` the gather loop of the node pass
reads. -/
def slice (model : Model α) (i : Nat) : List (Nat × Nat) :=
  let tracking_num_eles := model.m_tracking_num_eles_i_eles_per_node_j.getD (i * 2 + 0) 0
  let eles_per_node := model.m_tracking_num_eles_i_eles_per_node_j.getD (i * 2 + 1) 0
  (List.range eles_per_node).map fun j =>
    (model.m_ele_node_local_idx_pair.getD ((tracking_num_eles + j) * 2 + 0) 0,
      model.m_ele_node_local_idx_pair.getD ((tracking_num_eles + j) * 2 + 1) 0)

end Notions

section Assembly

variable {α : Type} [Add α] [Zero α]

/-- Direct assembly of the internal force of node `i` along axis `n`: the sum,
over the corners `(tet, m)` with `tet.m_n_idx m = i`, of the buffer entry
`tet.m_idx * 12 + m * 3 + n`. -/
def directAssemblyF (tets : List (T4 α)) (internal_F : List α) (i : Nat) (n : Fin 3) : α :=
  (tets.map fun tet =>
    ((List.finRange 4).map fun m =>
      if tet.m_n_idx m = i then rd internal_F (tet.m_idx * 12 + m.val * 3 + n.val) else 0).sum).sum

/-- Direct assembly of the heat flow of node `i`: the sum, over the corners
`(tet, m)` with `tet.m_n_idx m = i`, of the buffer entry `tet.m_idx * 4 + m`. -/
def directAssemblyQ (tets : List (T4 α)) (internal_Q : List α) (i : Nat) : α :=
  (tets.map fun tet =>
    ((List.finRange 4).map fun m =>
      if tet.m_n_idx m = i then rd internal_Q (tet.m_idx * 4 + m.val) else 0).sum).sum

end Assembly

section Notions

variable {α : Type}

/-- The order in which the threads `0 .. NUM_THREADS - 1`, run one after the
other, visit the indices below `size`. -/
def visitOrder (NUM_THREADS size : Nat) : List Nat :=
  (List.range NUM_THREADS).flatMap (strided NUM_THREADS size)

end Notions

section NodeValues
variable {α : Type} [Add α] [Sub α] [Mul α] [Zero α] [DecidableEq α]

/-- The value the node pass writes into `m_next_U[i * 3 + j]`, for the gathered
internal force `nodal_internal_F`. -/
def nextUValue (modelstates : ModelStates α) (nodal_internal_F : Fin 3 → α) (i : Nat)
    (j : Fin 3) : α :=
  let n_DOF := i * 3 + j.val
  if rd modelstates.m_disp_mag_t n_DOF ≠ 0 then rd modelstates.m_disp_mag_t n_DOF
  else if modelstates.m_fixP_flag.getD n_DOF false = true then 0
  else
    rd modelstates.m_central_diff_const1 n_DOF
        * (rd modelstates.m_external_F n_DOF - nodal_internal_F j)
      + rd modelstates.m_central_diff_const2 n_DOF * rd modelstates.m_curr_U n_DOF
      + rd modelstates.m_central_diff_const3 n_DOF * rd modelstates.m_prev_U n_DOF

/-- Whether the node pass takes the central-difference branch for DOF
`n_DOF`: no nonzero displacement target and no fixed-position flag. -/
def integratedU (modelstates : ModelStates α) (n_DOF : Nat) : Bool :=
  decide (rd modelstates.m_disp_mag_t n_DOF = 0) && !(modelstates.m_fixP_flag.getD n_DOF false)

/-- The value the node pass writes into `m_next_T[i]`, for the gathered heat
flow `nodal_internal_Q`. -/
def nextTValue (modelstates : ModelStates α) (nodal_internal_Q : α) (i : Nat) : α :=
  if modelstates.m_fixT_flag.getD i false = true then rd modelstates.m_fixT_mag i
  else
    rd modelstates.m_curr_T i
      + rd modelstates.m_constA i * (rd modelstates.m_external_Q i - nodal_internal_Q)

/-- Whether the iteration of node `i` leaves `no_err` alone: none of the values
it computes in an integration branch is NaN. -/
def nodeNoErr (lm : Libm α) (model : Model α) (modelstates : ModelStates α) (i : Nat) : Bool :=
  (List.finRange 3).all (fun j =>
      !(integratedU modelstates (i * 3 + j.val)
        && lm.isnan (nextUValue modelstates (gather model modelstates i).1 i j)))
    && !(!(modelstates.m_fixT_flag.getD i false)
        && lm.isnan (nextTValue modelstates (gather model modelstates i).2 i))

/-- The three writes of node `i` into `m_next_U`. -/
def writeNodeU (U : List α) (i : Nat) (v : Fin 3 → α) : List α :=
  ((U.set (i * 3 + 0) (v 0)).set (i * 3 + 1) (v 1)).set (i * 3 + 2) (v 2)

/-- The state with `m_next_U` and `m_next_T` replaced. -/
def withNext (modelstates : ModelStates α) (U T : List α) : ModelStates α :=
  { modelstates with m_next_U := U, m_next_T := T }

end NodeValues

section Notions

variable {α : Type}

/-- The state with the two per-corner buffers replaced. -/
def withBuffers (modelstates : ModelStates α) (F Q : List α) : ModelStates α :=
  { modelstates with m_ele_nodal_internal_F := F, m_ele_nodal_internal_Q := Q }

end Notions

section KernelAssembly

variable {α : Type} [Add α] [Sub α] [Mul α] [Div α] [Neg α] [Zero α] [One α] [NatCast α]

/-- Direct assembly of the internal force of node `i` along axis `n` from the
element kernels: the sum, over the corners `(tet, m)` with `tet.m_n_idx m = i`,
of the corner force `f[n][m]` the kernel computes for `tet`. -/
def assembledF (lm : Libm α) (T0 : α) (curr_U curr_T : List α) (tets : List (T4 α)) (i : Nat)
    (n : Fin 3) : α :=
  (tets.map fun tet =>
    ((List.finRange 4).map fun m =>
      if tet.m_n_idx m = i then (elementKernel lm T0 curr_U curr_T tet).f n m else 0).sum).sum

/-- Direct assembly of the heat flow of node `i` from the element kernels. -/
def assembledQ (lm : Libm α) (T0 : α) (curr_U curr_T : List α) (tets : List (T4 α)) (i : Nat) :
    α :=
  (tets.map fun tet =>
    ((List.finRange 4).map fun m =>
      if tet.m_n_idx m = i then (elementKernel lm T0 curr_U curr_T tet).q m else 0).sum).sum

end KernelAssembly

section Examples

/-- A libm on the rationals for the worked examples.  It is exact at the
argument `1`, the only one an element at rest passes to `sqrt` and `powf`, and
no rational is NaN. -/
def restLibm : Libm ℚ :=
  { sqrt := fun x => x
    powf := fun x _ => x
    isnan := fun _ => false }

/-- The four nodes of the unit tetrahedron. -/
def unitNodes : List (Node ℚ) :=
  [⟨0, 0, 0, 0⟩, ⟨1, 1, 0, 0⟩, ⟨2, 0, 1, 0⟩, ⟨3, 0, 0, 1⟩]

/-- The unit tetrahedron as the loader builds it: density 1, Neo-Hookean with
`Mu = 1`, `K = 10`, isotropic conduction with `c = 1`, `k = 1`, no expansion. -/
def unitTet : T4 ℚ :=
  T4.new (fun _ _ => 0) 0 ⟨0, 0, 0, 0⟩ ⟨1, 1, 0, 0⟩ ⟨2, 0, 1, 0⟩ ⟨3, 0, 0, 1⟩ 1
    "NH" [1, 10] "T_ISO" [1, 1] "T_EXPAN_NONE" []

/-- The one-element model, before `postCreate`: no boundary condition, one step
of length 1, initial temperature 37. -/
def unitModelRaw : Model ℚ :=
  { m_nodes := unitNodes
    m_tets := [unitTet]
    m_num_BCs := 0
    m_num_steps := 1
    m_num_M_DOFs := 12
    m_num_T_DOFs := 4
    m_disp_idx_x := []
    m_disp_idx_y := []
    m_disp_idx_z := []
    m_fixP_idx_x := []
    m_fixP_idx_y := []
    m_fixP_idx_z := []
    m_hflux_idx := []
    m_perfu_idx := []
    m_fixT_idx := []
    m_bhflux_idx := []
    m_disp_mag_x := []
    m_disp_mag_y := []
    m_disp_mag_z := []
    m_grav_f_x := []
    m_grav_f_y := []
    m_grav_f_z := []
    m_hflux_mag := []
    m_perfu_refT := []
    m_perfu_const1 := []
    m_fixT_mag := []
    m_bhflux_mag := []
    m_metabo_mag := []
    m_M_material_vals := [1, 10]
    m_T_material_vals := [1, 1]
    m_T_expan_vals := []
    m_dt := 1
    m_total_t := 1
    m_alpha := 0
    m_T0 := 37
    m_rho := 1
    m_fname := "unit.txt"
    m_ele_type := "T4"
    m_M_material_type := "NH"
    m_T_material_type := "T_ISO"
    m_T_expan_type := "T_EXPAN_NONE"
    m_node_begin_index := 0
    m_ele_begin_index := 0
    m_ele_node_local_idx_pair := []
    m_tracking_num_eles_i_eles_per_node_j := [] }

/-- The one-element model as the loader returns it. -/
def unitModel : Model ℚ := unitModelRaw.postCreate

end Examples

section MassDefs
variable {α : Type} [Add α] [Div α] [Zero α] [NatCast α]

/-- The lumped mass of node `i`: the sum, over the corners `(tet, m)` with
`tet.m_n_idx m = i`, of a quarter of the element mass. -/
def lumpedMass (tets : List (T4 α)) (i : Nat) : α :=
  (tets.map fun tet =>
    ((List.finRange 4).map fun m =>
      if tet.m_n_idx m = i then tet.m_mass / ((4 : ℕ) : α) else 0).sum).sum

/-- The `+=` statements of the loop that fills `nodal_M_mass`, in order. -/
def massWrites (tets : List (T4 α)) : List (Nat × α) :=
  tets.flatMap fun tet =>
    (List.finRange 4).flatMap fun m =>
      (List.finRange 3).map fun n => (tet.m_n_idx m * 3 + n.val, tet.m_mass / ((4 : ℕ) : α))

end MassDefs

section ConstDefs
variable {α : Type} [Add α] [Sub α] [Mul α] [Div α] [Zero α] [One α] [NatCast α]

/-- The value the constructor of `ModelStates` stores in
`m_central_diff_const1[i]`, for the nodal mass vector `mass`. -/
def cdConst1 (model : Model α) (mass : List α) (i : Nat) : α :=
  1 / (model.m_alpha * rd mass i / ((2 : ℕ) : α) / model.m_dt
    + rd mass i / model.m_dt / model.m_dt)

/-- The value stored in `m_central_diff_const2[i]`. -/
def cdConst2 (model : Model α) (mass : List α) (i : Nat) : α :=
  ((2 : ℕ) : α) * rd mass i * cdConst1 model mass i / model.m_dt / model.m_dt

/-- The value stored in `m_central_diff_const3[i]`. -/
def cdConst3 (model : Model α) (mass : List α) (i : Nat) : α :=
  model.m_alpha * rd mass i * cdConst1 model mass i / ((2 : ℕ) : α) / model.m_dt
    - cdConst2 model mass i / ((2 : ℕ) : α)

end ConstDefs

section SpecConstants

variable {α : Type} [Field α]

/-- The constant `c₁ = 1/(α·m/2Δt + m/Δt²)` of the central-difference update. -/
def specC1 (alpha m dt : α) : α := 1 / (alpha * m / (2 * dt) + m / dt ^ 2)

/-- The constant `c₂ = 2m·c₁/Δt²` of the central-difference update. -/
def specC2 (alpha m dt : α) : α := 2 * m * specC1 alpha m dt / dt ^ 2

/-- The constant `c₃ = α·m·c₁/2Δt − c₂/2` of the central-difference update. -/
def specC3 (alpha m dt : α) : α :=
  alpha * m * specC1 alpha m dt / (2 * dt) - specC2 alpha m dt / 2

end SpecConstants

section RestDefs
variable {α : Type} [Add α] [Sub α] [Mul α] [Div α] [Neg α] [Zero α] [One α] [NatCast α]

/-- The 3x3 identity matrix. -/
def I33 : Mat33 α := fun i j => if i = j then 1 else 0

/-- The element `tet` carries the reference gradient `m_DHDX` the constructor
computes for the nodes `n1 .. n4`, and, when its expansion type is
`T_EXPAN_ISO`, the off-diagonal entries of `m_X_expan` are the zeros the
constructor wrote (that branch of the element pass never writes them).  The
other scratch of the element is free. -/
def T4.builtFrom (tet : T4 α) (n1 n2 n3 n4 : Node α) : Prop :=
  tet.m_DHDX = mat33x34 (matInv33 (mat34x34T (DHDr : Mat34 α) (n_coords n1 n2 n3 n4))).1 DHDr ∧
    (tet.m_T_expan_type = "T_EXPAN_ISO" → ∀ i j : Fin 3, i ≠ j → tet.m_X_expan i j = 0)

/-- The connectivity index of the model is the one `postCreate` builds. -/
def Model.indexed (model : Model α) : Prop :=
  model.m_ele_node_local_idx_pair = model.postCreate.m_ele_node_local_idx_pair ∧
    model.m_tracking_num_eles_i_eles_per_node_j
      = model.postCreate.m_tracking_num_eles_i_eles_per_node_j

end RestDefs

section StepParts

variable {α : Type} [Add α] [Sub α] [Mul α] [Div α] [Neg α] [Zero α] [One α] [NatCast α]
  [DecidableEq α]

/-- The node pass as `computeOneStep` runs it: on the model and the state the
element pass leaves. -/
def nodePassOf (lm : Libm α) (NUM_THREADS : Nat) (model : Model α) (modelstates : ModelStates α) :
    ModelStates α × Bool :=
  nodePass lm NUM_THREADS
    { model with m_tets := (elementPass lm NUM_THREADS model modelstates).1 }
    (elementPass lm NUM_THREADS model modelstates).2

/-- The gather of node `i` as `computeOneStep` runs it: the pair
(`nodal_internal_F`, `nodal_internal_Q`) read from the buffers the element pass
leaves. -/
def gatherOf (lm : Libm α) (NUM_THREADS : Nat) (model : Model α) (modelstates : ModelStates α)
    (i : Nat) : (Fin 3 → α) × α :=
  gather { model with m_tets := (elementPass lm NUM_THREADS model modelstates).1 }
    (elementPass lm NUM_THREADS model modelstates).2 i

end StepParts

section Examples

/-- The one-element model with node 3 both displaced along x, target `1/10`,
and fixed along x. -/
def dispFixModel : Model ℚ :=
  { unitModel with
    m_num_BCs := 2
    m_disp_idx_x := [3]
    m_disp_mag_x := [1 / 10]
    m_fixP_idx_x := [3] }

end Examples

section Examples

/-- The single-element static pull: the unit tetrahedron with nodes 0, 1, 2
fixed along all axes and node 3 displaced along x, target `1/10`, in two steps
of length `1/2`. -/
def pullModel : Model ℚ :=
  { unitModel with
    m_num_BCs := 2
    m_num_steps := 2
    m_dt := 1 / 2
    m_disp_idx_x := [3]
    m_disp_mag_x := [1 / 10]
    m_fixP_idx_x := [0, 1, 2]
    m_fixP_idx_y := [0, 1, 2]
    m_fixP_idx_z := [0, 1, 2] }

end Examples

section Examples

/-- The one-element model with node 0 held at temperature 47. -/
def fixTModel : Model ℚ :=
  { unitModel with
    m_num_BCs := 1
    m_fixT_idx := [0]
    m_fixT_mag := [47] }

end Examples

section DispDefs
variable {α : Type}

/-- The node list of the Disp conditions of axis `j`. -/
def Model.dispIdx (model : Model α) (j : Fin 3) : List Nat :=
  match j with
  | 0 => model.m_disp_idx_x
  | 1 => model.m_disp_idx_y
  | 2 => model.m_disp_idx_z

/-- The magnitude list of the Disp conditions of axis `j`. -/
def Model.dispMag (model : Model α) (j : Fin 3) : List α :=
  match j with
  | 0 => model.m_disp_mag_x
  | 1 => model.m_disp_mag_y
  | 2 => model.m_disp_mag_z

end DispDefs

section Invariants

variable {α : Type}

/-- The nodal vectors the step reads and rotates have the sizes the constructor
of `ModelStates` gives them for `N` nodes. -/
def ModelStates.sized (modelstates : ModelStates α) (N : Nat) : Prop :=
  modelstates.m_prev_U.length = N * 3 ∧ modelstates.m_curr_U.length = N * 3 ∧
    modelstates.m_next_U.length = N * 3 ∧ modelstates.m_curr_T.length = N ∧
    modelstates.m_next_T.length = N ∧ modelstates.m_disp_mag_t.length = N * 3

/-- The model `model` is the model `M` up to the scratch of its elements: the
steps of a run rewrite `m_tets` and nothing else. -/
def Model.sameData (M model : Model α) : Prop :=
  ∃ tets, model = { M with m_tets := tets }

end Invariants

section Examples

/-- The one-element model with a Disp condition of magnitude `0` on the DOF x
of node 3 and gravity `1` along x (`m_grav_f_x[i]` is a quarter of the element
mass `1/6` times `1` for each of the four nodes); one step of length 1. -/
def zeroDispModel : Model ℚ :=
  { unitModel with
    m_num_BCs := 2
    m_disp_idx_x := [3]
    m_disp_mag_x := [0]
    m_grav_f_x := [1 / 24, 1 / 24, 1 / 24, 1 / 24] }

end Examples

section Floats

/-- The largest finite `float` (binary32): `(2^24 - 1) * 2^104`. -/
def FLT_MAX : ℚ := 340282346638528859811704183484516925440

/-- A model of the values of the source's `float`: finite values, the two
infinities and NaN.  Finite arithmetic is exact (rounding is not modelled, the
two zeros are one); a finite result of magnitude above `FLT_MAX` overflows to
an infinity. -/
inductive FVal where
  | fin (q : ℚ)
  | pinf
  | ninf
  | nan
  deriving DecidableEq

namespace FVal

/-- The value of an exact result: itself within the range, an infinity beyond. -/
def ofRat (q : ℚ) : FVal :=
  if FLT_MAX < q then pinf else if q < -FLT_MAX then ninf else fin q

/-- Whether the value is finite: neither NaN nor an infinity. -/
def isFinite : FVal → Bool
  | fin _ => true
  | _ => false

/-- Negation. -/
def neg : FVal → FVal
  | fin q => fin (-q)
  | pinf => ninf
  | ninf => pinf
  | nan => nan

/-- Addition: `inf + (-inf)` is NaN. -/
def add : FVal → FVal → FVal
  | nan, _ => nan
  | _, nan => nan
  | fin a, fin b => ofRat (a + b)
  | fin _, pinf => pinf
  | fin _, ninf => ninf
  | pinf, ninf => nan
  | pinf, _ => pinf
  | ninf, pinf => nan
  | ninf, _ => ninf

/-- An infinity with the sign of `q`, NaN for `q = 0`. -/
def infOfSign (q : ℚ) : FVal :=
  if 0 < q then pinf else if q < 0 then ninf else nan

/-- Multiplication: `0 * inf` is NaN. -/
def mul : FVal → FVal → FVal
  | nan, _ => nan
  | _, nan => nan
  | fin a, fin b => ofRat (a * b)
  | fin a, pinf => infOfSign a
  | fin a, ninf => infOfSign (-a)
  | pinf, fin b => infOfSign b
  | ninf, fin b => infOfSign (-b)
  | pinf, pinf => pinf
  | pinf, ninf => ninf
  | ninf, pinf => ninf
  | ninf, ninf => pinf

/-- Division: `x / 0` is an infinity with the sign of `x` for `x ≠ 0`, and
`0 / 0` and `inf / inf` are NaN. -/
def div : FVal → FVal → FVal
  | nan, _ => nan
  | _, nan => nan
  | fin a, fin b => if b = 0 then infOfSign a else ofRat (a / b)
  | fin _, pinf => fin 0
  | fin _, ninf => fin 0
  | pinf, fin b => if b < 0 then ninf else pinf
  | ninf, fin b => if b < 0 then pinf else ninf
  | pinf, pinf => nan
  | pinf, ninf => nan
  | ninf, pinf => nan
  | ninf, ninf => nan

instance : Zero FVal := ⟨fin 0⟩
instance : One FVal := ⟨fin 1⟩
instance : NatCast FVal := ⟨fun n => ofRat n⟩
instance : Neg FVal := ⟨neg⟩
instance : Add FVal := ⟨add⟩
instance : Sub FVal := ⟨fun a b => add a (neg b)⟩
instance : Mul FVal := ⟨mul⟩
instance : Div FVal := ⟨div⟩

end FVal

/-- A libm on `FVal` for the worked examples: `isnan` is the NaN test; `sqrt`
and `powf` are exact at the argument `1`, the only one an element at rest passes
to them. -/
def restLibmF : Libm FVal :=
  { sqrt := fun x => x
    powf := fun x _ => x
    isnan := fun x => decide (x = FVal.nan) }

/-- The unit tetrahedron over `FVal`, built as `unitTet` is. -/
def unitTetF : T4 FVal :=
  T4.new (fun _ _ => 0) 0 ⟨0, 0, 0, 0⟩ ⟨1, 1, 0, 0⟩ ⟨2, 0, 1, 0⟩ ⟨3, 0, 0, 1⟩ 1
    "NH" [1, 10] "T_ISO" [1, 1] "T_EXPAN_NONE" []

/-- The one-element model over `FVal` with gravity along x so strong that the
first central-difference update overflows: the load of each node is `2^126`,
the constant `c1` is `24`, and `24 * 2^126` is above `FLT_MAX`. -/
def overflowModel : Model FVal :=
  Model.postCreate
  { m_nodes := [⟨0, 0, 0, 0⟩, ⟨1, 1, 0, 0⟩, ⟨2, 0, 1, 0⟩, ⟨3, 0, 0, 1⟩]
    m_tets := [unitTetF]
    m_num_BCs := 1
    m_num_steps := 1
    m_num_M_DOFs := 12
    m_num_T_DOFs := 4
    m_disp_idx_x := []
    m_disp_idx_y := []
    m_disp_idx_z := []
    m_fixP_idx_x := []
    m_fixP_idx_y := []
    m_fixP_idx_z := []
    m_hflux_idx := []
    m_perfu_idx := []
    m_fixT_idx := []
    m_bhflux_idx := []
    m_disp_mag_x := []
    m_disp_mag_y := []
    m_disp_mag_z := []
    m_grav_f_x := [.fin (2 ^ 126), .fin (2 ^ 126), .fin (2 ^ 126), .fin (2 ^ 126)]
    m_grav_f_y := []
    m_grav_f_z := []
    m_hflux_mag := []
    m_perfu_refT := []
    m_perfu_const1 := []
    m_fixT_mag := []
    m_bhflux_mag := []
    m_metabo_mag := []
    m_M_material_vals := [1, 10]
    m_T_material_vals := [1, 1]
    m_T_expan_vals := []
    m_dt := 1
    m_total_t := 1
    m_alpha := 0
    m_T0 := 37
    m_rho := 1
    m_fname := "overflow.txt"
    m_ele_type := "T4"
    m_M_material_type := "NH"
    m_T_material_type := "T_ISO"
    m_T_expan_type := "T_EXPAN_NONE"
    m_node_begin_index := 0
    m_ele_begin_index := 0
    m_ele_node_local_idx_pair := []
    m_tracking_num_eles_i_eles_per_node_j := [] }

end Floats

section Trajectory
variable {α : Type} [Add α] [Sub α] [Mul α] [Div α] [Neg α] [Zero α] [One α] [NatCast α]
  [DecidableEq α]

/-- The model and the state `runSimulation` holds when it enters the iteration
`step` of the simulation loop, every earlier step having returned. -/
def stepInput (lm : Libm α) (NUM_THREADS : Nat) (model : Model α) :
    Nat → Model α × ModelStates α
  | 0 => (model, initBC model (ModelStates.new model))
  | step + 1 =>
    let p := stepInput lm NUM_THREADS model step
    let r := computeOneStep lm NUM_THREADS p.1 (computeRunTimeBC p.1 p.2 step)
    (r.model, r.modelstates)

/-- What `computeOneStep` returns in the iteration `step` of the simulation
loop. -/
def stepNoErr (lm : Libm α) (NUM_THREADS : Nat) (model : Model α) (step : Nat) : Bool :=
  (computeOneStep lm NUM_THREADS (stepInput lm NUM_THREADS model step).1
    (computeRunTimeBC (stepInput lm NUM_THREADS model step).1
      (stepInput lm NUM_THREADS model step).2 step)).no_err

end Trajectory

section Floats

/-- The overflowing one-element model run for two steps: the first step
overflows, the second computes with the infinite displacements. -/
def blowupModel : Model FVal :=
  { overflowModel with m_num_steps := 2, m_dt := .fin (1 / 2) }

end Floats

section Examples

/-- The unit tetrahedron with its second and third corner exchanged (negative
orientation), built by the constructor with the data of `unitTet`. -/
def flippedTet : T4 ℚ :=
  T4.new (fun _ _ => 0) 0 ⟨0, 0, 0, 0⟩ ⟨2, 0, 1, 0⟩ ⟨1, 1, 0, 0⟩ ⟨3, 0, 0, 1⟩ 1
    "NH" [1, 10] "T_ISO" [1, 1] "T_EXPAN_NONE" []

/-- A flat element: its four corners lie in the plane `z = 0`. -/
def flatTet : T4 ℚ :=
  T4.new (fun _ _ => 0) 0 ⟨0, 0, 0, 0⟩ ⟨1, 1, 0, 0⟩ ⟨2, 0, 1, 0⟩ ⟨3, 1, 1, 0⟩ 1
    "NH" [1, 10] "T_ISO" [1, 1] "T_EXPAN_NONE" []

/-- The one-element model whose element is `flippedTet`, as the loader returns
it. -/
def flippedModel : Model ℚ :=
  Model.postCreate { unitModelRaw with m_tets := [flippedTet] }

end Examples

section Floats

/-- A singular matrix: `diag(1, 1, 0)`. -/
def singularMat : Mat33 FVal := fun i j =>
  match i, j with
  | 0, 0 => 1
  | 1, 1 => 1
  | _, _ => 0

/-- A matrix whose determinant is not finite: `diag(+inf, 1, 1)`. -/
def infiniteMat : Mat33 FVal := fun i j =>
  match i, j with
  | 0, 0 => FVal.pinf
  | 1, 1 => 1
  | 2, 2 => 1
  | _, _ => 0

end Floats

section Geometry

variable {α : Type} [Add α] [Sub α] [Mul α] [Div α] [Neg α] [Zero α] [One α] [NatCast α]

/-- The position of a node. -/
def Node.pos (n : Node α) : Fin 3 → α := fun i =>
  match i with
  | 0 => n.m_x
  | 1 => n.m_y
  | 2 => n.m_z

/-- The scalar product of two vectors. -/
def dot3 (a b : Fin 3 → α) : α := a 0 * b 0 + a 1 * b 1 + a 2 * b 2

/-- The vector product of two vectors. -/
def cross3 (a b : Fin 3 → α) : Fin 3 → α := fun i =>
  match i with
  | 0 => a 1 * b 2 - a 2 * b 1
  | 1 => a 2 * b 0 - a 0 * b 2
  | 2 => a 0 * b 1 - a 1 * b 0

/-- The triple product `(n2 - n1) . ((n3 - n1) x (n4 - n1))` of the edges of a
tetrahedron from its first corner. -/
def tripleProduct (n1 n2 n3 n4 : Node α) : α :=
  dot3 (fun i => n2.pos i - n1.pos i)
    (cross3 (fun i => n3.pos i - n1.pos i) (fun i => n4.pos i - n1.pos i))

/-- The signed geometric volume of the tetrahedron with corners `n1 .. n4`,
computed from the coordinates: a sixth of the triple product. -/
def signedVolume (n1 n2 n3 n4 : Node α) : α := tripleProduct n1 n2 n3 n4 / ((6 : ℕ) : α)

/-- The element `tet` is what the constructor returns for the corners
`c = (n1, n2, n3, n4)` and some other arguments. -/
def T4.constructedFor (tet : T4 α) (c : Node α × Node α × Node α × Node α) : Prop :=
  ∃ (D_uninit : Mat33 α) (idx : Nat) (rho : α) (M_material_type : String)
    (M_material_vals : List α) (T_material_type : String) (T_material_vals : List α)
    (T_expan_type : String) (T_expan_vals : List α),
    tet = T4.new D_uninit idx c.1 c.2.1 c.2.2.1 c.2.2.2 rho M_material_type M_material_vals
      T_material_type T_material_vals T_expan_type T_expan_vals

end Geometry

section AffineFields

variable {α : Type} [Add α] [Mul α]

/-- The displacement `G * p + b` an affine field gives to the point `p`. -/
def affineDisp (G : Mat33 α) (b : Fin 3 → α) (p : Fin 3 → α) : Fin 3 → α :=
  fun n => G n 0 * p 0 + G n 1 * p 1 + G n 2 * p 2 + b n

end AffineFields

section StressParts

variable {α : Type} [Add α] [Sub α] [Mul α] [Div α] [Neg α] [Zero α] [One α] [NatCast α]
  [DecidableEq α]

/-- Element pass: the local `temp_X` when the stress is computed, the elastic
deformation gradient: `m_X`, or `m_X * invX_expan` when expansion is
configured. -/
def elasticGradient (T0 : α) (curr_U curr_T : List α) (tet : T4 α) : Mat33 α :=
  if tet.m_T_expan_vals.length ≠ 0 then
    mat33x33 (deformationGradient curr_U tet)
      (matInv33 (expansionGradient tet (T_diff T0 curr_T tet))).1
  else deformationGradient curr_U tet

/-- Element pass: the local `C`, the right Cauchy-Green tensor of the elastic
gradient. -/
def cauchyGreen (T0 : α) (curr_U curr_T : List α) (tet : T4 α) : Mat33 α :=
  mat33Tx33 (elasticGradient T0 curr_U curr_T tet) (elasticGradient T0 curr_U curr_T tet)

/-- Element pass: the local `J = sqrt(Jsq)` of the stress computation. -/
def elasticJ (lm : Libm α) (T0 : α) (curr_U curr_T : List α) (tet : T4 α) : α :=
  lm.sqrt (matInv33 (cauchyGreen T0 curr_U curr_T tet)).2

/-- Element pass: `m_S` as the branch on the material type leaves it, before
the pull-back of the expansion. -/
def materialStress (lm : Libm α) (T0 : α) (curr_U curr_T : List α) (tet : T4 α) : Mat33 α :=
  if tet.m_M_material_type = "NH" then
    stressNH lm tet.m_M_material_vals (cauchyGreen T0 curr_U curr_T tet)
      (matInv33 (cauchyGreen T0 curr_U curr_T tet)).1 (elasticJ lm T0 curr_U curr_T tet)
  else if tet.m_M_material_type = "TI" then
    stressTI lm tet.m_M_material_vals (cauchyGreen T0 curr_U curr_T tet)
      (matInv33 (cauchyGreen T0 curr_U curr_T tet)).1 (elasticJ lm T0 curr_U curr_T tet)
  else tet.m_S

/-- Element pass: the pull-back of the stress when expansion is configured,
`S <- (invX_expan * S * invX_expanᵀ) * J_invX_expan`. -/
def pullBack (invX_expan : Mat33 α) (J_invX_expan : α) (S : Mat33 α) : Mat33 α :=
  mat33xScalar (mat33x33T (mat33x33 invX_expan S) invX_expan) J_invX_expan

end StressParts

section StressFormulas

variable {α : Type} [Add α] [Sub α] [Mul α] [Div α] [Neg α] [Zero α] [One α] [NatCast α]

/-- The Neo-Hookean stress of the specification,
`S = (J23 * mu) * I + (-J23 * mu * I1 / 3 + K * J * (J - 1)) * invC`, with `J23`
standing for `J^(-2/3)`. -/
def specStressNH (mu K J23 J I1 : α) (invC : Mat33 α) : Mat33 α :=
  fun i j =>
    (J23 * mu) * (if i = j then 1 else 0)
      + (-J23 * mu * I1 / ((3 : ℕ) : α) + K * J * (J - 1)) * invC i j

/-- The symmetric fibre tensor `A` of a TI element, from the stored values
`A00, A01, A02, A11, A12, A22` at the positions 3 .. 8 of the material values. -/
def fibreTensor (vals : List α) : Mat33 α := fun i j =>
  match i, j with
  | 0, 0 => rd vals 3 | 0, 1 => rd vals 4 | 0, 2 => rd vals 5
  | 1, 0 => rd vals 4 | 1, 1 => rd vals 6 | 1, 2 => rd vals 7
  | 2, 0 => rd vals 5 | 2, 1 => rd vals 7 | 2, 2 => rd vals 8

/-- The double contraction `A : C`, the sum of `A i j * C i j` over all `i, j`. -/
def doubleContraction (A C : Mat33 α) : α :=
  A 0 0 * C 0 0 + A 0 1 * C 0 1 + A 0 2 * C 0 2
    + A 1 0 * C 1 0 + A 1 1 * C 1 1 + A 1 2 * C 1 2
    + A 2 0 * C 2 0 + A 2 1 * C 2 1 + A 2 2 * C 2 2

/-- The transversely isotropic stress of the specification,
`S = (J23 * mu) * I + 2 * J23 * eta * (I4cap - 1) * A
  + (-(J23 * mu * I1 + 2 * eta * (I4cap - 1) * I4cap) / 3 + K * J * (J - 1)) * invC`,
with `J23` standing for `J^(-2/3)`. -/
def specStressTI (mu K eta : α) (A : Mat33 α) (J23 J I1 I4cap : α) (invC : Mat33 α) : Mat33 α :=
  fun i j =>
    (J23 * mu) * (if i = j then 1 else 0)
      + ((2 : ℕ) : α) * J23 * eta * (I4cap - 1) * A i j
      + (-(J23 * mu * I1 + ((2 : ℕ) : α) * eta * (I4cap - 1) * I4cap) / ((3 : ℕ) : α)
          + K * J * (J - 1)) * invC i j

end StressFormulas

section Examples

/-- A transversely isotropic element on the unit tetrahedron: `mu = 1`,
`K = 10`, `eta = 2` and the fibre direction `a = (1, 0, 0)`, stored as the loader
stores it (`A = a ⊗ a`). -/
def fibreTet : T4 ℚ :=
  T4.new (fun _ _ => 0) 0 ⟨0, 0, 0, 0⟩ ⟨1, 1, 0, 0⟩ ⟨2, 0, 1, 0⟩ ⟨3, 0, 0, 1⟩ 1
    "TI" [1, 10, 2, 1, 0, 0, 0, 0, 0] "T_ISO" [1, 1] "T_EXPAN_NONE" []

end Examples

section Examples

/-- The unit tetrahedron with isotropic thermal expansion, coefficient `1/100`. -/
def expanTet : T4 ℚ :=
  T4.new (fun _ _ => 0) 0 ⟨0, 0, 0, 0⟩ ⟨1, 1, 0, 0⟩ ⟨2, 0, 1, 0⟩ ⟨3, 0, 0, 1⟩ 1
    "NH" [1, 10] "T_ISO" [1, 1] "T_EXPAN_ISO" [1 / 100]

end Examples

section Perfusion

variable {α : Type} [Add α] [Sub α] [Mul α] [Div α] [Zero α] [NatCast α] [DecidableEq α]

/-- The element `model->m_tets[idx - model->m_ele_begin_index]` an element id of
the input file names.  The source reads out of range when the id names no
element; the embedding has `none`. -/
def Model.tetOfId (model : Model α) (idx : Nat) : Option (T4 α) :=
  if idx < model.m_ele_begin_index then none
  else model.m_tets.get? (idx - model.m_ele_begin_index)

/-- `readModel`, block `<Perfu>`: the local `nodal_wbVolcb` after the loop over
the listed element ids. -/
def nodal_wbVolcb (model : Model α) (wb cb : α) (ids : List Nat) : List α :=
  ids.foldl
    (fun acc idx =>
      match model.tetOfId idx with
      | none => acc
      | some tet =>
        (List.finRange 4).foldl
          (fun acc m => addAt acc (tet.m_n_idx m) (wb * tet.m_Vol / ((4 : ℕ) : α) * cb))
          acc)
    (List.replicate model.m_nodes.length 0)

/-- `readModel`, block `<Perfu>` with the values `wb`, `cb`, `refT` and the
listed element ids: every node with a non-zero entry of `nodal_wbVolcb` gets an
entry in the three perfusion vectors of the model. -/
def readPerfu (model : Model α) (wb cb refT : α) (ids : List Nat) : Model α :=
  let v := nodal_wbVolcb model wb cb ids
  let model1 := (List.range v.length).foldl
    (fun (mdl : Model α) i =>
      if rd v i ≠ 0 then
        { mdl with
          m_perfu_idx := mdl.m_perfu_idx ++ [i]
          m_perfu_const1 := mdl.m_perfu_const1 ++ [rd v i]
          m_perfu_refT := mdl.m_perfu_refT ++ [refT] }
      else mdl)
    model
  { model1 with m_num_BCs := model1.m_num_BCs + 1 }

/-- A perfusion condition of the input file: blood perfusion rate `wb`, blood
specific heat `cb`, reference temperature `refT` and the listed element ids. -/
structure PerfuCondition (α : Type) where
  wb : α
  cb : α
  refT : α
  ids : List Nat

/-- The model after `readModel` has read the `<Perfu>` blocks `conds`, in file
order. -/
def readPerfuAll (model : Model α) (conds : List (PerfuCondition α)) : Model α :=
  conds.foldl (fun mdl c => readPerfu mdl c.wb c.cb c.refT c.ids) model

/-- The perfusion coefficient of a condition at node `i`: the sum, over the
corners of the listed elements that coincide with node `i`, of
`wb * V0 / 4 * cb`. -/
def perfuCoeff (model : Model α) (c : PerfuCondition α) (i : Nat) : α :=
  (c.ids.map fun idx =>
    match model.tetOfId idx with
    | none => 0
    | some tet =>
      ((List.finRange 4).map fun m =>
        if tet.m_n_idx m = i then c.wb * tet.m_Vol / ((4 : ℕ) : α) * c.cb else 0).sum).sum

/-- The perfusion load of a condition at node `i` of temperature `T_node`: the
sum, over the corners of the listed elements that coincide with node `i`, of
`wb * V0 / 4 * cb * (T_node - refT)`. -/
def perfuLoad (model : Model α) (c : PerfuCondition α) (T_node : α) (i : Nat) : α :=
  (c.ids.map fun idx =>
    match model.tetOfId idx with
    | none => 0
    | some tet =>
      ((List.finRange 4).map fun m =>
        if tet.m_n_idx m = i then c.wb * tet.m_Vol / ((4 : ℕ) : α) * c.cb * (T_node - c.refT)
        else 0).sum).sum

/-- The value `computeRunTimeBC` leaves in `m_external_Q[i]` for the perfusion
conditions `conds`: every condition with a non-zero coefficient at node `i`
overwrites the entry, so the last of them decides. -/
def perfusedQ (model : Model α) (conds : List (PerfuCondition α)) (Q Q0 T_node : α) (i : Nat) :
    α :=
  conds.foldl
    (fun q c =>
      if perfuCoeff model c i ≠ 0 then Q0 - perfuCoeff model c i * (T_node - c.refT) else q)
    Q

end Perfusion

section Examples

/-- Two perfusion conditions on the element of the one-element model:
`wb = 1, cb = 24, refT = 27` (coefficient `1` at every node) and
`wb = 1, cb = 48, refT = 17` (coefficient `2`). -/
def twoPerfusions : List (PerfuCondition ℚ) :=
  [⟨1, 24, 27, [0]⟩, ⟨1, 48, 17, [0]⟩]

/-- The one-element model after the loader has read `twoPerfusions`. -/
def twoPerfuModel : Model ℚ := readPerfuAll unitModel twoPerfusions

end Examples

section PerfusionEntries

variable {α : Type} [Add α] [Sub α] [Mul α] [Div α] [Zero α] [NatCast α] [DecidableEq α]

/-- The entries `(node, coefficient, refT)` a perfusion condition adds to the
three perfusion vectors of the model: one for every node with a non-zero
coefficient, in node order. -/
def perfuEntries (model : Model α) (c : PerfuCondition α) : List (Nat × α × α) :=
  ((List.range model.m_nodes.length).filter fun i => decide (perfuCoeff model c i ≠ 0)).map
    fun i => (i, perfuCoeff model c i, c.refT)

/-- One iteration of the perfusion loop of `computeRunTimeBC`, for the entry
`e = (node, const1, refT)`. -/
def perfuWrite (Q0 T : List α) (acc : List α) (e : Nat × α × α) : List α :=
  acc.set e.1 (rd Q0 e.1 - e.2.1 * (rd T e.1 - e.2.2))

end PerfusionEntries

section HeatSources

variable {α : Type} [Add α] [Sub α] [Mul α] [Div α] [Zero α] [NatCast α] [DecidableEq α]

/-- The node index `idx - model->m_node_begin_index` of `readModel`, an
`unsigned int` difference: it wraps around when the id of the file is below the
first node id. -/
def Model.nodeIndexOf (model : Model α) (idx : Nat) : Nat :=
  (idx + 4294967296 - model.m_node_begin_index) % 4294967296

/-- `readModel`, block `<HFlux>` with the value `q` and the listed node ids:
every listed node gets an entry. -/
def readHFlux (model : Model α) (q : α) (ids : List Nat) : Model α :=
  let model1 := ids.foldl
    (fun (mdl : Model α) idx =>
      { mdl with
        m_hflux_idx := mdl.m_hflux_idx ++ [model.nodeIndexOf idx]
        m_hflux_mag := mdl.m_hflux_mag ++ [q] })
    model
  { model1 with m_num_BCs := model1.m_num_BCs + 1 }

/-- `readModel`, block `<BodyHFlux>`: the local `nodal_q` after the loop over
the listed element ids. -/
def nodal_q (model : Model α) (q : α) (ids : List Nat) : List α :=
  ids.foldl
    (fun acc idx =>
      match model.tetOfId idx with
      | none => acc
      | some tet =>
        (List.finRange 4).foldl
          (fun acc m => addAt acc (tet.m_n_idx m) (q * tet.m_Vol / ((4 : ℕ) : α)))
          acc)
    (List.replicate model.m_nodes.length 0)

/-- `readModel`, block `<BodyHFlux>` with the value `q` and the listed element
ids: every node with a non-zero entry of `nodal_q` gets an entry. -/
def readBodyHFlux (model : Model α) (q : α) (ids : List Nat) : Model α :=
  let v := nodal_q model q ids
  let model1 := (List.range v.length).foldl
    (fun (mdl : Model α) i =>
      if rd v i ≠ 0 then
        { mdl with
          m_bhflux_idx := mdl.m_bhflux_idx ++ [i]
          m_bhflux_mag := mdl.m_bhflux_mag ++ [rd v i] }
      else mdl)
    model
  { model1 with m_num_BCs := model1.m_num_BCs + 1 }

/-- The call `v.resize(n, 0.f)`. -/
def resize (v : List α) (n : Nat) : List α := v.take n ++ List.replicate (n - v.length) 0

/-- The loop `for tet: for m: v[tet->m_n_idx[m]] += val(tet)` of `readModel`
(blocks `<Metabo>` and `<Gravity>`). -/
def addCorners (v : List α) (tets : List (T4 α)) (val : T4 α → α) : List α :=
  tets.foldl
    (fun acc tet => (List.finRange 4).foldl (fun acc m => addAt acc (tet.m_n_idx m) (val tet)) acc)
    v

/-- `readModel`, block `<Metabo>` with the value `q`. -/
def readMetabo (model : Model α) (q : α) : Model α :=
  { model with
    m_metabo_mag := addCorners (resize model.m_metabo_mag model.m_nodes.length) model.m_tets
      (fun tet => q * tet.m_Vol / ((4 : ℕ) : α))
    m_num_BCs := model.m_num_BCs + 1 }

/-- A constant heat source of the input file: a nodal heat flux `q` on listed
nodes, a body heat flux `q` on listed elements, or a metabolic heat generation
`q` on the whole mesh. -/
inductive HeatCondition (α : Type) where
  | hflux (q : α) (nodes : List Nat)
  | bodyHFlux (q : α) (tets : List Nat)
  | metabo (q : α)

/-- What `readModel` does with one constant heat source. -/
def readHeat (model : Model α) : HeatCondition α → Model α
  | .hflux q nodes => readHFlux model q nodes
  | .bodyHFlux q tets => readBodyHFlux model q tets
  | .metabo q => readMetabo model q

/-- The model after `readModel` has read the constant heat sources `conds`, in
file order. -/
def readHeatAll (model : Model α) (conds : List (HeatCondition α)) : Model α :=
  conds.foldl readHeat model

/-- The sum, over the corners of `tet` at node `i`, of `x`. -/
def cornerSum (tet : T4 α) (i : Nat) (x : α) : α :=
  ((List.finRange 4).map fun m => if tet.m_n_idx m = i then x else 0).sum

/-- The heat a constant heat source gives to node `i`: `q` for every HFlux entry
that lists the node; `q * V0 / 4` for every corner at the node of every listed
element of a BodyHFlux; `q * V0 / 4` for every corner at the node of every
element of the mesh for a Metabo. -/
def heatLoad (model : Model α) (c : HeatCondition α) (i : Nat) : α :=
  match c with
  | .hflux q nodes => (nodes.map fun idx => if model.nodeIndexOf idx = i then q else 0).sum
  | .bodyHFlux q tets =>
    (tets.map fun idx =>
      match model.tetOfId idx with
      | none => 0
      | some tet => cornerSum tet i (q * tet.m_Vol / ((4 : ℕ) : α))).sum
  | .metabo q =>
    (model.m_tets.map fun tet => cornerSum tet i (q * tet.m_Vol / ((4 : ℕ) : α))).sum

end HeatSources

section HeatEntries

variable {α : Type} [Add α] [Sub α] [Mul α] [Div α] [Zero α] [NatCast α] [DecidableEq α]

/-- The entries `(node, q)` a heat source adds to the nodal heat flux vectors
of the model. -/
def hfluxEntries (model : Model α) : HeatCondition α → List (Nat × α)
  | .hflux q nodes => nodes.map fun idx => (model.nodeIndexOf idx, q)
  | _ => []

/-- The entries `(node, nodal_q[node])` a heat source adds to the body heat flux
vectors of the model: one for every node with a non-zero `nodal_q`. -/
def bhfluxEntries (model : Model α) : HeatCondition α → List (Nat × α)
  | .bodyHFlux q tets =>
    ((List.range model.m_nodes.length).filter
      fun i => decide (heatLoad model (.bodyHFlux q tets) i ≠ 0)).map
      fun i => (i, heatLoad model (.bodyHFlux q tets) i)
  | _ => []

/-- What a heat source does to the vector `m_metabo_mag`. -/
def metaboStep (model : Model α) (v : List α) : HeatCondition α → List α
  | .metabo q =>
    addCorners (resize v model.m_nodes.length) model.m_tets
      (fun tet => q * tet.m_Vol / ((4 : ℕ) : α))
  | _ => v

end HeatEntries

section Examples

/-- Three constant heat sources on the one-element model: a nodal heat flux `5`
that lists node 0 twice, a body heat flux `24` on the element and a metabolic
heat `48` (`q * V0 / 4` is `1` and `2` at every corner). -/
def threeSources : List (HeatCondition ℚ) :=
  [.hflux 5 [0, 0], .bodyHFlux 24 [0], .metabo 48]

end Examples

section Gravity

variable {α : Type} [Add α] [Sub α] [Mul α] [Div α] [Zero α] [NatCast α]

/-- `readModel`, block `<Gravity>` with the axis name `xyz` and the value `g`:
every corner adds `mass * g / 4` to the entry of its node in the vector of the
axis. -/
def readGravity (model : Model α) (xyz : String) (g : α) : Model α :=
  let model1 :=
    if xyz = "x" then
      { model with
        m_grav_f_x := addCorners (resize model.m_grav_f_x model.m_nodes.length) model.m_tets
          (fun tet => tet.m_mass * g / ((4 : ℕ) : α)) }
    else if xyz = "y" then
      { model with
        m_grav_f_y := addCorners (resize model.m_grav_f_y model.m_nodes.length) model.m_tets
          (fun tet => tet.m_mass * g / ((4 : ℕ) : α)) }
    else if xyz = "z" then
      { model with
        m_grav_f_z := addCorners (resize model.m_grav_f_z model.m_nodes.length) model.m_tets
          (fun tet => tet.m_mass * g / ((4 : ℕ) : α)) }
    else model
  { model1 with m_num_BCs := model1.m_num_BCs + 1 }

/-- A gravity condition of the input file: the axis name and the acceleration. -/
structure GravityCondition (α : Type) where
  xyz : String
  g : α

/-- The model after `readModel` has read the `<Gravity>` blocks `conds`, in file
order. -/
def readGravityAll (model : Model α) (conds : List (GravityCondition α)) : Model α :=
  conds.foldl (fun mdl c => readGravity mdl c.xyz c.g) model

/-- The name of an axis in the input file. -/
def axisName : Fin 3 → String
  | 0 => "x"
  | 1 => "y"
  | 2 => "z"

/-- The gravity vector of the model for an axis. -/
def Model.gravF (model : Model α) : Fin 3 → List α
  | 0 => model.m_grav_f_x
  | 1 => model.m_grav_f_y
  | 2 => model.m_grav_f_z

/-- What a gravity condition does to the gravity vector of the axis `a`. -/
def gravStep (model : Model α) (a : Fin 3) (v : List α) (c : GravityCondition α) : List α :=
  if c.xyz = axisName a then
    addCorners (resize v model.m_nodes.length) model.m_tets
      (fun tet => tet.m_mass * c.g / ((4 : ℕ) : α))
  else v

/-- The sum of the accelerations of the gravity conditions of the axis `a`. -/
def gravityOf (conds : List (GravityCondition α)) (a : Fin 3) : α :=
  (conds.map fun c => if c.xyz = axisName a then c.g else 0).sum

end Gravity

section Examples

/-- Gravity conditions on the one-element model: `2` and `3` along x, `5` along
z. -/
def threeGravities : List (GravityCondition ℚ) := [⟨"x", 2⟩, ⟨"z", 5⟩, ⟨"x", 3⟩]

end Examples

section Swaps

variable {α : Type}

/-- The call `modelstates.m_prev_U.swap(modelstates.m_curr_U)`. -/
def swapPrevCurrU (modelstates : ModelStates α) : ModelStates α :=
  { modelstates with m_prev_U := modelstates.m_curr_U, m_curr_U := modelstates.m_prev_U }

/-- The call `modelstates.m_curr_U.swap(modelstates.m_next_U)`. -/
def swapCurrNextU (modelstates : ModelStates α) : ModelStates α :=
  { modelstates with m_curr_U := modelstates.m_next_U, m_next_U := modelstates.m_curr_U }

/-- The call `modelstates.m_curr_T.swap(modelstates.m_next_T)`. -/
def swapCurrNextT (modelstates : ModelStates α) : ModelStates α :=
  { modelstates with m_curr_T := modelstates.m_next_T, m_next_T := modelstates.m_curr_T }

end Swaps

section HistoryExample

/-- The one-element model with gravity `1` along x (`m_grav_f_x[i]` is a
quarter of the element mass `1/6` for each of the four nodes), run for two steps
of length 1. -/
def gravityRun : Model ℚ :=
  { unitModel with
    m_num_BCs := 1
    m_grav_f_x := [1 / 24, 1 / 24, 1 / 24, 1 / 24]
    m_num_steps := 2
    m_total_t := 2 }

end HistoryExample

section StepCount

variable {α : Type} [LinearOrderedField α] [FloorRing α]

/-- The step count in the words of the specification, `ceil(total_t / dt)` of
the exact quotient (no rounding of the quotient), when its ceiling is in the
range of `size_t`. -/
def specNumSteps (total_t dt : α) : Option Nat :=
  if dt = 0 then none
  else if 0 ≤ ⌈total_t / dt⌉ ∧ ⌈total_t / dt⌉ < 2 ^ 64 then some ⌈total_t / dt⌉.toNat
  else none

end StepCount

section Directory

variable {α : Type}

/-- The read `m_tracking_num_eles_i_eles_per_node_j[i * 2 + 0]` of the node
pass: the offset of the slice of node `i`. -/
def Model.dirOffset (model : Model α) (i : Nat) : Nat :=
  model.m_tracking_num_eles_i_eles_per_node_j.getD (i * 2 + 0) 0

/-- The read `m_tracking_num_eles_i_eles_per_node_j[i * 2 + 1]` of the node
pass: the number of pairs in the slice of node `i`. -/
def Model.dirCount (model : Model α) (i : Nat) : Nat :=
  model.m_tracking_num_eles_i_eles_per_node_j.getD (i * 2 + 1) 0

/-- The number of corners `(tet, m)` of the mesh with `tet.m_n_idx[m] = i`. -/
def cornerCount (tets : List (T4 α)) (i : Nat) : Nat :=
  (tets.map fun tet => (List.finRange 4).countP fun m => tet.m_n_idx m = i).sum

end Directory

section ThermalDefs

variable {α : Type}

/-- The members of an element that the constructor sets, no step rewrites and
the heat flow of the element reads: `m_idx`, `m_n_idx` and `m_DHDX`. -/
def T4.static (tet : T4 α) : Nat × (Fin 4 → Nat) × Mat34 α :=
  (tet.m_idx, tet.m_n_idx, tet.m_DHDX)

/-- The state `modelstates` has the thermal constants, loads and flags of the
state `S`, as `initBC` left them, and buffers of the same sizes. -/
def ModelStates.sameSetup (S modelstates : ModelStates α) : Prop :=
  modelstates.m_constA = S.m_constA ∧ modelstates.m_external_Q0 = S.m_external_Q0 ∧
    modelstates.m_fixT_flag = S.m_fixT_flag ∧ modelstates.m_fixT_mag = S.m_fixT_mag ∧
    modelstates.m_ele_nodal_internal_F.length = S.m_ele_nodal_internal_F.length ∧
    modelstates.m_ele_nodal_internal_Q.length = S.m_ele_nodal_internal_Q.length ∧
    modelstates.m_external_Q.length = S.m_external_Q.length

/-- The lumped volume of node `i`: the sum, over the corners `(tet, m)` with
`tet.m_n_idx m = i`, of a quarter of the reference volume of the element. -/
def lumpedVolume [Add α] [Div α] [Zero α] [NatCast α] (tets : List (T4 α)) (i : Nat) : α :=
  (tets.map fun tet =>
    ((List.finRange 4).map fun m =>
      if tet.m_n_idx m = i then tet.m_Vol / ((4 : ℕ) : α) else 0).sum).sum

end ThermalDefs

section TwoElementMesh

/-- The five nodes of the two-element mesh. -/
def twoTetNodes : List (Node ℚ) :=
  [⟨0, 0, 0, 0⟩, ⟨1, 1, 0, 0⟩, ⟨2, 0, 1, 0⟩, ⟨3, 0, 0, 1⟩, ⟨4, 1, 1, 1⟩]

/-- The two-element mesh as the loader has it before the boundary condition
blocks, for the specific heat `c`: the unit tetrahedron on the nodes 0, 1, 2, 3
(`V0 = 1/6`) and the tetrahedron on the nodes 1, 2, 3, 4 (`V0 = 1/3`), density
1, conductivity 1, time step 1, initial temperature 37. -/
def twoTetRaw (c : ℚ) : Model ℚ :=
  { unitModelRaw with
    m_nodes := twoTetNodes
    m_tets :=
      [T4.new (fun _ _ => 0) 0 ⟨0, 0, 0, 0⟩ ⟨1, 1, 0, 0⟩ ⟨2, 0, 1, 0⟩ ⟨3, 0, 0, 1⟩ 1
          "NH" [1, 10] "T_ISO" [c, 1] "T_EXPAN_NONE" [],
        T4.new (fun _ _ => 0) 1 ⟨1, 1, 0, 0⟩ ⟨2, 0, 1, 0⟩ ⟨3, 0, 0, 1⟩ ⟨4, 1, 1, 1⟩ 1
          "NH" [1, 10] "T_ISO" [c, 1] "T_EXPAN_NONE" []]
    m_num_M_DOFs := 15
    m_num_T_DOFs := 5
    m_T_material_vals := [c, 1] }

end TwoElementMesh

section KernelAt

variable {α : Type} [Add α] [Sub α] [Mul α] [Div α] [Neg α] [Zero α] [One α] [NatCast α]

/-- The body of the element loop of `computeOneStep` from the `memcpy` of `m_X`
on, as a function of the deformation gradient `X` that the two statements
before it leave in `m_X`: `elementKernel` is this function at
`deformationGradient curr_U tet`. -/
def elementKernelAt (lm : Libm α) (T0 : α) (curr_T : List α) (tet : T4 α) (X : Mat33 α) :
    ElementOut α :=
  let expan := tet.m_T_expan_vals.length ≠ 0
  let X_expan := if expan then expansionGradient tet (T_diff T0 curr_T tet) else tet.m_X_expan
  let invX_expan := (matInv33 X_expan).1
  let J_invX_expan := (matInv33 X_expan).2
  let temp_X := if expan then mat33x33 X invX_expan else X
  let C := mat33Tx33 temp_X temp_X
  let invC := (matInv33 C).1
  let Jsq := (matInv33 C).2
  let J := lm.sqrt Jsq
  let S :=
    if tet.m_M_material_type = "NH" then stressNH lm tet.m_M_material_vals C invC J
    else if tet.m_M_material_type = "TI" then stressTI lm tet.m_M_material_vals C invC J
    else tet.m_S
  let S :=
    if expan then mat33xScalar (mat33x33T (mat33x33 invX_expan S) invX_expan) J_invX_expan
    else S
  let XSVol := mat33xScalar (mat33x33 X S) tet.m_Vol
  let f := mat33x34 XSVol tet.m_DHDX
  let invX := (matInv33 X).1
  let J := (matInv33 X).2
  let DHDx := mat33Tx34 invX tet.m_DHDX
  let vol := tet.m_Vol * J
  let K :=
    if tet.m_T_material_type = "T_ISO" then
      mat44xScalar (mat34Tx34 DHDx DHDx) (vol * tet.m_D 0 0)
    else mat44xScalar (mat34Tx34 DHDx (mat33x34 tet.m_D DHDx)) vol
  { tet := { tet with
      m_X := X, m_X_expan := X_expan, m_S := S, m_DHDx := DHDx, m_vol := vol, m_K := K }
    f := f
    q := fun m =>
      K m 0 * rd curr_T (tet.m_n_idx 0) + K m 1 * rd curr_T (tet.m_n_idx 1)
        + K m 2 * rd curr_T (tet.m_n_idx 2) + K m 3 * rd curr_T (tet.m_n_idx 3) }

end KernelAt

section RotationExample

/-- The rotation by a quarter turn about the z axis. -/
def quarterTurn : Mat33 ℚ := fun i j =>
  match i, j with
  | 0, 0 => 0 | 0, 1 => -1 | 0, 2 => 0
  | 1, 0 => 1 | 1, 1 => 0 | 1, 2 => 0
  | 2, 0 => 0 | 2, 1 => 0 | 2, 2 => 1

/-- A simple shear with a stretch, as a deformation gradient. -/
def shearStretch : Mat33 ℚ := fun i j =>
  match i, j with
  | 0, 0 => 2 | 0, 1 => 1 | 0, 2 => 0
  | 1, 0 => 0 | 1, 1 => 1 | 1, 2 => 0
  | 2, 0 => 0 | 2, 1 => 0 | 2, 2 => 1

end RotationExample

section StretchedState

/-- The state of the one-element model in which node 1 is displaced by `1/10`
along x and node 3 is at temperature 47. -/
def stretchedState : ModelStates ℚ :=
  { ModelStates.new unitModel with
    m_curr_U := [0, 0, 0, 1 / 10, 0, 0, 0, 0, 0, 0, 0, 0]
    m_curr_T := [37, 37, 37, 47] }

end StretchedState

section HeatedState

/-- A state of the two-element mesh with a temperature gradient and nodal heat
loads `1 .. 5`. -/
def heatedState : ModelStates ℚ :=
  { ModelStates.new (twoTetRaw 1).postCreate with
    m_curr_T := [37, 40, 45, 50, 60]
    m_external_Q := [1, 2, 3, 4, 5] }

end HeatedState

section FreeExpansion

/-- The one-element model with isotropic thermal expansion, coefficient
`1/100`. -/
def expanModel : Model ℚ :=
  { unitModel with
    m_tets := [expanTet]
    m_T_expan_type := "T_EXPAN_ISO"
    m_T_expan_vals := [1 / 100] }

/-- The state of `expanModel` in which every node is at temperature 47, ten
above `T0`, and displaced by a tenth of its reference position: the free
expansion `X_exp = 1.1 * I`. -/
def freeExpansionState : ModelStates ℚ :=
  { ModelStates.new expanModel with
    m_curr_U := [0, 0, 0, 1 / 10, 0, 0, 0, 1 / 10, 0, 0, 0, 1 / 10]
    m_curr_T := [47, 47, 47, 47] }

end FreeExpansion

section ReferenceMean

/-- The state of `expanModel` in which node 1 is displaced by `1/10` along x and
the corner temperatures are 27, 37, 37, 47: their mean is `T0 = 37`. -/
def referenceMeanState : ModelStates ℚ :=
  { ModelStates.new expanModel with
    m_curr_U := [0, 0, 0, 1 / 10, 0, 0, 0, 0, 0, 0, 0, 0]
    m_curr_T := [27, 37, 37, 47] }

end ReferenceMean

section Accesses

variable {α : Type} [Zero α] [DecidableEq α]

/-- One indexing `vec[index]` of a `std::vector` of `size` elements: the name
of the vector, the index used and the size of the vector at that moment. -/
structure Access where
  vec : String
  index : Nat
  size : Nat

/-- The indexings of one `Disp` loop of `computeRunTimeBC`, iteration by
iteration: `m_disp_idx[i]`, `m_disp_mag[i]`, `m_disp_mag_t[m_disp_idx[i] * 3 + axis]`. -/
def dispAccesses (modelstates : ModelStates α) (idx : List Nat) (mag : List α) (axis : Nat) :
    List Access :=
  (List.range idx.length).flatMap fun i =>
    [⟨"m_disp_idx", i, idx.length⟩,
      ⟨"m_disp_mag_t", idx.getD i 0 * 3 + axis, modelstates.m_disp_mag_t.length⟩,
      ⟨"m_disp_mag", i, mag.length⟩]

/-- The indexings of the perfusion loop of `computeRunTimeBC`. -/
def perfuAccesses (model : Model α) (modelstates : ModelStates α) : List Access :=
  (List.range model.m_perfu_idx.length).flatMap fun i =>
    [⟨"m_perfu_idx", i, model.m_perfu_idx.length⟩,
      ⟨"m_external_Q", model.m_perfu_idx.getD i 0, modelstates.m_external_Q.length⟩,
      ⟨"m_external_Q0", model.m_perfu_idx.getD i 0, modelstates.m_external_Q0.length⟩,
      ⟨"m_perfu_const1", i, model.m_perfu_const1.length⟩,
      ⟨"m_curr_T", model.m_perfu_idx.getD i 0, modelstates.m_curr_T.length⟩,
      ⟨"m_perfu_refT", i, model.m_perfu_refT.length⟩]

/-- Every indexing of a vector that `computeRunTimeBC` performs. -/
def runTimeBCAccesses (model : Model α) (modelstates : ModelStates α) : List Access :=
  dispAccesses modelstates model.m_disp_idx_x model.m_disp_mag_x 0
    ++ dispAccesses modelstates model.m_disp_idx_y model.m_disp_mag_y 1
    ++ dispAccesses modelstates model.m_disp_idx_z model.m_disp_mag_z 2
    ++ perfuAccesses model modelstates

/-- The indices of `m_T_expan_vals` the branch on `m_T_expan_type` reads. -/
def expansionReads (tet : T4 α) : List Nat :=
  if tet.m_T_expan_type = "T_EXPAN_ISO" then [0]
  else if tet.m_T_expan_type = "T_EXPAN_TI" then [0, 1, 2, 3, 4, 5, 6, 7]
  else if tet.m_T_expan_type = "T_EXPAN_ORTHO" then
    [0, 1, 8, 2, 9, 3, 10, 4, 11, 5, 12, 6, 13, 7, 14]
  else []

/-- The indices of `m_M_material_vals` the branch on `m_M_material_type`
reads. -/
def materialReads (tet : T4 α) : List Nat :=
  if tet.m_M_material_type = "NH" then [0, 1]
  else if tet.m_M_material_type = "TI" then [3, 4, 5, 6, 7, 8, 0, 2, 1]
  else []

/-- The indexings of one iteration of the element loop of `computeOneStep`, for
the tetrahedron `tet = m_tets[i]`; the fixed-size arrays of the element are not
listed. -/
def elementAccesses (model : Model α) (modelstates : ModelStates α) (i : Nat) (tet : T4 α) :
    List Access :=
  [⟨"m_tets", i, model.m_tets.length⟩]
    ++ ((List.finRange 4).flatMap fun m => (List.finRange 3).map fun n =>
        (⟨"m_curr_U", tet.m_n_idx m * 3 + n.val, modelstates.m_curr_U.length⟩ : Access))
    ++ (if tet.m_T_expan_vals.length ≠ 0 then
        ((List.finRange 4).map fun m =>
            (⟨"m_curr_T", tet.m_n_idx m, modelstates.m_curr_T.length⟩ : Access))
          ++ (expansionReads tet).map fun k =>
            (⟨"m_T_expan_vals", k, tet.m_T_expan_vals.length⟩ : Access)
      else [])
    ++ ((materialReads tet).map fun k =>
        (⟨"m_M_material_vals", k, tet.m_M_material_vals.length⟩ : Access))
    ++ ((List.finRange 4).flatMap fun m => (List.finRange 3).map fun n =>
        (⟨"m_ele_nodal_internal_F", tet.m_idx * 12 + m.val * 3 + n.val,
          modelstates.m_ele_nodal_internal_F.length⟩ : Access))
    ++ ((List.finRange 4).flatMap fun m =>
        [(⟨"m_ele_nodal_internal_Q", tet.m_idx * 4 + m.val,
            modelstates.m_ele_nodal_internal_Q.length⟩ : Access),
          ⟨"m_curr_T", tet.m_n_idx 0, modelstates.m_curr_T.length⟩,
          ⟨"m_curr_T", tet.m_n_idx 1, modelstates.m_curr_T.length⟩,
          ⟨"m_curr_T", tet.m_n_idx 2, modelstates.m_curr_T.length⟩,
          ⟨"m_curr_T", tet.m_n_idx 3, modelstates.m_curr_T.length⟩])

/-- The indexings of the gather loop of node `i` in the node loop of
`computeOneStep`. -/
def gatherAccesses (model : Model α) (modelstates : ModelStates α) (i : Nat) : List Access :=
  let tracking_num_eles := model.m_tracking_num_eles_i_eles_per_node_j.getD (i * 2 + 0) 0
  let eles_per_node := model.m_tracking_num_eles_i_eles_per_node_j.getD (i * 2 + 1) 0
  [⟨"m_tracking_num_eles_i_eles_per_node_j", i * 2 + 0,
      model.m_tracking_num_eles_i_eles_per_node_j.length⟩,
    ⟨"m_tracking_num_eles_i_eles_per_node_j", i * 2 + 1,
      model.m_tracking_num_eles_i_eles_per_node_j.length⟩]
    ++ (List.range eles_per_node).flatMap fun j =>
      let ele_idx := model.m_ele_node_local_idx_pair.getD ((tracking_num_eles + j) * 2 + 0) 0
      let node_local_idx := model.m_ele_node_local_idx_pair.getD ((tracking_num_eles + j) * 2 + 1) 0
      [⟨"m_ele_node_local_idx_pair", (tracking_num_eles + j) * 2 + 0,
          model.m_ele_node_local_idx_pair.length⟩,
        ⟨"m_ele_node_local_idx_pair", (tracking_num_eles + j) * 2 + 1,
          model.m_ele_node_local_idx_pair.length⟩,
        ⟨"m_ele_nodal_internal_F", ele_idx * 12 + node_local_idx * 3 + 0,
          modelstates.m_ele_nodal_internal_F.length⟩,
        ⟨"m_ele_nodal_internal_F", ele_idx * 12 + node_local_idx * 3 + 1,
          modelstates.m_ele_nodal_internal_F.length⟩,
        ⟨"m_ele_nodal_internal_F", ele_idx * 12 + node_local_idx * 3 + 2,
          modelstates.m_ele_nodal_internal_F.length⟩,
        ⟨"m_ele_nodal_internal_Q", ele_idx * 4 + node_local_idx,
          modelstates.m_ele_nodal_internal_Q.length⟩]

/-- The indexings of the update of DOF `n_DOF` in the node loop, branch by
branch. -/
def dofAccesses (modelstates : ModelStates α) (n_DOF : Nat) : List Access :=
  ⟨"m_disp_mag_t", n_DOF, modelstates.m_disp_mag_t.length⟩ ::
    (if rd modelstates.m_disp_mag_t n_DOF ≠ 0 then
      [⟨"m_next_U", n_DOF, modelstates.m_next_U.length⟩,
        ⟨"m_disp_mag_t", n_DOF, modelstates.m_disp_mag_t.length⟩]
    else
      ⟨"m_fixP_flag", n_DOF, modelstates.m_fixP_flag.length⟩ ::
        (if modelstates.m_fixP_flag.getD n_DOF false = true then
          [⟨"m_next_U", n_DOF, modelstates.m_next_U.length⟩]
        else
          [⟨"m_next_U", n_DOF, modelstates.m_next_U.length⟩,
            ⟨"m_central_diff_const1", n_DOF, modelstates.m_central_diff_const1.length⟩,
            ⟨"m_external_F", n_DOF, modelstates.m_external_F.length⟩,
            ⟨"m_central_diff_const2", n_DOF, modelstates.m_central_diff_const2.length⟩,
            ⟨"m_curr_U", n_DOF, modelstates.m_curr_U.length⟩,
            ⟨"m_central_diff_const3", n_DOF, modelstates.m_central_diff_const3.length⟩,
            ⟨"m_prev_U", n_DOF, modelstates.m_prev_U.length⟩,
            ⟨"m_next_U", n_DOF, modelstates.m_next_U.length⟩]))

/-- The indexings of the temperature update of node `i` in the node loop. -/
def temperatureAccesses (modelstates : ModelStates α) (i : Nat) : List Access :=
  ⟨"m_fixT_flag", i, modelstates.m_fixT_flag.length⟩ ::
    (if modelstates.m_fixT_flag.getD i false = true then
      [⟨"m_next_T", i, modelstates.m_next_T.length⟩,
        ⟨"m_fixT_mag", i, modelstates.m_fixT_mag.length⟩]
    else
      [⟨"m_next_T", i, modelstates.m_next_T.length⟩,
        ⟨"m_curr_T", i, modelstates.m_curr_T.length⟩,
        ⟨"m_constA", i, modelstates.m_constA.length⟩,
        ⟨"m_external_Q", i, modelstates.m_external_Q.length⟩,
        ⟨"m_next_T", i, modelstates.m_next_T.length⟩])

/-- The indexings of one iteration of the node loop of `computeOneStep`. -/
def nodeAccesses (model : Model α) (modelstates : ModelStates α) (i : Nat) : List Access :=
  gatherAccesses model modelstates i
    ++ ((List.finRange 3).flatMap fun j => dofAccesses modelstates (i * 3 + j.val))
    ++ temperatureAccesses modelstates i

/-- Every indexing of a vector that `computeOneStep` performs on the state
`modelstates` (no visit changes the size of a vector or a value an index is
computed from, so the thread count does not matter). -/
def stepAccesses (model : Model α) (modelstates : ModelStates α) : List Access :=
  ((List.range model.m_tets.length).flatMap fun i =>
      match model.m_tets[i]? with
      | none => []
      | some tet => elementAccesses model modelstates i tet)
    ++ (List.range model.m_nodes.length).flatMap fun i => nodeAccesses model modelstates i

/-- The vectors of the state `modelstates` have the sizes of those of the state
`S`. -/
def ModelStates.sameSizes (S modelstates : ModelStates α) : Prop :=
  modelstates.m_external_F.length = S.m_external_F.length ∧
    modelstates.m_ele_nodal_internal_F.length = S.m_ele_nodal_internal_F.length ∧
    modelstates.m_disp_mag_t.length = S.m_disp_mag_t.length ∧
    modelstates.m_central_diff_const1.length = S.m_central_diff_const1.length ∧
    modelstates.m_central_diff_const2.length = S.m_central_diff_const2.length ∧
    modelstates.m_central_diff_const3.length = S.m_central_diff_const3.length ∧
    modelstates.m_prev_U.length = S.m_prev_U.length ∧
    modelstates.m_curr_U.length = S.m_curr_U.length ∧
    modelstates.m_next_U.length = S.m_next_U.length ∧
    modelstates.m_external_Q.length = S.m_external_Q.length ∧
    modelstates.m_external_Q0.length = S.m_external_Q0.length ∧
    modelstates.m_ele_nodal_internal_Q.length = S.m_ele_nodal_internal_Q.length ∧
    modelstates.m_fixT_mag.length = S.m_fixT_mag.length ∧
    modelstates.m_constA.length = S.m_constA.length ∧
    modelstates.m_curr_T.length = S.m_curr_T.length ∧
    modelstates.m_next_T.length = S.m_next_T.length ∧
    modelstates.m_fixP_flag.length = S.m_fixP_flag.length ∧
    modelstates.m_fixT_flag.length = S.m_fixT_flag.length

end Accesses

section LoadedExample

/-- The two-element mesh as the loader returns it, with a Disp condition of
magnitude `1/10` on the DOF x of node 4 and perfusion at the nodes 0 and 4. -/
def loadedTwoTet : Model ℚ :=
  { (twoTetRaw 1).postCreate with
    m_num_BCs := 2
    m_disp_idx_x := [4]
    m_disp_mag_x := [1 / 10]
    m_perfu_idx := [0, 4]
    m_perfu_const1 := [1 / 2, 1]
    m_perfu_refT := [37, 37] }

end LoadedExample

section LoadedStates

/-- The two-element mesh in a deformed and heated state: every node but node 0
is displaced and the five nodal temperatures differ. -/
def shearedTwoTet : ModelStates ℚ :=
  { ModelStates.new (twoTetRaw 1).postCreate with
    m_curr_U := [0, 0, 0, 1 / 10, 0, 0, 0, 1 / 5, 0, 0, 0, -1 / 10, 1 / 10, 1 / 10, 0]
    m_curr_T := [37, 40, 45, 50, 60] }

/-- The one-element model with damping `alpha = 1` and time step `1/2`. -/
def dampedModel : Model ℚ :=
  { unitModel with
    m_alpha := 1
    m_dt := 1 / 2 }

/-- A state of `dampedModel` in motion: node 1 is displaced along x, was
displaced less one step ago, and carries an external force. -/
def movingState : ModelStates ℚ :=
  { ModelStates.new dampedModel with
    m_external_F := [0, 0, 0, 2, 0, 0, 0, 0, 0, 0, 0, 0]
    m_curr_U := [0, 0, 0, 1 / 10, 0, 0, 0, 0, 0, 0, 0, 0]
    m_prev_U := [0, 0, 0, 1 / 20, 0, 0, 0, 0, 0, 0, 0, 0] }

end LoadedStates

section Binary32

/-- Rounding of a rational to the nearest integer, ties to the even one. -/
def roundHalfEven (x : ℚ) : ℤ :=
  if x - ⌊x⌋ < 1 / 2 then ⌊x⌋
  else if 1 / 2 < x - ⌊x⌋ then ⌊x⌋ + 1
  else if ⌊x⌋ % 2 = 0 then ⌊x⌋ else ⌊x⌋ + 1

/-- The number of halvings that take `n` below `2`, with a bound on the number
of steps. -/
def halvings : Nat → Nat → Nat
  | 0, _ => 0
  | fuel + 1, n => if 2 ≤ n then halvings fuel (n / 2) + 1 else 0

/-- The binary logarithm of a positive natural number, rounded down. -/
def natLog2 (n : Nat) : Nat := halvings n n

/-- The binary exponent of a non-zero rational: the `e` with
`2^e ≤ |q| < 2^(e+1)`. -/
def binaryExponent (q : ℚ) : ℤ :=
  let k : ℤ := (natLog2 q.num.natAbs : ℤ) - (natLog2 q.den : ℤ)
  if (2 : ℚ) ^ k ≤ |q| then k else k - 1

/-- The rounding of a rational to the grid of `float` (binary32): 24 significant
bits, exponent at least `-126` (below, the subnormal grid of spacing `2^-149`),
nearest grid point, ties to even.  The exponent is not bounded above here. -/
def roundBinary32 (q : ℚ) : ℚ :=
  if q = 0 then 0
  else (roundHalfEven (q / (2 : ℚ) ^ (max (binaryExponent q) (-126) - 23)) : ℚ)
    * (2 : ℚ) ^ (max (binaryExponent q) (-126) - 23)

/-- The values of `float` with the arithmetic of binary32: every finite result
is rounded to the grid, and a rounded result above `FLT_MAX` in magnitude is an
infinity.  The two zeros are one. -/
structure F32 where
  val : FVal
  deriving DecidableEq

namespace F32

/-- The `float` an exact finite result becomes. -/
def round (q : ℚ) : F32 :=
  if FLT_MAX < roundBinary32 q then ⟨FVal.pinf⟩
  else if roundBinary32 q < -FLT_MAX then ⟨FVal.ninf⟩
  else ⟨FVal.fin (roundBinary32 q)⟩

/-- Addition of two `float`s. -/
def add (a b : F32) : F32 :=
  match a.val, b.val with
  | FVal.fin x, FVal.fin y => round (x + y)
  | u, v => ⟨FVal.add u v⟩

/-- Subtraction of two `float`s. -/
def sub (a b : F32) : F32 :=
  match a.val, b.val with
  | FVal.fin x, FVal.fin y => round (x - y)
  | u, v => ⟨FVal.add u (FVal.neg v)⟩

/-- Multiplication of two `float`s. -/
def mul (a b : F32) : F32 :=
  match a.val, b.val with
  | FVal.fin x, FVal.fin y => round (x * y)
  | u, v => ⟨FVal.mul u v⟩

/-- Division of two `float`s. -/
def div (a b : F32) : F32 :=
  match a.val, b.val with
  | FVal.fin x, FVal.fin y => if y = 0 then ⟨FVal.infOfSign x⟩ else round (x / y)
  | u, v => ⟨FVal.div u v⟩

instance : Zero F32 := ⟨⟨FVal.fin 0⟩⟩
instance : One F32 := ⟨⟨FVal.fin 1⟩⟩
instance : NatCast F32 := ⟨fun n => round n⟩
instance : Neg F32 := ⟨fun a => ⟨FVal.neg a.val⟩⟩
instance : Add F32 := ⟨add⟩
instance : Sub F32 := ⟨sub⟩
instance : Mul F32 := ⟨mul⟩
instance : Div F32 := ⟨div⟩

end F32

/-- The statement `m_num_steps = (size_t)ceil(m_total_t / m_dt)` of `readModel`:
the `float` quotient, rounded as every `float` result is, then rounded up to an
integer; `none` when the quotient is not a number whose ceiling is in the range
of `size_t` (the conversion of any other value is undefined). -/
def numSteps (total_t dt : F32) : Option Nat :=
  match (total_t / dt).val with
  | FVal.fin q => if 0 ≤ ⌈q⌉ ∧ ⌈q⌉ < 2 ^ 64 then some ⌈q⌉.toNat else none
  | _ => none

/-- The ramp factor `(curr_step + 1) * m_dt / m_total_t` of `computeRunTimeBC`. -/
def rampFactor {α : Type} [Mul α] [Div α] [NatCast α] (curr_step : Nat) (dt total_t : α) : α :=
  ((curr_step + 1 : ℕ) : α) * dt / total_t

end Binary32

section RampExample

/-- A model over binary32 with one node and no element, a Disp condition of
magnitude 1 on the DOF x of node 0, time step `dt`, total time `total_t` and
`num_steps` steps. -/
def rampModel (dt total_t : F32) (num_steps : Nat) : Model F32 :=
  { m_nodes := [⟨0, 0, 0, 0⟩]
    m_tets := []
    m_num_BCs := 1
    m_num_steps := num_steps
    m_num_M_DOFs := 3
    m_num_T_DOFs := 1
    m_disp_idx_x := [0]
    m_disp_idx_y := []
    m_disp_idx_z := []
    m_fixP_idx_x := []
    m_fixP_idx_y := []
    m_fixP_idx_z := []
    m_hflux_idx := []
    m_perfu_idx := []
    m_fixT_idx := []
    m_bhflux_idx := []
    m_disp_mag_x := [1]
    m_disp_mag_y := []
    m_disp_mag_z := []
    m_grav_f_x := []
    m_grav_f_y := []
    m_grav_f_z := []
    m_hflux_mag := []
    m_perfu_refT := []
    m_perfu_const1 := []
    m_fixT_mag := []
    m_bhflux_mag := []
    m_metabo_mag := []
    m_M_material_vals := [1, 10]
    m_T_material_vals := [1, 1]
    m_T_expan_vals := []
    m_dt := dt
    m_total_t := total_t
    m_alpha := 0
    m_T0 := 0
    m_rho := 1
    m_fname := "ramp.txt"
    m_ele_type := "T4"
    m_M_material_type := "NH"
    m_T_material_type := "T_ISO"
    m_T_expan_type := "T_EXPAN_NONE"
    m_node_begin_index := 0
    m_ele_begin_index := 0
    m_ele_node_local_idx_pair := []
    m_tracking_num_eles_i_eles_per_node_j := [0, 0] }

/-- The `float` nearest to `0.0001`. -/
def dtTenThousandth : F32 := F32.round (1 / 10000)

/-- The `float` nearest to `0.0017`. -/
def totalSeventeen : F32 := F32.round (17 / 10000)

end RampExample

section StretchExamples

variable (α : Type) [Add α] [Sub α] [Mul α] [Div α] [Neg α] [Zero α] [One α] [NatCast α]

/-- The Neo-Hookean unit tetrahedron (`mu = 1`, `K = 10`) in the arithmetic
`α`. -/
def unitTetIn : T4 α :=
  T4.new (fun _ _ => 0) 0 ⟨0, 0, 0, 0⟩ ⟨1, 1, 0, 0⟩ ⟨2, 0, 1, 0⟩ ⟨3, 0, 0, 1⟩ 1
    "NH" [1, ((10 : ℕ) : α)] "T_ISO" [1, 1] "T_EXPAN_NONE" []

/-- The transversely isotropic unit tetrahedron (`mu = 1`, `K = 10`, `eta = 2`,
fibre along x) in the arithmetic `α`. -/
def fibreTetIn : T4 α :=
  T4.new (fun _ _ => 0) 0 ⟨0, 0, 0, 0⟩ ⟨1, 1, 0, 0⟩ ⟨2, 0, 1, 0⟩ ⟨3, 0, 0, 1⟩ 1
    "TI" [1, ((10 : ℕ) : α), ((2 : ℕ) : α), 1, 0, 0, 0, 0, 0] "T_ISO" [1, 1] "T_EXPAN_NONE" []

/-- The displacements that stretch the unit tetrahedron to twice its length
along x: node 1 moves by `1` along x. -/
def stretchU : List α := [0, 0, 0, 1, 0, 0, 0, 0, 0, 0, 0, 0]

end StretchExamples

section RestFloats

/-- Whether the value is a finite number of magnitude at most `B`. -/
def FVal.within (B : ℚ) : FVal → Bool
  | FVal.fin q => decide (|q| ≤ B)
  | _ => false

/-- The one-element model over `FVal` with nothing that drives it: the unit
tetrahedron of `unitTetF`, Neo-Hookean, no load and no boundary condition,
damping `alpha`, time step `dt`, reference temperature 37. -/
def restModelF (alpha dt : FVal) : Model FVal :=
  Model.postCreate
  { overflowModel with
    m_num_BCs := 0
    m_grav_f_x := []
    m_dt := dt
    m_alpha := alpha }

/-- A two-element mesh over `FVal` at rest: the unit tetrahedron on the nodes
0, 1, 2, 3, Neo-Hookean without expansion, and the tetrahedron on the nodes 1,
2, 3, 4, transversely isotropic with the unit fibre `(1, 0, 0)` and isotropic
expansion; damping `1/2`, time step `1/10`, reference temperature 37. -/
def restTwoTetF : Model FVal :=
  Model.postCreate
  { overflowModel with
    m_nodes := [⟨0, 0, 0, 0⟩, ⟨1, 1, 0, 0⟩, ⟨2, 0, 1, 0⟩, ⟨3, 0, 0, 1⟩, ⟨4, 1, 1, 1⟩]
    m_tets :=
      [T4.new (fun _ _ => 0) 0 ⟨0, 0, 0, 0⟩ ⟨1, 1, 0, 0⟩ ⟨2, 0, 1, 0⟩ ⟨3, 0, 0, 1⟩ 1
          "NH" [1, 10] "T_ISO" [4, 1] "T_EXPAN_NONE" [],
        T4.new (fun _ _ => 0) 1 ⟨1, 1, 0, 0⟩ ⟨2, 0, 1, 0⟩ ⟨3, 0, 0, 1⟩ ⟨4, 1, 1, 1⟩ 1
          "TI" [1, 10, 2, 1, 0, 0, 0, 0, 0] "T_ORTHO" [4, 1, 2, 3] "T_EXPAN_ISO" [.fin (1 / 100)]]
    m_num_BCs := 0
    m_num_M_DOFs := 15
    m_num_T_DOFs := 5
    m_grav_f_x := []
    m_T_material_vals := [4, 1]
    m_dt := .fin (1 / 10)
    m_alpha := .fin (1 / 2) }

/-- The one-element model at rest with the shear modulus `2^127`, a finite
`float` whose triple is beyond `FLT_MAX`. -/
def stiffModelF : Model FVal :=
  { restModelF 0 1 with
    m_tets := [{ unitTetF with m_M_material_vals := [.fin (2 ^ 127), 10] }]
    m_M_material_vals := [.fin (2 ^ 127), 10] }

end RestFloats

/-! ## Properties -/

section ListLemmas

theorem getD_set_of_lt {β : Type} (l : List β) (k i : Nat) (v d : β) (h : i < l.length) :
    (l.set k v).getD i d = if k = i then v else l.getD i d := by
  simp only [List.getD_eq_getElem?_getD, List.getElem?_set]
  by_cases hk : k = i
  · subst hk; simp [h]
  · simp [hk]

theorem getD_set_ne {β : Type} (l : List β) (k i : Nat) (v d : β) (h : k ≠ i) :
    (l.set k v).getD i d = l.getD i d := by
  simp [List.getD_eq_getElem?_getD, List.getElem?_set, h]

theorem take_succ_getD {β : Type} (l : List β) (n : Nat) (d : β) (h : n < l.length) :
    l.take (n + 1) = l.take n ++ [l.getD n d] := by
  rw [List.take_succ]
  simp [List.getD_eq_getElem?_getD, List.getElem?_eq_getElem h]

theorem set_append_replicate {β : Type} (A : List β) (n r : Nat) (z x : β) (h : A.length = n) :
    (A ++ List.replicate (r + 1) z).set n x = (A ++ [x]) ++ List.replicate r z := by
  subst h
  rw [List.set_append]
  simp [List.replicate_succ]

end ListLemmas

section PostCreateLemmas

variable {α : Type}

theorem flatPairs_length (l : List (Nat × Nat)) : (flatPairs l).length = 2 * l.length := by
  induction l with
  | nil => rfl
  | cons a t ih =>
    simp only [flatPairs, List.flatMap_cons, List.length_append, List.length_cons,
      List.length_nil] at *
    omega

theorem flatPairs_append (a b : List (Nat × Nat)) :
    flatPairs (a ++ b) = flatPairs a ++ flatPairs b := by
  simp [flatPairs]

theorem flatPairs_getD (l : List (Nat × Nat)) (n : Nat) (h : n < l.length) :
    (flatPairs l).getD (n * 2 + 0) 0 = (l.getD n (0, 0)).1 ∧
      (flatPairs l).getD (n * 2 + 1) 0 = (l.getD n (0, 0)).2 := by
  induction l generalizing n with
  | nil => simp at h
  | cons a t ih =>
    cases n with
    | zero => simp [flatPairs]
    | succ n =>
      have := ih n (by simpa using h)
      simp only [flatPairs, List.flatMap_cons] at this ⊢
      have e0 : (n + 1) * 2 + 0 = (n * 2 + 0) + 1 + 1 := by ring
      have e1 : (n + 1) * 2 + 1 = (n * 2 + 1) + 1 + 1 := by ring
      rw [e0, e1]
      simpa using this

theorem pushAt_length (v : List (List Nat)) (i x : Nat) : (pushAt v i x).length = v.length := by
  simp [pushAt]

theorem pushAt_getD (v : List (List Nat)) (k i x : Nat) (h : i < v.length) :
    (pushAt v k x).getD i [] = if k = i then v.getD i [] ++ [x] else v.getD i [] := by
  unfold pushAt
  rw [getD_set_of_lt _ _ _ _ _ h]
  by_cases hk : k = i
  · subst hk; simp
  · simp [hk]

theorem pushCorners_length (acc : List (List Nat)) (tet : T4 α) :
    (pushCorners acc tet).length = acc.length := by
  simp [pushCorners, show List.finRange 4 = [0, 1, 2, 3] from rfl, pushAt_length]

theorem pushCorners_getD (acc : List (List Nat)) (tet : T4 α) (i : Nat) (h : i < acc.length) :
    (pushCorners acc tet).getD i [] = acc.getD i [] ++ flatPairs (cornersAt [tet] i) := by
  simp only [pushCorners, show List.finRange 4 = [0, 1, 2, 3] from rfl, List.foldl_cons,
    List.foldl_nil, cornersAt, flatPairs, List.flatMap_cons, List.flatMap_nil, List.append_nil,
    List.filter_cons, List.filter_nil]
  rw [pushAt_getD _ _ _ _ (by simp [pushAt_length, h]),
    pushAt_getD _ _ _ _ (by simp [pushAt_length, h]),
    pushAt_getD _ _ _ _ (by simp [pushAt_length, h]),
    pushAt_getD _ _ _ _ (by simp [pushAt_length, h]),
    pushAt_getD _ _ _ _ (by simp [pushAt_length, h]),
    pushAt_getD _ _ _ _ (by simp [pushAt_length, h]),
    pushAt_getD _ _ _ _ (by simp [pushAt_length, h]),
    pushAt_getD _ _ _ _ (by simp [pushAt_length, h])]
  by_cases h0 : tet.m_n_idx 0 = i <;> by_cases h1 : tet.m_n_idx 1 = i <;>
    by_cases h2 : tet.m_n_idx 2 = i <;> by_cases h3 : tet.m_n_idx 3 = i <;>
    simp [h0, h1, h2, h3]

theorem cornersAt_cons (tet : T4 α) (tets : List (T4 α)) (i : Nat) :
    cornersAt (tet :: tets) i = cornersAt [tet] i ++ cornersAt tets i := by
  simp [cornersAt]

theorem foldl_pushCorners_length (tets : List (T4 α)) (acc : List (List Nat)) :
    (tets.foldl pushCorners acc).length = acc.length := by
  induction tets generalizing acc with
  | nil => rfl
  | cons tet tets ih => rw [List.foldl_cons, ih, pushCorners_length]

theorem foldl_pushCorners_getD (tets : List (T4 α)) (acc : List (List Nat)) (i : Nat)
    (h : i < acc.length) :
    (tets.foldl pushCorners acc).getD i [] = acc.getD i [] ++ flatPairs (cornersAt tets i) := by
  induction tets generalizing acc with
  | nil => simp [cornersAt, flatPairs]
  | cons tet tets ih =>
    rw [cornersAt_cons tet tets i, flatPairs_append, List.foldl_cons,
      ih _ (by rw [pushCorners_length]; exact h), pushCorners_getD _ _ _ h, List.append_assoc]

/-- After the first loop of `postCreate` the list of node `i` holds the
corners on node `i`, in mesh order. -/
theorem nodes_ele_node_local_idx_pair_getD (tets : List (T4 α)) (N i : Nat) (h : i < N) :
    (nodes_ele_node_local_idx_pair N tets).getD i [] = flatPairs (cornersAt tets i) := by
  unfold nodes_ele_node_local_idx_pair
  rw [foldl_pushCorners_getD _ _ _ (by simpa using h)]
  simp [List.getD_eq_getElem?_getD, List.getElem?_replicate, h]

theorem copyPair_fold (c : List (Nat × Nat)) (A : List Nat) (dir : List Nat) (tr : Nat) (r k : Nat)
    (hk : k ≤ c.length) (hr : 2 * c.length ≤ r) :
    (List.range k).foldl (copyPair (flatPairs c))
        { buf := A ++ List.replicate r 0, p := A.length, dir := dir, tracking := tr }
      = { buf := A ++ flatPairs (c.take k) ++ List.replicate (r - 2 * k) 0
          p := A.length + 2 * k, dir := dir, tracking := tr } := by
  induction k with
  | zero => simp [flatPairs]
  | succ k ih =>
    rw [List.range_succ, List.foldl_append, ih (by omega)]
    simp only [List.foldl_cons, List.foldl_nil, copyPair]
    have hk' : k < c.length := by omega
    obtain ⟨h0, h1⟩ := flatPairs_getD c k hk'
    rw [h0, h1, take_succ_getD c k (0, 0) hk', flatPairs_append]
    have hlen : (A ++ flatPairs (List.take k c)).length = A.length + 2 * k := by
      simp [flatPairs_length, List.length_take, Nat.min_eq_left (Nat.le_of_lt hk')]
    have hr1 : r - 2 * k = (r - 2 * (k + 1) + 1) + 1 := by omega
    congr 1
    · rw [hr1, set_append_replicate _ _ _ _ _ hlen,
        set_append_replicate _ _ _ _ _ (by simp only [List.length_append, List.length_singleton,
          hlen])]
      simp [flatPairs]

theorem offsetOf_succ (c : Nat → List (Nat × Nat)) (n : Nat) :
    offsetOf c (n + 1) = offsetOf c n + (c n).length := by
  simp [offsetOf, List.range_succ]

theorem offsetOf_mono (c : Nat → List (Nat × Nat)) {n m : Nat} (h : n ≤ m) :
    offsetOf c n ≤ offsetOf c m := by
  induction h with
  | refl => exact Nat.le_refl _
  | step _ ih => rw [offsetOf_succ]; omega

theorem elesPerNode_fold (pairs : List (List Nat)) (c : Nat → List (Nat × Nat)) (N n : Nat)
    (hp : ∀ m, m < N → pairs.getD m [] = flatPairs (c m)) (hn : n ≤ N) :
    (List.range n).foldl
        (fun (st : List Nat × Nat) m =>
          let e := st.1.set m ((pairs.getD m []).length / 2)
          (e, st.2 + e.getD m 0))
        (List.replicate N 0, 0)
      = ((List.range n).map (fun m => (c m).length) ++ List.replicate (N - n) 0, offsetOf c n) := by
  induction n with
  | zero => simp [offsetOf]
  | succ n ih =>
    rw [List.range_succ, List.foldl_append, ih (by omega)]
    simp only [List.foldl_cons, List.foldl_nil]
    have hN : N - n = (N - (n + 1)) + 1 := by omega
    have hset : ((List.range n).map (fun m => (c m).length) ++ List.replicate (N - n) 0).set n
        ((pairs.getD n []).length / 2)
        = (List.range n).map (fun m => (c m).length) ++ [(c n).length]
          ++ List.replicate (N - (n + 1)) 0 := by
      rw [hN, set_append_replicate _ n _ _ _ (by simp), hp n (by omega), flatPairs_length]
      simp
    rw [hset, offsetOf_succ]
    congr 1
    · simp [List.range_succ]
    · congr 1
      rw [List.getD_eq_getElem?_getD, List.getElem?_append_left (by simp),
        List.getElem?_append_right (by simp)]
      simp

theorem elesPerNode_eq (pairs : List (List Nat)) (c : Nat → List (Nat × Nat)) (N : Nat)
    (hp : ∀ m, m < N → pairs.getD m [] = flatPairs (c m)) :
    elesPerNode pairs N = ((List.range N).map (fun m => (c m).length), offsetOf c N) := by
  unfold elesPerNode
  rw [elesPerNode_fold pairs c N N hp (Nat.le_refl _)]
  simp

theorem flatMap_flatPairs_length (c : Nat → List (Nat × Nat)) (n : Nat) :
    ((List.range n).flatMap fun m => flatPairs (c m)).length = 2 * offsetOf c n := by
  induction n with
  | zero => simp [offsetOf]
  | succ n ih =>
    rw [List.range_succ, List.flatMap_append, List.length_append, ih, offsetOf_succ]
    simp [flatPairs_length]
    ring

theorem flatMap_dir_length (c : Nat → List (Nat × Nat)) (n : Nat) :
    ((List.range n).flatMap fun m => [offsetOf c m, (c m).length]).length = 2 * n := by
  induction n with
  | zero => simp
  | succ n ih =>
    rw [List.range_succ, List.flatMap_append, List.length_append, ih]
    simp
    ring

theorem map_range_getD {β : Type} (f : Nat → β) (N n : Nat) (d : β) (h : n < N) :
    ((List.range N).map f).getD n d = f n := by
  simp [List.getD_eq_getElem?_getD, List.getElem?_map, List.getElem?_range h]

theorem flattenNode_fold (pairs : List (List Nat)) (c : Nat → List (Nat × Nat)) (N n : Nat)
    (hp : ∀ m, m < N → pairs.getD m [] = flatPairs (c m)) (hn : n ≤ N) :
    (List.range n).foldl (flattenNode pairs ((List.range N).map fun m => (c m).length))
        { buf := List.replicate (offsetOf c N * 2) 0, p := 0
          dir := List.replicate (N * 2) 0, tracking := 0 }
      = { buf := ((List.range n).flatMap fun m => flatPairs (c m))
            ++ List.replicate (offsetOf c N * 2 - 2 * offsetOf c n) 0
          p := 2 * offsetOf c n
          dir := ((List.range n).flatMap fun m => [offsetOf c m, (c m).length])
            ++ List.replicate (N * 2 - 2 * n) 0
          tracking := offsetOf c n } := by
  induction n with
  | zero => simp [offsetOf]
  | succ n ih =>
    rw [List.range_succ, List.foldl_append, ih (by omega)]
    simp only [List.foldl_cons, List.foldl_nil, flattenNode]
    rw [map_range_getD _ _ _ _ (by omega), hp n (by omega)]
    have hN : N * 2 - 2 * n = (N * 2 - 2 * (n + 1) + 1) + 1 := by omega
    have hdir : ((((List.range n).flatMap fun m => [offsetOf c m, (c m).length])
        ++ List.replicate (N * 2 - 2 * n) 0).set (n * 2 + 0) (offsetOf c n)).set (n * 2 + 1)
          (c n).length
        = ((List.range n ++ [n]).flatMap fun m => [offsetOf c m, (c m).length])
            ++ List.replicate (N * 2 - 2 * (n + 1)) 0 := by
      rw [hN, set_append_replicate _ _ _ _ _ (by rw [flatMap_dir_length]; ring),
        set_append_replicate _ _ _ _ _ (by
          rw [List.length_append, flatMap_dir_length, List.length_singleton]; ring)]
      simp
    rw [hdir]
    have hmono := offsetOf_mono c (show n + 1 ≤ N by omega)
    rw [offsetOf_succ] at hmono
    have := copyPair_fold (c n) ((List.range n).flatMap fun m => flatPairs (c m))
      (((List.range n ++ [n]).flatMap fun m => [offsetOf c m, (c m).length])
            ++ List.replicate (N * 2 - 2 * (n + 1)) 0)
      (offsetOf c n + (c n).length) (offsetOf c N * 2 - 2 * offsetOf c n) (c n).length
      (Nat.le_refl _) (by omega)
    rw [flatMap_flatPairs_length] at this
    rw [this, offsetOf_succ, List.take_length]
    congr 1
    · rw [List.flatMap_append]
      simp
      omega
    · ring

theorem flatMap_dir_getD (c : Nat → List (Nat × Nat)) (N i : Nat) (h : i < N) :
    ((List.range N).flatMap fun m => [offsetOf c m, (c m).length]).getD (i * 2 + 0) 0
        = offsetOf c i ∧
      ((List.range N).flatMap fun m => [offsetOf c m, (c m).length]).getD (i * 2 + 1) 0
        = (c i).length := by
  induction N with
  | zero => omega
  | succ N ih =>
    rw [List.range_succ, List.flatMap_append]
    simp only [List.getD_eq_getElem?_getD] at ih ⊢
    by_cases hi : i < N
    · rw [List.getElem?_append_left (by rw [flatMap_dir_length]; omega),
        List.getElem?_append_left (by rw [flatMap_dir_length]; omega)]
      exact ih hi
    · have : i = N := by omega
      subst this
      rw [List.getElem?_append_right (by rw [flatMap_dir_length]; omega),
        List.getElem?_append_right (by rw [flatMap_dir_length]; omega), flatMap_dir_length]
      have e0 : i * 2 + 0 - 2 * i = 0 := by omega
      have e1 : i * 2 + 1 - 2 * i = 1 := by omega
      rw [e0, e1]
      simp

theorem flatMap_flatPairs_getD (c : Nat → List (Nat × Nat)) (N i j : Nat) (h : i < N)
    (hj : j < (c i).length) :
    ((List.range N).flatMap fun m => flatPairs (c m)).getD ((offsetOf c i + j) * 2 + 0) 0
        = ((c i).getD j (0, 0)).1 ∧
      ((List.range N).flatMap fun m => flatPairs (c m)).getD ((offsetOf c i + j) * 2 + 1) 0
        = ((c i).getD j (0, 0)).2 := by
  induction N with
  | zero => omega
  | succ N ih =>
    rw [List.range_succ, List.flatMap_append]
    simp only [List.getD_eq_getElem?_getD] at ih ⊢
    by_cases hi : i < N
    · have hm := offsetOf_mono c (show i + 1 ≤ N by omega)
      rw [offsetOf_succ] at hm
      rw [List.getElem?_append_left (by rw [flatMap_flatPairs_length]; omega),
        List.getElem?_append_left (by rw [flatMap_flatPairs_length]; omega)]
      exact ih hi
    · have : i = N := by omega
      subst this
      rw [List.getElem?_append_right (by rw [flatMap_flatPairs_length]; omega),
        List.getElem?_append_right (by rw [flatMap_flatPairs_length]; omega),
        flatMap_flatPairs_length]
      have e0 : (offsetOf c i + j) * 2 + 0 - 2 * offsetOf c i = j * 2 + 0 := by omega
      have e1 : (offsetOf c i + j) * 2 + 1 - 2 * offsetOf c i = j * 2 + 1 := by omega
      rw [e0, e1]
      have := flatPairs_getD (c i) j hj
      simp only [List.getD_eq_getElem?_getD] at this
      simpa using this

/-- What `postCreate` leaves in the buffer and in the directory. -/
theorem postCreate_eq {α : Type} (model : Model α) :
    model.postCreate.m_ele_node_local_idx_pair
        = ((List.range model.m_nodes.length).flatMap fun m =>
            flatPairs (cornersAt model.m_tets m)) ∧
      model.postCreate.m_tracking_num_eles_i_eles_per_node_j
        = ((List.range model.m_nodes.length).flatMap fun m =>
            [offsetOf (cornersAt model.m_tets) m, (cornersAt model.m_tets m).length]) := by
  have hp : ∀ m, m < model.m_nodes.length →
      (nodes_ele_node_local_idx_pair model.m_nodes.length model.m_tets).getD m []
        = flatPairs (cornersAt model.m_tets m) :=
    fun m hm => nodes_ele_node_local_idx_pair_getD _ _ _ hm
  have he := elesPerNode_eq _ (cornersAt model.m_tets) _ hp
  have hf := flattenNode_fold _ (cornersAt model.m_tets) model.m_nodes.length
    model.m_nodes.length hp (Nat.le_refl _)
  unfold Model.postCreate
  simp only [he, hf]
  constructor
  · have : offsetOf (cornersAt model.m_tets) model.m_nodes.length * 2
        - 2 * offsetOf (cornersAt model.m_tets) model.m_nodes.length = 0 := by omega
    rw [this]; simp
  · have : model.m_nodes.length * 2 - 2 * model.m_nodes.length = 0 := by omega
    rw [this]; simp

theorem slice_postCreate {α : Type} (model : Model α) (i : Nat) (h : i < model.m_nodes.length) :
    slice model.postCreate i = cornersAt model.m_tets i := by
  obtain ⟨hb, hd⟩ := postCreate_eq model
  obtain ⟨h0, h1⟩ := flatMap_dir_getD (cornersAt model.m_tets) _ i h
  unfold slice
  rw [hb, hd, h0, h1]
  apply List.ext_getElem
  · simp
  · intro n hn1 hn2
    simp only [List.length_map, List.length_range] at hn1
    obtain ⟨g0, g1⟩ := flatMap_flatPairs_getD (cornersAt model.m_tets) _ i n h hn1
    simp only [List.getElem_map, List.getElem_range, g0, g1]
    simp [List.getD_eq_getElem?_getD, List.getElem?_eq_getElem hn2]

end PostCreateLemmas

section ConnectivityLemmas
variable {α : Type}

theorem mem_cornersAt (tets : List (T4 α)) (i : Nat) (c : Nat × Nat) :
    c ∈ cornersAt tets i ↔
      ∃ tet ∈ tets, ∃ m : Fin 4, tet.m_n_idx m = i ∧ c = (tet.m_idx, m.val) := by
  simp only [cornersAt, List.mem_flatMap, List.mem_map, List.mem_filter, List.mem_finRange,
    true_and, decide_eq_true_eq]
  constructor
  · rintro ⟨tet, ht, m, hm, rfl⟩
    exact ⟨tet, ht, m, hm, rfl⟩
  · rintro ⟨tet, ht, m, hm, rfl⟩
    exact ⟨tet, ht, m, hm, rfl⟩

theorem count_of_nodup {β : Type} [BEq β] [LawfulBEq β] (l : List β) (a : β) (d : l.Nodup) :
    l.count a = if a ∈ l then 1 else 0 := by
  induction l with
  | nil => simp
  | cons b t ih =>
    rw [List.nodup_cons] at d
    rw [List.count_cons, ih d.2]
    by_cases hb : b = a
    · subst hb
      simp [d.1]
    · have hb' : ¬ a = b := fun h => hb h.symm
      simp [hb, hb']

theorem cornersAt_single_nodup (tet : T4 α) (i : Nat) : (cornersAt [tet] i).Nodup := by
  simp only [cornersAt, List.flatMap_cons, List.flatMap_nil, List.append_nil]
  apply List.Nodup.map
  · intro a b hab
    simp only [Prod.mk.injEq, true_and] at hab
    exact Fin.ext hab
  · exact List.Nodup.filter _ (List.nodup_finRange 4)

theorem count_cornersAt_single (tet : T4 α) (i a : Nat) (m : Fin 4) :
    List.count (a, m.val) (cornersAt [tet] i)
      = if tet.m_idx = a ∧ tet.m_n_idx m = i then 1 else 0 := by
  rw [count_of_nodup _ _ (cornersAt_single_nodup tet i)]
  have : (a, m.val) ∈ cornersAt [tet] i ↔ tet.m_idx = a ∧ tet.m_n_idx m = i := by
    rw [mem_cornersAt]
    constructor
    · rintro ⟨t, ht, m', hm', hc⟩
      simp only [List.mem_singleton] at ht
      subst ht
      simp only [Prod.mk.injEq] at hc
      have hmm : m = m' := Fin.ext hc.2
      subst hmm
      exact ⟨hc.1.symm, hm'⟩
    · rintro ⟨h1, h2⟩
      exact ⟨tet, by simp, m, h2, by rw [h1]⟩
  simp only [this]

theorem count_cornersAt (tets : List (T4 α)) (h : (tets.map fun t => t.m_idx).Nodup)
    (i a : Nat) (m : Fin 4) :
    List.count (a, m.val) (cornersAt tets i)
      = if ∃ tet ∈ tets, tet.m_idx = a ∧ tet.m_n_idx m = i then 1 else 0 := by
  induction tets with
  | nil => simp [cornersAt]
  | cons t ts ih =>
    rw [cornersAt_cons, List.count_append, count_cornersAt_single]
    simp only [List.map_cons, List.nodup_cons, List.mem_map, not_exists, not_and] at h
    rw [ih h.2]
    by_cases ha : t.m_idx = a
    · have hno : ¬ ∃ tet ∈ ts, tet.m_idx = a ∧ tet.m_n_idx m = i := by
        rintro ⟨tet, ht, hid, -⟩
        exact h.1 tet ht (hid.trans ha.symm)
      by_cases hn : t.m_n_idx m = i
      · simp [ha, hn, hno]
      · have hno2 : ¬ ∃ tet ∈ t :: ts, tet.m_idx = a ∧ tet.m_n_idx m = i := by
          rintro ⟨tet, ht, hid, hnn⟩
          rcases List.mem_cons.1 ht with rfl | ht
          · exact hn hnn
          · exact hno ⟨tet, ht, hid, hnn⟩
        simp [hn, hno, hno2]
    · by_cases hex : ∃ tet ∈ ts, tet.m_idx = a ∧ tet.m_n_idx m = i
      · have : ∃ tet ∈ t :: ts, tet.m_idx = a ∧ tet.m_n_idx m = i := by
          obtain ⟨tet, ht, hh⟩ := hex
          exact ⟨tet, List.mem_cons_of_mem _ ht, hh⟩
        simp [ha, hex, this]
      · have : ¬ ∃ tet ∈ t :: ts, tet.m_idx = a ∧ tet.m_n_idx m = i := by
          rintro ⟨tet, ht, hid, hnn⟩
          rcases List.mem_cons.1 ht with rfl | ht
          · exact ha hid
          · exact hex ⟨tet, ht, hid, hnn⟩
        simp [ha, hex, this]

end ConnectivityLemmas

section VisitLemmas

theorem foldl_flatMap {β γ δ : Type} (l : List β) (f : β → List γ) (g : δ → γ → δ) (a : δ) :
    (l.flatMap f).foldl g a = l.foldl (fun a x => (f x).foldl g a) a := by
  induction l generalizing a with
  | nil => rfl
  | cons x t ih => rw [List.flatMap_cons, List.foldl_append, ih, List.foldl_cons]

theorem mem_stridedLoop (T size fuel i x : Nat) :
    x ∈ stridedLoop T size fuel i ↔ ∃ k, k < fuel ∧ x = i + k * T ∧ x < size := by
  induction fuel generalizing i with
  | zero => simp [stridedLoop]
  | succ fuel ih =>
    unfold stridedLoop
    by_cases hi : i < size
    · rw [if_pos hi, List.mem_cons, ih]
      constructor
      · rintro (rfl | ⟨k, hk, rfl, hx⟩)
        · exact ⟨0, by omega, by simp, hi⟩
        · exact ⟨k + 1, by omega, by ring, hx⟩
      · rintro ⟨k, hk, rfl, hx⟩
        cases k with
        | zero => left; simp
        | succ k => right; exact ⟨k, by omega, by ring, hx⟩
    · rw [if_neg hi]
      simp only [List.not_mem_nil, false_iff, not_exists, not_and]
      intro k _ hx hlt
      have : i ≤ x := by rw [hx]; exact Nat.le_add_right _ _
      omega

theorem mem_visitOrder (T size x : Nat) (hT : 1 ≤ T) : x ∈ visitOrder T size ↔ x < size := by
  simp only [visitOrder, strided, List.mem_flatMap, List.mem_range, mem_stridedLoop]
  constructor
  · rintro ⟨_, _, _, _, _, hx⟩
    exact hx
  · intro hx
    refine ⟨x % T, Nat.mod_lt _ hT, x / T, ?_, ?_, hx⟩
    · exact lt_of_le_of_lt (Nat.div_le_self _ _) hx
    · rw [Nat.mul_comm]; exact (Nat.mod_add_div x T).symm

theorem stridedLoop_pairwise (T size fuel i : Nat) (hT : 1 ≤ T) :
    (stridedLoop T size fuel i).Pairwise (· < ·) := by
  induction fuel generalizing i with
  | zero => simp [stridedLoop]
  | succ fuel ih =>
    unfold stridedLoop
    by_cases hi : i < size
    · rw [if_pos hi, List.pairwise_cons]
      refine ⟨?_, ih _⟩
      intro y hy
      rw [mem_stridedLoop] at hy
      obtain ⟨k, _, rfl, _⟩ := hy
      have : 0 ≤ k * T := Nat.zero_le _
      omega
    · rw [if_neg hi]; exact List.Pairwise.nil

theorem visitOrder_nodup (T size : Nat) (hT : 1 ≤ T) : (visitOrder T size).Nodup := by
  unfold visitOrder
  rw [List.nodup_flatMap]
  constructor
  · intro id _
    exact (stridedLoop_pairwise T size size id hT).imp (fun h => Nat.ne_of_lt h)
  · have hnd := List.nodup_range T
    refine List.Pairwise.imp_of_mem ?_ hnd
    intro a b ha hb hab
    simp only [Function.onFun, strided]
    intro x hxa hxb
    rw [mem_stridedLoop] at hxa hxb
    obtain ⟨k1, _, h1, _⟩ := hxa
    obtain ⟨k2, _, h2, _⟩ := hxb
    have ha' : a < T := List.mem_range.1 ha
    have hb' : b < T := List.mem_range.1 hb
    have e1 : x % T = a := by rw [h1, Nat.add_mul_mod_self_right, Nat.mod_eq_of_lt ha']
    have e2 : x % T = b := by rw [h2, Nat.add_mul_mod_self_right, Nat.mod_eq_of_lt hb']
    exact hab (e1.symm.trans e2)

end VisitLemmas

section GatherLemmas
variable {α : Type}

theorem gather_eq_foldl_slice [Add α] [Zero α] (model : Model α) (modelstates : ModelStates α)
    (i : Nat) :
    gather model modelstates i
      = (slice model i).foldl
          (fun (acc : (Fin 3 → α) × α) c =>
            (fun n => acc.1 n
                + rd modelstates.m_ele_nodal_internal_F (c.1 * 12 + c.2 * 3 + n.val),
              acc.2 + rd modelstates.m_ele_nodal_internal_Q (c.1 * 4 + c.2)))
          (fun _ => 0, 0) := by
  unfold gather slice
  rw [List.foldl_map]

theorem foldl_gather_eq [AddMonoid α] (F : Nat → Nat → Fin 3 → α) (Q : Nat → Nat → α)
    (l : List (Nat × Nat)) (a : (Fin 3 → α) × α) :
    l.foldl (fun (acc : (Fin 3 → α) × α) c => (fun n => acc.1 n + F c.1 c.2 n, acc.2 + Q c.1 c.2)) a
      = (fun n => a.1 n + (l.map fun c => F c.1 c.2 n).sum, a.2 + (l.map fun c => Q c.1 c.2).sum) := by
  induction l generalizing a with
  | nil => simp
  | cons c t ih =>
    rw [List.foldl_cons, ih]
    simp only [List.map_cons, List.sum_cons, add_assoc]

theorem sum_cornersAt [AddMonoid α] (tets : List (T4 α)) (i : Nat) (g : Nat → Nat → α) :
    ((cornersAt tets i).map fun c => g c.1 c.2).sum
      = (tets.map fun tet =>
          ((List.finRange 4).map fun m =>
            if tet.m_n_idx m = i then g tet.m_idx m.val else 0).sum).sum := by
  induction tets with
  | nil => simp [cornersAt]
  | cons t ts ih =>
    rw [cornersAt_cons, List.map_append, List.sum_append, ih, List.map_cons, List.sum_cons]
    congr 1
    simp only [cornersAt, List.flatMap_cons, List.flatMap_nil, List.append_nil,
      show List.finRange 4 = [0, 1, 2, 3] from rfl, List.filter_cons, List.filter_nil]
    by_cases h0 : t.m_n_idx 0 = i <;> by_cases h1 : t.m_n_idx 1 = i <;>
      by_cases h2 : t.m_n_idx 2 = i <;> by_cases h3 : t.m_n_idx 3 = i <;>
      simp [h0, h1, h2, h3]

end GatherLemmas

section NodeLemmas
variable {α : Type} [Add α] [Sub α] [Mul α] [Zero α] [DecidableEq α]

omit [Add α] [Sub α] [Mul α] [DecidableEq α] in
theorem rd_set_self (l : List α) (k : Nat) (v : α) (h : k < l.length) : rd (l.set k v) k = v := by
  unfold rd
  rw [getD_set_of_lt _ _ _ _ _ h, if_pos rfl]

theorem dofIter_eq (lm : Libm α) (ms : ModelStates α) (F : Fin 3 → α) (i : Nat)
    (s : List α × Bool) (j : Fin 3) (h : i * 3 + j.val < s.1.length) :
    dofIter lm ms F i s j
      = (s.1.set (i * 3 + j.val) (nextUValue ms F i j),
          s.2 && !(integratedU ms (i * 3 + j.val) && lm.isnan (nextUValue ms F i j))) := by
  unfold dofIter nextUValue integratedU
  simp only [rd_set_self _ _ _ h]
  generalize ms.m_fixP_flag.getD (i * 3 + j.val) false = b
  by_cases h1 : rd ms.m_disp_mag_t (i * 3 + j.val) = 0
  · cases b
    · simp only [h1, ne_eq, not_true_eq_false, if_false, Bool.false_eq_true, decide_True,
        Bool.not_false, Bool.and_self, Bool.true_and]
      cases s.2 <;> cases lm.isnan _ <;> rfl
    · simp [h1]
  · simp [h1]

theorem nodeIter_eq (lm : Libm α) (model : Model α) (ms : ModelStates α) (U T : List α)
    (ne : Bool) (i : Nat) (hU : i * 3 + 2 < U.length) (hT : i < T.length) :
    nodeIter lm model (withNext ms U T, ne) i
      = (withNext ms (writeNodeU U i (nextUValue ms (gather model ms i).1 i))
            (T.set i (nextTValue ms (gather model ms i).2 i)),
          ne && nodeNoErr lm model ms i) := by
  have hg : gather model (withNext ms U T) i = gather model ms i := rfl
  have hv : ∀ F j, nextUValue (withNext ms U T) F i j = nextUValue ms F i j := fun _ _ => rfl
  have hi : ∀ k, integratedU (withNext ms U T) k = integratedU ms k := fun _ => rfl
  unfold nodeIter
  simp only [show List.finRange 3 = [0, 1, 2] from rfl, List.foldl_cons, List.foldl_nil, hg]
  have e3 : (withNext ms U T).m_next_U = U := rfl
  rw [e3, dofIter_eq lm _ _ i (U, ne) 0 (by simp only [Fin.val_zero]; omega)]
  rw [dofIter_eq lm _ _ i _ 1 (by simp only [List.length_set, Fin.val_one]; omega)]
  rw [dofIter_eq lm _ _ i _ 2 (by simp only [List.length_set, Fin.val_two]; omega)]
  simp only [hv, hi]
  unfold nodeNoErr nextTValue writeNodeU
  simp only [show List.finRange 3 = [0, 1, 2] from rfl, List.all_cons, List.all_nil]
  have e1 : (withNext ms U T).m_fixT_flag = ms.m_fixT_flag := rfl
  have e2 : (withNext ms U T).m_next_T = T := rfl
  have e4 : (withNext ms U T).m_fixT_mag = ms.m_fixT_mag := rfl
  have e5 : (withNext ms U T).m_curr_T = ms.m_curr_T := rfl
  have e6 : (withNext ms U T).m_constA = ms.m_constA := rfl
  have e7 : (withNext ms U T).m_external_Q = ms.m_external_Q := rfl
  simp only [e1, e2, e4, e5, e6, e7, rd_set_self _ _ _ hT]
  generalize ms.m_fixT_flag.getD i false = b
  cases b
  · simp only [Bool.false_eq_true, if_false, Bool.not_false, Bool.true_and, Bool.and_true]
    congr 1
    generalize lm.isnan (rd ms.m_curr_T i + _) = x
    generalize (!(integratedU ms (i * 3 + (0 : Fin 3).val) && _)) = a0
    generalize (!(integratedU ms (i * 3 + (1 : Fin 3).val) && _)) = a1
    generalize (!(integratedU ms (i * 3 + (2 : Fin 3).val) && _)) = a2
    cases ne <;> cases x <;> cases a0 <;> cases a1 <;> cases a2 <;> rfl
  · simp only [if_true, Bool.not_true, Bool.false_and, Bool.not_false, Bool.and_true]
    congr 1
    simp only [Bool.and_assoc]

omit [Add α] [Sub α] [Mul α] [DecidableEq α] in
theorem rd_set_ne (l : List α) (k i : Nat) (v : α) (h : k ≠ i) : rd (l.set k v) i = rd l i :=
  getD_set_ne _ _ _ _ _ h

omit [Add α] [Sub α] [Mul α] [DecidableEq α] in
theorem rd_set (l : List α) (k i : Nat) (v : α) (h : i < l.length) :
    rd (l.set k v) i = if k = i then v else rd l i :=
  getD_set_of_lt _ _ _ _ _ h

omit [Add α] [Sub α] [Mul α] [DecidableEq α] in
theorem rd_writeNodeU (U : List α) (a : Nat) (v : Fin 3 → α) (hU : a * 3 + 2 < U.length)
    (i : Nat) (j : Fin 3) :
    rd (writeNodeU U a v) (i * 3 + j.val) = if i = a then v j else rd U (i * 3 + j.val) := by
  unfold writeNodeU
  by_cases hi : i = a
  · subst hi
    rw [if_pos rfl]
    fin_cases j
    · rw [rd_set_ne _ _ _ _ (by simp), rd_set_ne _ _ _ _ (by simp), rd_set_self _ _ _ (by omega)]
      rfl
    · rw [rd_set_ne _ _ _ _ (by simp), rd_set_self _ _ _ (by simp only [List.length_set]; omega)]
      rfl
    · rw [rd_set_self _ _ _ (by simp only [List.length_set]; omega)]
      rfl
  · rw [if_neg hi]
    have := j.isLt
    rw [rd_set_ne _ _ _ _ (by omega), rd_set_ne _ _ _ _ (by omega), rd_set_ne _ _ _ _ (by omega)]

omit [Add α] [Sub α] [Mul α] [Zero α] [DecidableEq α] in
theorem writeNodeU_length (U : List α) (a : Nat) (v : Fin 3 → α) :
    (writeNodeU U a v).length = U.length := by
  simp [writeNodeU]

theorem foldl_nodeIter (lm : Libm α) (model : Model α) (ms : ModelStates α) (N : Nat)
    (L : List Nat) (hL : ∀ i ∈ L, i < N) (U T : List α) (ne : Bool)
    (hU : U.length = N * 3) (hT : T.length = N) :
    ∃ U' T', L.foldl (nodeIter lm model) (withNext ms U T, ne)
        = (withNext ms U' T', ne && L.all (nodeNoErr lm model ms)) ∧
      U'.length = N * 3 ∧ T'.length = N ∧
      (∀ i (j : Fin 3), rd U' (i * 3 + j.val)
        = if i ∈ L then nextUValue ms (gather model ms i).1 i j else rd U (i * 3 + j.val)) ∧
      (∀ i, rd T' i = if i ∈ L then nextTValue ms (gather model ms i).2 i else rd T i) := by
  induction L generalizing U T ne with
  | nil => exact ⟨U, T, by simp, hU, hT, by simp, by simp⟩
  | cons a L ih =>
    have ha : a < N := hL a (List.mem_cons_self _ _)
    have hU' : a * 3 + 2 < U.length := by omega
    rw [List.foldl_cons, nodeIter_eq lm model ms U T ne a hU' (by omega)]
    obtain ⟨U', T', h1, h2, h3, h4, h5⟩ :=
      ih (fun i hi => hL i (List.mem_cons_of_mem _ hi))
        (writeNodeU U a (nextUValue ms (gather model ms a).1 a))
        (T.set a (nextTValue ms (gather model ms a).2 a)) (ne && nodeNoErr lm model ms a)
        (by rw [writeNodeU_length, hU]) (by rw [List.length_set, hT])
    refine ⟨U', T', ?_, h2, h3, ?_, ?_⟩
    · rw [h1, List.all_cons, Bool.and_assoc]
    · intro i j
      rw [h4 i j, rd_writeNodeU _ _ _ hU']
      by_cases hi : i ∈ L
      · simp [hi]
      · by_cases hia : i = a
        · subst hia; simp
        · simp [hi, hia]
    · intro i
      rw [h5 i]
      by_cases hi : i ∈ L
      · simp [hi]
      · by_cases hia : i = a
        · subst hia
          rw [if_neg hi, rd_set_self _ _ _ (by omega)]
          simp
        · rw [if_neg hi, rd_set_ne _ _ _ _ (fun h => hia h.symm)]
          simp [hi, hia]

omit [Add α] [Sub α] [Mul α] [Zero α] [DecidableEq α] in
theorem withNext_self (ms : ModelStates α) : withNext ms ms.m_next_U ms.m_next_T = ms := rfl

/-- What the node pass leaves: only `m_next_U` and `m_next_T` change, every
node gets the values of its own iteration, and `no_err` tells whether some
iteration found a NaN. -/
theorem nodePass_spec (lm : Libm α) (NUM_THREADS : Nat) (hT : 1 ≤ NUM_THREADS) (model : Model α)
    (ms : ModelStates α) (hU : ms.m_next_U.length = model.m_nodes.length * 3)
    (hTl : ms.m_next_T.length = model.m_nodes.length) :
    (nodePass lm NUM_THREADS model ms).1
        = withNext ms (nodePass lm NUM_THREADS model ms).1.m_next_U
            (nodePass lm NUM_THREADS model ms).1.m_next_T ∧
      (nodePass lm NUM_THREADS model ms).1.m_next_U.length = model.m_nodes.length * 3 ∧
      (nodePass lm NUM_THREADS model ms).1.m_next_T.length = model.m_nodes.length ∧
      (∀ i, i < model.m_nodes.length → ∀ j : Fin 3,
        rd (nodePass lm NUM_THREADS model ms).1.m_next_U (i * 3 + j.val)
          = nextUValue ms (gather model ms i).1 i j) ∧
      (∀ i, i < model.m_nodes.length →
        rd (nodePass lm NUM_THREADS model ms).1.m_next_T i
          = nextTValue ms (gather model ms i).2 i) ∧
      (nodePass lm NUM_THREADS model ms).2
        = (visitOrder NUM_THREADS model.m_nodes.length).all (nodeNoErr lm model ms) := by
  have hfold : nodePass lm NUM_THREADS model ms
      = (visitOrder NUM_THREADS model.m_nodes.length).foldl (nodeIter lm model) (ms, true) := by
    unfold nodePass visitOrder
    rw [foldl_flatMap]
  obtain ⟨U', T', h1, h2, h3, h4, h5⟩ :=
    foldl_nodeIter lm model ms model.m_nodes.length (visitOrder NUM_THREADS model.m_nodes.length)
      (fun i hi => (mem_visitOrder _ _ _ hT).1 hi) ms.m_next_U ms.m_next_T true hU hTl
  rw [withNext_self] at h1
  rw [hfold, h1]
  refine ⟨rfl, h2, h3, ?_, ?_, by simp⟩
  · intro i hi j
    have := h4 i j
    rw [if_pos ((mem_visitOrder _ _ _ hT).2 hi)] at this
    exact this
  · intro i hi
    have := h5 i
    rw [if_pos ((mem_visitOrder _ _ _ hT).2 hi)] at this
    exact this

end NodeLemmas

section ScatterLemmas
variable {α : Type} [Zero α]

theorem fin4_val : ((0 : Fin 4) : ℕ) = 0 ∧ ((1 : Fin 4) : ℕ) = 1 ∧ ((2 : Fin 4) : ℕ) = 2
    ∧ ((3 : Fin 4) : ℕ) = 3 := ⟨rfl, rfl, rfl, rfl⟩

theorem fin3_val : ((0 : Fin 3) : ℕ) = 0 ∧ ((1 : Fin 3) : ℕ) = 1 ∧ ((2 : Fin 3) : ℕ) = 2 :=
  ⟨rfl, rfl, rfl⟩

omit [Zero α] in
theorem scatterF_length (buf : List α) (idx : Nat) (f : Mat34 α) :
    (scatterF buf idx f).length = buf.length := by
  simp [scatterF, show List.finRange 4 = [0, 1, 2, 3] from rfl,
    show List.finRange 3 = [0, 1, 2] from rfl]

omit [Zero α] in
theorem scatterQ_length (buf : List α) (idx : Nat) (q : Fin 4 → α) :
    (scatterQ buf idx q).length = buf.length := by
  simp [scatterQ, show List.finRange 4 = [0, 1, 2, 3] from rfl]

theorem rd_scatterQ (buf : List α) (idx : Nat) (q : Fin 4 → α) (h : idx * 4 + 3 < buf.length)
    (p : Nat) (m : Fin 4) :
    rd (scatterQ buf idx q) (p * 4 + m.val) = if p = idx then q m else rd buf (p * 4 + m.val) := by
  simp only [scatterQ, show List.finRange 4 = [0, 1, 2, 3] from rfl, List.foldl_cons,
    List.foldl_nil]
  by_cases hp : p = idx
  · subst hp
    rw [if_pos rfl]
    simp only [rd, List.getD_eq_getElem?_getD, List.getElem?_set, List.length_set]
    fin_cases m <;> simp only [fin4_val] <;> split_ifs <;> first | rfl | omega
  · rw [if_neg hp]
    have := m.isLt
    rw [rd_set_ne _ _ _ _ (by simp; omega), rd_set_ne _ _ _ _ (by simp; omega),
      rd_set_ne _ _ _ _ (by simp; omega), rd_set_ne _ _ _ _ (by simp; omega)]

theorem rd_scatterF (buf : List α) (idx : Nat) (f : Mat34 α) (h : idx * 12 + 11 < buf.length)
    (p : Nat) (m : Fin 4) (n : Fin 3) :
    rd (scatterF buf idx f) (p * 12 + m.val * 3 + n.val)
      = if p = idx then f n m else rd buf (p * 12 + m.val * 3 + n.val) := by
  simp only [scatterF, show List.finRange 4 = [0, 1, 2, 3] from rfl,
    show List.finRange 3 = [0, 1, 2] from rfl, List.foldl_cons, List.foldl_nil]
  by_cases hp : p = idx
  · rw [if_pos hp, hp]
    simp only [rd, List.getD_eq_getElem?_getD, List.getElem?_set, List.length_set]
    have h0 : idx * 12 < buf.length := by omega
    have h1 : idx * 12 + 1 < buf.length := by omega
    have h2 : idx * 12 + 2 < buf.length := by omega
    have h3 : idx * 12 + 3 < buf.length := by omega
    have h4 : idx * 12 + 4 < buf.length := by omega
    have h5 : idx * 12 + 5 < buf.length := by omega
    have h6 : idx * 12 + 6 < buf.length := by omega
    have h7 : idx * 12 + 7 < buf.length := by omega
    have h8 : idx * 12 + 8 < buf.length := by omega
    have h9 : idx * 12 + 9 < buf.length := by omega
    have h10 : idx * 12 + 10 < buf.length := by omega
    fin_cases m <;> fin_cases n <;>
      simp [fin4_val, fin3_val, Nat.add_assoc, h0, h1, h2, h3, h4, h5, h6, h7, h8, h9, h10, h]
  · rw [if_neg hp]
    have := m.isLt
    have := n.isLt
    rw [rd_set_ne _ _ _ _ (by simp; omega), rd_set_ne _ _ _ _ (by simp; omega),
      rd_set_ne _ _ _ _ (by simp; omega), rd_set_ne _ _ _ _ (by simp; omega),
      rd_set_ne _ _ _ _ (by simp; omega), rd_set_ne _ _ _ _ (by simp; omega),
      rd_set_ne _ _ _ _ (by simp; omega), rd_set_ne _ _ _ _ (by simp; omega),
      rd_set_ne _ _ _ _ (by simp; omega), rd_set_ne _ _ _ _ (by simp; omega),
      rd_set_ne _ _ _ _ (by simp; omega), rd_set_ne _ _ _ _ (by simp; omega)]

end ScatterLemmas

section ElementLemmas
variable {α : Type} [Add α] [Sub α] [Mul α] [Div α] [Neg α] [Zero α] [One α] [NatCast α]

theorem elementIter_eq (lm : Libm α) (T0 : α) (tets : List (T4 α)) (ms : ModelStates α)
    (F Q : List α) (p : Nat) (tet : T4 α) (h : tets[p]? = some tet) :
    elementIter lm T0 (tets, withBuffers ms F Q) p
      = (tets.set p (elementKernel lm T0 ms.m_curr_U ms.m_curr_T tet).tet,
          withBuffers ms
            (scatterF F tet.m_idx (elementKernel lm T0 ms.m_curr_U ms.m_curr_T tet).f)
            (scatterQ Q tet.m_idx (elementKernel lm T0 ms.m_curr_U ms.m_curr_T tet).q)) := by
  unfold elementIter
  simp only [List.get?_eq_getElem?, h]
  rfl

theorem elementKernel_idx (lm : Libm α) (T0 : α) (U T : List α) (tet : T4 α) :
    (elementKernel lm T0 U T tet).tet.m_idx = tet.m_idx ∧
      (elementKernel lm T0 U T tet).tet.m_n_idx = tet.m_n_idx := ⟨rfl, rfl⟩

theorem foldl_elementIter (lm : Libm α) (T0 : α) (ms : ModelStates α) (L : List Nat)
    (hnd : L.Nodup) (tets : List (T4 α)) (F Q : List α) (hL : ∀ p ∈ L, p < tets.length)
    (hid : ∀ (p : Nat) (tet : T4 α), tets[p]? = some tet → tet.m_idx = p)
    (hF : F.length = tets.length * 12) (hQ : Q.length = tets.length * 4) :
    ∃ tets' F' Q', L.foldl (elementIter lm T0) (tets, withBuffers ms F Q)
        = (tets', withBuffers ms F' Q') ∧
      tets'.length = tets.length ∧ F'.length = F.length ∧ Q'.length = Q.length ∧
      (∀ (p : Nat) (tet : T4 α), tets[p]? = some tet → tets'[p]? = some
        (if p ∈ L then (elementKernel lm T0 ms.m_curr_U ms.m_curr_T tet).tet else tet)) ∧
      (∀ (p : Nat) (tet : T4 α), tets[p]? = some tet → ∀ (m : Fin 4) (n : Fin 3),
        rd F' (p * 12 + m.val * 3 + n.val)
          = if p ∈ L then (elementKernel lm T0 ms.m_curr_U ms.m_curr_T tet).f n m
            else rd F (p * 12 + m.val * 3 + n.val)) ∧
      (∀ (p : Nat) (tet : T4 α), tets[p]? = some tet → ∀ m : Fin 4,
        rd Q' (p * 4 + m.val)
          = if p ∈ L then (elementKernel lm T0 ms.m_curr_U ms.m_curr_T tet).q m
            else rd Q (p * 4 + m.val)) := by
  induction L generalizing tets F Q with
  | nil =>
    exact ⟨tets, F, Q, rfl, rfl, rfl, rfl, fun p tet h => by simpa using h,
      fun _ _ _ _ _ => by simp, fun _ _ _ _ => by simp⟩
  | cons a L ih =>
    have ha : a < tets.length := hL a (List.mem_cons_self _ _)
    rw [List.nodup_cons] at hnd
    have hta : tets[a]? = some tets[a] := List.getElem?_eq_getElem ha
    have hida : tets[a].m_idx = a := hid a _ hta
    rw [List.foldl_cons, elementIter_eq lm T0 tets ms F Q a _ hta, hida]
    have hid1 : ∀ (p : Nat) (tet : T4 α), (tets.set a (elementKernel lm T0 ms.m_curr_U ms.m_curr_T tets[a]).tet)[p]?
        = some tet → tet.m_idx = p := by
      intro p tet h
      rw [List.getElem?_set] at h
      by_cases hp : a = p
      · rw [if_pos hp, if_pos ha] at h
        cases h
        rw [← hp]
        exact hida
      · rw [if_neg hp] at h
        exact hid p tet h
    obtain ⟨tets', F', Q', h1, h2, h3, h4, h5, h6, h7⟩ :=
      ih hnd.2 (tets.set a (elementKernel lm T0 ms.m_curr_U ms.m_curr_T tets[a]).tet)
        (scatterF F a (elementKernel lm T0 ms.m_curr_U ms.m_curr_T tets[a]).f)
        (scatterQ Q a (elementKernel lm T0 ms.m_curr_U ms.m_curr_T tets[a]).q)
        (by intro p hp; rw [List.length_set]; exact hL p (List.mem_cons_of_mem _ hp))
        hid1 (by rw [scatterF_length, List.length_set, hF])
        (by rw [scatterQ_length, List.length_set, hQ])
    refine ⟨tets', F', Q', h1, ?_, ?_, ?_, ?_, ?_, ?_⟩
    · rw [h2, List.length_set]
    · rw [h3, scatterF_length]
    · rw [h4, scatterQ_length]
    · intro p tet hp
      by_cases hpa : a = p
      · subst hpa
        have : tet = tets[a] := by rw [hta] at hp; cases hp; rfl
        subst this
        have := h5 a _ (by rw [List.getElem?_set, if_pos rfl, if_pos ha])
        rw [this, if_neg hnd.1]
        simp
      · have := h5 p tet (by rw [List.getElem?_set, if_neg hpa]; exact hp)
        rw [this]
        have hpa' : ¬ p = a := fun h => hpa h.symm
        simp [hpa']
    · intro p tet hp m n
      by_cases hpa : a = p
      · subst hpa
        have : tet = tets[a] := by rw [hta] at hp; cases hp; rfl
        subst this
        have := h6 a _ (by rw [List.getElem?_set, if_pos rfl, if_pos ha]) m n
        rw [this, if_neg hnd.1, rd_scatterF _ _ _ (by omega)]
        simp
      · have := h6 p tet (by rw [List.getElem?_set, if_neg hpa]; exact hp) m n
        rw [this, rd_scatterF _ _ _ (by omega)]
        have hpa' : ¬ p = a := fun h => hpa h.symm
        simp [hpa']
    · intro p tet hp m
      by_cases hpa : a = p
      · subst hpa
        have : tet = tets[a] := by rw [hta] at hp; cases hp; rfl
        subst this
        have := h7 a _ (by rw [List.getElem?_set, if_pos rfl, if_pos ha]) m
        rw [this, if_neg hnd.1, rd_scatterQ _ _ _ (by omega)]
        simp
      · have := h7 p tet (by rw [List.getElem?_set, if_neg hpa]; exact hp) m
        rw [this, rd_scatterQ _ _ _ (by omega)]
        have hpa' : ¬ p = a := fun h => hpa h.symm
        simp [hpa']

/-- What the element pass leaves, for tetrahedra whose ids are their positions:
every tetrahedron has been through the kernel once, and its slices of the two
per-corner buffers hold the kernel's corner forces and corner heat flows. -/
theorem elementPass_spec (lm : Libm α) (NUM_THREADS : Nat) (hT : 1 ≤ NUM_THREADS)
    (model : Model α) (ms : ModelStates α)
    (hid : ∀ (p : Nat) (tet : T4 α), model.m_tets[p]? = some tet → tet.m_idx = p)
    (hF : ms.m_ele_nodal_internal_F.length = model.m_tets.length * 12)
    (hQ : ms.m_ele_nodal_internal_Q.length = model.m_tets.length * 4) :
    (elementPass lm NUM_THREADS model ms).2
        = withBuffers ms (elementPass lm NUM_THREADS model ms).2.m_ele_nodal_internal_F
            (elementPass lm NUM_THREADS model ms).2.m_ele_nodal_internal_Q ∧
      (elementPass lm NUM_THREADS model ms).1.length = model.m_tets.length ∧
      (elementPass lm NUM_THREADS model ms).2.m_ele_nodal_internal_F.length
        = model.m_tets.length * 12 ∧
      (elementPass lm NUM_THREADS model ms).2.m_ele_nodal_internal_Q.length
        = model.m_tets.length * 4 ∧
      (∀ (p : Nat) (tet : T4 α), model.m_tets[p]? = some tet →
        (elementPass lm NUM_THREADS model ms).1[p]?
          = some (elementKernel lm model.m_T0 ms.m_curr_U ms.m_curr_T tet).tet) ∧
      (∀ (p : Nat) (tet : T4 α), model.m_tets[p]? = some tet → ∀ (m : Fin 4) (n : Fin 3),
        rd (elementPass lm NUM_THREADS model ms).2.m_ele_nodal_internal_F
            (p * 12 + m.val * 3 + n.val)
          = (elementKernel lm model.m_T0 ms.m_curr_U ms.m_curr_T tet).f n m) ∧
      (∀ (p : Nat) (tet : T4 α), model.m_tets[p]? = some tet → ∀ m : Fin 4,
        rd (elementPass lm NUM_THREADS model ms).2.m_ele_nodal_internal_Q (p * 4 + m.val)
          = (elementKernel lm model.m_T0 ms.m_curr_U ms.m_curr_T tet).q m) := by
  have hfold : elementPass lm NUM_THREADS model ms
      = (visitOrder NUM_THREADS model.m_tets.length).foldl (elementIter lm model.m_T0)
          (model.m_tets, ms) := by
    unfold elementPass visitOrder
    rw [foldl_flatMap]
  have hms : ms = withBuffers ms ms.m_ele_nodal_internal_F ms.m_ele_nodal_internal_Q := rfl
  obtain ⟨tets', F', Q', h1, h2, h3, h4, h5, h6, h7⟩ :=
    foldl_elementIter lm model.m_T0 ms (visitOrder NUM_THREADS model.m_tets.length)
      (visitOrder_nodup _ _ hT) model.m_tets ms.m_ele_nodal_internal_F ms.m_ele_nodal_internal_Q
      (fun p hp => (mem_visitOrder _ _ _ hT).1 hp) hid hF hQ
  rw [← hms] at h1
  rw [hfold, h1]
  refine ⟨rfl, h2, by rw [← hF]; exact h3, by rw [← hQ]; exact h4, ?_, ?_, ?_⟩
  · intro p tet hp
    have hlt : p < model.m_tets.length := by
      rcases Nat.lt_or_ge p model.m_tets.length with h | h
      · exact h
      · rw [List.getElem?_eq_none h] at hp; cases hp
    rw [h5 p tet hp, if_pos ((mem_visitOrder _ _ _ hT).2 hlt)]
  · intro p tet hp m n
    have hlt : p < model.m_tets.length := by
      rcases Nat.lt_or_ge p model.m_tets.length with h | h
      · exact h
      · rw [List.getElem?_eq_none h] at hp; cases hp
    exact (h6 p tet hp m n).trans (if_pos ((mem_visitOrder _ _ _ hT).2 hlt))
  · intro p tet hp m
    have hlt : p < model.m_tets.length := by
      rcases Nat.lt_or_ge p model.m_tets.length with h | h
      · exact h
      · rw [List.getElem?_eq_none h] at hp; cases hp
    exact (h7 p tet hp m).trans (if_pos ((mem_visitOrder _ _ _ hT).2 hlt))

end ElementLemmas

section C1Lemmas
variable {α : Type}

theorem sum_map_congr_mem [Add α] [Zero α] {β : Type} (l : List β) (f g : β → α)
    (h : ∀ x ∈ l, f x = g x) : (l.map f).sum = (l.map g).sum := by
  rw [List.map_congr_left h]

theorem unitModelRaw_ids : ∀ (p : Nat) (tet : T4 ℚ),
    unitModelRaw.m_tets[p]? = some tet → tet.m_idx = p := by
  intro p tet h
  cases p with
  | zero =>
    simp only [unitModelRaw, List.getElem?_cons_zero, Option.some.injEq] at h
    subst h
    rfl
  | succ p => simp [unitModelRaw] at h

theorem unitModelRaw_nodes : ∀ tet ∈ unitModelRaw.m_tets, ∀ m : Fin 4,
    tet.m_n_idx m < unitModelRaw.m_nodes.length := by
  intro tet h m
  simp only [unitModelRaw, List.mem_singleton] at h
  subst h
  fin_cases m <;> decide

end C1Lemmas

section MassLemmas
variable {α : Type}

theorem rd_addAt [AddMonoid α] (acc : List α) (idx k : Nat) (v : α) (hk : k < acc.length) :
    rd (addAt acc idx v) k = rd acc k + (if idx = k then v else 0) := by
  unfold addAt
  rw [rd_set _ _ _ _ hk]
  by_cases h : idx = k
  · rw [if_pos h, if_pos h, h]
  · rw [if_neg h, if_neg h, add_zero]

theorem addAt_length [Add α] [Zero α] (acc : List α) (idx : Nat) (v : α) :
    (addAt acc idx v).length = acc.length := by
  simp [addAt]

/-- A run of `v[idx] += x` statements adds to every cell the sum of the values
addressed to it. -/
theorem foldl_addAt [AddMonoid α] (l : List (Nat × α)) (acc : List α) (k : Nat)
    (hk : k < acc.length) :
    rd (l.foldl (fun a c => addAt a c.1 c.2) acc) k
      = rd acc k + (l.map fun c => if c.1 = k then c.2 else 0).sum ∧
    (l.foldl (fun a c => addAt a c.1 c.2) acc).length = acc.length := by
  induction l generalizing acc with
  | nil => simp
  | cons c t ih =>
    obtain ⟨h1, h2⟩ := ih (addAt acc c.1 c.2) (by rw [addAt_length]; exact hk)
    rw [List.foldl_cons, h1, h2, rd_addAt _ _ _ _ hk, addAt_length, List.map_cons, List.sum_cons,
      add_assoc]
    exact ⟨rfl, rfl⟩

theorem sum_flatMap [AddMonoid α] {β γ : Type} (l : List β) (f : β → List γ) (g : γ → α) :
    ((l.flatMap f).map g).sum = (l.map fun x => ((f x).map g).sum).sum := by
  induction l with
  | nil => simp
  | cons x t ih => simp [List.flatMap_cons, List.map_append, List.sum_append, ih]

theorem nodal_M_mass_eq_foldl [Add α] [Div α] [Zero α] [NatCast α] (model : Model α) :
    nodal_M_mass model
      = (massWrites model.m_tets).foldl (fun a c => addAt a c.1 c.2)
          (List.replicate model.m_num_M_DOFs 0) := by
  unfold nodal_M_mass massWrites
  rw [foldl_flatMap]
  congr 1

theorem rd_replicate_zero [Zero α] (n k : Nat) : rd (List.replicate n (0 : α)) k = 0 := by
  unfold rd
  rw [List.getD_eq_getElem?_getD, List.getElem?_replicate]
  split_ifs <;> rfl

theorem nodal_M_mass_rd [DivisionRing α] (model : Model α) (i : Nat) (j : Fin 3)
    (h : i * 3 + j.val < model.m_num_M_DOFs) :
    rd (nodal_M_mass model) (i * 3 + j.val) = lumpedMass model.m_tets i := by
  rw [nodal_M_mass_eq_foldl,
    (foldl_addAt (massWrites model.m_tets) _ (i * 3 + j.val) (by simpa using h)).1,
    rd_replicate_zero, zero_add]
  unfold massWrites lumpedMass
  rw [sum_flatMap]
  congr 1
  apply List.map_congr_left
  intro tet _
  rw [sum_flatMap]
  congr 1
  apply List.map_congr_left
  intro m _
  have hj := j.isLt
  simp only [show List.finRange 3 = [0, 1, 2] from rfl, List.map_cons, List.map_nil,
    List.sum_cons, List.sum_nil, fin3_val]
  by_cases hm : tet.m_n_idx m = i
  · subst hm
    fin_cases j <;> simp
  · rw [if_neg hm, if_neg (by omega), if_neg (by omega), if_neg (by omega)]
    simp

end MassLemmas

section ConstLemmas
variable {α : Type} [Add α] [Sub α] [Mul α] [Div α] [Zero α] [One α] [NatCast α]

theorem set_prefix {β : Type} (f : Nat → β) (D n : Nat) (z x : β) (hn : n < D) :
    ((List.range n).map f ++ List.replicate (D - n) z).set n x
      = (List.range n).map f ++ [x] ++ List.replicate (D - (n + 1)) z := by
  have hD : D - n = (D - (n + 1)) + 1 := by omega
  rw [hD, set_append_replicate _ n _ _ _ (by simp)]

theorem centralDiffConsts_fold (model : Model α) (mass : List α) (D n : Nat) (hn : n ≤ D) :
    (List.range n).foldl (centralDiffIter model mass)
        (List.replicate D 0, List.replicate D 0, List.replicate D 0)
      = ((List.range n).map (cdConst1 model mass) ++ List.replicate (D - n) 0,
          (List.range n).map (cdConst2 model mass) ++ List.replicate (D - n) 0,
          (List.range n).map (cdConst3 model mass) ++ List.replicate (D - n) 0) := by
  induction n with
  | zero => simp
  | succ n ih =>
    rw [List.range_succ, List.foldl_append, ih (by omega)]
    simp only [List.foldl_cons, List.foldl_nil, centralDiffIter]
    rw [rd_set_self _ _ _ (by simp; omega), rd_set_self _ _ _ (by simp; omega),
      set_prefix _ _ _ _ _ (by omega), set_prefix _ _ _ _ _ (by omega),
      set_prefix _ _ _ _ _ (by omega)]
    simp only [List.map_append, List.map_cons, List.map_nil]
    rfl

theorem centralDiffConsts_rd (model : Model α) (k : Nat) (hk : k < model.m_num_M_DOFs) :
    rd (centralDiffConsts model).1 k = cdConst1 model (nodal_M_mass model) k ∧
      rd (centralDiffConsts model).2.1 k = cdConst2 model (nodal_M_mass model) k ∧
      rd (centralDiffConsts model).2.2 k = cdConst3 model (nodal_M_mass model) k := by
  unfold centralDiffConsts
  rw [centralDiffConsts_fold model _ _ _ (Nat.le_refl _)]
  simp only [Nat.sub_self, List.replicate_zero, List.append_nil]
  exact ⟨map_range_getD _ _ _ _ hk, map_range_getD _ _ _ _ hk, map_range_getD _ _ _ _ hk⟩

end ConstLemmas

section C3Lemmas
variable {α : Type} [LinearOrderedField α]

theorem cdConst_eq_spec (model : Model α) (mass : List α) (k : Nat) :
    cdConst1 model mass k = specC1 model.m_alpha (rd mass k) model.m_dt ∧
      cdConst2 model mass k = specC2 model.m_alpha (rd mass k) model.m_dt ∧
      cdConst3 model mass k = specC3 model.m_alpha (rd mass k) model.m_dt := by
  have h1 : cdConst1 model mass k = specC1 model.m_alpha (rd mass k) model.m_dt := by
    unfold cdConst1 specC1
    simp only [Nat.cast_ofNat, div_div, ← sq]
  have h2 : cdConst2 model mass k = specC2 model.m_alpha (rd mass k) model.m_dt := by
    unfold cdConst2 specC2
    rw [h1]
    simp only [Nat.cast_ofNat, div_div, ← sq]
  refine ⟨h1, h2, ?_⟩
  unfold cdConst3 specC3
  rw [h1, h2]
  simp only [Nat.cast_ofNat, div_div]

theorem cd_algebra (P Q R u uc up : α) (hD : Q + P ≠ 0) :
    ((Q + P) * u - 2 * P * uc - (Q - P) * up = R) ↔
      u = 1 / (Q + P) * R + 2 * P / (Q + P) * uc + (Q / (Q + P) - P / (Q + P)) * up := by
  constructor
  · intro h
    field_simp
    linarith
  · intro h
    rw [h]
    field_simp
    ring

theorem specC1_inv (alpha m dt : α) (hm : 0 < m) (hdt : 0 < dt) (ha : 0 ≤ alpha) :
    0 < alpha * m / (2 * dt) + m / dt ^ 2 := by
  have h1 : 0 ≤ alpha * m / (2 * dt) := by positivity
  have h2 : 0 < m / dt ^ 2 := by positivity
  linarith

end C3Lemmas

section ExampleLemmas

theorem unitTet_mass : unitTet.m_mass = 1 / 6 ∧ unitTet.m_Vol = 1 / 6 := by
  constructor <;>
  · simp only [unitTet, T4.new, matInv33, matDet33, mat34x34T, DHDr, n_coords]
    norm_num

theorem unitModel_fields : unitModel.m_nodes = unitNodes ∧ unitModel.m_tets = [unitTet] ∧
    unitModel.m_num_M_DOFs = 12 ∧ unitModel.m_num_T_DOFs = 4 ∧ unitModel.m_dt = 1 ∧
    unitModel.m_alpha = 0 ∧ unitModel.m_T0 = 37 ∧ unitModel.m_total_t = 1 :=
  ⟨rfl, rfl, rfl, rfl, rfl, rfl, rfl, rfl⟩

theorem unitModel_lumpedMass (i : Nat) (hi : i < 4) : lumpedMass unitModel.m_tets i = 1 / 24 := by
  rw [unitModel_fields.2.1]
  simp only [lumpedMass, List.map_cons, List.map_nil, List.sum_cons, List.sum_nil,
    show List.finRange 4 = [0, 1, 2, 3] from rfl, unitTet_mass.1]
  have h0 : unitTet.m_n_idx 0 = 0 := rfl
  have h1 : unitTet.m_n_idx 1 = 1 := rfl
  have h2 : unitTet.m_n_idx 2 = 2 := rfl
  have h3 : unitTet.m_n_idx 3 = 3 := rfl
  rw [h0, h1, h2, h3]
  interval_cases i <;> norm_num

end ExampleLemmas

section RestLemmas
variable {α : Type} [Field α]

theorem matInv33_I33 : matInv33 (I33 : Mat33 α) = (I33, 1) := by
  have hd : matDet33 (I33 : Mat33 α) = 1 := by simp [matDet33, I33]
  unfold matInv33
  simp only [hd]
  congr 1
  funext i j
  fin_cases i <;> fin_cases j <;> simp [I33]

theorem mat33x33_I33 (A : Mat33 α) : mat33x33 A I33 = A := by
  funext i j
  fin_cases j <;> simp [mat33x33, I33]

theorem mat33Tx33_I33 : mat33Tx33 (I33 : Mat33 α) I33 = I33 := by
  funext i j
  fin_cases i <;> fin_cases j <;> simp [mat33Tx33, I33]

theorem DHDX_row_sum (tet : T4 α) (n1 n2 n3 n4 : Node α) (h : tet.builtFrom n1 n2 n3 n4)
    (r : Fin 3) : tet.m_DHDX r 0 + tet.m_DHDX r 1 + tet.m_DHDX r 2 + tet.m_DHDX r 3 = 0 := by
  rw [h.1]
  simp only [mat33x34, DHDr]
  ring

theorem deformationGradient_rest (curr_U : List α) (tet : T4 α) (h : ∀ k, rd curr_U k = 0) :
    deformationGradient curr_U tet = I33 := by
  funext i j
  simp [deformationGradient, mat34x34T, cornerDisp, h, I33]

theorem T_diff_rest (T0 : α) [CharZero α] (curr_T : List α) (tet : T4 α)
    (h : ∀ m : Fin 4, rd curr_T (tet.m_n_idx m) = T0) : T_diff T0 curr_T tet = 0 := by
  simp only [T_diff, h, Nat.cast_ofNat]
  ring

theorem expansionGradient_rest (tet : T4 α)
    (hty : tet.m_T_expan_type = "T_EXPAN_ISO" ∨ tet.m_T_expan_type = "T_EXPAN_TI"
      ∨ tet.m_T_expan_type = "T_EXPAN_ORTHO")
    (hiso : tet.m_T_expan_type = "T_EXPAN_ISO" → ∀ i j : Fin 3, i ≠ j → tet.m_X_expan i j = 0) :
    expansionGradient tet 0 = I33 := by
  funext i j
  unfold expansionGradient
  rcases hty with h | h | h
  · simp only [h, if_true, mul_zero, add_zero, I33]
    by_cases hij : i = j
    · simp [hij]
    · simp [hij, hiso h i j hij]
  · simp only [h, show ¬ ("T_EXPAN_TI" = "T_EXPAN_ISO") by decide, if_false, if_true]
    fin_cases i <;> fin_cases j <;> simp [I33]
  · simp only [h, show ¬ ("T_EXPAN_ORTHO" = "T_EXPAN_ISO") by decide,
      show ¬ ("T_EXPAN_ORTHO" = "T_EXPAN_TI") by decide, if_false, if_true]
    fin_cases i <;> fin_cases j <;> simp [I33]

end RestLemmas

section RestLemmas2
variable {α : Type} [Field α]

theorem stressNH_rest [CharZero α] (lm : Libm α) (hpow : ∀ e, lm.powf 1 e = 1) (vals : List α) :
    stressNH lm vals I33 I33 1 = fun _ _ => 0 := by
  funext i j
  simp only [stressNH, hpow, I33]
  fin_cases i <;> fin_cases j <;> simp <;> (field_simp; ring)

theorem stressTI_rest [CharZero α] (lm : Libm α) (hpow : ∀ e, lm.powf 1 e = 1) (vals : List α)
    (htr : rd vals 3 + rd vals 6 + rd vals 8 = 1) :
    stressTI lm vals I33 I33 1 = fun _ _ => 0 := by
  have h8 : rd vals 8 = 1 - rd vals 3 - rd vals 6 := by rw [← htr]; ring
  funext i j
  simp only [stressTI, hpow, I33, h8]
  fin_cases i <;> fin_cases j <;> simp <;> (field_simp; ring)

theorem mat33x33_zero_right (A : Mat33 α) : mat33x33 A (fun _ _ => 0) = fun _ _ => 0 := by
  funext i j
  simp [mat33x33]

theorem mat33x33T_zero_left (A : Mat33 α) : mat33x33T (fun _ _ => 0) A = fun _ _ => 0 := by
  funext i j
  simp [mat33x33T]

theorem mat33xScalar_zero (b : α) : mat33xScalar (fun _ _ => (0 : α)) b = fun _ _ => 0 := by
  funext i j
  simp [mat33xScalar]

theorem mat33x34_zero_left (B : Mat34 α) : mat33x34 (fun _ _ => 0) B = fun _ _ => 0 := by
  funext i j
  simp [mat33x34]

theorem mat33Tx34_I33 (B : Mat34 α) : mat33Tx34 I33 B = B := by
  funext i j
  fin_cases i <;> simp [mat33Tx34, I33]

/-- The element kernel at rest: zero displacements and the four corners at the
reference temperature give zero corner forces and zero corner heat flows. -/
theorem elementKernel_rest [CharZero α] (lm : Libm α) (hsqrt : lm.sqrt 1 = 1)
    (hpow : ∀ e, lm.powf 1 e = 1) (T0 : α) (curr_U curr_T : List α) (tet : T4 α)
    (n1 n2 n3 n4 : Node α) (hb : tet.builtFrom n1 n2 n3 n4)
    (hU : ∀ k, rd curr_U k = 0) (hT : ∀ m : Fin 4, rd curr_T (tet.m_n_idx m) = T0)
    (hmat : tet.m_M_material_type = "NH" ∨ (tet.m_M_material_type = "TI" ∧
      rd tet.m_M_material_vals 3 + rd tet.m_M_material_vals 6 + rd tet.m_M_material_vals 8 = 1))
    (hexp : tet.m_T_expan_vals.length = 0 ∨ tet.m_T_expan_type = "T_EXPAN_ISO"
      ∨ tet.m_T_expan_type = "T_EXPAN_TI" ∨ tet.m_T_expan_type = "T_EXPAN_ORTHO") :
    (elementKernel lm T0 curr_U curr_T tet).f = (fun _ _ => 0) ∧
      (elementKernel lm T0 curr_U curr_T tet).q = (fun _ => 0) := by
  have hX : deformationGradient curr_U tet = I33 := deformationGradient_rest curr_U tet hU
  have hTd : T_diff T0 curr_T tet = 0 := T_diff_rest T0 curr_T tet hT
  -- the elastic gradient is the identity, with or without expansion
  have htemp : (if tet.m_T_expan_vals.length ≠ 0 then
        mat33x33 (I33 : Mat33 α) (matInv33 (if tet.m_T_expan_vals.length ≠ 0 then
          expansionGradient tet 0 else tet.m_X_expan)).1
      else I33) = I33 := by
    by_cases he : tet.m_T_expan_vals.length = 0
    · simp [he]
    · have hty := hexp.resolve_left he
      simp only [ne_eq, he, not_false_eq_true, if_true,
        expansionGradient_rest tet hty hb.2, matInv33_I33, mat33x33_I33]
  have hS0 : (if tet.m_M_material_type = "NH" then
        stressNH lm tet.m_M_material_vals I33 I33 1
      else if tet.m_M_material_type = "TI" then
        stressTI lm tet.m_M_material_vals I33 I33 1
      else tet.m_S) = fun _ _ => 0 := by
    rcases hmat with h | ⟨h, htr⟩
    · rw [if_pos h, stressNH_rest lm hpow]
    · rw [if_neg (by rw [h]; decide), if_pos h, stressTI_rest lm hpow _ htr]
  have hr := DHDX_row_sum tet n1 n2 n3 n4 hb
  have hr3 : ∀ r, tet.m_DHDX r 3 = -(tet.m_DHDX r 0 + tet.m_DHDX r 1 + tet.m_DHDX r 2) := by
    intro r
    have := hr r
    linear_combination this
  unfold elementKernel
  simp only [hX, hTd, htemp, mat33Tx33_I33, matInv33_I33, hsqrt, hS0, mat33x33_zero_right,
    mat33x33T_zero_left, mat33xScalar_zero, mat33x34_zero_left, mat33Tx34_I33, hT, ite_self,
    true_and]
  funext m
  by_cases hiso : tet.m_T_material_type = "T_ISO"
  · simp only [hiso, if_true, mat44xScalar, mat34Tx34]
    fin_cases m <;> simp only [hr3] <;> ring
  · simp only [hiso, if_false, mat44xScalar, mat34Tx34, mat33x34]
    fin_cases m <;> simp only [hr3] <;> ring

end RestLemmas2

section StepLemmas
variable {α : Type} [Field α]

omit [Field α] in
theorem slice_indexed (model : Model α) (h : model.indexed) (i : Nat)
    (hi : i < model.m_nodes.length) : slice model i = cornersAt model.m_tets i := by
  rw [← slice_postCreate model i hi]
  unfold slice
  rw [h.1, h.2]

/-- After the element pass the gather of node `i` is the direct assembly of the
kernel outputs of the elements around the node. -/
theorem gather_elementPass (lm : Libm α) (NUM_THREADS : Nat) (hT : 1 ≤ NUM_THREADS)
    (model : Model α) (ms : ModelStates α) (hidx : model.indexed)
    (hids : ∀ (p : Nat) (tet : T4 α), model.m_tets[p]? = some tet → tet.m_idx = p)
    (hF : ms.m_ele_nodal_internal_F.length = model.m_tets.length * 12)
    (hQ : ms.m_ele_nodal_internal_Q.length = model.m_tets.length * 4)
    (i : Nat) (hi : i < model.m_nodes.length) :
    gather { model with m_tets := (elementPass lm NUM_THREADS model ms).1 }
        (elementPass lm NUM_THREADS model ms).2 i
      = (fun n => assembledF lm model.m_T0 ms.m_curr_U ms.m_curr_T model.m_tets i n,
          assembledQ lm model.m_T0 ms.m_curr_U ms.m_curr_T model.m_tets i) := by
  obtain ⟨-, -, -, -, -, h6, h7⟩ := elementPass_spec lm NUM_THREADS hT model ms hids hF hQ
  have hsl : slice { model with m_tets := (elementPass lm NUM_THREADS model ms).1 } i
      = cornersAt model.m_tets i := slice_indexed model hidx i hi
  rw [gather_eq_foldl_slice, hsl, foldl_gather_eq
    (fun a b n => rd (elementPass lm NUM_THREADS model ms).2.m_ele_nodal_internal_F
      (a * 12 + b * 3 + n.val))
    (fun a b => rd (elementPass lm NUM_THREADS model ms).2.m_ele_nodal_internal_Q (a * 4 + b))]
  simp only [zero_add]
  congr 1
  · funext n
    rw [sum_cornersAt model.m_tets i (fun a b => rd (elementPass lm NUM_THREADS model
      ms).2.m_ele_nodal_internal_F (a * 12 + b * 3 + n.val))]
    unfold assembledF
    apply sum_map_congr_mem
    intro tet ht
    obtain ⟨p, hp⟩ := List.mem_iff_getElem?.1 ht
    apply sum_map_congr_mem
    intro m _
    rw [hids p tet hp, h6 p tet hp m n]
  · rw [sum_cornersAt model.m_tets i (fun a b => rd (elementPass lm NUM_THREADS model
      ms).2.m_ele_nodal_internal_Q (a * 4 + b))]
    unfold assembledQ
    apply sum_map_congr_mem
    intro tet ht
    obtain ⟨p, hp⟩ := List.mem_iff_getElem?.1 ht
    apply sum_map_congr_mem
    intro m _
    rw [hids p tet hp, h7 p tet hp m]

theorem sum_map_zero {β : Type} (l : List β) (f : β → α) (h : ∀ x ∈ l, f x = 0) :
    (l.map f).sum = 0 := by
  induction l with
  | nil => rfl
  | cons a t ih =>
    rw [List.map_cons, List.sum_cons, h a (List.mem_cons_self _ _),
      ih (fun x hx => h x (List.mem_cons_of_mem _ hx)), add_zero]

theorem assembled_zero (lm : Libm α) (T0 : α) (U T : List α) (tets : List (T4 α)) (i : Nat)
    (h : ∀ tet ∈ tets, (elementKernel lm T0 U T tet).f = (fun _ _ => 0) ∧
      (elementKernel lm T0 U T tet).q = (fun _ => 0)) :
    (∀ n, assembledF lm T0 U T tets i n = 0) ∧ assembledQ lm T0 U T tets i = 0 := by
  constructor
  · intro n
    unfold assembledF
    apply sum_map_zero
    intro tet ht
    apply sum_map_zero
    intro m _
    rw [(h tet ht).1]
    simp
  · unfold assembledQ
    apply sum_map_zero
    intro tet ht
    apply sum_map_zero
    intro m _
    rw [(h tet ht).2]
    simp

end StepLemmas

section ExampleLemmas2

theorem postCreate_indexed {α : Type} (model : Model α) : model.postCreate.indexed :=
  ⟨rfl, rfl⟩

theorem new_builtFrom {α : Type} [Field α] (D : Mat33 α) (idx : Nat) (n1 n2 n3 n4 : Node α)
    (rho : α) (mt : String) (mv : List α) (tt : String) (tv : List α) (et : String)
    (ev : List α) : (T4.new D idx n1 n2 n3 n4 rho mt mv tt tv et ev).builtFrom n1 n2 n3 n4 :=
  ⟨rfl, fun _ _ _ _ => rfl⟩

theorem rd_replicate {α : Type} [Zero α] (n k : Nat) (x : α) (h : k < n) :
    rd (List.replicate n x) k = x := by
  unfold rd
  rw [List.getD_eq_getElem?_getD, List.getElem?_replicate, if_pos h]
  rfl

theorem unitModel_built : ∀ tet ∈ unitModel.m_tets, ∃ n1 n2 n3 n4, tet.builtFrom n1 n2 n3 n4 := by
  intro tet h
  rw [unitModel_fields.2.1, List.mem_singleton] at h
  subst h
  exact ⟨_, _, _, _, new_builtFrom _ _ _ _ _ _ _ _ _ _ _ _ _⟩

end ExampleLemmas2

section FrameLemmas
variable {α : Type} [Add α] [Sub α] [Mul α] [Div α] [Neg α] [Zero α] [One α] [NatCast α]

theorem elementIter_frame (lm : Libm α) (T0 : α) (ms : ModelStates α) (tets : List (T4 α))
    (F Q : List α) (i : Nat) :
    ∃ F' Q', (elementIter lm T0 (tets, withBuffers ms F Q) i).2 = withBuffers ms F' Q' := by
  unfold elementIter
  cases h : (tets, withBuffers ms F Q).1.get? i with
  | none => exact ⟨F, Q, rfl⟩
  | some tet => exact ⟨_, _, rfl⟩

theorem foldl_elementIter_frame (lm : Libm α) (T0 : α) (ms : ModelStates α) (L : List Nat)
    (tets : List (T4 α)) (F Q : List α) :
    ∃ F' Q', (L.foldl (elementIter lm T0) (tets, withBuffers ms F Q)).2 = withBuffers ms F' Q' := by
  induction L generalizing tets F Q with
  | nil => exact ⟨F, Q, rfl⟩
  | cons a L ih =>
    obtain ⟨F1, Q1, h1⟩ := elementIter_frame lm T0 ms tets F Q a
    rw [List.foldl_cons]
    have : elementIter lm T0 (tets, withBuffers ms F Q) a
        = ((elementIter lm T0 (tets, withBuffers ms F Q) a).1, withBuffers ms F1 Q1) := by
      rw [← h1]
    rw [this]
    exact ih _ F1 Q1

/-- The element pass changes nothing in the state but the two per-corner
buffers. -/
theorem elementPass_frame (lm : Libm α) (NUM_THREADS : Nat) (model : Model α)
    (ms : ModelStates α) :
    ∃ F' Q', (elementPass lm NUM_THREADS model ms).2 = withBuffers ms F' Q' := by
  have hfold : elementPass lm NUM_THREADS model ms
      = (visitOrder NUM_THREADS model.m_tets.length).foldl (elementIter lm model.m_T0)
          (model.m_tets, ms) := by
    unfold elementPass visitOrder
    rw [foldl_flatMap]
  rw [hfold]
  exact foldl_elementIter_frame lm model.m_T0 ms _ model.m_tets ms.m_ele_nodal_internal_F
    ms.m_ele_nodal_internal_Q

end FrameLemmas

section FrameLemmas2
variable {α : Type} [Add α] [Sub α] [Mul α] [Div α] [Neg α] [Zero α] [One α] [NatCast α]
  [DecidableEq α]

/-- What `computeOneStep` returns, in terms of its two passes. -/
theorem computeOneStep_eq (lm : Libm α) (NUM_THREADS : Nat) (model : Model α)
    (ms : ModelStates α) :
    computeOneStep lm NUM_THREADS model ms
      = if (nodePass lm NUM_THREADS
              { model with m_tets := (elementPass lm NUM_THREADS model ms).1 }
              (elementPass lm NUM_THREADS model ms).2).2 = false then
          { no_err := false
            model := { model with m_tets := (elementPass lm NUM_THREADS model ms).1 }
            modelstates := (nodePass lm NUM_THREADS
              { model with m_tets := (elementPass lm NUM_THREADS model ms).1 }
              (elementPass lm NUM_THREADS model ms).2).1 }
        else
          { no_err := true
            model := { model with m_tets := (elementPass lm NUM_THREADS model ms).1 }
            modelstates := rotate (nodePass lm NUM_THREADS
              { model with m_tets := (elementPass lm NUM_THREADS model ms).1 }
              (elementPass lm NUM_THREADS model ms).2).1 } := rfl

end FrameLemmas2

section StepSpec
variable {α : Type} [Add α] [Sub α] [Mul α] [Div α] [Neg α] [Zero α] [One α] [NatCast α]
  [DecidableEq α]

/-- The node pass of `computeOneStep`: it changes `m_next_U` and `m_next_T`
only, every node gets the values of its own iteration, computed from the
state the step started with and the gathered element contributions. -/
theorem nodePassOf_spec (lm : Libm α) (NUM_THREADS : Nat) (hT : 1 ≤ NUM_THREADS)
    (model : Model α) (ms : ModelStates α)
    (hU : ms.m_next_U.length = model.m_nodes.length * 3)
    (hTl : ms.m_next_T.length = model.m_nodes.length) :
    (∃ F Q U T, (nodePassOf lm NUM_THREADS model ms).1 = withNext (withBuffers ms F Q) U T) ∧
      (∀ i, i < model.m_nodes.length → ∀ j : Fin 3,
        rd (nodePassOf lm NUM_THREADS model ms).1.m_next_U (i * 3 + j.val)
          = nextUValue ms (gatherOf lm NUM_THREADS model ms i).1 i j) ∧
      (∀ i, i < model.m_nodes.length →
        rd (nodePassOf lm NUM_THREADS model ms).1.m_next_T i
          = nextTValue ms (gatherOf lm NUM_THREADS model ms i).2 i) ∧
      ((nodePassOf lm NUM_THREADS model ms).2 = true ↔
        ∀ i, i < model.m_nodes.length →
          (∀ j : Fin 3, integratedU ms (i * 3 + j.val) = true →
            lm.isnan (nextUValue ms (gatherOf lm NUM_THREADS model ms i).1 i j) = false) ∧
          (ms.m_fixT_flag.getD i false = false →
            lm.isnan (nextTValue ms (gatherOf lm NUM_THREADS model ms i).2 i) = false)) := by
  obtain ⟨F, Q, hE⟩ := elementPass_frame lm NUM_THREADS model ms
  unfold nodePassOf gatherOf
  generalize elementPass lm NUM_THREADS model ms = E at *
  obtain ⟨n1, -, -, n4, n5, n6⟩ := nodePass_spec lm NUM_THREADS hT
    { model with m_tets := E.1 } E.2 (by rw [hE]; exact hU) (by rw [hE]; exact hTl)
  refine ⟨⟨F, Q, _, _, by rw [n1, hE]⟩, ?_, ?_, ?_⟩
  · intro i hi j
    rw [n4 i hi j, hE]
    rfl
  · intro i hi
    rw [n5 i hi, hE]
    rfl
  · rw [n6, List.all_eq_true]
    have hmem : ∀ i, i ∈ visitOrder NUM_THREADS model.m_nodes.length ↔ i < model.m_nodes.length :=
      fun i => mem_visitOrder _ _ i hT
    have hno : ∀ i, nodeNoErr lm { model with m_tets := E.1 } E.2 i = true ↔
        ((∀ j : Fin 3, integratedU ms (i * 3 + j.val) = true →
          lm.isnan (nextUValue ms (gather { model with m_tets := E.1 } E.2 i).1 i j) = false) ∧
        (ms.m_fixT_flag.getD i false = false →
          lm.isnan (nextTValue ms (gather { model with m_tets := E.1 } E.2 i).2 i) = false)) := by
      intro i
      have e1 : ∀ k, integratedU E.2 k = integratedU ms k := by intro k; rw [hE]; rfl
      have e2 : ∀ G j, nextUValue E.2 G i j = nextUValue ms G i j := by intro G j; rw [hE]; rfl
      have e3 : ∀ G, nextTValue E.2 G i = nextTValue ms G i := by intro G; rw [hE]; rfl
      have e4 : E.2.m_fixT_flag = ms.m_fixT_flag := by rw [hE]; rfl
      unfold nodeNoErr
      simp only [e1, e2, e3, e4, Bool.and_eq_true, List.all_eq_true, List.mem_finRange,
        true_implies, Bool.not_eq_true', Bool.and_eq_false_iff, Bool.not_eq_false']
      constructor
      · rintro ⟨h1, h2⟩
        refine ⟨fun j hj => ?_, fun hf => ?_⟩
        · rcases h1 j with h | h
          · rw [h] at hj; cases hj
          · exact h
        · rcases h2 with h | h
          · rw [hf] at h; cases h
          · exact h
      · rintro ⟨h1, h2⟩
        refine ⟨fun j => ?_, ?_⟩
        · cases hi : integratedU ms (i * 3 + j.val)
          · exact Or.inl rfl
          · exact Or.inr (h1 j hi)
        · cases hf : ms.m_fixT_flag.getD i false
          · exact Or.inr (h2 hf)
          · exact Or.inl rfl
    constructor
    · intro h i hi
      exact (hno i).1 (h i ((hmem i).2 hi))
    · intro h i hi
      exact (hno i).2 (h i ((hmem i).1 hi))

end StepSpec

section BCLemmas
variable {α : Type}

theorem map_range_getD_self {β : Type} (l : List β) (d : β) :
    (List.range l.length).map (fun i => l.getD i d) = l := by
  apply List.ext_getElem
  · simp
  · intro n h1 h2
    simp [List.getD_eq_getElem?_getD, List.getElem?_eq_getElem h2]

theorem foldl_range_getD {β γ : Type} (l : List β) (d : β) (g : γ → β → γ) (a : γ) :
    (List.range l.length).foldl (fun acc i => g acc (l.getD i d)) a = l.foldl g a := by
  conv_rhs => rw [← map_range_getD_self l d]
  rw [List.foldl_map]

theorem setFixP_eq (flag : List Bool) (idx : List Nat) (axis : Nat) :
    setFixP flag idx axis = idx.foldl (fun acc n => acc.set (n * 3 + axis) true) flag := by
  unfold setFixP
  exact foldl_range_getD idx 0 (fun acc n => acc.set (n * 3 + axis) true) flag

theorem foldl_setTrue_getD (idx : List Nat) (axis : Nat) (flag : List Bool) (k : Nat) :
    ((idx.foldl (fun acc n => acc.set (n * 3 + axis) true) flag).getD k false = true ↔
      flag.getD k false = true ∨ (k < flag.length ∧ ∃ n ∈ idx, n * 3 + axis = k)) ∧
    (idx.foldl (fun acc n => acc.set (n * 3 + axis) true) flag).length = flag.length := by
  induction idx generalizing flag with
  | nil => simp
  | cons a t ih =>
    obtain ⟨h1, h2⟩ := ih (flag.set (a * 3 + axis) true)
    rw [List.foldl_cons, h1, h2, List.length_set]
    refine ⟨?_, rfl⟩
    by_cases hk : k < flag.length
    · rw [getD_set_of_lt _ _ _ _ _ hk]
      by_cases ha : a * 3 + axis = k
      · simp [ha, hk]
      · simp only [ha, if_false, hk, true_and, List.mem_cons, exists_eq_or_imp, false_or]
    · have hd : ∀ l : List Bool, l.length = flag.length → l.getD k false = false := by
        intro l hl
        rw [List.getD_eq_getElem?_getD, List.getElem?_eq_none (by omega)]
        rfl
      rw [hd _ (List.length_set _ _ _), hd _ rfl]
      simp [hk]

/-- After the `FixP` loop of `initBC` a flag is set iff it was set before or the
loop addressed it. -/
theorem setFixP_getD (flag : List Bool) (idx : List Nat) (axis k : Nat) :
    ((setFixP flag idx axis).getD k false = true ↔
      flag.getD k false = true ∨ (k < flag.length ∧ ∃ n ∈ idx, n * 3 + axis = k)) ∧
    (setFixP flag idx axis).length = flag.length := by
  rw [setFixP_eq]
  exact foldl_setTrue_getD idx axis flag k

theorem initBC_fixP_flag [Add α] [Zero α] (model : Model α) (ms : ModelStates α) (k : Nat) :
    (initBC model ms).m_fixP_flag.getD k false = true ↔
      ms.m_fixP_flag.getD k false = true ∨ (k < ms.m_fixP_flag.length ∧
        ((∃ n ∈ model.m_fixP_idx_x, n * 3 + 0 = k) ∨ (∃ n ∈ model.m_fixP_idx_y, n * 3 + 1 = k)
          ∨ (∃ n ∈ model.m_fixP_idx_z, n * 3 + 2 = k))) := by
  have e : (initBC model ms).m_fixP_flag
      = setFixP (setFixP (setFixP ms.m_fixP_flag model.m_fixP_idx_x 0) model.m_fixP_idx_y 1)
          model.m_fixP_idx_z 2 := rfl
  have l1 : (setFixP ms.m_fixP_flag model.m_fixP_idx_x 0).length = ms.m_fixP_flag.length :=
    (setFixP_getD _ _ _ 0).2
  have l2 : (setFixP (setFixP ms.m_fixP_flag model.m_fixP_idx_x 0) model.m_fixP_idx_y 1).length
      = ms.m_fixP_flag.length := by rw [(setFixP_getD _ _ _ 0).2, l1]
  rw [e, (setFixP_getD _ _ _ _).1, (setFixP_getD _ _ _ _).1, (setFixP_getD _ _ _ _).1, l2, l1]
  generalize (∃ n ∈ model.m_fixP_idx_x, n * 3 + 0 = k) = P
  generalize (∃ n ∈ model.m_fixP_idx_y, n * 3 + 1 = k) = Q
  generalize (∃ n ∈ model.m_fixP_idx_z, n * 3 + 2 = k) = R
  tauto

end BCLemmas

section StepCases
variable {α : Type} [Add α] [Sub α] [Mul α] [Div α] [Neg α] [Zero α] [One α] [NatCast α]
  [DecidableEq α]

theorem computeOneStep_ok (lm : Libm α) (NUM_THREADS : Nat) (model : Model α)
    (ms : ModelStates α) (h : (nodePassOf lm NUM_THREADS model ms).2 = true) :
    computeOneStep lm NUM_THREADS model ms
      = { no_err := true
          model := { model with m_tets := (elementPass lm NUM_THREADS model ms).1 }
          modelstates := rotate (nodePassOf lm NUM_THREADS model ms).1 } := by
  unfold nodePassOf at h
  rw [computeOneStep_eq, if_neg (by rw [h]; decide)]
  rfl

theorem computeOneStep_diverged (lm : Libm α) (NUM_THREADS : Nat) (model : Model α)
    (ms : ModelStates α) (h : (nodePassOf lm NUM_THREADS model ms).2 = false) :
    computeOneStep lm NUM_THREADS model ms
      = { no_err := false
          model := { model with m_tets := (elementPass lm NUM_THREADS model ms).1 }
          modelstates := (nodePassOf lm NUM_THREADS model ms).1 } := by
  unfold nodePassOf at h
  rw [computeOneStep_eq, if_pos h]
  rfl

theorem computeOneStep_no_err (lm : Libm α) (NUM_THREADS : Nat) (model : Model α)
    (ms : ModelStates α) :
    (computeOneStep lm NUM_THREADS model ms).no_err = (nodePassOf lm NUM_THREADS model ms).2 := by
  cases h : (nodePassOf lm NUM_THREADS model ms).2
  · rw [computeOneStep_diverged lm NUM_THREADS model ms h]
  · rw [computeOneStep_ok lm NUM_THREADS model ms h]

end StepCases

section ExampleLemmas3

theorem restLibm_no_err (model : Model ℚ) (ms : ModelStates ℚ)
    (hU : ms.m_next_U.length = model.m_nodes.length * 3)
    (hTl : ms.m_next_T.length = model.m_nodes.length) :
    (nodePassOf restLibm 1 model ms).2 = true :=
  (nodePassOf_spec restLibm 1 (Nat.le_refl 1) model ms hU hTl).2.2.2.2
    (fun _ _ => ⟨fun _ _ => rfl, fun _ => rfl⟩)

end ExampleLemmas3

section FixTLemmas
variable {α : Type} [Zero α]

/-- The `FixT` loop of `initBC` after the iterations `0 .. n - 1`, seen from a
node whose last entry is entry `p < n`. -/
theorem setFixT_fold (flag0 : List Bool) (mag0 : List α) (idx : List Nat) (mag : List α)
    (p k : Nat) (hk : idx.getD p 0 = k)
    (hlast : ∀ q, p < q → q < idx.length → idx.getD q 0 ≠ k)
    (hkf : k < flag0.length) (hkm : k < mag0.length) (n : Nat) (hn : p + 1 ≤ n)
    (hn' : n ≤ idx.length) :
    ((List.range n).foldl
        (fun (acc : List Bool × List α) i =>
          (acc.1.set (idx.getD i 0) true, acc.2.set (idx.getD i 0) (rd mag i)))
        (flag0, mag0)).1.getD k false = true ∧
      rd ((List.range n).foldl
        (fun (acc : List Bool × List α) i =>
          (acc.1.set (idx.getD i 0) true, acc.2.set (idx.getD i 0) (rd mag i)))
        (flag0, mag0)).2 k = rd mag p := by
  have hlen : ∀ m, ((List.range m).foldl
        (fun (acc : List Bool × List α) i =>
          (acc.1.set (idx.getD i 0) true, acc.2.set (idx.getD i 0) (rd mag i)))
        (flag0, mag0)).1.length = flag0.length ∧
      ((List.range m).foldl
        (fun (acc : List Bool × List α) i =>
          (acc.1.set (idx.getD i 0) true, acc.2.set (idx.getD i 0) (rd mag i)))
        (flag0, mag0)).2.length = mag0.length := by
    intro m
    induction m with
    | zero => exact ⟨rfl, rfl⟩
    | succ m ih =>
      rw [List.range_succ, List.foldl_append]
      simp only [List.foldl_cons, List.foldl_nil, List.length_set]
      exact ih
  induction n, hn using Nat.le_induction with
  | base =>
    rw [List.range_succ, List.foldl_append]
    simp only [List.foldl_cons, List.foldl_nil, hk]
    constructor
    · rw [getD_set_of_lt _ _ _ _ _ (by rw [(hlen p).1]; exact hkf), if_pos rfl]
    · rw [rd_set_self _ _ _ (by rw [(hlen p).2]; exact hkm)]
  | succ n hn ih =>
    obtain ⟨i1, i2⟩ := ih (by omega)
    rw [List.range_succ, List.foldl_append]
    simp only [List.foldl_cons, List.foldl_nil]
    have hne : idx.getD n 0 ≠ k := hlast n (by omega) (by omega)
    exact ⟨by rw [getD_set_ne _ _ _ _ _ hne]; exact i1, by rw [rd_set_ne _ _ _ _ hne]; exact i2⟩

/-- After `initBC`, a node whose last `FixT` entry is entry `p` has its flag set
and the magnitude of that entry. -/
theorem initBC_fixT [Add α] (model : Model α) (ms : ModelStates α) (p : Nat)
    (hp : p < model.m_fixT_idx.length)
    (hlast : ∀ q, p < q → q < model.m_fixT_idx.length →
      model.m_fixT_idx.getD q 0 ≠ model.m_fixT_idx.getD p 0)
    (hkf : model.m_fixT_idx.getD p 0 < ms.m_fixT_flag.length)
    (hkm : model.m_fixT_idx.getD p 0 < ms.m_fixT_mag.length) :
    (initBC model ms).m_fixT_flag.getD (model.m_fixT_idx.getD p 0) false = true ∧
      rd (initBC model ms).m_fixT_mag (model.m_fixT_idx.getD p 0) = rd model.m_fixT_mag p :=
  setFixT_fold ms.m_fixT_flag ms.m_fixT_mag model.m_fixT_idx model.m_fixT_mag p _ rfl hlast
    hkf hkm model.m_fixT_idx.length (by omega) (Nat.le_refl _)

end FixTLemmas

section DispLemmas
variable {α : Type}

theorem foldl_set_length {β : Type} (v0 : List β) (key : Nat → Nat) (val : Nat → β) (len : Nat) :
    ((List.range len).foldl (fun acc i => acc.set (key i) (val i)) v0).length = v0.length := by
  induction len with
  | zero => rfl
  | succ m ih =>
    rw [List.range_succ, List.foldl_append]
    simp only [List.foldl_cons, List.foldl_nil, List.length_set]
    exact ih

/-- A loop of writes `v[key i] = val i`: a cell no iteration addresses keeps its
content. -/
theorem foldl_set_untouched {β : Type} (v0 : List β) (key : Nat → Nat) (val : Nat → β)
    (len k : Nat) (d : β) (h : ∀ q, q < len → key q ≠ k) :
    ((List.range len).foldl (fun acc i => acc.set (key i) (val i)) v0).getD k d = v0.getD k d := by
  induction len with
  | zero => rfl
  | succ m ih =>
    rw [List.range_succ, List.foldl_append]
    simp only [List.foldl_cons, List.foldl_nil]
    rw [getD_set_ne _ _ _ _ _ (h m (by omega))]
    exact ih (fun q hq => h q (by omega))

/-- A loop of writes `v[key i] = val i`: a cell holds the value of the last
iteration that addresses it. -/
theorem foldl_set_last {β : Type} (v0 : List β) (key : Nat → Nat) (val : Nat → β)
    (len p k : Nat) (d : β) (hk : key p = k) (hp : p < len)
    (hlast : ∀ q, p < q → q < len → key q ≠ k) (hkl : k < v0.length) :
    ((List.range len).foldl (fun acc i => acc.set (key i) (val i)) v0).getD k d = val p := by
  induction len with
  | zero => omega
  | succ m ih =>
    rw [List.range_succ, List.foldl_append]
    simp only [List.foldl_cons, List.foldl_nil]
    by_cases hpm : p = m
    · subst hpm
      rw [hk, getD_set_of_lt _ _ _ _ _ (by rw [foldl_set_length]; exact hkl), if_pos rfl]
    · rw [getD_set_ne _ _ _ _ _ (hlast m (by omega) (by omega))]
      exact ih (by omega) (fun q h1 h2 => hlast q h1 (by omega))

theorem setDisp_length [Mul α] [Zero α] (v : List α) (idx : List Nat) (mag : List α)
    (axis : Nat) (n : α) : (setDisp v idx mag axis n).length = v.length :=
  foldl_set_length v (fun i => idx.getD i 0 * 3 + axis) (fun i => rd mag i * n) idx.length

theorem setDisp_other_axis [Mul α] [Zero α] (v : List α) (idx : List Nat) (mag : List α)
    (axis : Nat) (n : α) (node : Nat) (j : Nat) (hj : j < 3) (ha : axis < 3) (hne : axis ≠ j) :
    rd (setDisp v idx mag axis n) (node * 3 + j) = rd v (node * 3 + j) :=
  foldl_set_untouched v (fun i => idx.getD i 0 * 3 + axis) (fun i => rd mag i * n) idx.length
    (node * 3 + j) 0 (fun q _ => by
      show idx.getD q 0 * 3 + axis ≠ node * 3 + j
      omega)

theorem setDisp_last [Mul α] [Zero α] (v : List α) (idx : List Nat) (mag : List α)
    (axis : Nat) (n : α) (p : Nat) (hp : p < idx.length)
    (hlast : ∀ q, p < q → q < idx.length → idx.getD q 0 ≠ idx.getD p 0)
    (hlen : idx.getD p 0 * 3 + axis < v.length) :
    rd (setDisp v idx mag axis n) (idx.getD p 0 * 3 + axis) = rd mag p * n :=
  foldl_set_last v (fun i => idx.getD i 0 * 3 + axis) (fun i => rd mag i * n) idx.length p
    (idx.getD p 0 * 3 + axis) 0 rfl hp
    (fun q h1 h2 h => hlast q h1 h2 (by
      have h' : idx.getD q 0 * 3 + axis = idx.getD p 0 * 3 + axis := h
      omega)) hlen

/-- The displacement target `computeRunTimeBC` leaves for the DOF of the last
Disp entry `p` of axis `j` that lists its node. -/
theorem computeRunTimeBC_disp [Add α] [Sub α] [Mul α] [Div α] [Zero α] [NatCast α]
    (model : Model α) (ms : ModelStates α) (step : Nat) (j : Fin 3) (p : Nat)
    (hp : p < (model.dispIdx j).length)
    (hlast : ∀ q, p < q → q < (model.dispIdx j).length →
      (model.dispIdx j).getD q 0 ≠ (model.dispIdx j).getD p 0)
    (hlen : (model.dispIdx j).getD p 0 * 3 + j.val < ms.m_disp_mag_t.length) :
    rd (computeRunTimeBC model ms step).m_disp_mag_t ((model.dispIdx j).getD p 0 * 3 + j.val)
      = rd (model.dispMag j) p * (((step + 1 : ℕ) : α) * model.m_dt / model.m_total_t) := by
  have e : (computeRunTimeBC model ms step).m_disp_mag_t
      = setDisp (setDisp (setDisp ms.m_disp_mag_t model.m_disp_idx_x model.m_disp_mag_x 0
          (((step + 1 : ℕ) : α) * model.m_dt / model.m_total_t))
          model.m_disp_idx_y model.m_disp_mag_y 1
          (((step + 1 : ℕ) : α) * model.m_dt / model.m_total_t))
          model.m_disp_idx_z model.m_disp_mag_z 2
          (((step + 1 : ℕ) : α) * model.m_dt / model.m_total_t) := rfl
  rw [e]
  fin_cases j
  · simp only [Model.dispIdx, Model.dispMag] at hp hlast hlen ⊢
    rw [setDisp_other_axis _ _ _ 2 _ _ 0 (by omega) (by omega) (by omega),
      setDisp_other_axis _ _ _ 1 _ _ 0 (by omega) (by omega) (by omega)]
    exact setDisp_last _ _ _ 0 _ p hp hlast hlen
  · simp only [Model.dispIdx, Model.dispMag] at hp hlast hlen ⊢
    rw [setDisp_other_axis _ _ _ 2 _ _ 1 (by omega) (by omega) (by omega)]
    exact setDisp_last _ _ _ 1 _ p hp hlast (by rw [setDisp_length]; exact hlen)
  · simp only [Model.dispIdx, Model.dispMag] at hp hlast hlen ⊢
    exact setDisp_last _ _ _ 2 _ p hp hlast (by rw [setDisp_length, setDisp_length]; exact hlen)

end DispLemmas

section LoopLemmas
variable {α : Type} [Add α] [Sub α] [Mul α] [Div α] [Neg α] [Zero α] [One α] [NatCast α]
  [DecidableEq α]

theorem simulationLoop_succ (lm : Libm α) (NUM_THREADS todo step k : Nat) (model : Model α)
    (ms : ModelStates α) :
    simulationLoop lm NUM_THREADS (todo + 1) step k model ms
      = if (computeOneStep lm NUM_THREADS model (computeRunTimeBC model ms step)).no_err = false
        then { modelstates := none, steps_run := k + 1
               model := (computeOneStep lm NUM_THREADS model
                 (computeRunTimeBC model ms step)).model }
        else simulationLoop lm NUM_THREADS todo (step + 1) (k + 1)
          (computeOneStep lm NUM_THREADS model (computeRunTimeBC model ms step)).model
          (computeOneStep lm NUM_THREADS model (computeRunTimeBC model ms step)).modelstates :=
  rfl

/-- A run that returns a state made its last step without divergence, from a
model and a state that satisfy every invariant of the steps. -/
theorem simulationLoop_last (lm : Libm α) (NUM_THREADS : Nat)
    (Inv : Model α → ModelStates α → Prop)
    (hstep : ∀ model ms k, Inv model ms →
      (computeOneStep lm NUM_THREADS model (computeRunTimeBC model ms k)).no_err = true →
      Inv (computeOneStep lm NUM_THREADS model (computeRunTimeBC model ms k)).model
        (computeOneStep lm NUM_THREADS model (computeRunTimeBC model ms k)).modelstates)
    (todo step k : Nat) (model : Model α) (ms s : ModelStates α) (hinv : Inv model ms)
    (hs : (simulationLoop lm NUM_THREADS (todo + 1) step k model ms).modelstates = some s) :
    ∃ model' ms', Inv model' ms' ∧
      (computeOneStep lm NUM_THREADS model'
        (computeRunTimeBC model' ms' (step + todo))).no_err = true ∧
      s = (computeOneStep lm NUM_THREADS model'
        (computeRunTimeBC model' ms' (step + todo))).modelstates := by
  induction todo generalizing step k model ms with
  | zero =>
    rw [simulationLoop_succ] at hs
    cases hne : (computeOneStep lm NUM_THREADS model (computeRunTimeBC model ms step)).no_err
    · rw [if_pos hne] at hs
      cases hs
    · rw [if_neg (by rw [hne]; decide)] at hs
      refine ⟨model, ms, hinv, hne, ?_⟩
      simp only [simulationLoop, Option.some.injEq] at hs
      exact hs.symm
  | succ todo ih =>
    rw [simulationLoop_succ] at hs
    cases hne : (computeOneStep lm NUM_THREADS model (computeRunTimeBC model ms step)).no_err
    · rw [if_pos hne] at hs
      cases hs
    · rw [if_neg (by rw [hne]; decide)] at hs
      obtain ⟨model', ms', h1, h2, h3⟩ := ih (step + 1) (k + 1) _ _ (hstep model ms step hinv hne) hs
      have e : step + 1 + todo = step + (todo + 1) := by omega
      rw [e] at h2 h3
      exact ⟨model', ms', h1, h2, h3⟩

theorem nodePassOf_length (lm : Libm α) (NUM_THREADS : Nat) (hT : 1 ≤ NUM_THREADS)
    (model : Model α) (ms : ModelStates α)
    (hU : ms.m_next_U.length = model.m_nodes.length * 3)
    (hTl : ms.m_next_T.length = model.m_nodes.length) :
    (nodePassOf lm NUM_THREADS model ms).1.m_next_U.length = model.m_nodes.length * 3 ∧
      (nodePassOf lm NUM_THREADS model ms).1.m_next_T.length = model.m_nodes.length := by
  obtain ⟨F, Q, hE⟩ := elementPass_frame lm NUM_THREADS model ms
  unfold nodePassOf
  generalize elementPass lm NUM_THREADS model ms = E at *
  obtain ⟨-, n2, n3, -, -, -⟩ := nodePass_spec lm NUM_THREADS hT
    { model with m_tets := E.1 } E.2 (by rw [hE]; exact hU) (by rw [hE]; exact hTl)
  exact ⟨n2, n3⟩

omit [Add α] [Neg α] [One α] [DecidableEq α] in
theorem computeRunTimeBC_sized (model : Model α) (ms : ModelStates α) (k N : Nat)
    (h : ms.sized N) : (computeRunTimeBC model ms k).sized N := by
  obtain ⟨h1, h2, h3, h4, h5, h6⟩ := h
  refine ⟨h1, h2, h3, h4, h5, ?_⟩
  show (setDisp (setDisp (setDisp ms.m_disp_mag_t _ _ 0 _) _ _ 1 _) _ _ 2 _).length = N * 3
  rw [setDisp_length, setDisp_length, setDisp_length]
  exact h6

omit [Add α] [Sub α] [Mul α] [Div α] [Neg α] [Zero α] [One α] [NatCast α] [DecidableEq α] in
theorem sameData_set (M model : Model α) (h : M.sameData model) (tets : List (T4 α)) :
    M.sameData { model with m_tets := tets } := by
  obtain ⟨t, rfl⟩ := h
  exact ⟨tets, rfl⟩

/-- A successful step keeps the data of the model and the sizes of the state. -/
theorem computeOneStep_inv (lm : Libm α) (NUM_THREADS : Nat) (hT : 1 ≤ NUM_THREADS)
    (M model : Model α) (ms : ModelStates α) (hM : M.sameData model)
    (hs : ms.sized M.m_nodes.length)
    (hne : (computeOneStep lm NUM_THREADS model ms).no_err = true) :
    M.sameData (computeOneStep lm NUM_THREADS model ms).model ∧
      (computeOneStep lm NUM_THREADS model ms).modelstates.sized M.m_nodes.length ∧
      (computeOneStep lm NUM_THREADS model ms).modelstates.m_curr_U
        = (nodePassOf lm NUM_THREADS model ms).1.m_next_U ∧
      (computeOneStep lm NUM_THREADS model ms).modelstates.m_curr_T
        = (nodePassOf lm NUM_THREADS model ms).1.m_next_T := by
  have hN : model.m_nodes.length = M.m_nodes.length := by
    obtain ⟨t, ht⟩ := hM
    rw [ht]
  obtain ⟨h1, h2, h3, h4, h5, h6⟩ := hs
  obtain ⟨l1, l2⟩ := nodePassOf_length lm NUM_THREADS hT model ms (by rw [hN]; exact h3)
    (by rw [hN]; exact h5)
  obtain ⟨⟨F, Q, U, T, hfr⟩, -, -, -⟩ := nodePassOf_spec lm NUM_THREADS hT model ms
    (by rw [hN]; exact h3) (by rw [hN]; exact h5)
  rw [computeOneStep_no_err] at hne
  rw [computeOneStep_ok lm NUM_THREADS model ms hne]
  rw [hN] at l1 l2
  refine ⟨?_, ⟨?_, ?_, ?_, ?_, ?_, ?_⟩, rfl, rfl⟩
  · exact sameData_set M model hM _
  · show (nodePassOf lm NUM_THREADS model ms).1.m_curr_U.length = _
    rw [hfr]; exact h2
  · exact l1
  · show (nodePassOf lm NUM_THREADS model ms).1.m_prev_U.length = _
    rw [hfr]; exact h1
  · exact l2
  · show (nodePassOf lm NUM_THREADS model ms).1.m_curr_T.length = _
    rw [hfr]; exact h4
  · show (nodePassOf lm NUM_THREADS model ms).1.m_disp_mag_t.length = _
    rw [hfr]; exact h6

end LoopLemmas

section RampLemmas
variable {α : Type}

theorem sameData_fields (M model : Model α) (h : M.sameData model) :
    model.m_nodes = M.m_nodes ∧ (∀ j, model.dispIdx j = M.dispIdx j) ∧
      (∀ j, model.dispMag j = M.dispMag j) ∧ model.m_dt = M.m_dt ∧
      model.m_total_t = M.m_total_t := by
  obtain ⟨t, rfl⟩ := h
  exact ⟨rfl, fun _ => rfl, fun _ => rfl, rfl, rfl⟩

/-- One step of the ramp: the target `computeRunTimeBC` sets for the DOF of the
last Disp entry `p` of axis `j` that lists its node, and, the target being
nonzero, the value the node pass writes. -/
theorem disp_step [LinearOrderedField α] (lm : Libm α) (NUM_THREADS : Nat)
    (hT : 1 ≤ NUM_THREADS) (model : Model α) (ms : ModelStates α) (n : Nat)
    (hs : ms.sized model.m_nodes.length) (j : Fin 3) (p : Nat)
    (hp : p < (model.dispIdx j).length)
    (hnode : (model.dispIdx j).getD p 0 < model.m_nodes.length)
    (hlast : ∀ q, p < q → q < (model.dispIdx j).length →
      (model.dispIdx j).getD q 0 ≠ (model.dispIdx j).getD p 0)
    (hu : rd (model.dispMag j) p ≠ 0) (hdt : model.m_dt ≠ 0) (htt : model.m_total_t ≠ 0) :
    rd (computeRunTimeBC model ms n).m_disp_mag_t ((model.dispIdx j).getD p 0 * 3 + j.val)
        = rd (model.dispMag j) p * (((n + 1 : ℕ) : α) * model.m_dt / model.m_total_t) ∧
      rd (nodePassOf lm NUM_THREADS model (computeRunTimeBC model ms n)).1.m_next_U
          ((model.dispIdx j).getD p 0 * 3 + j.val)
        = rd (model.dispMag j) p * (((n + 1 : ℕ) : α) * model.m_dt / model.m_total_t) := by
  have hj := j.isLt
  have htarget := computeRunTimeBC_disp model ms n j p hp hlast (by rw [hs.2.2.2.2.2]; omega)
  have hs' := computeRunTimeBC_sized model ms n _ hs
  obtain ⟨-, hval, -, -⟩ := nodePassOf_spec lm NUM_THREADS hT model
    (computeRunTimeBC model ms n) hs'.2.2.1 hs'.2.2.2.2.1
  refine ⟨htarget, ?_⟩
  rw [hval _ hnode j]
  unfold nextUValue
  have hnz : rd (computeRunTimeBC model ms n).m_disp_mag_t
      ((model.dispIdx j).getD p 0 * 3 + j.val) ≠ 0 := by
    rw [htarget]
    have hn : ((n + 1 : ℕ) : α) ≠ 0 := Nat.cast_ne_zero.2 (Nat.succ_ne_zero n)
    exact mul_ne_zero hu (div_ne_zero (mul_ne_zero hn hdt) htt)
  simp only [ne_eq, hnz, not_false_eq_true, if_true]
  exact htarget

end RampLemmas

section RestGather
variable {α : Type} [LinearOrderedField α]

/-- With zero current displacements and every node at the reference
temperature, the gather of every node after the element pass is zero. -/
theorem gatherOf_rest (lm : Libm α) (hsqrt : lm.sqrt 1 = 1) (hpow : ∀ e, lm.powf 1 e = 1)
    (NUM_THREADS : Nat) (hT : 1 ≤ NUM_THREADS) (model : Model α) (ms : ModelStates α)
    (hidx : model.indexed)
    (hids : ∀ (p : Nat) (tet : T4 α), model.m_tets[p]? = some tet → tet.m_idx = p)
    (hnodes : ∀ tet ∈ model.m_tets, ∀ m : Fin 4, tet.m_n_idx m < model.m_nodes.length)
    (hbuilt : ∀ tet ∈ model.m_tets, ∃ n1 n2 n3 n4, tet.builtFrom n1 n2 n3 n4)
    (hmat : ∀ tet ∈ model.m_tets, tet.m_M_material_type = "NH" ∨
      (tet.m_M_material_type = "TI" ∧
        rd tet.m_M_material_vals 3 + rd tet.m_M_material_vals 6 + rd tet.m_M_material_vals 8 = 1))
    (hexp : ∀ tet ∈ model.m_tets, tet.m_T_expan_vals.length = 0 ∨
      tet.m_T_expan_type = "T_EXPAN_ISO" ∨ tet.m_T_expan_type = "T_EXPAN_TI" ∨
      tet.m_T_expan_type = "T_EXPAN_ORTHO")
    (hF : ms.m_ele_nodal_internal_F.length = model.m_tets.length * 12)
    (hQ : ms.m_ele_nodal_internal_Q.length = model.m_tets.length * 4)
    (hcurr : ∀ k, rd ms.m_curr_U k = 0)
    (htemp : ∀ i, i < model.m_nodes.length → rd ms.m_curr_T i = model.m_T0)
    (i : Nat) (hi : i < model.m_nodes.length) :
    gatherOf lm NUM_THREADS model ms i = (fun _ => 0, 0) := by
  have hker : ∀ tet ∈ model.m_tets,
      (elementKernel lm model.m_T0 ms.m_curr_U ms.m_curr_T tet).f = (fun _ _ => 0) ∧
        (elementKernel lm model.m_T0 ms.m_curr_U ms.m_curr_T tet).q = (fun _ => 0) := by
    intro tet ht
    obtain ⟨n1, n2, n3, n4, hb⟩ := hbuilt tet ht
    exact elementKernel_rest lm hsqrt hpow model.m_T0 _ _ tet n1 n2 n3 n4 hb hcurr
      (fun m => htemp _ (hnodes tet ht m)) (hmat tet ht) (hexp tet ht)
  unfold gatherOf
  rw [gather_elementPass lm NUM_THREADS hT model ms hidx hids hF hQ i hi]
  obtain ⟨a1, a2⟩ := assembled_zero lm model.m_T0 ms.m_curr_U ms.m_curr_T model.m_tets i hker
  rw [a2]
  congr 1
  funext n
  exact a1 n

end RestGather

section ExampleLemmas4

theorem zeroDispModel_gather (i : Nat) (hi : i < 4) :
    gatherOf restLibm 1 zeroDispModel
        (computeRunTimeBC zeroDispModel (initBC zeroDispModel (ModelStates.new zeroDispModel)) 0) i
      = (fun _ => 0, 0) :=
  gatherOf_rest restLibm rfl (fun _ => rfl) 1 (Nat.le_refl 1) zeroDispModel
    (computeRunTimeBC zeroDispModel (initBC zeroDispModel (ModelStates.new zeroDispModel)) 0)
    (postCreate_indexed unitModelRaw) unitModelRaw_ids unitModelRaw_nodes unitModel_built
    (by intro tet h; rw [show zeroDispModel.m_tets = [unitTet] from rfl, List.mem_singleton] at h
        subst h; exact Or.inl rfl)
    (by intro tet h; rw [show zeroDispModel.m_tets = [unitTet] from rfl, List.mem_singleton] at h
        subst h; exact Or.inl rfl)
    rfl rfl (fun k => rd_replicate_zero _ k) (fun i hi => rd_replicate _ i _ hi) i hi

end ExampleLemmas4

section DivergenceLemmas
variable {α : Type} [Add α] [Sub α] [Mul α] [Div α] [Neg α] [Zero α] [One α] [NatCast α]
  [DecidableEq α]

/-- The node pass clears `no_err` exactly when a value it computed in an
integration branch and wrote is NaN for `isnan`. -/
theorem nodePassOf_diverged_iff (lm : Libm α) (NUM_THREADS : Nat) (hT : 1 ≤ NUM_THREADS)
    (model : Model α) (ms : ModelStates α)
    (hU : ms.m_next_U.length = model.m_nodes.length * 3)
    (hTl : ms.m_next_T.length = model.m_nodes.length) :
    (nodePassOf lm NUM_THREADS model ms).2 = false ↔
      ∃ i, i < model.m_nodes.length ∧
        ((∃ j : Fin 3, integratedU ms (i * 3 + j.val) = true ∧
            lm.isnan (rd (nodePassOf lm NUM_THREADS model ms).1.m_next_U (i * 3 + j.val)) = true) ∨
          (ms.m_fixT_flag.getD i false = false ∧
            lm.isnan (rd (nodePassOf lm NUM_THREADS model ms).1.m_next_T i) = true)) := by
  obtain ⟨-, hu, ht, hno⟩ := nodePassOf_spec lm NUM_THREADS hT model ms hU hTl
  constructor
  · intro h
    by_contra hcon
    have : (nodePassOf lm NUM_THREADS model ms).2 = true := by
      rw [hno]
      intro i hi
      refine ⟨fun j hj => ?_, fun hf => ?_⟩
      · rw [← hu i hi j]
        cases hn : lm.isnan (rd (nodePassOf lm NUM_THREADS model ms).1.m_next_U (i * 3 + j.val))
        · rfl
        · exact absurd ⟨i, hi, Or.inl ⟨j, hj, hn⟩⟩ hcon
      · rw [← ht i hi]
        cases hn : lm.isnan (rd (nodePassOf lm NUM_THREADS model ms).1.m_next_T i)
        · rfl
        · exact absurd ⟨i, hi, Or.inr ⟨hf, hn⟩⟩ hcon
    rw [h] at this
    cases this
  · rintro ⟨i, hi, h⟩
    cases hne : (nodePassOf lm NUM_THREADS model ms).2
    · rfl
    · exfalso
      obtain ⟨h1, h2⟩ := hno.1 hne i hi
      rcases h with ⟨j, hj, hn⟩ | ⟨hf, hn⟩
      · rw [hu i hi j, h1 j hj] at hn
        cases hn
      · rw [ht i hi, h2 hf] at hn
        cases hn

end DivergenceLemmas

section NodeFrameLemmas
variable {α : Type} [Add α] [Sub α] [Mul α] [Zero α] [DecidableEq α]

theorem nodeIter_frame (lm : Libm α) (model : Model α) (ms : ModelStates α) (U T : List α)
    (ne : Bool) (i : Nat) :
    ∃ U' T' ne', nodeIter lm model (withNext ms U T, ne) i = (withNext ms U' T', ne') := by
  unfold nodeIter
  by_cases h : (withNext ms U T).m_fixT_flag.getD i false = true
  · simp only [if_pos h]
    exact ⟨_, _, _, rfl⟩
  · simp only [if_neg h]
    exact ⟨_, _, _, rfl⟩

theorem foldl_nodeIter_frame (lm : Libm α) (model : Model α) (ms : ModelStates α)
    (L : List Nat) (U T : List α) (ne : Bool) :
    ∃ U' T' ne', L.foldl (nodeIter lm model) (withNext ms U T, ne) = (withNext ms U' T', ne') := by
  induction L generalizing U T ne with
  | nil => exact ⟨U, T, ne, rfl⟩
  | cons a L ih =>
    obtain ⟨U1, T1, ne1, h1⟩ := nodeIter_frame lm model ms U T ne a
    rw [List.foldl_cons, h1]
    exact ih U1 T1 ne1

/-- The node pass changes nothing in the state but `m_next_U` and `m_next_T`,
for every thread count and every state. -/
theorem nodePass_frame (lm : Libm α) (NUM_THREADS : Nat) (model : Model α)
    (ms : ModelStates α) :
    ∃ U' T', (nodePass lm NUM_THREADS model ms).1 = withNext ms U' T' := by
  have hfold : nodePass lm NUM_THREADS model ms
      = (visitOrder NUM_THREADS model.m_nodes.length).foldl (nodeIter lm model) (ms, true) := by
    unfold nodePass visitOrder
    rw [foldl_flatMap]
  obtain ⟨U', T', ne', h⟩ := foldl_nodeIter_frame lm model ms
    (visitOrder NUM_THREADS model.m_nodes.length) ms.m_next_U ms.m_next_T true
  refine ⟨U', T', ?_⟩
  rw [hfold]
  have e : (ms, true) = (withNext ms ms.m_next_U ms.m_next_T, true) := rfl
  rw [e, h]

end NodeFrameLemmas

section AbortLemmas
variable {α : Type} [Add α] [Sub α] [Mul α] [Div α] [Neg α] [Zero α] [One α] [NatCast α]
  [DecidableEq α]

/-- A call of `computeOneStep` that returns false leaves the histories as they
were. -/
theorem computeOneStep_no_rotation (lm : Libm α) (NUM_THREADS : Nat) (model : Model α)
    (ms : ModelStates α) (h : (computeOneStep lm NUM_THREADS model ms).no_err = false) :
    (computeOneStep lm NUM_THREADS model ms).modelstates.m_prev_U = ms.m_prev_U ∧
      (computeOneStep lm NUM_THREADS model ms).modelstates.m_curr_U = ms.m_curr_U ∧
      (computeOneStep lm NUM_THREADS model ms).modelstates.m_curr_T = ms.m_curr_T := by
  obtain ⟨F, Q, hE⟩ := elementPass_frame lm NUM_THREADS model ms
  obtain ⟨U, T, hN⟩ := nodePass_frame lm NUM_THREADS
    { model with m_tets := (elementPass lm NUM_THREADS model ms).1 }
    (elementPass lm NUM_THREADS model ms).2
  rw [computeOneStep_eq] at h ⊢
  by_cases hne : (nodePass lm NUM_THREADS
      { model with m_tets := (elementPass lm NUM_THREADS model ms).1 }
      (elementPass lm NUM_THREADS model ms).2).2 = false
  · rw [if_pos hne]
    show (nodePass lm NUM_THREADS _ _).1.m_prev_U = _ ∧ (nodePass lm NUM_THREADS _ _).1.m_curr_U = _
      ∧ (nodePass lm NUM_THREADS _ _).1.m_curr_T = _
    rw [hN, hE]
    exact ⟨rfl, rfl, rfl⟩
  · rw [if_neg hne] at h
    cases h

/-- The simulation loop, entered at step `k` on the trajectory, runs through
`d` steps that return true. -/
theorem simulationLoop_advance (lm : Libm α) (NUM_THREADS : Nat) (model : Model α)
    (d todo k : Nat) (h : ∀ i, k ≤ i → i < k + d → stepNoErr lm NUM_THREADS model i = true) :
    simulationLoop lm NUM_THREADS (d + todo) k k (stepInput lm NUM_THREADS model k).1
        (stepInput lm NUM_THREADS model k).2
      = simulationLoop lm NUM_THREADS todo (k + d) (k + d)
          (stepInput lm NUM_THREADS model (k + d)).1
          (stepInput lm NUM_THREADS model (k + d)).2 := by
  induction d generalizing k with
  | zero => simp
  | succ d ih =>
    have hk : stepNoErr lm NUM_THREADS model k = true := h k (Nat.le_refl k) (by omega)
    have e : d + 1 + todo = (d + todo) + 1 := by omega
    rw [e, simulationLoop_succ, if_neg (by unfold stepNoErr at hk; rw [hk]; decide)]
    have e2 : k + (d + 1) = (k + 1) + d := by omega
    rw [e2]
    exact ih (k + 1) (fun i h1 h2 => h i (by omega) (by omega))

/-- The run when step `k` is the first that returns false. -/
theorem runSimulation_abort (lm : Libm α) (NUM_THREADS : Nat) (model : Model α) (k : Nat)
    (hk : k < model.m_num_steps) (hok : ∀ i, i < k → stepNoErr lm NUM_THREADS model i = true)
    (hbad : stepNoErr lm NUM_THREADS model k = false) :
    (runSimulation lm NUM_THREADS model).steps_run = k + 1 ∧
      (runSimulation lm NUM_THREADS model).modelstates = none := by
  have e : model.m_num_steps = k + (model.m_num_steps - k - 1 + 1) := by omega
  have h := simulationLoop_advance lm NUM_THREADS model k (model.m_num_steps - k - 1 + 1) 0
    (fun i _ h2 => hok i (by omega))
  have hrun : runSimulation lm NUM_THREADS model
      = simulationLoop lm NUM_THREADS model.m_num_steps 0 0
          (stepInput lm NUM_THREADS model 0).1 (stepInput lm NUM_THREADS model 0).2 := rfl
  rw [hrun, e, h, Nat.zero_add, simulationLoop_succ, if_pos (by unfold stepNoErr at hbad; exact hbad)]
  exact ⟨rfl, rfl⟩

/-- The run when every step returns true. -/
theorem runSimulation_complete (lm : Libm α) (NUM_THREADS : Nat) (model : Model α)
    (hok : ∀ i, i < model.m_num_steps → stepNoErr lm NUM_THREADS model i = true) :
    (runSimulation lm NUM_THREADS model).steps_run = model.m_num_steps ∧
      (runSimulation lm NUM_THREADS model).modelstates
        = some (stepInput lm NUM_THREADS model model.m_num_steps).2 := by
  have h := simulationLoop_advance lm NUM_THREADS model model.m_num_steps 0 0
    (fun i _ h2 => hok i (by omega))
  have hrun : runSimulation lm NUM_THREADS model
      = simulationLoop lm NUM_THREADS (model.m_num_steps + 0) 0 0
          (stepInput lm NUM_THREADS model 0).1 (stepInput lm NUM_THREADS model 0).2 := rfl
  rw [hrun, h, Nat.zero_add]
  exact ⟨rfl, rfl⟩

theorem main_of_none (lm : Libm α) (NUM_THREADS : Nat) (model : Model α)
    (exportVTK : Model α → ModelStates α → Int)
    (h : (runSimulation lm NUM_THREADS model).modelstates = none) :
    main lm NUM_THREADS (some model) exportVTK = { exit_code := EXIT_FAILURE, exported := none } := by
  unfold main
  simp only [h]

end AbortLemmas

section FloatLemmas

theorem FVal.div_zero_isFinite (x : FVal) : FVal.isFinite (x / 0) = false := by
  show FVal.isFinite (FVal.div x (FVal.fin 0)) = false
  cases x with
  | fin a =>
    simp only [FVal.div, if_true, FVal.infOfSign]
    split_ifs <;> rfl
  | pinf => simp [FVal.div, FVal.isFinite]
  | ninf => simp [FVal.div, FVal.isFinite]
  | nan => rfl

theorem FVal.div_nan (x : FVal) : x / FVal.nan = FVal.nan := by
  show FVal.div x FVal.nan = FVal.nan
  cases x <;> rfl

theorem FVal.div_inf (x d : FVal) (hd : d = FVal.pinf ∨ d = FVal.ninf) :
    x / d = 0 ∨ x / d = FVal.nan := by
  show FVal.div x d = FVal.fin 0 ∨ FVal.div x d = FVal.nan
  rcases hd with rfl | rfl <;> cases x <;> simp [FVal.div]

end FloatLemmas

section InverseLemmas
variable {α : Type} [Field α]

theorem matDet33_eq_det (A : Mat33 α) : matDet33 A = Matrix.det (Matrix.of A) := by
  rw [Matrix.det_fin_three]
  simp only [matDet33, Matrix.of_apply]
  ring

/-- The entries of `invA * A`, for a non-zero determinant. -/
theorem matInv33_mul_self (A : Mat33 α) (h : matDet33 A ≠ 0) :
    mat33x33 (matInv33 A).1 A = I33 := by
  funext i j
  have hd : matDet33 A = A 0 0 * (A 1 1 * A 2 2 - A 1 2 * A 2 1)
      - A 1 0 * (A 0 1 * A 2 2 - A 0 2 * A 2 1) + A 2 0 * (A 0 1 * A 1 2 - A 0 2 * A 1 1) := rfl
  fin_cases i <;> fin_cases j <;>
  · simp only [mat33x33, matInv33, I33, Fin.zero_eta, Fin.mk_one, Fin.reduceFinMk, zero_add,
      Fin.isValue, Fin.reduceEq, if_true, if_false]
    field_simp
    first
      | (rw [hd]; ring1)
      | ring1

/-- The entries of `A * invA`, for a non-zero determinant. -/
theorem self_mul_matInv33 (A : Mat33 α) (h : matDet33 A ≠ 0) :
    mat33x33 A (matInv33 A).1 = I33 := by
  funext i j
  have hd : matDet33 A = A 0 0 * (A 1 1 * A 2 2 - A 1 2 * A 2 1)
      - A 1 0 * (A 0 1 * A 2 2 - A 0 2 * A 2 1) + A 2 0 * (A 0 1 * A 1 2 - A 0 2 * A 1 1) := rfl
  fin_cases i <;> fin_cases j <;>
  · simp only [mat33x33, matInv33, I33, Fin.zero_eta, Fin.mk_one, Fin.reduceFinMk, zero_add,
      Fin.isValue, Fin.reduceEq, if_true, if_false]
    field_simp
    first
      | (rw [hd]; ring1)
      | ring1

end InverseLemmas

section VolumeLemmas
variable {α : Type} [Field α]

/-- The determinant of the reference Jacobian is the triple product of the
edges from the first corner. -/
theorem detJ0_eq_tripleProduct (n1 n2 n3 n4 : Node α) :
    matDet33 (mat34x34T (DHDr : Mat34 α) (n_coords n1 n2 n3 n4)) = tripleProduct n1 n2 n3 n4 := by
  simp only [matDet33, mat34x34T, DHDr, n_coords, tripleProduct, dot3, cross3, Node.pos]
  ring

theorem new_Vol (D_uninit : Mat33 α) (idx : Nat) (n1 n2 n3 n4 : Node α) (rho : α)
    (M_material_type : String) (M_material_vals : List α)
    (T_material_type : String) (T_material_vals : List α)
    (T_expan_type : String) (T_expan_vals : List α) :
    (T4.new D_uninit idx n1 n2 n3 n4 rho M_material_type M_material_vals T_material_type
        T_material_vals T_expan_type T_expan_vals).m_Vol = signedVolume n1 n2 n3 n4 := by
  show matDet33 _ / ((6 : ℕ) : α) = _
  rw [detJ0_eq_tripleProduct]
  rfl

end VolumeLemmas

section AffineLemmas
variable {α : Type} [Field α]

/-- With the reference gradient of the constructor and a non-zero `detJ0`, the
product `u * DHDXᵀ` of an affine field is its gradient `G`. -/
theorem affine_gradient (n1 n2 n3 n4 : Node α) (DHDX : Mat34 α) (u : Mat34 α) (G : Mat33 α)
    (b : Fin 3 → α)
    (hDHDX : DHDX
      = mat33x34 (matInv33 (mat34x34T (DHDr : Mat34 α) (n_coords n1 n2 n3 n4))).1 DHDr)
    (hdet : matDet33 (mat34x34T (DHDr : Mat34 α) (n_coords n1 n2 n3 n4)) ≠ 0)
    (hu : ∀ (m : Fin 4) (n : Fin 3),
      u n m = affineDisp G b (fun k => n_coords n1 n2 n3 n4 k m) n) (i j : Fin 3) :
    mat34x34T u DHDX i j = G i j := by
  have hI := matInv33_mul_self _ hdet
  have e : ∀ k, mat33x33 (matInv33 (mat34x34T (DHDr : Mat34 α) (n_coords n1 n2 n3 n4))).1
      (mat34x34T (DHDr : Mat34 α) (n_coords n1 n2 n3 n4)) j k = I33 j k :=
    fun k => congrFun (congrFun hI j) k
  rw [hDHDX]
  generalize (matInv33 (mat34x34T (DHDr : Mat34 α) (n_coords n1 n2 n3 n4))).1 = A at e ⊢
  have e0 := e 0
  have e1 := e 1
  have e2 := e 2
  simp only [mat33x33, mat34x34T, mat33x34, DHDr, n_coords, affineDisp, hu, zero_add] at e0 e1 e2 ⊢
  fin_cases j <;>
  · simp only [I33, Fin.zero_eta, Fin.mk_one, Fin.reduceFinMk, Fin.isValue, Fin.reduceEq, if_true,
      if_false] at e0 e1 e2 ⊢
    linear_combination G i 0 * e0 + G i 1 * e1 + G i 2 * e2

end AffineLemmas

section StressLemmas
variable {α : Type} [Field α]

/-- The stress the element pass stores, in terms of the stress of the material
branch. -/
theorem elementKernel_S (lm : Libm α) (T0 : α) (curr_U curr_T : List α) (tet : T4 α) :
    (elementKernel lm T0 curr_U curr_T tet).tet.m_S
      = if tet.m_T_expan_vals.length ≠ 0 then
          pullBack (matInv33 (expansionGradient tet (T_diff T0 curr_T tet))).1
            (matInv33 (expansionGradient tet (T_diff T0 curr_T tet))).2
            (materialStress lm T0 curr_U curr_T tet)
        else materialStress lm T0 curr_U curr_T tet := by
  by_cases h : tet.m_T_expan_vals.length ≠ 0
  · simp only [elementKernel, materialStress, cauchyGreen, elasticJ, elasticGradient, pullBack,
      if_pos h]
  · simp only [elementKernel, materialStress, cauchyGreen, elasticJ, elasticGradient, pullBack,
      if_neg h]

/-- The tensor `Xᵀ * X` is symmetric. -/
theorem mat33Tx33_self_symm (X : Mat33 α) (i j : Fin 3) :
    mat33Tx33 X X i j = mat33Tx33 X X j i := by
  simp only [mat33Tx33]
  ring

/-- The determinant of `Xᵀ * X` is the square of the determinant of `X`. -/
theorem matDet33_gram (X : Mat33 α) : matDet33 (mat33Tx33 X X) = matDet33 X ^ 2 := by
  simp only [matDet33, mat33Tx33]
  ring

/-- The matrix `matInv33` returns for a symmetric matrix is symmetric. -/
theorem matInv33_symm (C : Mat33 α) (hC : ∀ i j, C i j = C j i) (i j : Fin 3) :
    (matInv33 C).1 i j = (matInv33 C).1 j i := by
  have h10 := hC 1 0
  have h20 := hC 2 0
  have h21 := hC 2 1
  fin_cases i <;> fin_cases j <;>
  · simp only [matInv33, Fin.zero_eta, Fin.mk_one, Fin.reduceFinMk, Fin.isValue, h10, h20, h21]
    try ring

end StressLemmas

section SymmetryLemmas
variable {α : Type} [Field α]

/-- The stress of the NH and TI branches is symmetric as written: the lower
triangle is assigned from the upper one. -/
theorem materialStress_symm (lm : Libm α) (T0 : α) (curr_U curr_T : List α) (tet : T4 α)
    (h : tet.m_M_material_type = "NH" ∨ tet.m_M_material_type = "TI") (i j : Fin 3) :
    materialStress lm T0 curr_U curr_T tet i j = materialStress lm T0 curr_U curr_T tet j i := by
  unfold materialStress
  rcases h with h | h
  · rw [if_pos h]
    fin_cases i <;> fin_cases j <;> rfl
  · rw [if_neg (by rw [h]; decide), if_pos h]
    fin_cases i <;> fin_cases j <;> rfl

/-- The pull-back `(M * S * Mᵀ) * c` of a symmetric `S` is symmetric. -/
theorem pullBack_symm (M : Mat33 α) (c : α) (S : Mat33 α) (hS : ∀ i j, S i j = S j i)
    (i j : Fin 3) : pullBack M c S i j = pullBack M c S j i := by
  have h10 := hS 1 0
  have h20 := hS 2 0
  have h21 := hS 2 1
  simp only [pullBack, mat33xScalar, mat33x33T, mat33x33, h10, h20, h21]
  ring

end SymmetryLemmas

section ConductionLemmas
variable {α : Type} [Field α]

/-- The conductivity tensor of the three thermal types is symmetric. -/
theorem conductivity_symm (D_uninit : Mat33 α) (T_material_type : String)
    (T_material_vals : List α)
    (h : T_material_type = "T_ISO" ∨ T_material_type = "T_ORTHO" ∨ T_material_type = "T_ANISO")
    (i j : Fin 3) :
    conductivity D_uninit T_material_type T_material_vals i j
      = conductivity D_uninit T_material_type T_material_vals j i := by
  unfold conductivity
  rcases h with h | h | h
  · rw [if_pos h]
    by_cases hij : i = j
    · rw [hij]
    · rw [if_neg hij, if_neg (fun e => hij e.symm)]
  · rw [if_neg (by rw [h]; decide), if_pos h]
    fin_cases i <;> fin_cases j <;> rfl
  · rw [if_neg (by rw [h]; decide), if_neg (by rw [h]; decide), if_pos h]
    fin_cases i <;> fin_cases j <;> rfl

/-- The matrix `(Bᵀ * (D * B)) * v` is symmetric when `D` is. -/
theorem conduction_symm (B : Mat34 α) (D : Mat33 α) (v : α) (hD : ∀ i j, D i j = D j i)
    (i j : Fin 4) :
    mat44xScalar (mat34Tx34 B (mat33x34 D B)) v i j
      = mat44xScalar (mat34Tx34 B (mat33x34 D B)) v j i := by
  have h10 := hD 1 0
  have h20 := hD 2 0
  have h21 := hD 2 1
  simp only [mat44xScalar, mat34Tx34, mat33x34, h10, h20, h21]
  ring

/-- The matrix `(Bᵀ * (D * B)) * v` as a product of matrices. -/
theorem conduction_eq (B : Mat34 α) (D : Mat33 α) (v : α) :
    Matrix.of (mat44xScalar (mat34Tx34 B (mat33x34 D B)) v)
      = v • ((Matrix.of B).transpose * Matrix.of D * Matrix.of B) := by
  ext i j
  simp only [Matrix.of_apply, Matrix.smul_apply, Matrix.mul_apply, Matrix.transpose_apply,
    Fin.sum_univ_three, smul_eq_mul, mat44xScalar, mat34Tx34, mat33x34]
  ring

end ConductionLemmas

section ThermalMassLemmas
variable {α : Type}

theorem nodal_T_mass_eq_foldl [Add α] [Div α] [Zero α] [NatCast α] (model : Model α) :
    nodal_T_mass model
      = (model.m_tets.flatMap fun tet =>
          (List.finRange 4).map fun m => (tet.m_n_idx m, tet.m_mass / ((4 : ℕ) : α))).foldl
          (fun a c => addAt a c.1 c.2) (List.replicate model.m_num_T_DOFs 0) := by
  unfold nodal_T_mass
  rw [foldl_flatMap]
  congr 1

/-- The entry of node `i` in the local `nodal_T_mass` of the `ModelStates`
constructor is the lumped mass of the node. -/
theorem nodal_T_mass_rd [DivisionRing α] (model : Model α) (i : Nat)
    (h : i < model.m_num_T_DOFs) :
    rd (nodal_T_mass model) i = lumpedMass model.m_tets i := by
  rw [nodal_T_mass_eq_foldl, (foldl_addAt _ _ i (by simpa using h)).1, rd_replicate_zero, zero_add]
  unfold lumpedMass
  rw [sum_flatMap]
  congr 1

/-- The lumped masses of the nodes sum to the masses of the elements. -/
theorem sum_lumpedMass [Field α] (h4 : ((4 : ℕ) : α) ≠ 0) (tets : List (T4 α)) (N : Nat)
    (h : ∀ tet ∈ tets, ∀ m : Fin 4, tet.m_n_idx m < N) :
    (Finset.range N).sum (fun i => lumpedMass tets i) = (tets.map fun tet => tet.m_mass).sum := by
  induction tets with
  | nil => simp [lumpedMass]
  | cons tet tets ih =>
    have hstep : ∀ i, lumpedMass (tet :: tets) i
        = ((if tet.m_n_idx 0 = i then tet.m_mass / ((4 : ℕ) : α) else 0)
            + (if tet.m_n_idx 1 = i then tet.m_mass / ((4 : ℕ) : α) else 0)
            + (if tet.m_n_idx 2 = i then tet.m_mass / ((4 : ℕ) : α) else 0)
            + (if tet.m_n_idx 3 = i then tet.m_mass / ((4 : ℕ) : α) else 0))
          + lumpedMass tets i := by
      intro i
      simp only [lumpedMass, List.map_cons, List.sum_cons,
        show List.finRange 4 = [0, 1, 2, 3] from rfl, List.map_nil, List.sum_nil, add_zero,
        add_assoc]
    have hm := h tet (List.mem_cons_self _ _)
    simp only [hstep, Finset.sum_add_distrib, List.map_cons, List.sum_cons,
      ih (fun t ht m => h t (List.mem_cons_of_mem _ ht) m)]
    rw [Finset.sum_ite_eq, Finset.sum_ite_eq, Finset.sum_ite_eq, Finset.sum_ite_eq,
      if_pos (Finset.mem_range.2 (hm 0)), if_pos (Finset.mem_range.2 (hm 1)),
      if_pos (Finset.mem_range.2 (hm 2)), if_pos (Finset.mem_range.2 (hm 3))]
    congr 1
    rw [Nat.cast_ofNat] at h4 ⊢
    field_simp
    ring

end ThermalMassLemmas

section PerfusionLemmas
variable {α : Type} [Field α]

/-- The loop over the listed ids of a `<Perfu>` block adds to every node the
coefficients of the corners at the node. -/
theorem nodal_wbVolcb_fold (model : Model α) (wb cb : α) (ids : List Nat) (i : Nat)
    (acc : List α) (hi : i < acc.length) :
    rd (ids.foldl
        (fun acc idx =>
          match model.tetOfId idx with
          | none => acc
          | some tet =>
            (List.finRange 4).foldl
              (fun acc m => addAt acc (tet.m_n_idx m) (wb * tet.m_Vol / ((4 : ℕ) : α) * cb))
              acc)
        acc) i
      = rd acc i + (ids.map fun idx =>
          match model.tetOfId idx with
          | none => 0
          | some tet =>
            ((List.finRange 4).map fun m =>
              if tet.m_n_idx m = i then wb * tet.m_Vol / ((4 : ℕ) : α) * cb else 0).sum).sum ∧
    (ids.foldl
        (fun acc idx =>
          match model.tetOfId idx with
          | none => acc
          | some tet =>
            (List.finRange 4).foldl
              (fun acc m => addAt acc (tet.m_n_idx m) (wb * tet.m_Vol / ((4 : ℕ) : α) * cb))
              acc)
        acc).length = acc.length := by
  induction ids generalizing acc with
  | nil => simp
  | cons idx ids ih =>
    rw [List.foldl_cons, List.map_cons, List.sum_cons]
    cases hq : model.tetOfId idx with
    | none =>
      obtain ⟨h1, h2⟩ := ih acc hi
      simp only [h1, h2, zero_add, and_self]
    | some tet =>
      have hin := foldl_addAt
        ((List.finRange 4).map fun m =>
          (tet.m_n_idx m, wb * tet.m_Vol / ((4 : ℕ) : α) * cb)) acc i hi
      rw [List.foldl_map] at hin
      obtain ⟨h1, h2⟩ := ih _ (by rw [hin.2]; exact hi)
      simp only [h1, h2, hin.1, hin.2, List.map_map, and_true]
      rw [add_assoc]
      rfl

theorem nodal_wbVolcb_rd (model : Model α) (c : PerfuCondition α) (i : Nat)
    (hi : i < model.m_nodes.length) :
    rd (nodal_wbVolcb model c.wb c.cb c.ids) i = perfuCoeff model c i := by
  have h := (nodal_wbVolcb_fold model c.wb c.cb c.ids i
    (List.replicate model.m_nodes.length 0) (by simpa using hi)).1
  rw [rd_replicate_zero, zero_add] at h
  exact h

theorem nodal_wbVolcb_length (model : Model α) (wb cb : α) (ids : List Nat) :
    (nodal_wbVolcb model wb cb ids).length = model.m_nodes.length := by
  have key : ∀ (l : List Nat) (acc : List α),
      (l.foldl
        (fun acc idx =>
          match model.tetOfId idx with
          | none => acc
          | some tet =>
            (List.finRange 4).foldl
              (fun acc m => addAt acc (tet.m_n_idx m) (wb * tet.m_Vol / ((4 : ℕ) : α) * cb))
              acc)
        acc).length = acc.length := by
    intro l
    induction l with
    | nil => intro acc; rfl
    | cons a t ih =>
      intro acc
      rw [List.foldl_cons, ih]
      cases model.tetOfId a with
      | none => rfl
      | some tet => simp [show List.finRange 4 = [0, 1, 2, 3] from rfl, addAt_length]
  exact (key ids (List.replicate model.m_nodes.length 0)).trans (by simp)

end PerfusionLemmas

section PerfusionLemmas2
variable {α : Type} [Field α] [DecidableEq α]

/-- The loop of a `<Perfu>` block that appends the entries of the nodes with a
non-zero `nodal_wbVolcb`, after `n` iterations. -/
theorem perfuLoop_eq (v : List α) (refT : α) (model : Model α) (n : Nat) :
    (List.range n).foldl
        (fun (mdl : Model α) i =>
          if rd v i ≠ 0 then
            { mdl with
              m_perfu_idx := mdl.m_perfu_idx ++ [i]
              m_perfu_const1 := mdl.m_perfu_const1 ++ [rd v i]
              m_perfu_refT := mdl.m_perfu_refT ++ [refT] }
          else mdl)
        model
      = { model with
          m_perfu_idx := model.m_perfu_idx
            ++ (List.range n).filter (fun i => decide (rd v i ≠ 0))
          m_perfu_const1 := model.m_perfu_const1
            ++ ((List.range n).filter (fun i => decide (rd v i ≠ 0))).map (fun i => rd v i)
          m_perfu_refT := model.m_perfu_refT
            ++ ((List.range n).filter (fun i => decide (rd v i ≠ 0))).map (fun _ => refT) } := by
  induction n with
  | zero => simp
  | succ n ih =>
    rw [List.range_succ, List.foldl_append, ih, List.filter_append]
    by_cases h : rd v n ≠ 0
    · simp [h]
    · simp [h]

/-- What a `<Perfu>` block does to the model. -/
theorem readPerfu_eq (model : Model α) (c : PerfuCondition α) :
    readPerfu model c.wb c.cb c.refT c.ids
      = { model with
          m_perfu_idx := model.m_perfu_idx ++ (perfuEntries model c).map (fun e => e.1)
          m_perfu_const1 := model.m_perfu_const1 ++ (perfuEntries model c).map (fun e => e.2.1)
          m_perfu_refT := model.m_perfu_refT ++ (perfuEntries model c).map (fun e => e.2.2)
          m_num_BCs := model.m_num_BCs + 1 } := by
  have hf : (List.range model.m_nodes.length).filter
        (fun i => decide (rd (nodal_wbVolcb model c.wb c.cb c.ids) i ≠ 0))
      = (List.range model.m_nodes.length).filter (fun i => decide (perfuCoeff model c i ≠ 0)) := by
    apply List.filter_congr
    intro i hi
    rw [nodal_wbVolcb_rd model c i (List.mem_range.1 hi)]
  have hm : ((List.range model.m_nodes.length).filter
        (fun i => decide (perfuCoeff model c i ≠ 0))).map
        (fun i => rd (nodal_wbVolcb model c.wb c.cb c.ids) i)
      = ((List.range model.m_nodes.length).filter
        (fun i => decide (perfuCoeff model c i ≠ 0))).map (fun i => perfuCoeff model c i) := by
    apply List.map_congr_left
    intro i hi
    exact nodal_wbVolcb_rd model c i (List.mem_range.1 (List.mem_filter.1 hi).1)
  unfold readPerfu
  simp only [perfuLoop_eq, nodal_wbVolcb_length, hf, hm, perfuEntries, List.map_map,
    Function.comp_def, List.map_id']

/-- What the `<Perfu>` blocks of the file do to the model. -/
theorem readPerfuAll_eq (model : Model α) (conds : List (PerfuCondition α)) :
    readPerfuAll model conds
      = { model with
          m_perfu_idx := model.m_perfu_idx
            ++ (conds.flatMap (perfuEntries model)).map (fun e => e.1)
          m_perfu_const1 := model.m_perfu_const1
            ++ (conds.flatMap (perfuEntries model)).map (fun e => e.2.1)
          m_perfu_refT := model.m_perfu_refT
            ++ (conds.flatMap (perfuEntries model)).map (fun e => e.2.2)
          m_num_BCs := model.m_num_BCs + conds.length } := by
  induction conds generalizing model with
  | nil => simp [readPerfuAll]
  | cons c cs ih =>
    have hstep : readPerfuAll model (c :: cs)
        = readPerfuAll (readPerfu model c.wb c.cb c.refT c.ids) cs := rfl
    rw [hstep, ih, readPerfu_eq]
    have he : ∀ c', perfuEntries
        { model with
          m_perfu_idx := model.m_perfu_idx ++ (perfuEntries model c).map (fun e => e.1)
          m_perfu_const1 := model.m_perfu_const1 ++ (perfuEntries model c).map (fun e => e.2.1)
          m_perfu_refT := model.m_perfu_refT ++ (perfuEntries model c).map (fun e => e.2.2)
          m_num_BCs := model.m_num_BCs + 1 } c' = perfuEntries model c' := fun _ => rfl
    simp only [he, List.flatMap_cons, List.map_append, List.append_assoc, List.length_cons]
    congr 1
    omega

omit [DecidableEq α] in
/-- The perfusion loop of `computeRunTimeBC` as a loop over the entries. -/
theorem setPerfu_entries (model : Model α) (ms : ModelStates α) (E : List (Nat × α × α))
    (h1 : model.m_perfu_idx = E.map (fun e => e.1))
    (h2 : model.m_perfu_const1 = E.map (fun e => e.2.1))
    (h3 : model.m_perfu_refT = E.map (fun e => e.2.2)) :
    setPerfu model ms = E.foldl (perfuWrite ms.m_external_Q0 ms.m_curr_T) ms.m_external_Q := by
  unfold setPerfu
  rw [h1, h2, h3, List.length_map, ← foldl_range_getD E (0, 0, 0)]
  congr 1
  funext acc i
  have e1 : (E.map (fun e => e.1)).getD i 0 = (E.getD i (0, 0, 0)).1 :=
    List.getD_map E (0, 0, 0) (fun e : Nat × α × α => e.1)
  have e2 : rd (E.map (fun e => e.2.1)) i = (E.getD i (0, 0, 0)).2.1 :=
    List.getD_map E (0, 0, 0) (fun e : Nat × α × α => e.2.1)
  have e3 : rd (E.map (fun e => e.2.2)) i = (E.getD i (0, 0, 0)).2.2 :=
    List.getD_map E (0, 0, 0) (fun e : Nat × α × α => e.2.2)
  rw [e1, e2, e3]
  rfl

omit [DecidableEq α] in
/-- The writes of the entries of one condition: a listed node gets the value of
the condition, the other nodes keep theirs. -/
theorem foldl_perfuWrite_block (Q0 T : List α) (L : List Nat) (coef : Nat → α) (r : α)
    (acc : List α) (k : Nat) (hk : k < acc.length) :
    rd ((L.map fun i => (i, coef i, r)).foldl (perfuWrite Q0 T) acc) k
        = (if k ∈ L then rd Q0 k - coef k * (rd T k - r) else rd acc k) ∧
      ((L.map fun i => (i, coef i, r)).foldl (perfuWrite Q0 T) acc).length = acc.length := by
  induction L generalizing acc with
  | nil => simp
  | cons a t ih =>
    have hl : (perfuWrite Q0 T acc (a, coef a, r)).length = acc.length := by simp [perfuWrite]
    obtain ⟨h1, h2⟩ := ih (perfuWrite Q0 T acc (a, coef a, r)) (by rw [hl]; exact hk)
    rw [List.map_cons, List.foldl_cons, h1, h2, hl]
    refine ⟨?_, rfl⟩
    have hr : rd (perfuWrite Q0 T acc (a, coef a, r)) k
        = if a = k then rd Q0 a - coef a * (rd T a - r) else rd acc k := by
      unfold perfuWrite
      exact rd_set _ _ _ _ hk
    rw [hr]
    by_cases hkt : k ∈ t
    · simp [hkt]
    · by_cases hak : a = k
      · subst hak
        simp
      · have hka : ¬ k = a := fun e => hak e.symm
        simp [hkt, hak, hka]

/-- The perfusion loop over the entries of all conditions, seen from node `k`. -/
theorem foldl_perfuWrite_all (model : Model α) (conds : List (PerfuCondition α))
    (Q0 T acc : List α) (k : Nat) (hk : k < acc.length) (hkN : k < model.m_nodes.length) :
    rd ((conds.flatMap (perfuEntries model)).foldl (perfuWrite Q0 T) acc) k
      = perfusedQ model conds (rd acc k) (rd Q0 k) (rd T k) k := by
  induction conds generalizing acc with
  | nil => rfl
  | cons c cs ih =>
    obtain ⟨h1, h2⟩ := foldl_perfuWrite_block Q0 T
      ((List.range model.m_nodes.length).filter fun i => decide (perfuCoeff model c i ≠ 0))
      (fun i => perfuCoeff model c i) c.refT acc k hk
    rw [List.flatMap_cons, List.foldl_append]
    have hb : perfuEntries model c
        = ((List.range model.m_nodes.length).filter
            fun i => decide (perfuCoeff model c i ≠ 0)).map
            fun i => (i, perfuCoeff model c i, c.refT) := rfl
    rw [hb, ih _ (by rw [h2]; exact hk), h1]
    unfold perfusedQ
    rw [List.foldl_cons]
    congr 1
    by_cases hc : perfuCoeff model c k ≠ 0
    · rw [if_pos hc, if_pos (List.mem_filter.2 ⟨List.mem_range.2 hkN, by simpa using hc⟩)]
    · rw [if_neg hc, if_neg (fun hm => hc (by simpa using (List.mem_filter.1 hm).2))]

/-- Conditions with coefficient zero at the node leave the entry alone. -/
theorem perfusedQ_untouched (model : Model α) (conds : List (PerfuCondition α)) (Q Q0 T : α)
    (k : Nat) (h : ∀ c ∈ conds, perfuCoeff model c k = 0) :
    perfusedQ model conds Q Q0 T k = Q := by
  induction conds generalizing Q with
  | nil => rfl
  | cons c cs ih =>
    unfold perfusedQ at ih ⊢
    rw [List.foldl_cons, if_neg (by rw [h c (List.mem_cons_self _ _)]; simp)]
    exact ih Q (fun c' hc' => h c' (List.mem_cons_of_mem _ hc'))

omit [DecidableEq α] in
/-- The load of a condition is its coefficient times the temperature
difference. -/
theorem perfuLoad_eq (model : Model α) (c : PerfuCondition α) (T : α) (k : Nat) :
    perfuLoad model c T k = perfuCoeff model c k * (T - c.refT) := by
  unfold perfuLoad perfuCoeff
  generalize c.ids = ids
  induction ids with
  | nil => simp
  | cons a t ih =>
    rw [List.map_cons, List.sum_cons, List.map_cons, List.sum_cons, ih, add_mul]
    congr 1
    cases model.tetOfId a with
    | none => simp
    | some tet =>
      simp only [show List.finRange 4 = [0, 1, 2, 3] from rfl, List.map_cons, List.map_nil,
        List.sum_cons, List.sum_nil, add_zero, add_mul, ite_mul, zero_mul]

/-- The last condition with a non-zero coefficient at the node decides. -/
theorem perfusedQ_last (model : Model α) (pre post : List (PerfuCondition α))
    (c : PerfuCondition α) (Q Q0 T : α) (k : Nat) (hc : perfuCoeff model c k ≠ 0)
    (h : ∀ c' ∈ post, perfuCoeff model c' k = 0) :
    perfusedQ model (pre ++ c :: post) Q Q0 T k = Q0 - perfuLoad model c T k := by
  have h1 := perfusedQ_untouched model post
    (Q0 - perfuCoeff model c k * (T - c.refT)) Q0 T k h
  unfold perfusedQ at h1 ⊢
  rw [List.foldl_append, List.foldl_cons, if_pos hc, h1, perfuLoad_eq]

end PerfusionLemmas2

section HeatLemmas
variable {α : Type} [Field α]

/-- The loop `for tet: for m: v[tet->m_n_idx[m]] += val(tet)`: every cell gets
the values of the corners at its node. -/
theorem addCorners_rd (v : List α) (tets : List (T4 α)) (val : T4 α → α) (i : Nat)
    (hi : i < v.length) :
    rd (addCorners v tets val) i = rd v i + (tets.map fun tet => cornerSum tet i (val tet)).sum ∧
      (addCorners v tets val).length = v.length := by
  unfold addCorners
  induction tets generalizing v with
  | nil => simp
  | cons tet tets ih =>
    have hin := foldl_addAt ((List.finRange 4).map fun m => (tet.m_n_idx m, val tet)) v i hi
    rw [List.foldl_map] at hin
    obtain ⟨h1, h2⟩ := ih _ (by rw [hin.2]; exact hi)
    rw [List.foldl_cons, h1, h2, hin.1, hin.2, List.map_cons, List.sum_cons, List.map_map,
      add_assoc]
    exact ⟨rfl, rfl⟩

theorem addCorners_length (v : List α) (tets : List (T4 α)) (val : T4 α → α) :
    (addCorners v tets val).length = v.length := by
  unfold addCorners
  induction tets generalizing v with
  | nil => rfl
  | cons tet tets ih =>
    rw [List.foldl_cons, ih]
    simp [show List.finRange 4 = [0, 1, 2, 3] from rfl, addAt_length]

theorem resize_length (v : List α) (n : Nat) : (resize v n).length = n := by
  simp only [resize, List.length_append, List.length_take, List.length_replicate]
  omega

theorem rd_resize (v : List α) (n i : Nat) (h : v.length ≤ n) : rd (resize v n) i = rd v i := by
  unfold resize rd
  rw [List.take_of_length_le h]
  simp only [List.getD_eq_getElem?_getD]
  by_cases hi : i < v.length
  · rw [List.getElem?_append_left hi]
  · rw [List.getElem?_append_right (by omega), List.getElem?_eq_none (not_lt.1 hi),
      List.getElem?_replicate]
    split_ifs <;> rfl

/-- The loop `for i < idx.size(): v[idx[i]] += mag[i]` over vectors that hold
the two components of the entries `E`. -/
theorem addIndexed_rd (v : List α) (E : List (Nat × α)) (i : Nat) (hi : i < v.length) :
    rd (addIndexed v (E.map fun e => e.1) (E.map fun e => e.2)) i
        = rd v i + (E.map fun e => if e.1 = i then e.2 else 0).sum ∧
      (addIndexed v (E.map fun e => e.1) (E.map fun e => e.2)).length = v.length := by
  have e : addIndexed v (E.map fun e => e.1) (E.map fun e => e.2)
      = E.foldl (fun a c => addAt a c.1 c.2) v := by
    unfold addIndexed
    rw [List.length_map, ← foldl_range_getD E (0, 0)]
    congr 1
    funext acc k
    have e1 : (E.map (fun e => e.1)).getD k 0 = (E.getD k (0, 0)).1 :=
      List.getD_map E (0, 0) (fun e : Nat × α => e.1)
    have e2 : rd (E.map (fun e => e.2)) k = (E.getD k (0, 0)).2 :=
      List.getD_map E (0, 0) (fun e : Nat × α => e.2)
    rw [e1, e2]
  rw [e]
  exact foldl_addAt E v i hi

/-- The loop `for i < mag.size(): v[i] += mag[i]`. -/
theorem addAll_rd (v mag : List α) (i : Nat) (hi : i < v.length) :
    rd (addAll v mag) i = rd v i + rd mag i ∧ (addAll v mag).length = v.length := by
  have e : addAll v mag
      = ((List.range mag.length).map fun k => (k, rd mag k)).foldl (fun a c => addAt a c.1 c.2) v := by
    unfold addAll
    rw [List.foldl_map]
  rw [e]
  obtain ⟨h1, h2⟩ := foldl_addAt ((List.range mag.length).map fun k => (k, rd mag k)) v i hi
  refine ⟨?_, h2⟩
  rw [h1, List.map_map]
  congr 1
  have : ∀ n, ((List.range n).map ((fun c : Nat × α => if c.1 = i then c.2 else 0) ∘
      fun k => (k, rd mag k))).sum = if i < n then rd mag i else 0 := by
    intro n
    induction n with
    | zero => simp
    | succ n ih =>
      rw [List.range_succ, List.map_append, List.sum_append, ih]
      simp only [List.map_cons, List.map_nil, List.sum_cons, List.sum_nil, Function.comp_apply,
        add_zero]
      by_cases h1 : i < n
      · rw [if_pos h1, if_neg (by omega), if_pos (by omega), add_zero]
      · by_cases h2 : n = i
        · rw [if_neg h1, if_pos h2, if_pos (by omega), zero_add, h2]
        · rw [if_neg h1, if_neg h2, if_neg (by omega), add_zero]
  rw [this]
  by_cases h : i < mag.length
  · rw [if_pos h]
  · rw [if_neg h]
    unfold rd
    rw [List.getD_eq_getElem?_getD, List.getElem?_eq_none (not_lt.1 h)]
    rfl

/-- The entries of a list without repetition that address the cell `i`. -/
theorem sum_ite_nodup (L : List Nat) (hL : L.Nodup) (f : Nat → α) (i : Nat) :
    (L.map fun k => if k = i then f k else 0).sum = if i ∈ L then f i else 0 := by
  induction L with
  | nil => simp
  | cons a t ih =>
    rw [List.nodup_cons] at hL
    rw [List.map_cons, List.sum_cons, ih hL.2]
    by_cases ha : a = i
    · subst ha
      simp [hL.1]
    · have : ¬ i = a := fun e => ha e.symm
      simp [ha, this]

end HeatLemmas
section HeatLemmas2
variable {α : Type} [Field α] [DecidableEq α]

omit [Field α] [DecidableEq α] in
/-- The loop of a `<HFlux>` block that appends one entry per listed node. -/
theorem hfluxLoop_eq (f : Nat → Nat) (q : α) (ids : List Nat) (model : Model α) :
    ids.foldl
        (fun (mdl : Model α) idx =>
          { mdl with
            m_hflux_idx := mdl.m_hflux_idx ++ [f idx]
            m_hflux_mag := mdl.m_hflux_mag ++ [q] })
        model
      = { model with
          m_hflux_idx := model.m_hflux_idx ++ ids.map f
          m_hflux_mag := model.m_hflux_mag ++ ids.map fun _ => q } := by
  induction ids generalizing model with
  | nil => simp
  | cons a t ih =>
    rw [List.foldl_cons, ih]
    simp

/-- The loop of a `<BodyHFlux>` block that appends the entries of the nodes with
a non-zero `nodal_q`, after `n` iterations. -/
theorem bhfluxLoop_eq (v : List α) (model : Model α) (n : Nat) :
    (List.range n).foldl
        (fun (mdl : Model α) i =>
          if rd v i ≠ 0 then
            { mdl with
              m_bhflux_idx := mdl.m_bhflux_idx ++ [i]
              m_bhflux_mag := mdl.m_bhflux_mag ++ [rd v i] }
          else mdl)
        model
      = { model with
          m_bhflux_idx := model.m_bhflux_idx
            ++ (List.range n).filter (fun i => decide (rd v i ≠ 0))
          m_bhflux_mag := model.m_bhflux_mag
            ++ ((List.range n).filter (fun i => decide (rd v i ≠ 0))).map (fun i => rd v i) } := by
  induction n with
  | zero => simp
  | succ n ih =>
    rw [List.range_succ, List.foldl_append, ih, List.filter_append]
    by_cases h : rd v n ≠ 0
    · simp [h]
    · simp [h]

omit [DecidableEq α] in
theorem nodal_q_fold (model : Model α) (q : α) (ids : List Nat) (i : Nat)
    (acc : List α) (hi : i < acc.length) :
    rd (ids.foldl
        (fun acc idx =>
          match model.tetOfId idx with
          | none => acc
          | some tet =>
            (List.finRange 4).foldl
              (fun acc m => addAt acc (tet.m_n_idx m) (q * tet.m_Vol / ((4 : ℕ) : α)))
              acc)
        acc) i
      = rd acc i + (ids.map fun idx =>
          match model.tetOfId idx with
          | none => 0
          | some tet => cornerSum tet i (q * tet.m_Vol / ((4 : ℕ) : α))).sum ∧
    (ids.foldl
        (fun acc idx =>
          match model.tetOfId idx with
          | none => acc
          | some tet =>
            (List.finRange 4).foldl
              (fun acc m => addAt acc (tet.m_n_idx m) (q * tet.m_Vol / ((4 : ℕ) : α)))
              acc)
        acc).length = acc.length := by
  induction ids generalizing acc with
  | nil => simp
  | cons idx ids ih =>
    rw [List.foldl_cons, List.map_cons, List.sum_cons]
    cases hq : model.tetOfId idx with
    | none =>
      obtain ⟨h1, h2⟩ := ih acc hi
      simp only [h1, h2, zero_add, and_self]
    | some tet =>
      have hin := foldl_addAt
        ((List.finRange 4).map fun m =>
          (tet.m_n_idx m, q * tet.m_Vol / ((4 : ℕ) : α))) acc i hi
      rw [List.foldl_map] at hin
      obtain ⟨h1, h2⟩ := ih _ (by rw [hin.2]; exact hi)
      simp only [h1, h2, hin.1, hin.2, List.map_map, and_true]
      rw [add_assoc]
      rfl

omit [DecidableEq α] in
theorem nodal_q_rd (model : Model α) (q : α) (ids : List Nat) (i : Nat)
    (hi : i < model.m_nodes.length) :
    rd (nodal_q model q ids) i = heatLoad model (.bodyHFlux q ids) i := by
  have h := (nodal_q_fold model q ids i
    (List.replicate model.m_nodes.length 0) (by simpa using hi)).1
  rw [rd_replicate_zero, zero_add] at h
  exact h

omit [DecidableEq α] in
theorem nodal_q_length (model : Model α) (q : α) (ids : List Nat) :
    (nodal_q model q ids).length = model.m_nodes.length := by
  have key : ∀ (l : List Nat) (acc : List α),
      (l.foldl
        (fun acc idx =>
          match model.tetOfId idx with
          | none => acc
          | some tet =>
            (List.finRange 4).foldl
              (fun acc m => addAt acc (tet.m_n_idx m) (q * tet.m_Vol / ((4 : ℕ) : α)))
              acc)
        acc).length = acc.length := by
    intro l
    induction l with
    | nil => intro acc; rfl
    | cons a t ih =>
      intro acc
      rw [List.foldl_cons, ih]
      cases model.tetOfId a with
      | none => rfl
      | some tet => simp [show List.finRange 4 = [0, 1, 2, 3] from rfl, addAt_length]
  exact (key ids (List.replicate model.m_nodes.length 0)).trans (by simp)

/-- What reading one constant heat source does to the model. -/
theorem readHeat_eq (model : Model α) (c : HeatCondition α) :
    readHeat model c
      = { model with
          m_hflux_idx := model.m_hflux_idx ++ (hfluxEntries model c).map (fun e => e.1)
          m_hflux_mag := model.m_hflux_mag ++ (hfluxEntries model c).map (fun e => e.2)
          m_bhflux_idx := model.m_bhflux_idx ++ (bhfluxEntries model c).map (fun e => e.1)
          m_bhflux_mag := model.m_bhflux_mag ++ (bhfluxEntries model c).map (fun e => e.2)
          m_metabo_mag := metaboStep model model.m_metabo_mag c
          m_num_BCs := model.m_num_BCs + 1 } := by
  cases c with
  | hflux q nodes =>
    simp only [readHeat, readHFlux, hfluxLoop_eq, hfluxEntries, bhfluxEntries, metaboStep,
      List.map_map, Function.comp_def, List.map_nil, List.append_nil]
  | bodyHFlux q tets =>
    have hf : (List.range model.m_nodes.length).filter
          (fun i => decide (rd (nodal_q model q tets) i ≠ 0))
        = (List.range model.m_nodes.length).filter
          (fun i => decide (heatLoad model (.bodyHFlux q tets) i ≠ 0)) := by
      apply List.filter_congr
      intro i hi
      rw [nodal_q_rd model q tets i (List.mem_range.1 hi)]
    have hm : ((List.range model.m_nodes.length).filter
          (fun i => decide (heatLoad model (.bodyHFlux q tets) i ≠ 0))).map
          (fun i => rd (nodal_q model q tets) i)
        = ((List.range model.m_nodes.length).filter
          (fun i => decide (heatLoad model (.bodyHFlux q tets) i ≠ 0))).map
          (fun i => heatLoad model (.bodyHFlux q tets) i) := by
      apply List.map_congr_left
      intro i hi
      exact nodal_q_rd model q tets i (List.mem_range.1 (List.mem_filter.1 hi).1)
    simp only [readHeat, readBodyHFlux, bhfluxLoop_eq, nodal_q_length, hf, hm, hfluxEntries,
      bhfluxEntries, metaboStep, List.map_map, Function.comp_def, List.map_id', List.map_nil,
      List.append_nil]
  | metabo q =>
    simp only [readHeat, readMetabo, hfluxEntries, bhfluxEntries, metaboStep, List.map_nil,
      List.append_nil]

/-- What reading the constant heat sources of the file does to the model. -/
theorem readHeatAll_eq (model : Model α) (conds : List (HeatCondition α)) :
    readHeatAll model conds
      = { model with
          m_hflux_idx := model.m_hflux_idx
            ++ (conds.flatMap (hfluxEntries model)).map (fun e => e.1)
          m_hflux_mag := model.m_hflux_mag
            ++ (conds.flatMap (hfluxEntries model)).map (fun e => e.2)
          m_bhflux_idx := model.m_bhflux_idx
            ++ (conds.flatMap (bhfluxEntries model)).map (fun e => e.1)
          m_bhflux_mag := model.m_bhflux_mag
            ++ (conds.flatMap (bhfluxEntries model)).map (fun e => e.2)
          m_metabo_mag := conds.foldl (metaboStep model) model.m_metabo_mag
          m_num_BCs := model.m_num_BCs + conds.length } := by
  induction conds generalizing model with
  | nil => simp [readHeatAll]
  | cons c cs ih =>
    have hstep : readHeatAll model (c :: cs) = readHeatAll (readHeat model c) cs := rfl
    rw [hstep, ih, readHeat_eq]
    have he : ∀ c', hfluxEntries
        { model with
          m_hflux_idx := model.m_hflux_idx ++ (hfluxEntries model c).map (fun e => e.1)
          m_hflux_mag := model.m_hflux_mag ++ (hfluxEntries model c).map (fun e => e.2)
          m_bhflux_idx := model.m_bhflux_idx ++ (bhfluxEntries model c).map (fun e => e.1)
          m_bhflux_mag := model.m_bhflux_mag ++ (bhfluxEntries model c).map (fun e => e.2)
          m_metabo_mag := metaboStep model model.m_metabo_mag c
          m_num_BCs := model.m_num_BCs + 1 } c' = hfluxEntries model c' := by
      intro c'
      cases c' <;> rfl
    have hb : ∀ c', bhfluxEntries
        { model with
          m_hflux_idx := model.m_hflux_idx ++ (hfluxEntries model c).map (fun e => e.1)
          m_hflux_mag := model.m_hflux_mag ++ (hfluxEntries model c).map (fun e => e.2)
          m_bhflux_idx := model.m_bhflux_idx ++ (bhfluxEntries model c).map (fun e => e.1)
          m_bhflux_mag := model.m_bhflux_mag ++ (bhfluxEntries model c).map (fun e => e.2)
          m_metabo_mag := metaboStep model model.m_metabo_mag c
          m_num_BCs := model.m_num_BCs + 1 } c' = bhfluxEntries model c' := by
      intro c'
      cases c' <;> rfl
    have hm : ∀ v c', metaboStep
        { model with
          m_hflux_idx := model.m_hflux_idx ++ (hfluxEntries model c).map (fun e => e.1)
          m_hflux_mag := model.m_hflux_mag ++ (hfluxEntries model c).map (fun e => e.2)
          m_bhflux_idx := model.m_bhflux_idx ++ (bhfluxEntries model c).map (fun e => e.1)
          m_bhflux_mag := model.m_bhflux_mag ++ (bhfluxEntries model c).map (fun e => e.2)
          m_metabo_mag := metaboStep model model.m_metabo_mag c
          m_num_BCs := model.m_num_BCs + 1 } v c' = metaboStep model v c' := by
      intro v c'
      cases c' <;> rfl
    have hme : (metaboStep
        { model with
          m_hflux_idx := model.m_hflux_idx ++ (hfluxEntries model c).map (fun e => e.1)
          m_hflux_mag := model.m_hflux_mag ++ (hfluxEntries model c).map (fun e => e.2)
          m_bhflux_idx := model.m_bhflux_idx ++ (bhfluxEntries model c).map (fun e => e.1)
          m_bhflux_mag := model.m_bhflux_mag ++ (bhfluxEntries model c).map (fun e => e.2)
          m_metabo_mag := metaboStep model model.m_metabo_mag c
          m_num_BCs := model.m_num_BCs + 1 }) = metaboStep model := by
      funext v c'
      exact hm v c'
    simp only [he, hb, hme, List.flatMap_cons, List.map_append, List.append_assoc,
      List.length_cons, List.foldl_cons]
    congr 1
    omega

omit [DecidableEq α] in
/-- The vector `m_metabo_mag` after the heat sources: the entry of node `i`
holds the loads of the metabolic sources. -/
theorem metaboStep_rd (model : Model α) (conds : List (HeatCondition α)) (v : List α)
    (hv : v.length ≤ model.m_nodes.length) (i : Nat) (hi : i < model.m_nodes.length) :
    rd (conds.foldl (metaboStep model) v) i
        = rd v i + (conds.map fun c =>
            match c with
            | .metabo q => heatLoad model (.metabo q) i
            | _ => 0).sum ∧
      (conds.foldl (metaboStep model) v).length ≤ model.m_nodes.length := by
  induction conds generalizing v with
  | nil => simp [hv]
  | cons c cs ih =>
    rw [List.foldl_cons, List.map_cons, List.sum_cons]
    cases c with
    | hflux q nodes =>
      obtain ⟨h1, h2⟩ := ih v hv
      exact ⟨by rw [show metaboStep model v (.hflux q nodes) = v from rfl, h1, zero_add], h2⟩
    | bodyHFlux q tets =>
      obtain ⟨h1, h2⟩ := ih v hv
      exact ⟨by rw [show metaboStep model v (.bodyHFlux q tets) = v from rfl, h1, zero_add], h2⟩
    | metabo q =>
      have hs : metaboStep model v (.metabo q)
          = addCorners (resize v model.m_nodes.length) model.m_tets
              (fun tet => q * tet.m_Vol / ((4 : ℕ) : α)) := rfl
      have hl : (metaboStep model v (.metabo q)).length = model.m_nodes.length := by
        rw [hs, addCorners_length, resize_length]
      obtain ⟨h1, h2⟩ := ih (metaboStep model v (.metabo q)) (by rw [hl])
      refine ⟨?_, h2⟩
      rw [h1, hs, (addCorners_rd _ _ _ i (by rw [resize_length]; exact hi)).1,
        rd_resize v _ i hv, add_assoc]
      rfl

end HeatLemmas2

section GravityLemmas
variable {α : Type} [Field α]

/-- The gravity loop of `initBC` for one axis, seen from the DOF `i * 3 + a`. -/
theorem addGravity_rd (v mag : List α) (axis : Nat) (haxis : axis < 3) (i : Nat) (a : Fin 3)
    (hi : i * 3 + a.val < v.length) :
    rd (addGravity v mag axis) (i * 3 + a.val)
        = rd v (i * 3 + a.val) + (if a.val = axis then rd mag i else 0) ∧
      (addGravity v mag axis).length = v.length := by
  have e : addGravity v mag axis
      = ((List.range mag.length).map fun k => (k * 3 + axis, rd mag k)).foldl
          (fun a c => addAt a c.1 c.2) v := by
    unfold addGravity
    rw [List.foldl_map]
  rw [e]
  obtain ⟨h1, h2⟩ := foldl_addAt ((List.range mag.length).map fun k => (k * 3 + axis, rd mag k))
    v (i * 3 + a.val) hi
  refine ⟨?_, h2⟩
  rw [h1, List.map_map]
  congr 1
  have ha := a.isLt
  have : ∀ n, ((List.range n).map ((fun c : Nat × α => if c.1 = i * 3 + a.val then c.2 else 0) ∘
      fun k => (k * 3 + axis, rd mag k))).sum
        = if a.val = axis ∧ i < n then rd mag i else 0 := by
    intro n
    induction n with
    | zero => simp
    | succ n ih =>
      rw [List.range_succ, List.map_append, List.sum_append, ih]
      simp only [List.map_cons, List.map_nil, List.sum_cons, List.sum_nil, Function.comp_apply,
        add_zero]
      by_cases hax : a.val = axis
      · by_cases h1 : i < n
        · rw [if_pos ⟨hax, h1⟩, if_neg (by omega), if_pos ⟨hax, by omega⟩, add_zero]
        · by_cases h2 : n = i
          · rw [if_neg (by tauto), if_pos (by omega), if_pos ⟨hax, by omega⟩, zero_add, h2]
          · rw [if_neg (by tauto), if_neg (by omega), if_neg (by omega), add_zero]
      · rw [if_neg (by tauto), if_neg (by omega), if_neg (by tauto), add_zero]
  rw [this]
  by_cases hax : a.val = axis
  · rw [if_pos hax]
    by_cases h : i < mag.length
    · rw [if_pos ⟨hax, h⟩]
    · rw [if_neg (by tauto)]
      unfold rd
      rw [List.getD_eq_getElem?_getD, List.getElem?_eq_none (not_lt.1 h)]
      rfl
  · rw [if_neg hax, if_neg (by tauto)]

/-- What a `<Gravity>` block does to the model. -/
theorem readGravity_eq (model : Model α) (c : GravityCondition α) :
    readGravity model c.xyz c.g
      = { model with
          m_grav_f_x := gravStep model 0 model.m_grav_f_x c
          m_grav_f_y := gravStep model 1 model.m_grav_f_y c
          m_grav_f_z := gravStep model 2 model.m_grav_f_z c
          m_num_BCs := model.m_num_BCs + 1 } := by
  unfold readGravity gravStep axisName
  by_cases hx : c.xyz = "x"
  · simp [hx]
  · by_cases hy : c.xyz = "y"
    · simp [hy]
    · by_cases hz : c.xyz = "z"
      · simp [hz]
      · simp [hx, hy, hz]

/-- What the `<Gravity>` blocks of the file do to the model. -/
theorem readGravityAll_eq (model : Model α) (conds : List (GravityCondition α)) :
    readGravityAll model conds
      = { model with
          m_grav_f_x := conds.foldl (gravStep model 0) model.m_grav_f_x
          m_grav_f_y := conds.foldl (gravStep model 1) model.m_grav_f_y
          m_grav_f_z := conds.foldl (gravStep model 2) model.m_grav_f_z
          m_num_BCs := model.m_num_BCs + conds.length } := by
  induction conds generalizing model with
  | nil => simp [readGravityAll]
  | cons c cs ih =>
    have hstep : readGravityAll model (c :: cs)
        = readGravityAll (readGravity model c.xyz c.g) cs := rfl
    rw [hstep, ih, readGravity_eq]
    have hg : ∀ a, gravStep
        { model with
          m_grav_f_x := gravStep model 0 model.m_grav_f_x c
          m_grav_f_y := gravStep model 1 model.m_grav_f_y c
          m_grav_f_z := gravStep model 2 model.m_grav_f_z c
          m_num_BCs := model.m_num_BCs + 1 } a = gravStep model a := fun _ => rfl
    simp only [hg, List.foldl_cons, List.length_cons]
    congr 1
    omega

/-- The gravity vector of an axis after the conditions: the entry of node `i`
is the sum of the accelerations of the axis times the lumped mass of the
node. -/
theorem gravStep_rd (model : Model α) (a : Fin 3) (conds : List (GravityCondition α))
    (v : List α) (hv : v.length ≤ model.m_nodes.length) (i : Nat)
    (hi : i < model.m_nodes.length) :
    rd (conds.foldl (gravStep model a) v) i
        = rd v i + gravityOf conds a * lumpedMass model.m_tets i ∧
      (conds.foldl (gravStep model a) v).length ≤ model.m_nodes.length := by
  induction conds generalizing v with
  | nil => simp [hv, gravityOf]
  | cons c cs ih =>
    have hgo : gravityOf (c :: cs) a
        = (if c.xyz = axisName a then c.g else 0) + gravityOf cs a := by
      simp [gravityOf]
    rw [List.foldl_cons, hgo]
    by_cases hc : c.xyz = axisName a
    · have hs : gravStep model a v c
          = addCorners (resize v model.m_nodes.length) model.m_tets
              (fun tet => tet.m_mass * c.g / ((4 : ℕ) : α)) := by
        unfold gravStep
        rw [if_pos hc]
      have hl : (gravStep model a v c).length = model.m_nodes.length := by
        rw [hs, addCorners_length, resize_length]
      obtain ⟨h1, h2⟩ := ih (gravStep model a v c) (by rw [hl])
      refine ⟨?_, h2⟩
      rw [h1, hs, (addCorners_rd _ _ _ i (by rw [resize_length]; exact hi)).1,
        rd_resize v _ i hv, if_pos hc, add_mul, add_assoc]
      congr 2
      unfold lumpedMass cornerSum
      rw [← List.sum_map_mul_left]
      apply sum_map_congr_mem
      intro tet _
      rw [← List.sum_map_mul_left]
      apply sum_map_congr_mem
      intro m _
      by_cases hm : tet.m_n_idx m = i
      · rw [if_pos hm, if_pos hm]
        ring
      · rw [if_neg hm, if_neg hm, mul_zero]
    · have hs : gravStep model a v c = v := by
        unfold gravStep
        rw [if_neg hc]
      obtain ⟨h1, h2⟩ := ih v hv
      exact ⟨by rw [hs, h1, if_neg hc, zero_add], by rw [hs]; exact h2⟩

end GravityLemmas

section RotationLemmas
variable {α : Type} [Add α] [Sub α] [Mul α] [Div α] [Neg α] [Zero α] [One α] [NatCast α]
  [DecidableEq α]

/-- The two passes change nothing in the state but the per-corner buffers,
`m_next_U` and `m_next_T`, for every thread count and every state. -/
theorem nodePassOf_frame (lm : Libm α) (NUM_THREADS : Nat) (model : Model α)
    (ms : ModelStates α) :
    ∃ F Q U T, (nodePassOf lm NUM_THREADS model ms).1 = withNext (withBuffers ms F Q) U T := by
  obtain ⟨F, Q, hE⟩ := elementPass_frame lm NUM_THREADS model ms
  obtain ⟨U, T, hN⟩ := nodePass_frame lm NUM_THREADS
    { model with m_tets := (elementPass lm NUM_THREADS model ms).1 }
    (elementPass lm NUM_THREADS model ms).2
  refine ⟨F, Q, U, T, ?_⟩
  unfold nodePassOf
  rw [hN, hE]

/-- A successful `computeOneStep` returns the rotated state of the node pass. -/
theorem computeOneStep_rotated (lm : Libm α) (NUM_THREADS : Nat) (model : Model α)
    (ms : ModelStates α) (h : (computeOneStep lm NUM_THREADS model ms).no_err = true) :
    (computeOneStep lm NUM_THREADS model ms).modelstates
      = rotate (nodePassOf lm NUM_THREADS model ms).1 := by
  rw [computeOneStep_no_err] at h
  rw [computeOneStep_ok lm NUM_THREADS model ms h]

end RotationLemmas

section StepCountLemmas
variable {α : Type} [LinearOrderedField α] [FloorRing α]

/-- The step count of `readModel` is the ceiling of the quotient. -/
theorem specNumSteps_eq (total_t dt : α) (n : Nat) (h : specNumSteps total_t dt = some n) :
    dt ≠ 0 ∧ (n : ℤ) = ⌈total_t / dt⌉ := by
  unfold specNumSteps at h
  split_ifs at h with h0 h1
  · exact ⟨h0, by
      have := Option.some.inj h
      rw [← this, Int.toNat_of_nonneg h1.1]⟩

/-- The step count exists when the ceiling of the quotient fits `size_t`. -/
theorem specNumSteps_some (total_t dt : α) (hdt : 0 < dt) (ht : 0 < total_t)
    (hfit : ⌈total_t / dt⌉ < 2 ^ 64) :
    specNumSteps total_t dt = some ⌈total_t / dt⌉.toNat := by
  unfold specNumSteps
  rw [if_neg hdt.ne', if_pos ⟨Int.ceil_nonneg (div_pos ht hdt).le, hfit⟩]

/-- The ramp factor of the last step against `1`. -/
theorem last_factor (total_t dt : α) (n : Nat) (hdt : 0 < dt) (ht : 0 < total_t)
    (h : specNumSteps total_t dt = some n) :
    1 ≤ n ∧ 1 ≤ (n : α) * dt / total_t ∧
      ((n : α) * dt / total_t = 1 ↔ ∃ k : ℤ, total_t = (k : α) * dt) := by
  obtain ⟨_, hn⟩ := specNumSteps_eq total_t dt n h
  have hq : 0 < total_t / dt := div_pos ht hdt
  have hle : total_t / dt ≤ (n : α) := by
    have := Int.le_ceil (total_t / dt)
    rw [← hn] at this
    exact_mod_cast this
  have hnpos : (0 : α) < n := lt_of_lt_of_le hq hle
  have hle2 : total_t ≤ (n : α) * dt := (div_le_iff₀ hdt).1 hle
  refine ⟨?_, ?_, ?_⟩
  · exact_mod_cast hnpos
  · rw [le_div_iff₀ ht, one_mul]; exact hle2
  · rw [div_eq_iff ht.ne', one_mul]
    constructor
    · intro e
      exact ⟨(n : ℤ), by rw [← e]; norm_cast⟩
    · rintro ⟨k, hk⟩
      have e : total_t / dt = (k : α) := by rw [hk]; field_simp
      have : (n : ℤ) = k := by rw [hn, e, Int.ceil_intCast]
      rw [hk, ← this]; norm_cast

end StepCountLemmas

section ConductionBranches
variable {α : Type} [Field α]

/-- The two branches of the conduction recomputation agree for `D = k * I`. -/
theorem conduction_branches (D : Mat33 α) (k : α) (hD : ∀ i j, D i j = if i = j then k else 0)
    (DHDx : Mat34 α) (v : α) :
    mat44xScalar (mat34Tx34 DHDx DHDx) (v * D 0 0)
      = mat44xScalar (mat34Tx34 DHDx (mat33x34 D DHDx)) v := by
  funext i j
  simp only [mat44xScalar, mat34Tx34, mat33x34, hD, Fin.isValue, Fin.reduceEq, if_true, if_false]
  ring

/-- The conduction matrix `elementKernel` computes, branch by branch. -/
theorem elementKernel_K (lm : Libm α) (T0 : α) (curr_U curr_T : List α) (tet : T4 α) :
    (elementKernel lm T0 curr_U curr_T tet).tet.m_K
      = if tet.m_T_material_type = "T_ISO" then
          mat44xScalar (mat34Tx34 (mat33Tx34 (matInv33 (deformationGradient curr_U tet)).1
            tet.m_DHDX) (mat33Tx34 (matInv33 (deformationGradient curr_U tet)).1 tet.m_DHDX))
            (tet.m_Vol * (matInv33 (deformationGradient curr_U tet)).2 * tet.m_D 0 0)
        else
          mat44xScalar (mat34Tx34 (mat33Tx34 (matInv33 (deformationGradient curr_U tet)).1
            tet.m_DHDX) (mat33x34 tet.m_D
              (mat33Tx34 (matInv33 (deformationGradient curr_U tet)).1 tet.m_DHDX)))
            (tet.m_Vol * (matInv33 (deformationGradient curr_U tet)).2) := rfl

/-- The per-corner heat flows of `elementKernel` are the rows of its conduction
matrix applied to the corner temperatures. -/
theorem elementKernel_q (lm : Libm α) (T0 : α) (curr_U curr_T : List α) (tet : T4 α)
    (m : Fin 4) :
    (elementKernel lm T0 curr_U curr_T tet).q m
      = (elementKernel lm T0 curr_U curr_T tet).tet.m_K m 0 * rd curr_T (tet.m_n_idx 0)
        + (elementKernel lm T0 curr_U curr_T tet).tet.m_K m 1 * rd curr_T (tet.m_n_idx 1)
        + (elementKernel lm T0 curr_U curr_T tet).tet.m_K m 2 * rd curr_T (tet.m_n_idx 2)
        + (elementKernel lm T0 curr_U curr_T tet).tet.m_K m 3 * rd curr_T (tet.m_n_idx 3) := rfl

end ConductionBranches

section OwnSlots
variable {α : Type} [Zero α]

theorem ext_rd (l₁ l₂ : List α) (hlen : l₁.length = l₂.length)
    (h : ∀ k, k < l₁.length → rd l₁ k = rd l₂ k) : l₁ = l₂ := by
  apply List.ext_getElem hlen
  intro k h1 h2
  have e := h k h1
  unfold rd at e
  rw [List.getD_eq_getElem _ _ h1, List.getD_eq_getElem _ _ h2] at e
  exact e

/-- The scatter of an element leaves every entry outside its twelve slots. -/
theorem scatterF_untouched (buf : List α) (idx : Nat) (f : Mat34 α) (k : Nat)
    (hk : k < idx * 12 ∨ idx * 12 + 12 ≤ k) : rd (scatterF buf idx f) k = rd buf k := by
  simp only [scatterF, show List.finRange 4 = [0, 1, 2, 3] from rfl,
    show List.finRange 3 = [0, 1, 2] from rfl, List.foldl_cons, List.foldl_nil]
  rw [rd_set_ne _ _ _ _ (by simp; omega), rd_set_ne _ _ _ _ (by simp; omega),
    rd_set_ne _ _ _ _ (by simp; omega), rd_set_ne _ _ _ _ (by simp; omega),
    rd_set_ne _ _ _ _ (by simp; omega), rd_set_ne _ _ _ _ (by simp; omega),
    rd_set_ne _ _ _ _ (by simp; omega), rd_set_ne _ _ _ _ (by simp; omega),
    rd_set_ne _ _ _ _ (by simp; omega), rd_set_ne _ _ _ _ (by simp; omega),
    rd_set_ne _ _ _ _ (by simp; omega), rd_set_ne _ _ _ _ (by simp; omega)]

/-- The scatter of an element leaves every entry outside its four slots. -/
theorem scatterQ_untouched (buf : List α) (idx : Nat) (q : Fin 4 → α) (k : Nat)
    (hk : k < idx * 4 ∨ idx * 4 + 4 ≤ k) : rd (scatterQ buf idx q) k = rd buf k := by
  simp only [scatterQ, show List.finRange 4 = [0, 1, 2, 3] from rfl, List.foldl_cons,
    List.foldl_nil]
  rw [rd_set_ne _ _ _ _ (by simp; omega), rd_set_ne _ _ _ _ (by simp; omega),
    rd_set_ne _ _ _ _ (by simp; omega), rd_set_ne _ _ _ _ (by simp; omega)]

end OwnSlots

section OwnSlotsElement
variable {α : Type} [Add α] [Sub α] [Mul α] [Div α] [Neg α] [Zero α] [One α] [NatCast α]

/-- The visit of a tetrahedron writes only the slots of its id. -/
theorem elementIter_untouched (lm : Libm α) (T0 : α) (st : List (T4 α) × ModelStates α)
    (i : Nat) (tet : T4 α) (h : st.1[i]? = some tet) :
    (∀ k, (k < tet.m_idx * 12 ∨ tet.m_idx * 12 + 12 ≤ k) →
        rd (elementIter lm T0 st i).2.m_ele_nodal_internal_F k
          = rd st.2.m_ele_nodal_internal_F k) ∧
      (∀ k, (k < tet.m_idx * 4 ∨ tet.m_idx * 4 + 4 ≤ k) →
        rd (elementIter lm T0 st i).2.m_ele_nodal_internal_Q k
          = rd st.2.m_ele_nodal_internal_Q k) := by
  unfold elementIter
  simp only [List.get?_eq_getElem?, h]
  exact ⟨fun k hk => scatterF_untouched _ _ _ k hk, fun k hk => scatterQ_untouched _ _ _ k hk⟩

end OwnSlotsElement

section OwnSlotsNode
variable {α : Type} [Add α] [Sub α] [Mul α] [Zero α] [DecidableEq α]

theorem dofIter_untouched (lm : Libm α) (ms : ModelStates α) (F : Fin 3 → α) (i : Nat)
    (s : List α × Bool) (j : Fin 3) (k : Nat) (hk : k ≠ i * 3 + j.val) :
    rd (dofIter lm ms F i s j).1 k = rd s.1 k := by
  unfold dofIter
  simp only
  split_ifs <;> exact rd_set_ne _ _ _ _ (Ne.symm hk)

/-- The visit of a node writes only the slots of that node. -/
theorem nodeIter_untouched (lm : Libm α) (model : Model α) (st : ModelStates α × Bool)
    (i : Nat) :
    (∀ k, (k < i * 3 ∨ i * 3 + 3 ≤ k) →
        rd (nodeIter lm model st i).1.m_next_U k = rd st.1.m_next_U k) ∧
      (∀ k, k ≠ i → rd (nodeIter lm model st i).1.m_next_T k = rd st.1.m_next_T k) := by
  have hU : ∀ k, (k < i * 3 ∨ i * 3 + 3 ≤ k) →
      rd ((List.finRange 3).foldl (dofIter lm st.1 (gather model st.1 i).1 i)
        (st.1.m_next_U, st.2)).1 k = rd st.1.m_next_U k := by
    intro k hk
    simp only [show List.finRange 3 = [0, 1, 2] from rfl, List.foldl_cons, List.foldl_nil]
    rw [dofIter_untouched _ _ _ _ _ _ _ (by simp only [fin3_val]; omega),
      dofIter_untouched _ _ _ _ _ _ _ (by simp only [fin3_val]; omega),
      dofIter_untouched _ _ _ _ _ _ _ (by simp only [fin3_val]; omega)]
  unfold nodeIter
  by_cases h : st.1.m_fixT_flag.getD i false = true
  · simp only [if_pos h]
    exact ⟨hU, fun k hk => rd_set_ne _ _ _ _ (Ne.symm hk)⟩
  · simp only [if_neg h]
    exact ⟨hU, fun k hk => rd_set_ne _ _ _ _ (Ne.symm hk)⟩

end OwnSlotsNode

section ThreadLemmas
variable {α : Type} [Add α] [Sub α] [Mul α] [Div α] [Neg α] [Zero α] [One α] [NatCast α]
  [DecidableEq α]

omit [DecidableEq α] in
/-- The element pass does not depend on the thread count. -/
theorem elementPass_threads (lm : Libm α) (NUM_THREADS : Nat) (hT : 1 ≤ NUM_THREADS)
    (model : Model α) (ms : ModelStates α)
    (hid : ∀ (p : Nat) (tet : T4 α), model.m_tets[p]? = some tet → tet.m_idx = p)
    (hF : ms.m_ele_nodal_internal_F.length = model.m_tets.length * 12)
    (hQ : ms.m_ele_nodal_internal_Q.length = model.m_tets.length * 4) :
    elementPass lm NUM_THREADS model ms = elementPass lm 1 model ms := by
  obtain ⟨a1, a2, a3, a4, a5, a6, a7⟩ := elementPass_spec lm NUM_THREADS hT model ms hid hF hQ
  obtain ⟨b1, b2, b3, b4, b5, b6, b7⟩ := elementPass_spec lm 1 (Nat.le_refl 1) model ms hid hF hQ
  have hin : ∀ p, p < model.m_tets.length → ∃ tet, model.m_tets[p]? = some tet :=
    fun p hp => ⟨model.m_tets[p], List.getElem?_eq_getElem hp⟩
  apply Prod.ext
  · apply List.ext_getElem?
    intro p
    by_cases hp : p < model.m_tets.length
    · obtain ⟨tet, ht⟩ := hin p hp
      rw [a5 p tet ht, b5 p tet ht]
    · rw [List.getElem?_eq_none (by omega), List.getElem?_eq_none (by omega)]
  · rw [a1, b1]
    congr 1
    · apply ext_rd _ _ (by rw [a3, b3])
      intro k hk
      rw [a3] at hk
      obtain ⟨tet, ht⟩ := hin (k / 12) (by omega)
      have e : k = k / 12 * 12 + ((⟨k % 12 / 3, by omega⟩ : Fin 4) : ℕ) * 3
          + ((⟨k % 3, by omega⟩ : Fin 3) : ℕ) := by
        show k = k / 12 * 12 + k % 12 / 3 * 3 + k % 3
        omega
      rw [e, a6 _ tet ht, b6 _ tet ht]
    · apply ext_rd _ _ (by rw [a4, b4])
      intro k hk
      rw [a4] at hk
      obtain ⟨tet, ht⟩ := hin (k / 4) (by omega)
      have e : k = k / 4 * 4 + ((⟨k % 4, by omega⟩ : Fin 4) : ℕ) := by
        show k = k / 4 * 4 + k % 4
        omega
      rw [e, a7 _ tet ht, b7 _ tet ht]

omit [Div α] [Neg α] [One α] [NatCast α] in
/-- The node pass does not depend on the thread count. -/
theorem nodePass_threads (lm : Libm α) (NUM_THREADS : Nat) (hT : 1 ≤ NUM_THREADS)
    (model : Model α) (ms : ModelStates α)
    (hU : ms.m_next_U.length = model.m_nodes.length * 3)
    (hTl : ms.m_next_T.length = model.m_nodes.length) :
    nodePass lm NUM_THREADS model ms = nodePass lm 1 model ms := by
  obtain ⟨a1, a2, a3, a4, a5, a6⟩ := nodePass_spec lm NUM_THREADS hT model ms hU hTl
  obtain ⟨b1, b2, b3, b4, b5, b6⟩ := nodePass_spec lm 1 (Nat.le_refl 1) model ms hU hTl
  apply Prod.ext
  · rw [a1, b1]
    congr 1
    · apply ext_rd _ _ (by rw [a2, b2])
      intro k hk
      rw [a2] at hk
      have e : k = k / 3 * 3 + ((⟨k % 3, by omega⟩ : Fin 3) : ℕ) := by
        show k = k / 3 * 3 + k % 3
        omega
      rw [e, a4 _ (by omega), b4 _ (by omega)]
    · apply ext_rd _ _ (by rw [a3, b3])
      intro k hk
      rw [a3] at hk
      rw [a5 k hk, b5 k hk]
  · rw [a6, b6, Bool.eq_iff_iff, List.all_eq_true, List.all_eq_true]
    constructor
    · intro h x hx
      exact h x ((mem_visitOrder _ _ _ hT).2 ((mem_visitOrder _ _ _ (Nat.le_refl 1)).1 hx))
    · intro h x hx
      exact h x ((mem_visitOrder _ _ _ (Nat.le_refl 1)).2 ((mem_visitOrder _ _ _ hT).1 hx))

end ThreadLemmas

section DirectoryLemmas
variable {α : Type}

theorem cornersAt_length (tets : List (T4 α)) (i : Nat) :
    (cornersAt tets i).length = cornerCount tets i := by
  induction tets with
  | nil => rfl
  | cons t ts ih =>
    rw [cornersAt_cons, List.length_append, ih]
    unfold cornerCount
    rw [List.map_cons, List.sum_cons]
    congr 1
    simp only [cornersAt, List.flatMap_cons, List.flatMap_nil, List.append_nil, List.length_map,
      List.countP_eq_length_filter]

theorem offsetOf_locate (c : Nat → List (Nat × Nat)) (N p : Nat) (h : p < offsetOf c N) :
    ∃ i, i < N ∧ offsetOf c i ≤ p ∧ p < offsetOf c i + (c i).length := by
  induction N with
  | zero => simp [offsetOf] at h
  | succ N ih =>
    by_cases hp : p < offsetOf c N
    · obtain ⟨i, hi, h1, h2⟩ := ih hp
      exact ⟨i, by omega, h1, h2⟩
    · rw [offsetOf_succ] at h
      exact ⟨N, by omega, by omega, h⟩

theorem offsetOf_disjoint (c : Nat → List (Nat × Nat)) (i j : Nat) (h : i < j) :
    offsetOf c i + (c i).length ≤ offsetOf c j := by
  rw [← offsetOf_succ]
  exact offsetOf_mono c h

theorem postCreate_dir (model : Model α) (i : Nat) (h : i < model.m_nodes.length) :
    model.postCreate.dirOffset i = offsetOf (cornersAt model.m_tets) i ∧
      model.postCreate.dirCount i = (cornersAt model.m_tets i).length := by
  unfold Model.dirOffset Model.dirCount
  rw [(postCreate_eq model).2]
  exact flatMap_dir_getD _ _ i h

theorem sum_range_indicator (a N : Nat) (h : a < N) :
    ((List.range N).map fun i => if a = i then 1 else 0).sum = 1 := by
  induction N with
  | zero => omega
  | succ N ih =>
    rw [List.range_succ, List.map_append, List.sum_append, List.map_singleton, List.sum_singleton]
    by_cases ha : a = N
    · subst ha
      have z : ((List.range a).map fun i => if a = i then 1 else 0).sum = 0 := by
        apply List.sum_eq_zero
        intro x hx
        obtain ⟨i, hi, rfl⟩ := List.mem_map.1 hx
        exact if_neg (by have := List.mem_range.1 hi; omega)
      rw [if_pos rfl, z]
    · rw [if_neg ha, ih (by omega)]

theorem sum_range_corner (t : T4 α) (N : Nat) (h : ∀ m : Fin 4, t.m_n_idx m < N) :
    ((List.range N).map fun i => (List.finRange 4).countP fun m => t.m_n_idx m = i).sum = 4 := by
  have e : ∀ i, ((List.finRange 4).countP fun m => decide (t.m_n_idx m = i))
      = (if t.m_n_idx 0 = i then 1 else 0) + (if t.m_n_idx 1 = i then 1 else 0)
        + (if t.m_n_idx 2 = i then 1 else 0) + (if t.m_n_idx 3 = i then 1 else 0) := by
    intro i
    simp only [show List.finRange 4 = [0, 1, 2, 3] from rfl, List.countP_cons, List.countP_nil,
      decide_eq_true_eq, zero_add]
    ac_rfl
  have one : ∀ a, a < N → ((List.range N).map fun i => if a = i then 1 else 0).sum = 1 :=
    fun a ha => sum_range_indicator a N ha
  simp only [e, List.sum_map_add, one _ (h 0), one _ (h 1), one _ (h 2), one _ (h 3)]

theorem sum_cornerCount (tets : List (T4 α)) (N : Nat)
    (h : ∀ tet ∈ tets, ∀ m : Fin 4, tet.m_n_idx m < N) :
    ((List.range N).map fun i => cornerCount tets i).sum = 4 * tets.length := by
  induction tets with
  | nil => simp [cornerCount]
  | cons t ts ih =>
    have e : ∀ i, cornerCount (t :: ts) i
        = ((List.finRange 4).countP fun m => t.m_n_idx m = i) + cornerCount ts i := by
      intro i
      unfold cornerCount
      rw [List.map_cons, List.sum_cons]
    simp only [e, List.sum_map_add]
    rw [sum_range_corner t N (h t (List.mem_cons_self _ _)),
      ih (fun tet ht => h tet (List.mem_cons_of_mem _ ht)), List.length_cons]
    omega

end DirectoryLemmas

section UniformTemperature
variable {α : Type} [Field α]

/-- The rows of `Aᵀ * B` sum to zero when the rows of `B` do. -/
theorem mat33Tx34_row_sum (A : Mat33 α) (B : Mat34 α)
    (h : ∀ r : Fin 3, B r 0 + B r 1 + B r 2 + B r 3 = 0) (r : Fin 3) :
    mat33Tx34 A B r 0 + mat33Tx34 A B r 1 + mat33Tx34 A B r 2 + mat33Tx34 A B r 3 = 0 := by
  simp only [mat33Tx34]
  linear_combination A 0 r * h 0 + A 1 r * h 1 + A 2 r * h 2

theorem mat33x34_row_sum (A : Mat33 α) (B : Mat34 α)
    (h : ∀ r : Fin 3, B r 0 + B r 1 + B r 2 + B r 3 = 0) (r : Fin 3) :
    mat33x34 A B r 0 + mat33x34 A B r 1 + mat33x34 A B r 2 + mat33x34 A B r 3 = 0 := by
  simp only [mat33x34]
  linear_combination A r 0 * h 0 + A r 1 * h 1 + A r 2 * h 2

/-- A conduction matrix `Aᵀ * B * s` whose factor `B` has rows that sum to zero
gives no heat flow for a uniform temperature. -/
theorem conduction_uniform (A B : Mat34 α) (s Tu : α)
    (h : ∀ r : Fin 3, B r 0 + B r 1 + B r 2 + B r 3 = 0) (m : Fin 4) :
    mat44xScalar (mat34Tx34 A B) s m 0 * Tu + mat44xScalar (mat34Tx34 A B) s m 1 * Tu
      + mat44xScalar (mat34Tx34 A B) s m 2 * Tu + mat44xScalar (mat34Tx34 A B) s m 3 * Tu = 0 := by
  simp only [mat44xScalar, mat34Tx34]
  linear_combination Tu * s * (A 0 m * h 0 + A 1 m * h 1 + A 2 m * h 2)

/-- The element kernel gives no heat flow for a uniform temperature, whatever
the displacements. -/
theorem elementKernel_q_uniform (lm : Libm α) (T0 : α) (curr_U curr_T : List α) (tet : T4 α)
    (hrow : ∀ r : Fin 3, tet.m_DHDX r 0 + tet.m_DHDX r 1 + tet.m_DHDX r 2 + tet.m_DHDX r 3 = 0)
    (Tu : α) (hu : ∀ m : Fin 4, rd curr_T (tet.m_n_idx m) = Tu) (m : Fin 4) :
    (elementKernel lm T0 curr_U curr_T tet).q m = 0 := by
  have hB := mat33Tx34_row_sum (matInv33 (deformationGradient curr_U tet)).1 tet.m_DHDX hrow
  rw [elementKernel_q, elementKernel_K, hu 0, hu 1, hu 2, hu 3]
  by_cases hty : tet.m_T_material_type = "T_ISO"
  · rw [if_pos hty]
    exact conduction_uniform _ _ _ Tu hB m
  · rw [if_neg hty]
    exact conduction_uniform _ _ _ Tu (mat33x34_row_sum tet.m_D _ hB) m

/-- The assembled heat flow of every node is zero for a uniform temperature. -/
theorem assembledQ_uniform (lm : Libm α) (T0 : α) (curr_U curr_T : List α) (tets : List (T4 α))
    (hrow : ∀ tet ∈ tets, ∀ r : Fin 3,
      tet.m_DHDX r 0 + tet.m_DHDX r 1 + tet.m_DHDX r 2 + tet.m_DHDX r 3 = 0)
    (Tu : α) (hu : ∀ tet ∈ tets, ∀ m : Fin 4, rd curr_T (tet.m_n_idx m) = Tu) (i : Nat) :
    assembledQ lm T0 curr_U curr_T tets i = 0 := by
  unfold assembledQ
  apply sum_map_zero
  intro tet ht
  apply sum_map_zero
  intro m _
  rw [elementKernel_q_uniform lm T0 curr_U curr_T tet (hrow tet ht) Tu (hu tet ht) m]
  exact ite_self 0

end UniformTemperature

section ThermalStep
variable {α : Type} [Field α] [DecidableEq α]

/-- One node pass on a uniform temperature: a node without fixed temperature
gets `T + constA[i] * external_Q[i]`. -/
theorem thermal_node_update (lm : Libm α) (NUM_THREADS : Nat) (hT : 1 ≤ NUM_THREADS)
    (model : Model α) (ms : ModelStates α) (hidx : model.indexed)
    (hids : ∀ (p : Nat) (tet : T4 α), model.m_tets[p]? = some tet → tet.m_idx = p)
    (hnodes : ∀ tet ∈ model.m_tets, ∀ m : Fin 4, tet.m_n_idx m < model.m_nodes.length)
    (hrow : ∀ tet ∈ model.m_tets, ∀ r : Fin 3,
      tet.m_DHDX r 0 + tet.m_DHDX r 1 + tet.m_DHDX r 2 + tet.m_DHDX r 3 = 0)
    (hF : ms.m_ele_nodal_internal_F.length = model.m_tets.length * 12)
    (hQ : ms.m_ele_nodal_internal_Q.length = model.m_tets.length * 4)
    (hU : ms.m_next_U.length = model.m_nodes.length * 3)
    (hTl : ms.m_next_T.length = model.m_nodes.length)
    (Tu : α) (hu : ∀ i, i < model.m_nodes.length → rd ms.m_curr_T i = Tu)
    (i : Nat) (hi : i < model.m_nodes.length) (hflag : ms.m_fixT_flag.getD i false = false) :
    rd (nodePassOf lm NUM_THREADS model ms).1.m_next_T i
      = Tu + rd ms.m_constA i * rd ms.m_external_Q i := by
  obtain ⟨-, -, hval, -⟩ := nodePassOf_spec lm NUM_THREADS hT model ms hU hTl
  rw [hval i hi]
  unfold gatherOf
  rw [gather_elementPass lm NUM_THREADS hT model ms hidx hids hF hQ i hi]
  simp only
  rw [assembledQ_uniform lm model.m_T0 ms.m_curr_U ms.m_curr_T model.m_tets hrow Tu
    (fun tet ht m => hu _ (hnodes tet ht m)) i]
  unfold nextTValue
  rw [if_neg (by rw [hflag]; decide), hu i hi, sub_zero]

end ThermalStep

section StaticLemmas
variable {α : Type}

theorem cornersAt_static (tets tets' : List (T4 α))
    (h : tets'.map T4.static = tets.map T4.static) (i : Nat) :
    cornersAt tets' i = cornersAt tets i := by
  have e : ∀ l : List (T4 α), cornersAt l i
      = (l.map T4.static).flatMap fun s =>
          ((List.finRange 4).filter fun m => s.2.1 m = i).map fun m => (s.1, m.val) := by
    intro l
    unfold cornersAt
    rw [List.flatMap_map]
    rfl
  rw [e, e, h]

theorem static_getElem? (tets tets' : List (T4 α))
    (h : tets'.map T4.static = tets.map T4.static) (p : Nat) (tet' : T4 α)
    (hp : tets'[p]? = some tet') : ∃ tet, tets[p]? = some tet ∧ tet'.static = tet.static := by
  have e : (tets'.map T4.static)[p]? = (tets.map T4.static)[p]? := by rw [h]
  rw [List.getElem?_map, List.getElem?_map, hp] at e
  cases ht : tets[p]? with
  | none => rw [ht] at e; cases e
  | some tet =>
    rw [ht] at e
    exact ⟨tet, rfl, Option.some.inj e⟩

theorem static_mem (tets tets' : List (T4 α))
    (h : tets'.map T4.static = tets.map T4.static) (tet' : T4 α) (ht : tet' ∈ tets') :
    ∃ tet ∈ tets, tet'.static = tet.static := by
  obtain ⟨p, hp⟩ := List.mem_iff_getElem?.1 ht
  obtain ⟨tet, h1, h2⟩ := static_getElem? tets tets' h p tet' hp
  exact ⟨tet, List.mem_iff_getElem?.2 ⟨p, h1⟩, h2⟩

/-- A model whose elements differ from those of an indexed model in their
scratch only is indexed. -/
theorem indexed_static (M : Model α) (hidx : M.indexed) (tets : List (T4 α))
    (h : tets.map T4.static = M.m_tets.map T4.static) :
    ({ M with m_tets := tets } : Model α).indexed := by
  obtain ⟨b1, d1⟩ := postCreate_eq M
  obtain ⟨b2, d2⟩ := postCreate_eq ({ M with m_tets := tets } : Model α)
  have hc : ∀ m, cornersAt ({ M with m_tets := tets } : Model α).m_tets m = cornersAt M.m_tets m :=
    fun m => cornersAt_static M.m_tets tets h m
  have hc' : cornersAt ({ M with m_tets := tets } : Model α).m_tets = cornersAt M.m_tets :=
    funext hc
  refine ⟨?_, ?_⟩
  · rw [b2, hc']
    exact hidx.1.trans b1
  · rw [d2, hc']
    exact hidx.2.trans d1

end StaticLemmas

section StepStatic
variable {α : Type} [Add α] [Sub α] [Mul α] [Div α] [Neg α] [Zero α] [One α] [NatCast α]

/-- The element pass rewrites scratch only. -/
theorem elementPass_static (lm : Libm α) (NUM_THREADS : Nat) (hT : 1 ≤ NUM_THREADS)
    (model : Model α) (ms : ModelStates α)
    (hid : ∀ (p : Nat) (tet : T4 α), model.m_tets[p]? = some tet → tet.m_idx = p)
    (hF : ms.m_ele_nodal_internal_F.length = model.m_tets.length * 12)
    (hQ : ms.m_ele_nodal_internal_Q.length = model.m_tets.length * 4) :
    (elementPass lm NUM_THREADS model ms).1.map T4.static = model.m_tets.map T4.static := by
  obtain ⟨-, a2, -, -, a5, -, -⟩ := elementPass_spec lm NUM_THREADS hT model ms hid hF hQ
  apply List.ext_getElem?
  intro p
  rw [List.getElem?_map, List.getElem?_map]
  by_cases hp : p < model.m_tets.length
  · have ht : model.m_tets[p]? = some model.m_tets[p] := List.getElem?_eq_getElem hp
    rw [a5 p _ ht, ht]
    rfl
  · rw [List.getElem?_eq_none (by omega), List.getElem?_eq_none (by omega)]

end StepStatic

section StepSetup
variable {α : Type} [Add α] [Sub α] [Mul α] [Div α] [Neg α] [Zero α] [One α] [NatCast α]
  [DecidableEq α]

/-- The state a successful step returns, field by field, in terms of the state
it was called with. -/
theorem computeOneStep_setup (lm : Libm α) (NUM_THREADS : Nat) (hT : 1 ≤ NUM_THREADS)
    (model : Model α) (ms : ModelStates α)
    (hid : ∀ (p : Nat) (tet : T4 α), model.m_tets[p]? = some tet → tet.m_idx = p)
    (hF : ms.m_ele_nodal_internal_F.length = model.m_tets.length * 12)
    (hQ : ms.m_ele_nodal_internal_Q.length = model.m_tets.length * 4)
    (hne : (computeOneStep lm NUM_THREADS model ms).no_err = true) :
    ms.sameSetup (computeOneStep lm NUM_THREADS model ms).modelstates ∧
      (computeOneStep lm NUM_THREADS model ms).modelstates.m_external_Q = ms.m_external_Q ∧
      (computeOneStep lm NUM_THREADS model ms).modelstates.m_curr_T
        = (nodePassOf lm NUM_THREADS model ms).1.m_next_T ∧
      (computeOneStep lm NUM_THREADS model ms).model.m_tets.map T4.static
        = model.m_tets.map T4.static := by
  obtain ⟨-, -, a3, a4, -, -, -⟩ := elementPass_spec lm NUM_THREADS hT model ms hid hF hQ
  obtain ⟨F, Q, hE⟩ := elementPass_frame lm NUM_THREADS model ms
  obtain ⟨U, T, hN⟩ := nodePass_frame lm NUM_THREADS
    { model with m_tets := (elementPass lm NUM_THREADS model ms).1 }
    (elementPass lm NUM_THREADS model ms).2
  have hst := elementPass_static lm NUM_THREADS hT model ms hid hF hQ
  have hr := computeOneStep_rotated lm NUM_THREADS model ms hne
  have hmodel : (computeOneStep lm NUM_THREADS model ms).model
      = { model with m_tets := (elementPass lm NUM_THREADS model ms).1 } := by
    rw [computeOneStep_no_err] at hne
    rw [computeOneStep_ok lm NUM_THREADS model ms hne]
  have hnp : (nodePassOf lm NUM_THREADS model ms).1
      = withNext (elementPass lm NUM_THREADS model ms).2 U T := hN
  have hFl : (nodePassOf lm NUM_THREADS model ms).1.m_ele_nodal_internal_F.length
      = ms.m_ele_nodal_internal_F.length := by
    rw [hnp, hF]; exact a3
  have hQl : (nodePassOf lm NUM_THREADS model ms).1.m_ele_nodal_internal_Q.length
      = ms.m_ele_nodal_internal_Q.length := by
    rw [hnp, hQ]; exact a4
  have hfr : (nodePassOf lm NUM_THREADS model ms).1 = withNext (withBuffers ms F Q) U T := by
    rw [hnp, hE]
  refine ⟨⟨?_, ?_, ?_, ?_, ?_, ?_, ?_⟩, ?_, ?_, ?_⟩
  · rw [hr, hfr]; rfl
  · rw [hr, hfr]; rfl
  · rw [hr, hfr]; rfl
  · rw [hr, hfr]; rfl
  · rw [hr]; exact hFl
  · rw [hr]; exact hQl
  · rw [hr, hfr]; rfl
  · rw [hr, hfr]; rfl
  · rw [hr]; rfl
  · rw [hmodel]; exact hst

end StepSetup

section TrajectoryLemmas
variable {α : Type} [Field α] [DecidableEq α]

omit [DecidableEq α] in
theorem setPerfu_length (model : Model α) (ms : ModelStates α) :
    (setPerfu model ms).length = ms.m_external_Q.length := by
  unfold setPerfu
  exact foldl_set_length _ _ _ _

omit [DecidableEq α] in
theorem initial_sized (M : Model α) (hTD : M.m_num_T_DOFs = M.m_nodes.length)
    (hD : M.m_num_M_DOFs = M.m_nodes.length * 3) :
    (initBC M (ModelStates.new M)).sized M.m_nodes.length := by
  refine ⟨?_, ?_, ?_, ?_, ?_, ?_⟩ <;>
    simp [initBC, ModelStates.new, hTD, hD]

/-- What stays the same along a run of successful steps: the data of the model,
the static members of its elements, the sizes of the nodal vectors, and the
thermal constants, loads and flags of the state. -/
theorem trajectory_inv (lm : Libm α) (NUM_THREADS : Nat) (hT : 1 ≤ NUM_THREADS) (M : Model α)
    (hids : ∀ (p : Nat) (tet : T4 α), M.m_tets[p]? = some tet → tet.m_idx = p)
    (hTD : M.m_num_T_DOFs = M.m_nodes.length) (hD : M.m_num_M_DOFs = M.m_nodes.length * 3)
    (k : Nat) (hok : ∀ j, j < k → stepNoErr lm NUM_THREADS M j = true) :
    M.sameData (stepInput lm NUM_THREADS M k).1 ∧
      (stepInput lm NUM_THREADS M k).1.m_tets.map T4.static = M.m_tets.map T4.static ∧
      (stepInput lm NUM_THREADS M k).2.sized M.m_nodes.length ∧
      (initBC M (ModelStates.new M)).sameSetup (stepInput lm NUM_THREADS M k).2 := by
  induction k with
  | zero =>
    exact ⟨⟨M.m_tets, rfl⟩, rfl, initial_sized M hTD hD, rfl, rfl, rfl, rfl, rfl, rfl, rfl⟩
  | succ k ih =>
    obtain ⟨i1, i2, i3, i4⟩ := ih (fun j hj => hok j (by omega))
    have hk : stepNoErr lm NUM_THREADS M k = true := hok k (by omega)
    unfold stepNoErr at hk
    have hlen : (stepInput lm NUM_THREADS M k).1.m_tets.length = M.m_tets.length := by
      have := congrArg List.length i2
      rwa [List.length_map, List.length_map] at this
    have hids' : ∀ (p : Nat) (tet : T4 α),
        (stepInput lm NUM_THREADS M k).1.m_tets[p]? = some tet → tet.m_idx = p := by
      intro p tet hp
      obtain ⟨t, h1, h2⟩ := static_getElem? _ _ i2 p tet hp
      rw [← hids p t h1]
      exact congrArg Prod.fst h2
    obtain ⟨s1, s2, s3, s4, s5, s6, s7⟩ := i4
    have hF : (computeRunTimeBC (stepInput lm NUM_THREADS M k).1
        (stepInput lm NUM_THREADS M k).2 k).m_ele_nodal_internal_F.length
        = (stepInput lm NUM_THREADS M k).1.m_tets.length * 12 := by
      show (stepInput lm NUM_THREADS M k).2.m_ele_nodal_internal_F.length = _
      rw [s5, hlen]
      simp [initBC, ModelStates.new, Nat.mul_assoc]
    have hQ : (computeRunTimeBC (stepInput lm NUM_THREADS M k).1
        (stepInput lm NUM_THREADS M k).2 k).m_ele_nodal_internal_Q.length
        = (stepInput lm NUM_THREADS M k).1.m_tets.length * 4 := by
      show (stepInput lm NUM_THREADS M k).2.m_ele_nodal_internal_Q.length = _
      rw [s6, hlen]
      simp [initBC, ModelStates.new]
    obtain ⟨c1, c2, -, -⟩ := computeOneStep_inv lm NUM_THREADS hT M
      (stepInput lm NUM_THREADS M k).1
      (computeRunTimeBC (stepInput lm NUM_THREADS M k).1 (stepInput lm NUM_THREADS M k).2 k)
      i1 (computeRunTimeBC_sized _ _ k _ i3) hk
    obtain ⟨⟨t1, t2, t3, t4, t5, t6, t7⟩, -, -, t8⟩ := computeOneStep_setup lm NUM_THREADS hT
      (stepInput lm NUM_THREADS M k).1
      (computeRunTimeBC (stepInput lm NUM_THREADS M k).1 (stepInput lm NUM_THREADS M k).2 k)
      hids' hF hQ hk
    refine ⟨c1, t8.trans i2, c2, ?_, ?_, ?_, ?_, ?_, ?_, ?_⟩
    · exact t1.trans s1
    · exact t2.trans s2
    · exact t3.trans s3
    · exact t4.trans s4
    · exact t5.trans s5
    · exact t6.trans s6
    · refine t7.trans ?_
      show (setPerfu _ _).length = _
      rw [setPerfu_length]
      exact s7

/-- One successful step of a run on a uniform temperature `Tu`: every node
without fixed temperature gets `Tu + constA[i] * external_Q[i]`, with the load
`computeRunTimeBC` left for the step. -/
theorem trajectory_T (lm : Libm α) (NUM_THREADS : Nat) (hT : 1 ≤ NUM_THREADS) (M : Model α)
    (hidx : M.indexed)
    (hids : ∀ (p : Nat) (tet : T4 α), M.m_tets[p]? = some tet → tet.m_idx = p)
    (hnodes : ∀ tet ∈ M.m_tets, ∀ m : Fin 4, tet.m_n_idx m < M.m_nodes.length)
    (hrow : ∀ tet ∈ M.m_tets, ∀ r : Fin 3,
      tet.m_DHDX r 0 + tet.m_DHDX r 1 + tet.m_DHDX r 2 + tet.m_DHDX r 3 = 0)
    (hTD : M.m_num_T_DOFs = M.m_nodes.length) (hD : M.m_num_M_DOFs = M.m_nodes.length * 3)
    (hflag : ∀ i, i < M.m_nodes.length →
      (initBC M (ModelStates.new M)).m_fixT_flag.getD i false = false)
    (k : Nat) (hok : ∀ j, j < k + 1 → stepNoErr lm NUM_THREADS M j = true)
    (Tu : α) (hu : ∀ i, i < M.m_nodes.length →
      rd (stepInput lm NUM_THREADS M k).2.m_curr_T i = Tu) :
    (∀ i, i < M.m_nodes.length →
        rd (stepInput lm NUM_THREADS M (k + 1)).2.m_curr_T i
          = Tu + rd (initBC M (ModelStates.new M)).m_constA i
              * rd (setPerfu (stepInput lm NUM_THREADS M k).1
                  (stepInput lm NUM_THREADS M k).2) i) ∧
      (stepInput lm NUM_THREADS M (k + 1)).2.m_external_Q
        = setPerfu (stepInput lm NUM_THREADS M k).1 (stepInput lm NUM_THREADS M k).2 := by
  obtain ⟨i1, i2, i3, i4⟩ := trajectory_inv lm NUM_THREADS hT M hids hTD hD k
    (fun j hj => hok j (by omega))
  have hk : stepNoErr lm NUM_THREADS M k = true := hok k (by omega)
  unfold stepNoErr at hk
  have hlen : (stepInput lm NUM_THREADS M k).1.m_tets.length = M.m_tets.length := by
    have := congrArg List.length i2
    rwa [List.length_map, List.length_map] at this
  have hids' : ∀ (p : Nat) (tet : T4 α),
      (stepInput lm NUM_THREADS M k).1.m_tets[p]? = some tet → tet.m_idx = p := by
    intro p tet hp
    obtain ⟨t, h1, h2⟩ := static_getElem? _ _ i2 p tet hp
    rw [← hids p t h1]
    exact congrArg Prod.fst h2
  obtain ⟨s1, s2, s3, s4, s5, s6, s7⟩ := i4
  have hF : (computeRunTimeBC (stepInput lm NUM_THREADS M k).1
      (stepInput lm NUM_THREADS M k).2 k).m_ele_nodal_internal_F.length
      = (stepInput lm NUM_THREADS M k).1.m_tets.length * 12 := by
    show (stepInput lm NUM_THREADS M k).2.m_ele_nodal_internal_F.length = _
    rw [s5, hlen]
    simp [initBC, ModelStates.new, Nat.mul_assoc]
  have hQ : (computeRunTimeBC (stepInput lm NUM_THREADS M k).1
      (stepInput lm NUM_THREADS M k).2 k).m_ele_nodal_internal_Q.length
      = (stepInput lm NUM_THREADS M k).1.m_tets.length * 4 := by
    show (stepInput lm NUM_THREADS M k).2.m_ele_nodal_internal_Q.length = _
    rw [s6, hlen]
    simp [initBC, ModelStates.new]
  obtain ⟨-, t0, t9, -⟩ := computeOneStep_setup lm NUM_THREADS hT
    (stepInput lm NUM_THREADS M k).1
    (computeRunTimeBC (stepInput lm NUM_THREADS M k).1 (stepInput lm NUM_THREADS M k).2 k)
    hids' hF hQ hk
  obtain ⟨tets, hm⟩ := i1
  have hN : (stepInput lm NUM_THREADS M k).1.m_nodes.length = M.m_nodes.length := by rw [hm]
  have htets : (stepInput lm NUM_THREADS M k).1.m_tets = tets := by rw [hm]
  have hidx' : (stepInput lm NUM_THREADS M k).1.indexed := by
    rw [hm]
    exact indexed_static M hidx tets (by rw [← htets]; exact i2)
  have hs' := computeRunTimeBC_sized (stepInput lm NUM_THREADS M k).1
    (stepInput lm NUM_THREADS M k).2 k _ i3
  refine ⟨?_, t0⟩
  intro i hi
  have e : (stepInput lm NUM_THREADS M (k + 1)).2.m_curr_T
      = (nodePassOf lm NUM_THREADS (stepInput lm NUM_THREADS M k).1
          (computeRunTimeBC (stepInput lm NUM_THREADS M k).1
            (stepInput lm NUM_THREADS M k).2 k)).1.m_next_T := t9
  rw [e, thermal_node_update lm NUM_THREADS hT (stepInput lm NUM_THREADS M k).1
    (computeRunTimeBC (stepInput lm NUM_THREADS M k).1 (stepInput lm NUM_THREADS M k).2 k)
    hidx' hids'
    (by
      intro tet ht m
      obtain ⟨t, h1, h2⟩ := static_mem _ _ i2 tet ht
      rw [hN, show tet.m_n_idx = t.m_n_idx from congrArg (fun s => s.2.1) h2]
      exact hnodes t h1 m)
    (by
      intro tet ht r
      obtain ⟨t, h1, h2⟩ := static_mem _ _ i2 tet ht
      rw [show tet.m_DHDX = t.m_DHDX from congrArg (fun s => s.2.2) h2]
      exact hrow t h1 r)
    hF hQ (by rw [hN]; exact hs'.2.2.1) (by rw [hN]; exact hs'.2.2.2.2.1) Tu
    (by intro j hj; rw [hN] at hj; exact hu j hj) i (by rw [hN]; exact hi)
    (by
      show (stepInput lm NUM_THREADS M k).2.m_fixT_flag.getD i false = false
      rw [s3]; exact hflag i hi)]
  show Tu + rd (stepInput lm NUM_THREADS M k).2.m_constA i * _ = _
  rw [s1]
  rfl

end TrajectoryLemmas

section TwoElementLemmas

theorem twoTetRaw_ids (c : ℚ) : ∀ (p : Nat) (tet : T4 ℚ),
    (twoTetRaw c).m_tets[p]? = some tet → tet.m_idx = p := by
  intro p tet h
  match p with
  | 0 =>
    simp only [twoTetRaw, List.getElem?_cons_zero, Option.some.injEq] at h
    subst h
    rfl
  | 1 =>
    simp only [twoTetRaw, List.getElem?_cons_succ, List.getElem?_cons_zero,
      Option.some.injEq] at h
    subst h
    rfl
  | p + 2 =>
    simp [twoTetRaw] at h

theorem twoTetRaw_new (c : ℚ) : ∀ tet ∈ (twoTetRaw c).m_tets,
    ∃ D idx n1 n2 n3 n4 mt mv tt tv et ev,
      tet = T4.new D idx n1 n2 n3 n4 (twoTetRaw c).m_rho mt mv tt tv et ev := by
  intro tet ht
  simp only [twoTetRaw, List.mem_cons, List.mem_singleton, List.not_mem_nil, or_false] at ht
  rcases ht with rfl | rfl
  · exact ⟨_, _, _, _, _, _, _, _, _, _, _, _, rfl⟩
  · exact ⟨_, _, _, _, _, _, _, _, _, _, _, _, rfl⟩

end TwoElementLemmas

section HeatingLemmas
variable {α : Type} [Field α]

/-- The entry of node `i` in `m_constA`. -/
theorem constA_rd (model : Model α) (i : Nat) (hi : i < model.m_num_T_DOFs) :
    rd (constA model) i
      = model.m_dt / (rd (nodal_T_mass model) i * rd model.m_T_material_vals 0) := by
  unfold constA rd
  exact foldl_set_last (List.replicate model.m_num_T_DOFs 0) (fun i => i)
    (fun i => model.m_dt / ((nodal_T_mass model).getD i 0 * model.m_T_material_vals.getD 0 0))
    model.m_num_T_DOFs i i 0 rfl hi (fun q h1 _ => by show q ≠ i; omega) (by simpa using hi)

/-- The lumped mass of a node is the density times its lumped volume. -/
theorem lumpedMass_eq (tets : List (T4 α)) (rho : α)
    (hmass : ∀ tet ∈ tets, tet.m_mass = rho * tet.m_Vol) (i : Nat) :
    lumpedMass tets i = rho * lumpedVolume tets i := by
  unfold lumpedMass lumpedVolume
  rw [← List.sum_map_mul_left]
  apply sum_map_congr_mem
  intro tet ht
  rw [← List.sum_map_mul_left]
  apply sum_map_congr_mem
  intro m _
  rw [hmass tet ht, mul_ite, mul_zero, mul_div_assoc]

/-- The metabolic load of a node is `q` times its lumped volume. -/
theorem metabo_load_eq (tets : List (T4 α)) (q : α) (i : Nat) :
    (tets.map fun tet => cornerSum tet i (q * tet.m_Vol / ((4 : ℕ) : α))).sum
      = q * lumpedVolume tets i := by
  unfold lumpedVolume cornerSum
  rw [← List.sum_map_mul_left]
  apply sum_map_congr_mem
  intro tet _
  rw [← List.sum_map_mul_left]
  apply sum_map_congr_mem
  intro m _
  rw [mul_ite, mul_zero, mul_div_assoc]

omit [Field α] in
theorem setFixT_nil [Zero α] (st : List Bool × List α) (mag : List α) : setFixT st [] mag = st :=
  rfl

omit [Field α] in
theorem addIndexed_nil [Add α] [Zero α] (v mag : List α) : addIndexed v [] mag = v := rfl

/-- The initial thermal state of a model whose only constant heat source is a
metabolic heat and that has no fixed temperature. -/
theorem initial_thermal (M : Model α) (hTD : M.m_num_T_DOFs = M.m_nodes.length)
    (hh : M.m_hflux_idx = [] ∧ M.m_bhflux_idx = [] ∧ M.m_fixT_idx = [])
    (i : Nat) (hi : i < M.m_nodes.length) :
    rd (initBC M (ModelStates.new M)).m_constA i
        = M.m_dt / (lumpedMass M.m_tets i * rd M.m_T_material_vals 0) ∧
      rd (initBC M (ModelStates.new M)).m_external_Q0 i = rd M.m_metabo_mag i ∧
      (initBC M (ModelStates.new M)).m_external_Q = (initBC M (ModelStates.new M)).m_external_Q0 ∧
      (initBC M (ModelStates.new M)).m_external_Q.length = M.m_nodes.length ∧
      (initBC M (ModelStates.new M)).m_fixT_flag.getD i false = false ∧
      rd (initBC M (ModelStates.new M)).m_curr_T i = M.m_T0 := by
  obtain ⟨h1, h2, h3⟩ := hh
  have hQ0 : (initBC M (ModelStates.new M)).m_external_Q0
      = addAll ((List.replicate M.m_num_T_DOFs (0 : α)).map fun _ => (0 : α)) M.m_metabo_mag := by
    show addAll (addIndexed (addIndexed _ M.m_hflux_idx _) M.m_bhflux_idx _) _ = _
    rw [h1, h2]
    rfl
  have hz : ((List.replicate M.m_num_T_DOFs (0 : α)).map fun _ => (0 : α))
      = List.replicate M.m_num_T_DOFs 0 := by simp
  have hfl : (initBC M (ModelStates.new M)).m_fixT_flag = List.replicate M.m_num_T_DOFs false := by
    show (setFixT _ M.m_fixT_idx _).1 = _
    rw [h3]
    rfl
  refine ⟨?_, ?_, rfl, ?_, ?_, ?_⟩
  · show rd (constA M) i = _
    rw [constA_rd M i (by rw [hTD]; exact hi), nodal_T_mass_rd M i (by rw [hTD]; exact hi)]
  · rw [hQ0, hz, (addAll_rd _ _ i (by simpa [hTD] using hi)).1, rd_replicate_zero, zero_add]
  · show (initBC M (ModelStates.new M)).m_external_Q0.length = _
    rw [hQ0, hz, (addAll_rd _ M.m_metabo_mag 0 (by
      simp only [List.length_replicate, hTD]; omega)).2]
    simp [hTD]
  · rw [hfl, List.getD_eq_getElem?_getD, List.getElem?_replicate]
    split_ifs <;> rfl
  · show rd (List.replicate M.m_num_T_DOFs M.m_T0) i = _
    exact rd_replicate _ _ _ (by rw [hTD]; exact hi)

/-- The vector `m_metabo_mag` a single `<Metabo>` block builds. -/
theorem readMetabo_rd (base : Model α) (q : α) (h0 : base.m_metabo_mag = []) (i : Nat)
    (hi : i < base.m_nodes.length) :
    rd (readMetabo base q).m_metabo_mag i = q * lumpedVolume base.m_tets i := by
  show rd (addCorners (resize base.m_metabo_mag base.m_nodes.length) base.m_tets _) i = _
  rw [(addCorners_rd _ _ _ i (by rw [resize_length]; exact hi)).1, h0,
    rd_resize _ _ _ (Nat.zero_le _), metabo_load_eq]
  show (0 : α) + _ = _
  rw [zero_add]

end HeatingLemmas

section VolumeLemmas
variable {α : Type} [LinearOrderedField α]

/-- A node that belongs to an element of a mesh of positive volumes has a
positive lumped volume. -/
theorem lumpedVolume_pos (tets : List (T4 α)) (hV : ∀ tet ∈ tets, 0 < tet.m_Vol) (i : Nat)
    (hc : ∃ tet ∈ tets, ∃ m : Fin 4, tet.m_n_idx m = i) : 0 < lumpedVolume tets i := by
  have h4 : (0 : α) < ((4 : ℕ) : α) := by norm_num
  have inner_nonneg : ∀ tet ∈ tets, 0 ≤ ((List.finRange 4).map fun m =>
      if tet.m_n_idx m = i then tet.m_Vol / ((4 : ℕ) : α) else 0).sum := by
    intro tet ht
    apply List.sum_nonneg
    intro x hx
    obtain ⟨m, -, rfl⟩ := List.mem_map.1 hx
    split_ifs
    · exact (div_pos (hV tet ht) h4).le
    · exact le_refl _
  have inner_pos : ∀ tet ∈ tets, (∃ m : Fin 4, tet.m_n_idx m = i) →
      0 < ((List.finRange 4).map fun m =>
        if tet.m_n_idx m = i then tet.m_Vol / ((4 : ℕ) : α) else 0).sum := by
    intro tet ht hm
    obtain ⟨m, hm⟩ := hm
    have hq := div_pos (hV tet ht) h4
    have t : ∀ m' : Fin 4, 0 ≤ (if tet.m_n_idx m' = i then tet.m_Vol / ((4 : ℕ) : α) else 0) := by
      intro m'
      split_ifs
      · exact hq.le
      · exact le_refl _
    have tm : 0 < (if tet.m_n_idx m = i then tet.m_Vol / ((4 : ℕ) : α) else 0) := by
      rw [if_pos hm]; exact hq
    simp only [show List.finRange 4 = [0, 1, 2, 3] from rfl, List.map_cons, List.map_nil,
      List.sum_cons, List.sum_nil, add_zero]
    have t0 := t 0
    have t1 := t 1
    have t2 := t 2
    have t3 := t 3
    fin_cases m <;> simp only [Fin.zero_eta, Fin.mk_one, Fin.reduceFinMk] at tm <;> linarith
  unfold lumpedVolume
  induction tets with
  | nil =>
    obtain ⟨tet, ht, -⟩ := hc
    cases ht
  | cons t ts ih =>
    rw [List.map_cons, List.sum_cons]
    have hts : 0 ≤ (ts.map fun tet => ((List.finRange 4).map fun m =>
        if tet.m_n_idx m = i then tet.m_Vol / ((4 : ℕ) : α) else 0).sum).sum := by
      apply List.sum_nonneg
      intro x hx
      obtain ⟨tet, ht, rfl⟩ := List.mem_map.1 hx
      exact inner_nonneg tet (List.mem_cons_of_mem _ ht)
    obtain ⟨tet, ht, hm⟩ := hc
    rcases List.mem_cons.1 ht with rfl | ht'
    · have := inner_pos tet (List.mem_cons_self _ _) hm
      linarith
    · have h1 := inner_nonneg t (List.mem_cons_self _ _)
      have h2 := ih (fun tet ht => hV tet (List.mem_cons_of_mem _ ht)) ⟨tet, ht', hm⟩
        (fun tet ht => inner_nonneg tet (List.mem_cons_of_mem _ ht))
        (fun tet ht => inner_pos tet (List.mem_cons_of_mem _ ht))
      linarith

end VolumeLemmas

section HeatingTrajectory
variable {α : Type} [Field α] [DecidableEq α]

omit [DecidableEq α] in
theorem setPerfu_nil (model : Model α) (ms : ModelStates α) (h : model.m_perfu_idx = []) :
    setPerfu model ms = ms.m_external_Q := by
  unfold setPerfu
  rw [h]
  rfl

/-- The run of a model whose only thermal condition is a metabolic heat `q`:
after `n` successful steps every node has the temperature
`T0 + n * (dt * q / (rho * c))`. -/
theorem heating_trajectory (lm : Libm α) (NUM_THREADS : Nat) (hT : 1 ≤ NUM_THREADS)
    (base : Model α) (q : α)
    (hTD : base.m_num_T_DOFs = base.m_nodes.length)
    (hD : base.m_num_M_DOFs = base.m_nodes.length * 3)
    (hids : ∀ (p : Nat) (tet : T4 α), base.m_tets[p]? = some tet → tet.m_idx = p)
    (hnodes : ∀ tet ∈ base.m_tets, ∀ m : Fin 4, tet.m_n_idx m < base.m_nodes.length)
    (hrow : ∀ tet ∈ base.m_tets, ∀ r : Fin 3,
      tet.m_DHDX r 0 + tet.m_DHDX r 1 + tet.m_DHDX r 2 + tet.m_DHDX r 3 = 0)
    (hmass : ∀ tet ∈ base.m_tets, tet.m_mass = base.m_rho * tet.m_Vol)
    (hh : base.m_hflux_idx = [] ∧ base.m_bhflux_idx = [] ∧ base.m_fixT_idx = [] ∧
      base.m_perfu_idx = [] ∧ base.m_metabo_mag = [])
    (hrho : base.m_rho ≠ 0) (hc : rd base.m_T_material_vals 0 ≠ 0)
    (hV : ∀ i, i < base.m_nodes.length → lumpedVolume base.m_tets i ≠ 0)
    (n : Nat) (hok : ∀ j, j < n → stepNoErr lm NUM_THREADS (readMetabo base q).postCreate j = true) :
    (stepInput lm NUM_THREADS (readMetabo base q).postCreate n).2.m_external_Q
        = (initBC (readMetabo base q).postCreate
            (ModelStates.new (readMetabo base q).postCreate)).m_external_Q ∧
      ∀ i, i < base.m_nodes.length →
        rd (stepInput lm NUM_THREADS (readMetabo base q).postCreate n).2.m_curr_T i
          = base.m_T0 + (n : α) * (base.m_dt * q / (base.m_rho * rd base.m_T_material_vals 0)) := by
  obtain ⟨h1, h2, h3, h4, h5⟩ := hh
  have hinit := initial_thermal (readMetabo base q).postCreate hTD ⟨h1, h2, h3⟩
  induction n with
  | zero =>
    refine ⟨rfl, fun i hi => ?_⟩
    rw [Nat.cast_zero, zero_mul, add_zero]
    exact (hinit i hi).2.2.2.2.2
  | succ n ih =>
    obtain ⟨iq, iT⟩ := ih (fun j hj => hok j (by omega))
    obtain ⟨i1, -, -, -⟩ := trajectory_inv lm NUM_THREADS hT (readMetabo base q).postCreate
      hids hTD hD n (fun j hj => hok j (by omega))
    obtain ⟨tets, hm⟩ := i1
    have hp : (stepInput lm NUM_THREADS (readMetabo base q).postCreate n).1.m_perfu_idx = [] := by
      rw [hm]; exact h4
    obtain ⟨t1, t2⟩ := trajectory_T lm NUM_THREADS hT (readMetabo base q).postCreate
      (postCreate_indexed _) hids hnodes hrow hTD hD (fun i hi => (hinit i hi).2.2.2.2.1) n hok
      (base.m_T0 + (n : α) * (base.m_dt * q / (base.m_rho * rd base.m_T_material_vals 0))) iT
    rw [setPerfu_nil _ _ hp] at t1 t2
    refine ⟨t2.trans iq, fun i hi => ?_⟩
    obtain ⟨c1, c2, c3, -, -, -⟩ := hinit i hi
    have hmm : rd (readMetabo base q).postCreate.m_metabo_mag i
        = q * lumpedVolume base.m_tets i := readMetabo_rd base q h5 i hi
    rw [t1 i hi, iq, c3, c1, c2, hmm]
    have hl : lumpedMass (readMetabo base q).postCreate.m_tets i
        = base.m_rho * lumpedVolume base.m_tets i := lumpedMass_eq base.m_tets base.m_rho hmass i
    rw [hl]
    have hv := hV i hi
    show _ + base.m_dt / (base.m_rho * lumpedVolume base.m_tets i * rd base.m_T_material_vals 0)
      * _ = _
    rw [Nat.cast_succ]
    field_simp
    ring

end HeatingTrajectory

section PerfusionTrajectory
variable {α : Type} [Field α] [DecidableEq α]

omit [DecidableEq α] in
/-- The load the perfusion loop of `computeRunTimeBC` leaves for a node that
the entries list. -/
theorem setPerfu_listed (model : Model α) (ms : ModelStates α) (L : List Nat) (coef : Nat → α)
    (r : α)
    (h1 : model.m_perfu_idx = (L.map fun i => (i, coef i, r)).map (fun e => e.1))
    (h2 : model.m_perfu_const1 = (L.map fun i => (i, coef i, r)).map (fun e => e.2.1))
    (h3 : model.m_perfu_refT = (L.map fun i => (i, coef i, r)).map (fun e => e.2.2))
    (i : Nat) (hi : i < ms.m_external_Q.length) (hL : i ∈ L) :
    rd (setPerfu model ms) i = rd ms.m_external_Q0 i - coef i * (rd ms.m_curr_T i - r) := by
  rw [setPerfu_entries model ms _ h1 h2 h3,
    (foldl_perfuWrite_block ms.m_external_Q0 ms.m_curr_T L coef r ms.m_external_Q i hi).1,
    if_pos hL]

omit [DecidableEq α] in
theorem perfusion_step_algebra (Tref q w dt rho c V P : α) (hw : w ≠ 0) (hrho : rho ≠ 0)
    (hc : c ≠ 0) (hV : V ≠ 0) :
    Tref + q / w * (1 - P) + dt / (rho * V * c) * (q * V - w * V * (Tref + q / w * (1 - P) - Tref))
      = Tref + q / w * (1 - P * (1 - dt * w / (rho * c))) := by
  have h1 : w * V * (Tref + q / w * (1 - P) - Tref) = q * V * (1 - P) := by
    field_simp
    ring
  have h2 : dt / (rho * V * c) * (q * V - q * V * (1 - P)) = dt * q * P / (rho * c) := by
    field_simp
    ring
  have h3 : q / w * (1 - P * (1 - dt * w / (rho * c)))
      = q / w * (1 - P) + dt * q * P / (rho * c) := by
    field_simp
    ring
  rw [h1, h2, h3]
  ring

/-- The run of a model with a metabolic heat `q` and a perfusion with the
coefficient `w * V_i` at every node, started at the reference temperature: the
temperature after `n` successful steps. -/
theorem perfusion_trajectory (lm : Libm α) (NUM_THREADS : Nat) (hT : 1 ≤ NUM_THREADS)
    (M : Model α) (hidx : M.indexed)
    (hTD : M.m_num_T_DOFs = M.m_nodes.length) (hD : M.m_num_M_DOFs = M.m_nodes.length * 3)
    (hids : ∀ (p : Nat) (tet : T4 α), M.m_tets[p]? = some tet → tet.m_idx = p)
    (hnodes : ∀ tet ∈ M.m_tets, ∀ m : Fin 4, tet.m_n_idx m < M.m_nodes.length)
    (hrow : ∀ tet ∈ M.m_tets, ∀ r : Fin 3,
      tet.m_DHDX r 0 + tet.m_DHDX r 1 + tet.m_DHDX r 2 + tet.m_DHDX r 3 = 0)
    (hmass : ∀ tet ∈ M.m_tets, tet.m_mass = M.m_rho * tet.m_Vol)
    (hh : M.m_hflux_idx = [] ∧ M.m_bhflux_idx = [] ∧ M.m_fixT_idx = [])
    (q : α) (hmet : ∀ i, i < M.m_nodes.length → rd M.m_metabo_mag i = q * lumpedVolume M.m_tets i)
    (L : List Nat) (coef : Nat → α) (Tref w : α)
    (hL : ∀ i, i < M.m_nodes.length → i ∈ L)
    (h1 : M.m_perfu_idx = (L.map fun i => (i, coef i, Tref)).map (fun e => e.1))
    (h2 : M.m_perfu_const1 = (L.map fun i => (i, coef i, Tref)).map (fun e => e.2.1))
    (h3 : M.m_perfu_refT = (L.map fun i => (i, coef i, Tref)).map (fun e => e.2.2))
    (hcoef : ∀ i, i < M.m_nodes.length → coef i = w * lumpedVolume M.m_tets i)
    (hrho : M.m_rho ≠ 0) (hc : rd M.m_T_material_vals 0 ≠ 0) (hw : w ≠ 0)
    (hV : ∀ i, i < M.m_nodes.length → lumpedVolume M.m_tets i ≠ 0)
    (hT0 : M.m_T0 = Tref)
    (n : Nat) (hok : ∀ j, j < n → stepNoErr lm NUM_THREADS M j = true) :
    ∀ i, i < M.m_nodes.length →
      rd (stepInput lm NUM_THREADS M n).2.m_curr_T i
        = Tref + q / w * (1 - (1 - M.m_dt * w / (M.m_rho * rd M.m_T_material_vals 0)) ^ n) := by
  have hinit := initial_thermal M hTD hh
  induction n with
  | zero =>
    intro i hi
    rw [pow_zero, sub_self, mul_zero, add_zero, ← hT0]
    exact (hinit i hi).2.2.2.2.2
  | succ n ih =>
    have iT := ih (fun j hj => hok j (by omega))
    obtain ⟨i1, -, -, i4⟩ := trajectory_inv lm NUM_THREADS hT M hids hTD hD n
      (fun j hj => hok j (by omega))
    obtain ⟨tets, hm⟩ := i1
    obtain ⟨-, s2, -, -, -, -, s7⟩ := i4
    obtain ⟨t1, -⟩ := trajectory_T lm NUM_THREADS hT M hidx hids hnodes hrow hTD hD
      (fun i hi => (hinit i hi).2.2.2.2.1) n hok _ iT
    intro i hi
    obtain ⟨c1, c2, -, c4, -, -⟩ := hinit i hi
    have hset := setPerfu_listed (stepInput lm NUM_THREADS M n).1 (stepInput lm NUM_THREADS M n).2
      L coef Tref (by rw [hm]; exact h1) (by rw [hm]; exact h2) (by rw [hm]; exact h3) i
      (by rw [s7, c4]; exact hi) (hL i hi)
    rw [t1 i hi, hset, s2, c1, c2, hmet i hi, iT i hi, hcoef i hi,
      lumpedMass_eq M.m_tets M.m_rho hmass i]
    have hv := hV i hi
    rw [pow_succ]
    exact perfusion_step_algebra Tref q w M.m_dt M.m_rho (rd M.m_T_material_vals 0)
      (lumpedVolume M.m_tets i) _ hw hrho hc hv

end PerfusionTrajectory

section PerfusionCoefficient
variable {α : Type} [Field α] [DecidableEq α]

omit [DecidableEq α] in
/-- The coefficient of a perfusion condition that lists every element once is
`wb * cb` times the lumped volume of the node. -/
theorem perfuCoeff_all (model : Model α) (c : PerfuCondition α)
    (hlist : (c.ids.map model.tetOfId).Perm (model.m_tets.map some)) (i : Nat) :
    perfuCoeff model c i = c.wb * c.cb * lumpedVolume model.m_tets i := by
  have e1 : perfuCoeff model c i
      = ((c.ids.map model.tetOfId).map fun o : Option (T4 α) =>
          o.elim 0 fun tet =>
            ((List.finRange 4).map fun m =>
              if tet.m_n_idx m = i then c.wb * tet.m_Vol / ((4 : ℕ) : α) * c.cb else 0).sum).sum := by
    unfold perfuCoeff
    rw [List.map_map]
    congr 1
    apply List.map_congr_left
    intro idx _
    simp only [Function.comp]
    cases model.tetOfId idx <;> rfl
  rw [e1, (hlist.map _).sum_eq, List.map_map]
  unfold lumpedVolume
  rw [← List.sum_map_mul_left]
  apply sum_map_congr_mem
  intro tet _
  simp only [Function.comp, Option.elim]
  rw [← List.sum_map_mul_left]
  apply sum_map_congr_mem
  intro m _
  rw [mul_ite, mul_zero]
  congr 1
  ring

/-- The `<Metabo>` and `<Perfu>` blocks of a file can be read in either
order. -/
theorem readPerfu_readMetabo (base : Model α) (q : α) (c : PerfuCondition α) :
    readPerfu (readMetabo base q) c.wb c.cb c.refT c.ids
      = readMetabo (readPerfu base c.wb c.cb c.refT c.ids) q := by
  rw [readPerfu_eq, readPerfu_eq]
  rfl

end PerfusionCoefficient

section FrameLemmas3
variable {α : Type} [Field α]

theorem elementKernel_eq_at (lm : Libm α) (T0 : α) (curr_U curr_T : List α) (tet : T4 α) :
    elementKernel lm T0 curr_U curr_T tet
      = elementKernelAt lm T0 curr_T tet (deformationGradient curr_U tet) := rfl

theorem mat33x33_assoc (A B C : Mat33 α) :
    mat33x33 (mat33x33 A B) C = mat33x33 A (mat33x33 B C) := by
  funext i j
  simp only [mat33x33]
  ring

/-- The tensor `Yᵀ * Y` does not change when `Y` is rotated. -/
theorem gram_rotate (Q Y : Mat33 α) (hQ : mat33Tx33 Q Q = I33) :
    mat33Tx33 (mat33x33 Q Y) (mat33x33 Q Y) = mat33Tx33 Y Y := by
  have h : ∀ a b : Fin 3, 0 + Q 0 a * Q 0 b + Q 1 a * Q 1 b + Q 2 a * Q 2 b
      = if a = b then 1 else 0 := fun a b => congrFun (congrFun hQ a) b
  have h00 := h 0 0
  have h01 := h 0 1
  have h02 := h 0 2
  have h10 := h 1 0
  have h11 := h 1 1
  have h12 := h 1 2
  have h20 := h 2 0
  have h21 := h 2 1
  have h22 := h 2 2
  simp only [Fin.isValue, Fin.reduceEq, if_true, if_false] at h00 h01 h02 h10 h11 h12 h20 h21 h22
  funext i j
  simp only [mat33Tx33, mat33x33]
  linear_combination Y 0 i * Y 0 j * h00 + Y 0 i * Y 1 j * h01 + Y 0 i * Y 2 j * h02
    + Y 1 i * Y 0 j * h10 + Y 1 i * Y 1 j * h11 + Y 1 i * Y 2 j * h12
    + Y 2 i * Y 0 j * h20 + Y 2 i * Y 1 j * h21 + Y 2 i * Y 2 j * h22

/-- The corner forces of a rotated gradient with the same stress are the rotated
corner forces. -/
theorem force_rotate (Q X S : Mat33 α) (V : α) (B : Mat34 α) :
    mat33x34 (mat33xScalar (mat33x33 (mat33x33 Q X) S) V) B
      = mat33x34 Q (mat33x34 (mat33xScalar (mat33x33 X S) V) B) := by
  funext i j
  simp only [mat33x34, mat33xScalar, mat33x33]
  ring

/-- The stress the element kernel stores for a rotated gradient is the stress
it stores for the gradient. -/
theorem elementKernelAt_S_rotate (lm : Libm α) (T0 : α) (curr_T : List α) (tet : T4 α)
    (X Q : Mat33 α) (hQ : mat33Tx33 Q Q = I33) :
    (elementKernelAt lm T0 curr_T tet (mat33x33 Q X)).tet.m_S
      = (elementKernelAt lm T0 curr_T tet X).tet.m_S := by
  by_cases h : tet.m_T_expan_vals.length ≠ 0
  · simp only [elementKernelAt, if_pos h]
    rw [mat33x33_assoc, gram_rotate _ _ hQ]
  · simp only [elementKernelAt, if_neg h]
    rw [gram_rotate _ _ hQ]

theorem elementKernelAt_f (lm : Libm α) (T0 : α) (curr_T : List α) (tet : T4 α) (X : Mat33 α) :
    (elementKernelAt lm T0 curr_T tet X).f
      = mat33x34 (mat33xScalar (mat33x33 X (elementKernelAt lm T0 curr_T tet X).tet.m_S)
          tet.m_Vol) tet.m_DHDX := rfl

/-- The element kernel for an elastic gradient that is a rotation: no stress and
no corner forces. -/
theorem elementKernelAt_rigid [CharZero α] (lm : Libm α) (hsqrt : lm.sqrt 1 = 1)
    (hpow : ∀ e, lm.powf 1 e = 1) (T0 : α) (curr_T : List α) (tet : T4 α) (Q : Mat33 α)
    (hQ : mat33Tx33 Q Q = I33)
    (hmat : tet.m_M_material_type = "NH" ∨ (tet.m_M_material_type = "TI" ∧
      rd tet.m_M_material_vals 3 + rd tet.m_M_material_vals 6 + rd tet.m_M_material_vals 8 = 1))
    (hexp : tet.m_T_expan_vals.length ≠ 0 →
      expansionGradient tet (T_diff T0 curr_T tet) = I33) :
    (elementKernelAt lm T0 curr_T tet Q).tet.m_S = (fun _ _ => 0) ∧
      (elementKernelAt lm T0 curr_T tet Q).f = (fun _ _ => 0) := by
  have hS0 : (if tet.m_M_material_type = "NH" then
        stressNH lm tet.m_M_material_vals I33 I33 1
      else if tet.m_M_material_type = "TI" then
        stressTI lm tet.m_M_material_vals I33 I33 1
      else tet.m_S) = fun _ _ => 0 := by
    rcases hmat with h | ⟨h, htr⟩
    · rw [if_pos h]; exact stressNH_rest lm hpow _
    · rw [if_neg (by rw [h]; decide), if_pos h]; exact stressTI_rest lm hpow _ htr
  have hS : (elementKernelAt lm T0 curr_T tet Q).tet.m_S = (fun _ _ => 0) := by
    by_cases h : tet.m_T_expan_vals.length ≠ 0
    · simp only [elementKernelAt, if_pos h, hexp h, matInv33_I33, mat33x33_I33, hQ, hsqrt, hS0,
        mat33x33_zero_right, mat33x33T_zero_left, mat33xScalar_zero]
    · simp only [elementKernelAt, if_neg h, matInv33_I33, hQ, hsqrt, hS0]
  refine ⟨hS, ?_⟩
  rw [elementKernelAt_f, hS, mat33x33_zero_right, mat33xScalar_zero, mat33x34_zero_left]

end FrameLemmas3

section EquilibriumLemmas
variable {α : Type} [Field α]

/-- The four corner forces of an element sum to zero along every axis. -/
theorem elementKernel_f_sum (lm : Libm α) (T0 : α) (curr_U curr_T : List α) (tet : T4 α)
    (hrow : ∀ r : Fin 3, tet.m_DHDX r 0 + tet.m_DHDX r 1 + tet.m_DHDX r 2 + tet.m_DHDX r 3 = 0)
    (n : Fin 3) :
    (elementKernel lm T0 curr_U curr_T tet).f n 0 + (elementKernel lm T0 curr_U curr_T tet).f n 1
      + (elementKernel lm T0 curr_U curr_T tet).f n 2
      + (elementKernel lm T0 curr_U curr_T tet).f n 3 = 0 := by
  rw [elementKernel_eq_at, elementKernelAt_f]
  exact mat33x34_row_sum _ _ hrow n

end EquilibriumLemmas

section HeatBalanceLemmas
variable {α : Type} [Field α]

/-- Summed over the nodes, the corner values assembled by node are the corner
values summed by element. -/
theorem sum_assembled (tets : List (T4 α)) (N : Nat) (g : T4 α → Fin 4 → α)
    (h : ∀ tet ∈ tets, ∀ m : Fin 4, tet.m_n_idx m < N) :
    (Finset.range N).sum (fun i =>
        (tets.map fun tet =>
          ((List.finRange 4).map fun m => if tet.m_n_idx m = i then g tet m else 0).sum).sum)
      = (tets.map fun tet => g tet 0 + g tet 1 + g tet 2 + g tet 3).sum := by
  induction tets with
  | nil => simp
  | cons tet tets ih =>
    have hm := h tet (List.mem_cons_self _ _)
    simp only [List.map_cons, List.sum_cons, Finset.sum_add_distrib]
    rw [ih (fun t ht m => h t (List.mem_cons_of_mem _ ht) m)]
    simp only [show List.finRange 4 = [0, 1, 2, 3] from rfl, List.map_cons, List.map_nil,
      List.sum_cons, List.sum_nil, add_zero, Finset.sum_add_distrib]
    rw [Finset.sum_ite_eq, Finset.sum_ite_eq, Finset.sum_ite_eq, Finset.sum_ite_eq,
      if_pos (Finset.mem_range.2 (hm 0)), if_pos (Finset.mem_range.2 (hm 1)),
      if_pos (Finset.mem_range.2 (hm 2)), if_pos (Finset.mem_range.2 (hm 3))]
    ring

/-- The columns of `Aᵀ * B * s` sum to zero when the rows of `A` do. -/
theorem conduction_col_sum (A B : Mat34 α) (s : α)
    (h : ∀ r : Fin 3, A r 0 + A r 1 + A r 2 + A r 3 = 0) (j : Fin 4) :
    mat44xScalar (mat34Tx34 A B) s 0 j + mat44xScalar (mat34Tx34 A B) s 1 j
      + mat44xScalar (mat34Tx34 A B) s 2 j + mat44xScalar (mat34Tx34 A B) s 3 j = 0 := by
  simp only [mat44xScalar, mat34Tx34]
  linear_combination s * (B 0 j * h 0 + B 1 j * h 1 + B 2 j * h 2)

/-- The four corner heat flows of an element sum to zero. -/
theorem elementKernel_q_sum (lm : Libm α) (T0 : α) (curr_U curr_T : List α) (tet : T4 α)
    (hrow : ∀ r : Fin 3, tet.m_DHDX r 0 + tet.m_DHDX r 1 + tet.m_DHDX r 2 + tet.m_DHDX r 3 = 0) :
    (elementKernel lm T0 curr_U curr_T tet).q 0 + (elementKernel lm T0 curr_U curr_T tet).q 1
      + (elementKernel lm T0 curr_U curr_T tet).q 2
      + (elementKernel lm T0 curr_U curr_T tet).q 3 = 0 := by
  have hB := mat33Tx34_row_sum (matInv33 (deformationGradient curr_U tet)).1 tet.m_DHDX hrow
  have key : ∀ j : Fin 4,
      (elementKernel lm T0 curr_U curr_T tet).tet.m_K 0 j
        + (elementKernel lm T0 curr_U curr_T tet).tet.m_K 1 j
        + (elementKernel lm T0 curr_U curr_T tet).tet.m_K 2 j
        + (elementKernel lm T0 curr_U curr_T tet).tet.m_K 3 j = 0 := by
    intro j
    rw [elementKernel_K]
    by_cases hty : tet.m_T_material_type = "T_ISO"
    · rw [if_pos hty]
      exact conduction_col_sum _ _ _ hB j
    · rw [if_neg hty]
      exact conduction_col_sum _ _ _ hB j
  rw [elementKernel_q, elementKernel_q, elementKernel_q, elementKernel_q]
  linear_combination rd curr_T (tet.m_n_idx 0) * key 0 + rd curr_T (tet.m_n_idx 1) * key 1
    + rd curr_T (tet.m_n_idx 2) * key 2 + rd curr_T (tet.m_n_idx 3) * key 3

/-- The assembled heat flows of the nodes sum to zero. -/
theorem sum_assembledQ (lm : Libm α) (T0 : α) (curr_U curr_T : List α) (tets : List (T4 α))
    (N : Nat) (hnodes : ∀ tet ∈ tets, ∀ m : Fin 4, tet.m_n_idx m < N)
    (hrow : ∀ tet ∈ tets, ∀ r : Fin 3,
      tet.m_DHDX r 0 + tet.m_DHDX r 1 + tet.m_DHDX r 2 + tet.m_DHDX r 3 = 0) :
    (Finset.range N).sum (fun i => assembledQ lm T0 curr_U curr_T tets i) = 0 := by
  unfold assembledQ
  rw [sum_assembled tets N (fun tet m => (elementKernel lm T0 curr_U curr_T tet).q m) hnodes]
  apply sum_map_zero
  intro tet ht
  exact elementKernel_q_sum lm T0 curr_U curr_T tet (hrow tet ht)

end HeatBalanceLemmas

section FreeExpansionLemmas
variable {α : Type} [Field α]

/-- The deformation gradient of the displacements `(G - I) * x_k` of the four
corners is `G`. -/
theorem deformationGradient_affine (curr_U : List α) (tet : T4 α) (n1 n2 n3 n4 : Node α)
    (hb : tet.builtFrom n1 n2 n3 n4)
    (hdet : matDet33 (mat34x34T (DHDr : Mat34 α) (n_coords n1 n2 n3 n4)) ≠ 0) (G : Mat33 α)
    (hu : ∀ (m : Fin 4) (n : Fin 3),
      rd curr_U (tet.m_n_idx m * 3 + n.val)
        = affineDisp (fun i j => G i j - I33 i j) (fun _ => 0)
            (fun k => n_coords n1 n2 n3 n4 k m) n) :
    deformationGradient curr_U tet = G := by
  funext i j
  have h := affine_gradient n1 n2 n3 n4 tet.m_DHDX (cornerDisp curr_U tet)
    (fun i j => G i j - I33 i j) (fun _ => 0) hb.1 hdet (fun m n => hu m n) i j
  unfold deformationGradient
  rw [h]
  by_cases hij : i = j
  · rw [if_pos hij]
    simp [I33, hij]
  · rw [if_neg hij]
    simp [I33, hij]

/-- The element kernel at the gradient `X = X_exp` of a free expansion: the
elastic gradient is `I`, the stress and the corner forces are zero. -/
theorem elementKernelAt_free [CharZero α] (lm : Libm α) (hsqrt : lm.sqrt 1 = 1)
    (hpow : ∀ e, lm.powf 1 e = 1) (T0 : α) (curr_T : List α) (tet : T4 α)
    (hmat : tet.m_M_material_type = "NH" ∨ (tet.m_M_material_type = "TI" ∧
      rd tet.m_M_material_vals 3 + rd tet.m_M_material_vals 6 + rd tet.m_M_material_vals 8 = 1))
    (hexp : tet.m_T_expan_vals.length ≠ 0)
    (hdet : matDet33 (expansionGradient tet (T_diff T0 curr_T tet)) ≠ 0) :
    mat33x33 (expansionGradient tet (T_diff T0 curr_T tet))
        (matInv33 (expansionGradient tet (T_diff T0 curr_T tet))).1 = I33 ∧
      (elementKernelAt lm T0 curr_T tet (expansionGradient tet (T_diff T0 curr_T tet))).tet.m_S
        = (fun _ _ => 0) ∧
      (elementKernelAt lm T0 curr_T tet (expansionGradient tet (T_diff T0 curr_T tet))).f
        = (fun _ _ => 0) := by
  have hI := self_mul_matInv33 (expansionGradient tet (T_diff T0 curr_T tet)) hdet
  have hS0 : (if tet.m_M_material_type = "NH" then
        stressNH lm tet.m_M_material_vals I33 I33 1
      else if tet.m_M_material_type = "TI" then
        stressTI lm tet.m_M_material_vals I33 I33 1
      else tet.m_S) = fun _ _ => 0 := by
    rcases hmat with h | ⟨h, htr⟩
    · rw [if_pos h]; exact stressNH_rest lm hpow _
    · rw [if_neg (by rw [h]; decide), if_pos h]; exact stressTI_rest lm hpow _ htr
  have hS : (elementKernelAt lm T0 curr_T tet
      (expansionGradient tet (T_diff T0 curr_T tet))).tet.m_S = (fun _ _ => 0) := by
    simp only [elementKernelAt, if_pos hexp, hI, mat33Tx33_I33, matInv33_I33, hsqrt, hS0,
      mat33x33_zero_right, mat33x33T_zero_left, mat33xScalar_zero]
  refine ⟨hI, hS, ?_⟩
  rw [elementKernelAt_f, hS, mat33x33_zero_right, mat33xScalar_zero, mat33x34_zero_left]

end FreeExpansionLemmas

section ReferenceTemperature
variable {α : Type} [Field α]

theorem I33_mat33x33 (A : Mat33 α) : mat33x33 I33 A = A := by
  funext i j
  fin_cases i <;> simp [mat33x33, I33]

theorem mat33x33T_I33 (A : Mat33 α) : mat33x33T A I33 = A := by
  funext i j
  fin_cases j <;> simp [mat33x33T, I33]

theorem mat33xScalar_one (A : Mat33 α) : mat33xScalar A 1 = A := by
  funext i j
  simp [mat33xScalar]

/-- `T_diff` is zero when the mean corner temperature is `T0`. -/
theorem T_diff_mean (T0 : α) (curr_T : List α) (tet : T4 α)
    (h : (rd curr_T (tet.m_n_idx 0) + rd curr_T (tet.m_n_idx 1) + rd curr_T (tet.m_n_idx 2)
      + rd curr_T (tet.m_n_idx 3)) / ((4 : ℕ) : α) = T0) : T_diff T0 curr_T tet = 0 := by
  unfold T_diff
  rw [h, sub_self]

/-- The element kernel with the expansion gradient `I` is the element kernel
without expansion. -/
theorem elementKernelAt_no_expansion (lm : Libm α) (T0 : α) (curr_T : List α) (tet : T4 α)
    (X : Mat33 α) (hexp : tet.m_T_expan_vals.length ≠ 0)
    (hI : expansionGradient tet (T_diff T0 curr_T tet) = I33) (s : String) :
    (elementKernelAt lm T0 curr_T tet X).tet.m_S
        = (elementKernelAt lm T0 curr_T
            { tet with m_T_expan_vals := [], m_T_expan_type := s } X).tet.m_S ∧
      (elementKernelAt lm T0 curr_T tet X).f
        = (elementKernelAt lm T0 curr_T
            { tet with m_T_expan_vals := [], m_T_expan_type := s } X).f := by
  have hS : (elementKernelAt lm T0 curr_T tet X).tet.m_S
      = (elementKernelAt lm T0 curr_T
          { tet with m_T_expan_vals := [], m_T_expan_type := s } X).tet.m_S := by
    have hn : ¬ (([] : List α).length ≠ 0) := by simp
    simp only [elementKernelAt, if_pos hexp, if_neg hn, hI, matInv33_I33, mat33x33_I33,
      I33_mat33x33, mat33x33T_I33, mat33xScalar_one]
  refine ⟨hS, ?_⟩
  rw [elementKernelAt_f, elementKernelAt_f, hS]

end ReferenceTemperature

section AccessLemmas
variable {α : Type} [Zero α] [DecidableEq α]

theorem getD_mem_lt (idx : List Nat) (N i : Nat) (hi : i < idx.length)
    (h : ∀ k ∈ idx, k < N) : idx.getD i 0 < N := by
  rw [List.getD_eq_getElem _ _ hi]
  exact h _ (List.getElem_mem hi)

omit [Zero α] [DecidableEq α] in
theorem dispAccesses_inBounds (ms : ModelStates α) (idx : List Nat) (mag : List α)
    (axis N : Nat) (hax : axis < 3) (hidx : ∀ k ∈ idx, k < N) (hmag : mag.length = idx.length)
    (hlen : ms.m_disp_mag_t.length = N * 3) :
    ∀ a ∈ dispAccesses ms idx mag axis, a.index < a.size := by
  intro a ha
  simp only [dispAccesses, List.mem_flatMap, List.mem_range, List.mem_cons, List.mem_singleton,
    List.not_mem_nil, or_false] at ha
  obtain ⟨i, hi, rfl | rfl | rfl⟩ := ha
  · exact hi
  · have := getD_mem_lt idx N i hi hidx
    dsimp only
    omega
  · show i < mag.length
    omega

omit [Zero α] [DecidableEq α] in
theorem perfuAccesses_inBounds (model : Model α) (ms : ModelStates α) (N : Nat)
    (hidx : ∀ k ∈ model.m_perfu_idx, k < N)
    (hc1 : model.m_perfu_const1.length = model.m_perfu_idx.length)
    (hrefT : model.m_perfu_refT.length = model.m_perfu_idx.length)
    (hQ : ms.m_external_Q.length = N) (hQ0 : ms.m_external_Q0.length = N)
    (hT : ms.m_curr_T.length = N) :
    ∀ a ∈ perfuAccesses model ms, a.index < a.size := by
  intro a ha
  simp only [perfuAccesses, List.mem_flatMap, List.mem_range, List.mem_cons, List.mem_singleton,
    List.not_mem_nil, or_false] at ha
  obtain ⟨i, hi, h⟩ := ha
  have hk := getD_mem_lt model.m_perfu_idx N i hi hidx
  rcases h with rfl | rfl | rfl | rfl | rfl | rfl
  · exact hi
  · dsimp only
    omega
  · dsimp only
    omega
  · show i < model.m_perfu_const1.length
    omega
  · dsimp only
    omega
  · show i < model.m_perfu_refT.length
    omega


omit [Zero α] [DecidableEq α] in
theorem mem_tets_idx (tets : List (T4 α))
    (hids : ∀ (p : Nat) (tet : T4 α), tets[p]? = some tet → tet.m_idx = p)
    (tet : T4 α) (ht : tet ∈ tets) : tet.m_idx < tets.length := by
  obtain ⟨p, hp⟩ := List.mem_iff_getElem?.1 ht
  rw [hids p tet hp]
  exact (List.getElem?_eq_some_iff.1 hp).1

omit [Zero α] [DecidableEq α] in
theorem elementAccesses_inBounds (model : Model α) (ms : ModelStates α) (i : Nat) (tet : T4 α)
    (hi : model.m_tets[i]? = some tet)
    (hids : ∀ (p : Nat) (tet : T4 α), model.m_tets[p]? = some tet → tet.m_idx = p)
    (hnodes : ∀ m : Fin 4, tet.m_n_idx m < model.m_nodes.length)
    (hNH : tet.m_M_material_type = "NH" → 2 ≤ tet.m_M_material_vals.length)
    (hTI : tet.m_M_material_type = "TI" → 9 ≤ tet.m_M_material_vals.length)
    (heTI : tet.m_T_expan_type = "T_EXPAN_TI" → tet.m_T_expan_vals.length ≠ 0 →
      8 ≤ tet.m_T_expan_vals.length)
    (heOR : tet.m_T_expan_type = "T_EXPAN_ORTHO" → tet.m_T_expan_vals.length ≠ 0 →
      15 ≤ tet.m_T_expan_vals.length)
    (hU : ms.m_curr_U.length = model.m_nodes.length * 3)
    (hT : ms.m_curr_T.length = model.m_nodes.length)
    (hF : ms.m_ele_nodal_internal_F.length = model.m_tets.length * 4 * 3)
    (hQ : ms.m_ele_nodal_internal_Q.length = model.m_tets.length * 4) :
    ∀ a ∈ elementAccesses model ms i tet, a.index < a.size := by
  have hil : i < model.m_tets.length := (List.getElem?_eq_some_iff.1 hi).1
  have hid : tet.m_idx = i := hids i tet hi
  intro a ha
  simp only [elementAccesses, List.mem_append, List.mem_flatMap, List.mem_map, List.mem_finRange,
    true_and, List.mem_cons, List.mem_singleton, List.not_mem_nil, or_false] at ha
  rcases ha with ((((rfl | ⟨m, n, rfl⟩) | ha) | ⟨k, hk, rfl⟩) | ⟨m, n, rfl⟩) | ⟨m, h⟩
  · exact hil
  · have := hnodes m
    have := n.isLt
    dsimp only
    omega
  · split_ifs at ha with he
    · simp only [List.mem_append, List.mem_map, List.mem_finRange, true_and] at ha
      rcases ha with ⟨m, rfl⟩ | ⟨k, hk, rfl⟩
      · have := hnodes m
        dsimp only
        omega
      · dsimp only
        unfold expansionReads at hk
        split_ifs at hk with h1 h2 h3
        · simp only [List.mem_singleton] at hk
          omega
        · have := heTI h2 he
          simp only [List.mem_cons, List.mem_singleton, List.not_mem_nil, or_false] at hk
          omega
        · have := heOR h3 he
          simp only [List.mem_cons, List.mem_singleton, List.not_mem_nil, or_false] at hk
          omega
        · simp at hk
    · simp at ha
  · dsimp only
    unfold materialReads at hk
    split_ifs at hk with h1 h2
    · have := hNH h1
      simp only [List.mem_cons, List.mem_singleton, List.not_mem_nil, or_false] at hk
      omega
    · have := hTI h2
      simp only [List.mem_cons, List.mem_singleton, List.not_mem_nil, or_false] at hk
      omega
    · simp at hk
  · have := m.isLt
    have := n.isLt
    dsimp only
    omega
  · have := m.isLt
    have h0 := hnodes 0
    have h1 := hnodes 1
    have h2 := hnodes 2
    have h3 := hnodes 3
    rcases h with rfl | rfl | rfl | rfl | rfl <;> dsimp only <;> omega


omit [Zero α] [DecidableEq α] in
/-- The slice of node `i` lies in the pair buffer, and its pairs name an element
of the mesh and one of its four corners. -/
theorem indexed_slice (model : Model α) (hpost : model.indexed)
    (hids : ∀ (p : Nat) (tet : T4 α), model.m_tets[p]? = some tet → tet.m_idx = p)
    (i : Nat) (hi : i < model.m_nodes.length) :
    model.m_tracking_num_eles_i_eles_per_node_j.length = 2 * model.m_nodes.length ∧
      model.m_ele_node_local_idx_pair.length
        = 2 * offsetOf (cornersAt model.m_tets) model.m_nodes.length ∧
      model.dirOffset i = offsetOf (cornersAt model.m_tets) i ∧
      model.dirCount i = (cornersAt model.m_tets i).length ∧
      model.dirOffset i + model.dirCount i
        ≤ offsetOf (cornersAt model.m_tets) model.m_nodes.length ∧
      ∀ j, j < model.dirCount i →
        model.m_ele_node_local_idx_pair.getD ((model.dirOffset i + j) * 2 + 0) 0
            < model.m_tets.length ∧
          model.m_ele_node_local_idx_pair.getD ((model.dirOffset i + j) * 2 + 1) 0 < 4 := by
  obtain ⟨b, d⟩ := postCreate_eq model
  have hb := hpost.1.trans b
  have hd := hpost.2.trans d
  have ho : model.dirOffset i = offsetOf (cornersAt model.m_tets) i := by
    unfold Model.dirOffset
    rw [hd]
    exact (flatMap_dir_getD _ _ i hi).1
  have hc : model.dirCount i = (cornersAt model.m_tets i).length := by
    unfold Model.dirCount
    rw [hd]
    exact (flatMap_dir_getD _ _ i hi).2
  refine ⟨by rw [hd, flatMap_dir_length], by rw [hb, flatMap_flatPairs_length], ho, hc, ?_, ?_⟩
  · rw [ho, hc, ← offsetOf_succ]
    exact offsetOf_mono _ hi
  · intro j hj
    rw [hc] at hj
    rw [ho, hb]
    obtain ⟨e1, e2⟩ := flatMap_flatPairs_getD (cornersAt model.m_tets) model.m_nodes.length i j
      hi hj
    rw [e1, e2, List.getD_eq_getElem _ _ hj]
    obtain ⟨tet, ht, m, -, hp⟩ := (mem_cornersAt model.m_tets i _).1 (List.getElem_mem hj)
    rw [hp]
    exact ⟨mem_tets_idx model.m_tets hids tet ht, m.isLt⟩

omit [Zero α] [DecidableEq α] in
theorem gatherAccesses_inBounds (model : Model α) (ms : ModelStates α) (hpost : model.indexed)
    (hids : ∀ (p : Nat) (tet : T4 α), model.m_tets[p]? = some tet → tet.m_idx = p)
    (i : Nat) (hi : i < model.m_nodes.length)
    (hF : ms.m_ele_nodal_internal_F.length = model.m_tets.length * 4 * 3)
    (hQ : ms.m_ele_nodal_internal_Q.length = model.m_tets.length * 4) :
    ∀ a ∈ gatherAccesses model ms i, a.index < a.size := by
  obtain ⟨s1, s2, -, -, s5, s6⟩ := indexed_slice model hpost hids i hi
  intro a ha
  simp only [gatherAccesses, List.mem_append, List.mem_flatMap, List.mem_range, List.mem_cons,
    List.mem_singleton, List.not_mem_nil, or_false] at ha
  rcases ha with (rfl | rfl) | ⟨j, hj, h⟩
  · dsimp only
    omega
  · dsimp only
    omega
  · obtain ⟨t1, t2⟩ := s6 j hj
    have hj' : j < model.dirCount i := hj
    unfold Model.dirOffset at t1 t2 s5
    rcases h with rfl | rfl | rfl | rfl | rfl | rfl <;> dsimp only <;> omega

theorem dofAccesses_inBounds (ms : ModelStates α) (N n_DOF : Nat) (hn : n_DOF < N * 3)
    (h1 : ms.m_disp_mag_t.length = N * 3) (h2 : ms.m_next_U.length = N * 3)
    (h3 : ms.m_fixP_flag.length = N * 3) (h4 : ms.m_central_diff_const1.length = N * 3)
    (h5 : ms.m_central_diff_const2.length = N * 3) (h6 : ms.m_central_diff_const3.length = N * 3)
    (h7 : ms.m_external_F.length = N * 3) (h8 : ms.m_curr_U.length = N * 3)
    (h9 : ms.m_prev_U.length = N * 3) :
    ∀ a ∈ dofAccesses ms n_DOF, a.index < a.size := by
  intro a ha
  unfold dofAccesses at ha
  split_ifs at ha with c1 c2 <;>
    simp only [List.mem_cons, List.mem_singleton, List.not_mem_nil, or_false] at ha
  · rcases ha with rfl | rfl | rfl <;> dsimp only <;> omega
  · rcases ha with rfl | rfl | rfl <;> dsimp only <;> omega
  · rcases ha with rfl | rfl | rfl | rfl | rfl | rfl | rfl | rfl | rfl | rfl <;> dsimp only <;>
      omega

omit [Zero α] [DecidableEq α] in
theorem temperatureAccesses_inBounds (ms : ModelStates α) (N i : Nat) (hi : i < N)
    (h1 : ms.m_fixT_flag.length = N) (h2 : ms.m_next_T.length = N)
    (h3 : ms.m_fixT_mag.length = N) (h4 : ms.m_curr_T.length = N)
    (h5 : ms.m_constA.length = N) (h6 : ms.m_external_Q.length = N) :
    ∀ a ∈ temperatureAccesses ms i, a.index < a.size := by
  intro a ha
  unfold temperatureAccesses at ha
  split_ifs at ha with c1 <;>
    simp only [List.mem_cons, List.mem_singleton, List.not_mem_nil, or_false] at ha
  · rcases ha with rfl | rfl | rfl <;> dsimp only <;> omega
  · rcases ha with rfl | rfl | rfl | rfl | rfl | rfl <;> dsimp only <;> omega

end AccessLemmas

section SizeLemmas
variable {α : Type} [Add α] [Sub α] [Mul α] [Div α] [Neg α] [Zero α] [One α] [NatCast α]
  [DecidableEq α]

omit [Neg α] [DecidableEq α] in
theorem centralDiffConsts_length (model : Model α) :
    (centralDiffConsts model).1.length = model.m_num_M_DOFs ∧
      (centralDiffConsts model).2.1.length = model.m_num_M_DOFs ∧
      (centralDiffConsts model).2.2.length = model.m_num_M_DOFs := by
  unfold centralDiffConsts
  rw [centralDiffConsts_fold model _ _ _ (Nat.le_refl _)]
  simp

omit [Sub α] [Neg α] [One α] [DecidableEq α] in
theorem constA_length (model : Model α) : (constA model).length = model.m_num_T_DOFs := by
  unfold constA
  rw [foldl_set_length]
  simp

omit [Neg α] [DecidableEq α] in
/-- The sizes the constructor of `ModelStates` gives the vectors of the state. -/
theorem sameSizes_new (model : Model α) (ms : ModelStates α)
    (h : (ModelStates.new model).sameSizes ms) :
    ms.m_external_F.length = model.m_num_M_DOFs ∧
      ms.m_ele_nodal_internal_F.length = model.m_tets.length * 4 * 3 ∧
      ms.m_disp_mag_t.length = model.m_num_M_DOFs ∧
      ms.m_central_diff_const1.length = model.m_num_M_DOFs ∧
      ms.m_central_diff_const2.length = model.m_num_M_DOFs ∧
      ms.m_central_diff_const3.length = model.m_num_M_DOFs ∧
      ms.m_prev_U.length = model.m_num_M_DOFs ∧
      ms.m_curr_U.length = model.m_num_M_DOFs ∧
      ms.m_next_U.length = model.m_num_M_DOFs ∧
      ms.m_external_Q.length = model.m_num_T_DOFs ∧
      ms.m_external_Q0.length = model.m_num_T_DOFs ∧
      ms.m_ele_nodal_internal_Q.length = model.m_tets.length * 4 ∧
      ms.m_fixT_mag.length = model.m_num_T_DOFs ∧
      ms.m_constA.length = model.m_num_T_DOFs ∧
      ms.m_curr_T.length = model.m_num_T_DOFs ∧
      ms.m_next_T.length = model.m_num_T_DOFs ∧
      ms.m_fixP_flag.length = model.m_num_M_DOFs ∧
      ms.m_fixT_flag.length = model.m_num_T_DOFs := by
  obtain ⟨c1, c2, c3⟩ := centralDiffConsts_length model
  obtain ⟨h1, h2, h3, h4, h5, h6, h7, h8, h9, h10, h11, h12, h13, h14, h15, h16, h17, h18⟩ := h
  refine ⟨?_, ?_, ?_, ?_, ?_, ?_, ?_, ?_, ?_, ?_, ?_, ?_, ?_, ?_, ?_, ?_, ?_, ?_⟩
  · rw [h1]; simp [ModelStates.new]
  · rw [h2]; simp [ModelStates.new]
  · rw [h3]; simp [ModelStates.new]
  · rw [h4]; exact c1
  · rw [h5]; exact c2
  · rw [h6]; exact c3
  · rw [h7]; simp [ModelStates.new]
  · rw [h8]; simp [ModelStates.new]
  · rw [h9]; simp [ModelStates.new]
  · rw [h10]; simp [ModelStates.new]
  · rw [h11]; simp [ModelStates.new]
  · rw [h12]; simp [ModelStates.new]
  · rw [h13]; simp [ModelStates.new]
  · rw [h14]; exact constA_length model
  · rw [h15]; simp [ModelStates.new]
  · rw [h16]; simp [ModelStates.new]
  · rw [h17]; simp [ModelStates.new]
  · rw [h18]; simp [ModelStates.new]

omit [Add α] [Neg α] [One α] [DecidableEq α] in
theorem computeRunTimeBC_sameSizes (model : Model α) (S ms : ModelStates α) (k : Nat)
    (h : S.sameSizes ms) : S.sameSizes (computeRunTimeBC model ms k) := by
  obtain ⟨h1, h2, h3, h4, h5, h6, h7, h8, h9, h10, h11, h12, h13, h14, h15, h16, h17, h18⟩ := h
  refine ⟨h1, h2, ?_, h4, h5, h6, h7, h8, h9, ?_, h11, h12, h13, h14, h15, h16, h17, h18⟩
  · show (setDisp (setDisp (setDisp ms.m_disp_mag_t _ _ 0 _) _ _ 1 _) _ _ 2 _).length = _
    rw [setDisp_length, setDisp_length, setDisp_length]
    exact h3
  · show (setPerfu model ms).length = _
    unfold setPerfu
    rw [foldl_set_length]
    exact h10

theorem computeOneStep_sameSizes (lm : Libm α) (NUM_THREADS : Nat) (hT : 1 ≤ NUM_THREADS)
    (model : Model α) (ms : ModelStates α)
    (hids : ∀ (p : Nat) (tet : T4 α), model.m_tets[p]? = some tet → tet.m_idx = p)
    (hMD : model.m_num_M_DOFs = model.m_nodes.length * 3)
    (hTD : model.m_num_T_DOFs = model.m_nodes.length)
    (h : (ModelStates.new model).sameSizes ms) :
    (ModelStates.new model).sameSizes (computeOneStep lm NUM_THREADS model ms).modelstates := by
  obtain ⟨s1, s2, s3, s4, s5, s6, s7, s8, s9, s10, s11, s12, s13, s14, s15, s16, s17, s18⟩ :=
    sameSizes_new model ms h
  obtain ⟨h1, h2, h3, h4, h5, h6, h7, h8, h9, h10, h11, h12, h13, h14, h15, h16, h17, h18⟩ := h
  obtain ⟨-, -, a3, a4, -, -, -⟩ := elementPass_spec lm NUM_THREADS hT model ms hids
    (by rw [s2]; omega) s12
  obtain ⟨l1, l2⟩ := nodePassOf_length lm NUM_THREADS hT model ms (by rw [s9, hMD])
    (by rw [s16, hTD])
  obtain ⟨F, Q, hE⟩ := elementPass_frame lm NUM_THREADS model ms
  obtain ⟨U, T, hN⟩ := nodePass_frame lm NUM_THREADS
    { model with m_tets := (elementPass lm NUM_THREADS model ms).1 }
    (elementPass lm NUM_THREADS model ms).2
  have hF : F.length = ms.m_ele_nodal_internal_F.length := by
    have : (elementPass lm NUM_THREADS model ms).2.m_ele_nodal_internal_F = F := by rw [hE]; rfl
    rw [← this, a3, s2]; omega
  have hQ : Q.length = ms.m_ele_nodal_internal_Q.length := by
    have : (elementPass lm NUM_THREADS model ms).2.m_ele_nodal_internal_Q = Q := by rw [hE]; rfl
    rw [← this, a4, s12]
  have hfr : (nodePassOf lm NUM_THREADS model ms).1 = withNext (withBuffers ms F Q) U T := by
    unfold nodePassOf
    rw [hN, hE]
  have hU : U.length = ms.m_next_U.length := by
    have : (nodePassOf lm NUM_THREADS model ms).1.m_next_U = U := by rw [hfr]; rfl
    rw [← this, l1, s9, hMD]
  have hTl : T.length = ms.m_next_T.length := by
    have : (nodePassOf lm NUM_THREADS model ms).1.m_next_T = T := by rw [hfr]; rfl
    rw [← this, l2, s16, hTD]
  cases hne : (nodePassOf lm NUM_THREADS model ms).2
  · rw [computeOneStep_diverged lm NUM_THREADS model ms hne]
    show (ModelStates.new model).sameSizes (nodePassOf lm NUM_THREADS model ms).1
    rw [hfr]
    exact ⟨h1, hF.trans h2, h3, h4, h5, h6, h7, h8, hU.trans h9, h10, h11, hQ.trans h12, h13, h14,
      h15, hTl.trans h16, h17, h18⟩
  · rw [computeOneStep_ok lm NUM_THREADS model ms hne]
    show (ModelStates.new model).sameSizes (rotate (nodePassOf lm NUM_THREADS model ms).1)
    rw [hfr]
    refine ⟨h1, hF.trans h2, h3, h4, h5, h6, ?_, ?_, ?_, h10, h11, hQ.trans h12, h13, h14,
      ?_, ?_, h17, h18⟩
    · show ms.m_curr_U.length = _
      rw [s8]; simp [ModelStates.new]
    · show U.length = _
      rw [hU, s9]; simp [ModelStates.new]
    · show ms.m_prev_U.length = _
      rw [s7]; simp [ModelStates.new]
    · show T.length = _
      rw [hTl, s16]; simp [ModelStates.new]
    · show ms.m_curr_T.length = _
      rw [s15]; simp [ModelStates.new]

end SizeLemmas

section Binary32Lemmas

theorem halvings_spec (fuel n : Nat) (hle : n ≤ fuel) (hn : n ≠ 0) :
    2 ^ halvings fuel n ≤ n ∧ n < 2 ^ (halvings fuel n + 1) := by
  induction fuel generalizing n with
  | zero => omega
  | succ fuel ih =>
    unfold halvings
    by_cases h2 : 2 ≤ n
    · rw [if_pos h2]
      have hdiv : n / 2 ≤ fuel := by omega
      have hne : n / 2 ≠ 0 := by omega
      obtain ⟨a, b⟩ := ih (n / 2) hdiv hne
      refine ⟨?_, ?_⟩
      · rw [pow_succ]; omega
      · rw [pow_succ]; omega
    · rw [if_neg h2]
      refine ⟨by simp; omega, by simp; omega⟩

theorem natLog2_spec (n : Nat) (hn : n ≠ 0) :
    2 ^ natLog2 n ≤ n ∧ n < 2 ^ (natLog2 n + 1) :=
  halvings_spec n n (Nat.le_refl n) hn

/-- The binary exponent brackets the magnitude. -/
theorem binaryExponent_spec (q : ℚ) (hq : q ≠ 0) :
    (2 : ℚ) ^ binaryExponent q ≤ |q| ∧ |q| < (2 : ℚ) ^ (binaryExponent q + 1) := by
  have hnum : q.num.natAbs ≠ 0 := by
    intro h
    exact hq (Rat.zero_of_num_zero (Int.natAbs_eq_zero.1 h))
  obtain ⟨a1, a2⟩ := natLog2_spec q.num.natAbs hnum
  obtain ⟨b1, b2⟩ := natLog2_spec q.den q.den_nz
  have hden : (0 : ℚ) < q.den := by exact_mod_cast q.den_pos
  have habs : |q| = (q.num.natAbs : ℚ) / (q.den : ℚ) := by
    conv_lhs => rw [← Rat.num_div_den q]
    rw [abs_div, abs_of_pos hden, Nat.cast_natAbs, Int.cast_abs]
  have a1' : (2 : ℚ) ^ natLog2 q.num.natAbs ≤ (q.num.natAbs : ℚ) := by exact_mod_cast a1
  have a2' : (q.num.natAbs : ℚ) < (2 : ℚ) ^ (natLog2 q.num.natAbs + 1) := by exact_mod_cast a2
  have b1' : (2 : ℚ) ^ natLog2 q.den ≤ (q.den : ℚ) := by exact_mod_cast b1
  have b2' : (q.den : ℚ) < (2 : ℚ) ^ (natLog2 q.den + 1) := by exact_mod_cast b2
  have h2 : (0 : ℚ) < 2 := by norm_num
  have up : |q| < (2 : ℚ) ^ ((natLog2 q.num.natAbs : ℤ) - (natLog2 q.den : ℤ) + 1) := by
    rw [habs, div_lt_iff₀ hden]
    have e : (2 : ℚ) ^ ((natLog2 q.num.natAbs : ℤ) - (natLog2 q.den : ℤ) + 1)
        = (2 : ℚ) ^ (natLog2 q.num.natAbs + 1) / (2 : ℚ) ^ natLog2 q.den := by
      rw [← zpow_natCast, ← zpow_natCast, ← zpow_sub₀ h2.ne']
      congr 1
      push_cast
      ring
    rw [e, div_mul_eq_mul_div, lt_div_iff₀ (pow_pos h2 _)]
    calc (q.num.natAbs : ℚ) * 2 ^ natLog2 q.den
        ≤ (q.num.natAbs : ℚ) * q.den := by
          apply mul_le_mul_of_nonneg_left b1' (Nat.cast_nonneg _)
      _ < 2 ^ (natLog2 q.num.natAbs + 1) * q.den := by
          apply mul_lt_mul_of_pos_right a2' hden
  have low : (2 : ℚ) ^ ((natLog2 q.num.natAbs : ℤ) - (natLog2 q.den : ℤ) - 1) ≤ |q| := by
    rw [habs, le_div_iff₀ hden]
    have e : (2 : ℚ) ^ ((natLog2 q.num.natAbs : ℤ) - (natLog2 q.den : ℤ) - 1)
        = (2 : ℚ) ^ natLog2 q.num.natAbs / (2 : ℚ) ^ (natLog2 q.den + 1) := by
      rw [← zpow_natCast, ← zpow_natCast, ← zpow_sub₀ h2.ne']
      congr 1
      push_cast
      ring
    rw [e, div_mul_eq_mul_div, div_le_iff₀ (pow_pos h2 _)]
    calc (2 : ℚ) ^ natLog2 q.num.natAbs * q.den
        ≤ (q.num.natAbs : ℚ) * q.den := by
          apply mul_le_mul_of_nonneg_right a1' hden.le
      _ ≤ (q.num.natAbs : ℚ) * 2 ^ (natLog2 q.den + 1) := by
          apply mul_le_mul_of_nonneg_left b2'.le (Nat.cast_nonneg _)
  unfold binaryExponent
  dsimp only
  split_ifs with h
  · exact ⟨h, up⟩
  · refine ⟨low, ?_⟩
    rw [sub_add_cancel]
    exact lt_of_not_le h

theorem roundHalfEven_error (x : ℚ) : |(roundHalfEven x : ℚ) - x| ≤ 1 / 2 := by
  have h1 := Int.floor_le x
  have h2 := Int.lt_floor_add_one x
  unfold roundHalfEven
  split_ifs with a b c
  · rw [abs_le]; constructor <;> linarith
  · rw [abs_le]; push_cast; constructor <;> linarith
  · rw [abs_le]; constructor <;> linarith
  · rw [abs_le]; push_cast; constructor <;> linarith

/-- The relative error of the rounding to binary32 is at most `2^-24` from the
smallest normal number on. -/
theorem roundBinary32_error (q : ℚ) (hq : (2 : ℚ) ^ (-126 : ℤ) ≤ |q|) :
    |roundBinary32 q - q| ≤ (2 : ℚ) ^ (-24 : ℤ) * |q| := by
  have h2 : (0 : ℚ) < 2 := by norm_num
  have hq0 : q ≠ 0 := by
    intro h
    rw [h, abs_zero] at hq
    exact absurd hq (not_le.2 (zpow_pos h2 _))
  obtain ⟨e1, e2⟩ := binaryExponent_spec q hq0
  have he : (-126 : ℤ) ≤ binaryExponent q := by
    have := lt_of_le_of_lt hq e2
    have := (zpow_lt_zpow_iff_right₀ (by norm_num : (1 : ℚ) < 2)).1 this
    omega
  unfold roundBinary32
  rw [if_neg hq0, max_eq_left he]
  have hu : (0 : ℚ) < (2 : ℚ) ^ (binaryExponent q - 23) := zpow_pos h2 _
  have key : (roundHalfEven (q / (2 : ℚ) ^ (binaryExponent q - 23)) : ℚ)
        * (2 : ℚ) ^ (binaryExponent q - 23) - q
      = ((roundHalfEven (q / (2 : ℚ) ^ (binaryExponent q - 23)) : ℚ)
          - q / (2 : ℚ) ^ (binaryExponent q - 23)) * (2 : ℚ) ^ (binaryExponent q - 23) := by
    field_simp
  rw [key, abs_mul, abs_of_pos hu]
  have hr := roundHalfEven_error (q / (2 : ℚ) ^ (binaryExponent q - 23))
  calc |(roundHalfEven (q / (2 : ℚ) ^ (binaryExponent q - 23)) : ℚ)
          - q / (2 : ℚ) ^ (binaryExponent q - 23)| * (2 : ℚ) ^ (binaryExponent q - 23)
      ≤ 1 / 2 * (2 : ℚ) ^ (binaryExponent q - 23) := mul_le_mul_of_nonneg_right hr hu.le
    _ = (2 : ℚ) ^ (-24 : ℤ) * (2 : ℚ) ^ binaryExponent q := by
        have e : (2 : ℚ) ^ (binaryExponent q - 23)
            = (2 : ℚ) ^ (-23 : ℤ) * (2 : ℚ) ^ binaryExponent q := by
          rw [← zpow_add₀ h2.ne']
          congr 1
          ring
        rw [e, ← mul_assoc]
        congr 1
        norm_num
    _ ≤ (2 : ℚ) ^ (-24 : ℤ) * |q| := mul_le_mul_of_nonneg_left e1 (zpow_pos h2 _).le

/-- For a positive `q` from the smallest normal number on, the rounded value is
within the factors `1 - 2^-24` and `1 + 2^-24` of `q`. -/
theorem roundBinary32_bounds (q : ℚ) (hq : (2 : ℚ) ^ (-126 : ℤ) ≤ q) :
    (1 - (2 : ℚ) ^ (-24 : ℤ)) * q ≤ roundBinary32 q ∧
      roundBinary32 q ≤ (1 + (2 : ℚ) ^ (-24 : ℤ)) * q := by
  have hpos : 0 < q := lt_of_lt_of_le (zpow_pos (by norm_num) _) hq
  have h := roundBinary32_error q (by rw [abs_of_pos hpos]; exact hq)
  rw [abs_of_pos hpos, abs_le] at h
  constructor <;> linarith [h.1, h.2]

/-- A rounded value within `FLT_MAX` is a finite `float`. -/
theorem F32.round_fin (q : ℚ) (h1 : -FLT_MAX ≤ roundBinary32 q) (h2 : roundBinary32 q ≤ FLT_MAX) :
    F32.round q = ⟨FVal.fin (roundBinary32 q)⟩ := by
  unfold F32.round
  rw [if_neg (not_lt.2 h2), if_neg (not_lt.2 h1)]


theorem F32.div_fin (x y : ℚ) (hy : y ≠ 0) :
    ((⟨FVal.fin x⟩ : F32) / ⟨FVal.fin y⟩) = F32.round (x / y) := by
  show F32.div _ _ = _
  simp only [F32.div, if_neg hy]

theorem F32.mul_fin (x y : ℚ) : ((⟨FVal.fin x⟩ : F32) * ⟨FVal.fin y⟩) = F32.round (x * y) := rfl

theorem F32.natCast_eq (n : Nat) : ((n : ℕ) : F32) = F32.round (n : ℚ) := rfl

theorem FLT_MAX_eq : FLT_MAX = (2 ^ 24 - 1) * 2 ^ 104 := by
  unfold FLT_MAX
  norm_num

/-- What `numSteps` returns for two positive finite `float`s. -/
theorem numSteps_fin (t d : ℚ) (hd : d ≠ 0) (N : Nat)
    (h : numSteps ⟨FVal.fin t⟩ ⟨FVal.fin d⟩ = some N) :
    roundBinary32 (t / d) ≤ FLT_MAX ∧ 0 ≤ ⌈roundBinary32 (t / d)⌉ ∧
      ⌈roundBinary32 (t / d)⌉ < 2 ^ 64 ∧ (N : ℤ) = ⌈roundBinary32 (t / d)⌉ := by
  unfold numSteps at h
  rw [F32.div_fin t d hd] at h
  unfold F32.round at h
  split_ifs at h with h1 h2
  simp only [Option.ite_none_right_eq_some, Option.some.injEq] at h
  obtain ⟨⟨a, b⟩, c⟩ := h
  have e : (2 : ℤ) ^ 64 = 18446744073709551616 := by norm_num
  exact ⟨not_lt.1 h1, a, by rw [e]; exact b, by rw [← c, Int.toNat_of_nonneg a]⟩

/-- The chain of the four roundings behind the ramp factor of the last step, as
inequalities between rationals. -/
theorem last_factor_chain (d t q1 N rN rp n : ℚ) (hd : 1 / 2 ^ 125 ≤ d) (hle : d ≤ t)
    (ht : t ≤ 2 ^ 126)
    (q1l : (1 - 1 / 16777216) * (t / d) ≤ q1) (q1u : q1 ≤ (1 + 1 / 16777216) * (t / d))
    (hNq : q1 ≤ N) (hNq1 : N < q1 + 1) (hN1 : 1 ≤ N)
    (rNl : (1 - 1 / 16777216) * N ≤ rN) (rNu : rN ≤ (1 + 1 / 16777216) * N) :
    1 / 2 ^ 126 ≤ rN * d ∧
      ((1 - 1 / 16777216) * (rN * d) ≤ rp → rp ≤ (1 + 1 / 16777216) * (rN * d) →
        0 ≤ rp ∧ rp ≤ 3 * 2 ^ 126 ∧ 1 / 2 ^ 126 ≤ rp / t ∧
          ((1 - 1 / 16777216) * (rp / t) ≤ n → n ≤ (1 + 1 / 16777216) * (rp / t) →
            (1 - 1 / 16777216) ^ 4 ≤ n ∧ n ≤ 4)) := by
  have hdpos : 0 < d := lt_of_lt_of_le (by norm_num) hd
  have htpos : 0 < t := lt_of_lt_of_le hdpos hle
  have e : t / d * d = t := div_mul_cancel₀ t hdpos.ne'
  -- N * d against t
  have m1 := mul_le_mul_of_nonneg_right q1l hdpos.le
  have m2 := mul_le_mul_of_nonneg_right q1u hdpos.le
  have m3 := mul_le_mul_of_nonneg_right hNq hdpos.le
  have m4 := mul_lt_mul_of_pos_right hNq1 hdpos
  have m5 := mul_le_mul_of_nonneg_right hN1 hdpos.le
  have hNdl : (1 - 1 / 16777216) * t ≤ N * d := by
    have : (1 - 1 / 16777216) * (t / d) * d = (1 - 1 / 16777216) * t := by rw [mul_assoc, e]
    linarith only [m1, m3, this]
  have hNdu : N * d ≤ (1 + 1 / 16777216) * t + d := by
    have : (1 + 1 / 16777216) * (t / d) * d = (1 + 1 / 16777216) * t := by rw [mul_assoc, e]
    linarith only [m2, m4, this]
  have hNd1 : d ≤ N * d := by linarith only [m5]
  -- the product
  have m6 := mul_le_mul_of_nonneg_right rNl hdpos.le
  have m7 := mul_le_mul_of_nonneg_right rNu hdpos.le
  have hpl : (1 - 1 / 16777216) * (N * d) ≤ rN * d := by linarith only [m6]
  have hpu : rN * d ≤ (1 + 1 / 16777216) * (N * d) := by linarith only [m7]
  have hp126 : (1 : ℚ) / 2 ^ 126 ≤ rN * d := by
    have : (1 : ℚ) / 2 ^ 126 = 1 / 2 * (1 / 2 ^ 125) := by norm_num
    linarith only [hpl, hNd1, hd, this]
  refine ⟨hp126, fun rpl rpu => ?_⟩
  have hrp0 : 0 ≤ rp := by
    have : (0 : ℚ) ≤ 1 / 2 ^ 126 := by norm_num
    linarith only [rpl, hp126, this]
  have hrpu : rp ≤ 3 * t := by linarith only [rpu, hpu, hNdu, hle, htpos]
  have hrpl : (1 - 1 / 16777216) ^ 3 * t ≤ rp := by
    have : (1 - 1 / 16777216 : ℚ) ^ 3 = (1 - 1 / 16777216) * ((1 - 1 / 16777216) * (1 - 1 / 16777216)) := by
      ring
    rw [this]
    linarith only [rpl, hpl, hNdl]
  have hxl : (1 - 1 / 16777216) ^ 3 ≤ rp / t := by
    rw [le_div_iff₀ htpos]
    exact hrpl
  have hxu : rp / t ≤ 3 := by
    rw [div_le_iff₀ htpos]
    exact hrpu
  refine ⟨hrp0, by linarith only [hrpu, ht], ?_, fun nl nu => ⟨?_, by linarith only [nu, hxu]⟩⟩
  · have : (1 : ℚ) / 2 ^ 126 ≤ (1 - 1 / 16777216) ^ 3 := by norm_num
    linarith only [this, hxl]
  · have : (1 - 1 / 16777216 : ℚ) ^ 4 = (1 - 1 / 16777216) * (1 - 1 / 16777216) ^ 3 := by ring
    rw [this]
    linarith only [nl, hxl]

/-- The binary32 ramp factor of the last step: finite and at least
`(1 - 2^-24)^4`. -/
theorem binary32_last_factor (d t : ℚ) (N : Nat) (hd : (2 : ℚ) ^ (-125 : ℤ) ≤ d) (hle : d ≤ t)
    (ht : t ≤ (2 : ℚ) ^ (126 : ℤ)) (h : numSteps ⟨FVal.fin t⟩ ⟨FVal.fin d⟩ = some N) :
    1 ≤ N ∧ ∃ n : ℚ, rampFactor (N - 1) (⟨FVal.fin d⟩ : F32) ⟨FVal.fin t⟩ = ⟨FVal.fin n⟩ ∧
      (1 - (2 : ℚ) ^ (-24 : ℤ)) ^ 4 ≤ n := by
  have hu : (2 : ℚ) ^ (-24 : ℤ) = 1 / 16777216 := by norm_num
  have h126 : (2 : ℚ) ^ (-126 : ℤ) = 1 / 2 ^ 126 := by norm_num
  have h125 : (2 : ℚ) ^ (-125 : ℤ) = 1 / 2 ^ 125 := by norm_num
  have hp126 : (2 : ℚ) ^ (126 : ℤ) = 2 ^ 126 := by norm_num
  rw [h125] at hd
  rw [hp126] at ht
  have hdpos : 0 < d := lt_of_lt_of_le (by norm_num) hd
  have htpos : 0 < t := lt_of_lt_of_le hdpos hle
  obtain ⟨-, -, c64, cN⟩ := numSteps_fin t d hdpos.ne' N h
  -- the quotient
  have hq : 1 ≤ t / d := (one_le_div hdpos).2 hle
  obtain ⟨q1l, q1u⟩ := roundBinary32_bounds (t / d) (by
    rw [h126]
    have : (1 : ℚ) / 2 ^ 126 ≤ 1 := by norm_num
    linarith only [this, hq])
  rw [hu] at q1l q1u
  have hq1pos : 0 < roundBinary32 (t / d) := by linarith only [q1l, hq]
  have hNq : roundBinary32 (t / d) ≤ (N : ℚ) := by
    have := Int.le_ceil (roundBinary32 (t / d))
    rw [← cN] at this
    exact_mod_cast this
  have hNq1 : (N : ℚ) < roundBinary32 (t / d) + 1 := by
    have := Int.ceil_lt_add_one (roundBinary32 (t / d))
    rw [← cN] at this
    exact_mod_cast this
  have hN1 : 1 ≤ N := by
    have : (0 : ℚ) < N := lt_of_lt_of_le hq1pos hNq
    exact_mod_cast this
  have hN1q : (1 : ℚ) ≤ N := by exact_mod_cast hN1
  have hN64 : (N : ℚ) < 2 ^ 64 := by
    have : (N : ℤ) < 2 ^ 64 := by rw [cN]; exact c64
    exact_mod_cast this
  -- the conversion of the step number
  obtain ⟨rNl, rNu⟩ := roundBinary32_bounds (N : ℚ) (by
    rw [h126]
    have : (1 : ℚ) / 2 ^ 126 ≤ 1 := by norm_num
    linarith only [this, hN1q])
  rw [hu] at rNl rNu
  have hrN : F32.round (N : ℚ) = ⟨FVal.fin (roundBinary32 (N : ℚ))⟩ := by
    apply F32.round_fin
    · rw [FLT_MAX_eq]
      have : -((2 ^ 24 - 1) * 2 ^ 104 : ℚ) ≤ 0 := by norm_num
      linarith only [rNl, hN1q, this]
    · rw [FLT_MAX_eq]
      have : (1 + 1 / 16777216) * (2 : ℚ) ^ 64 ≤ (2 ^ 24 - 1) * 2 ^ 104 := by norm_num
      linarith only [rNu, hN64, this]
  obtain ⟨c1, c2⟩ := last_factor_chain d t (roundBinary32 (t / d)) N (roundBinary32 (N : ℚ))
    (roundBinary32 (roundBinary32 (N : ℚ) * d))
    (roundBinary32 (roundBinary32 (roundBinary32 (N : ℚ) * d) / t))
    hd hle ht q1l q1u hNq hNq1 hN1q rNl rNu
  obtain ⟨rpl, rpu⟩ := roundBinary32_bounds (roundBinary32 (N : ℚ) * d) (by rw [h126]; exact c1)
  rw [hu] at rpl rpu
  obtain ⟨c3, c4, c5, c6⟩ := c2 rpl rpu
  have hrp : F32.round (roundBinary32 (N : ℚ) * d)
      = ⟨FVal.fin (roundBinary32 (roundBinary32 (N : ℚ) * d))⟩ := by
    apply F32.round_fin
    · rw [FLT_MAX_eq]
      have : -((2 ^ 24 - 1) * 2 ^ 104 : ℚ) ≤ 0 := by norm_num
      linarith only [c3, this]
    · rw [FLT_MAX_eq]
      have : (3 : ℚ) * 2 ^ 126 ≤ (2 ^ 24 - 1) * 2 ^ 104 := by norm_num
      linarith only [c4, this]
  obtain ⟨nl, nu⟩ := roundBinary32_bounds (roundBinary32 (roundBinary32 (N : ℚ) * d) / t)
    (by rw [h126]; exact c5)
  rw [hu] at nl nu
  obtain ⟨c7, c8⟩ := c6 nl nu
  have hrx : F32.round (roundBinary32 (roundBinary32 (N : ℚ) * d) / t)
      = ⟨FVal.fin (roundBinary32 (roundBinary32 (roundBinary32 (N : ℚ) * d) / t))⟩ := by
    apply F32.round_fin
    · rw [FLT_MAX_eq]
      have : -((2 ^ 24 - 1) * 2 ^ 104 : ℚ) ≤ 0 := by norm_num
      have : (0 : ℚ) ≤ (1 - 1 / 16777216) ^ 4 := by norm_num
      linarith only [c7, this, ‹-((2 ^ 24 - 1) * 2 ^ 104 : ℚ) ≤ 0›]
    · rw [FLT_MAX_eq]
      have : (4 : ℚ) ≤ (2 ^ 24 - 1) * 2 ^ 104 := by norm_num
      linarith only [c8, this]
  refine ⟨hN1, roundBinary32 (roundBinary32 (roundBinary32 (N : ℚ) * d) / t), ?_, ?_⟩
  · unfold rampFactor
    rw [Nat.sub_add_cancel hN1, F32.natCast_eq, hrN, F32.mul_fin, hrp,
      F32.div_fin _ _ htpos.ne', hrx]
  · rw [hu]
    exact c7

end Binary32Lemmas

section StressBranchLemmas
variable {α : Type} [Field α]

/-- The stress the `NH` branch stores, in the form of the specification, for any
value `J23` the C library returns for `powf(J, -0.66666667f)`. -/
theorem materialStress_NH (lm : Libm α) (T0 : α) (curr_U curr_T : List α) (tet : T4 α)
    (hNH : tet.m_M_material_type = "NH") :
    materialStress lm T0 curr_U curr_T tet
      = specStressNH (rd tet.m_M_material_vals 0) (rd tet.m_M_material_vals 1)
          (lm.powf (elasticJ lm T0 curr_U curr_T tet) minusTwoThirds)
          (elasticJ lm T0 curr_U curr_T tet)
          (cauchyGreen T0 curr_U curr_T tet 0 0 + cauchyGreen T0 curr_U curr_T tet 1 1
            + cauchyGreen T0 curr_U curr_T tet 2 2)
          (matInv33 (cauchyGreen T0 curr_U curr_T tet)).1 := by
  have hs := matInv33_symm (cauchyGreen T0 curr_U curr_T tet)
    (fun i j => mat33Tx33_self_symm _ i j)
  have h10 := hs 1 0
  have h20 := hs 2 0
  have h21 := hs 2 1
  unfold materialStress
  rw [if_pos hNH]
  generalize (matInv33 (cauchyGreen T0 curr_U curr_T tet)).1 = invC at h10 h20 h21 ⊢
  funext i j
  fin_cases i <;> fin_cases j <;>
  · simp only [stressNH, specStressNH, Fin.zero_eta, Fin.mk_one, Fin.reduceFinMk, Fin.isValue,
      Fin.reduceEq, if_true, if_false, h10, h20, h21]
    ring

/-- The stress the `TI` branch stores, in the form of the specification, for any
value `J23` the C library returns for `powf(J, -0.66666667f)`. -/
theorem materialStress_TI (lm : Libm α) (T0 : α) (curr_U curr_T : List α) (tet : T4 α)
    (hTI : tet.m_M_material_type = "TI") :
    materialStress lm T0 curr_U curr_T tet
      = specStressTI (rd tet.m_M_material_vals 0) (rd tet.m_M_material_vals 1)
          (rd tet.m_M_material_vals 2) (fibreTensor tet.m_M_material_vals)
          (lm.powf (elasticJ lm T0 curr_U curr_T tet) minusTwoThirds)
          (elasticJ lm T0 curr_U curr_T tet)
          (cauchyGreen T0 curr_U curr_T tet 0 0 + cauchyGreen T0 curr_U curr_T tet 1 1
            + cauchyGreen T0 curr_U curr_T tet 2 2)
          (lm.powf (elasticJ lm T0 curr_U curr_T tet) minusTwoThirds
            * doubleContraction (fibreTensor tet.m_M_material_vals)
                (cauchyGreen T0 curr_U curr_T tet))
          (matInv33 (cauchyGreen T0 curr_U curr_T tet)).1 := by
  have hC : ∀ i j, cauchyGreen T0 curr_U curr_T tet i j = cauchyGreen T0 curr_U curr_T tet j i :=
    fun i j => mat33Tx33_self_symm _ i j
  have hs := matInv33_symm (cauchyGreen T0 curr_U curr_T tet) hC
  have h10 := hs 1 0
  have h20 := hs 2 0
  have h21 := hs 2 1
  have c10 := hC 1 0
  have c20 := hC 2 0
  have c21 := hC 2 1
  unfold materialStress
  rw [if_neg (by rw [hTI]; decide), if_pos hTI]
  generalize (matInv33 (cauchyGreen T0 curr_U curr_T tet)).1 = invC at h10 h20 h21 ⊢
  generalize cauchyGreen T0 curr_U curr_T tet = C at c10 c20 c21 ⊢
  funext i j
  fin_cases i <;> fin_cases j <;>
  · simp only [stressTI, specStressTI, fibreTensor, doubleContraction, Fin.zero_eta, Fin.mk_one,
      Fin.reduceFinMk, Fin.isValue, Fin.reduceEq, if_true, if_false, h10, h20, h21, c10, c20,
      c21]
    ring

end StressBranchLemmas

section RealPower

/-- The literal `-0.66666667f` is `-2/3 - 1/(3 * 2^24)`. -/
theorem minusTwoThirds_real : (minusTwoThirds : ℝ) = -(2 / 3) + -(1 / 50331648) := by
  unfold minusTwoThirds
  norm_num

/-- The power the source computes against the power `J^(-2/3)`. -/
theorem rpow_minusTwoThirds (J : ℝ) (hJ : 0 < J) :
    J ^ (minusTwoThirds : ℝ) = J ^ (-(2 / 3) : ℝ) * J ^ (-(1 / 50331648) : ℝ) := by
  rw [minusTwoThirds_real, Real.rpow_add hJ]

/-- The factor by which the source's power differs from `J^(-2/3)` is within
`2^-23` of `1` for `1/4 ≤ J ≤ 4`. -/
theorem rpow_literal_close (J : ℝ) (h1 : 1 / 4 ≤ J) (h2 : J ≤ 4) :
    |J ^ (-(1 / 50331648) : ℝ) - 1| ≤ 1 / 8388608 := by
  have hJ : 0 < J := by linarith
  have hup : Real.log J ≤ 3 := by
    have := Real.log_le_sub_one_of_pos hJ
    linarith
  have hlow : -3 ≤ Real.log J := by
    have hinv : 0 < J⁻¹ := inv_pos.2 hJ
    have := Real.log_le_sub_one_of_pos hinv
    rw [Real.log_inv] at this
    have hle : J⁻¹ ≤ 4 := by
      rw [inv_le_comm₀ hJ (by norm_num)]
      linarith
    linarith
  rw [Real.rpow_def_of_pos hJ]
  have hx : |Real.log J * -(1 / 50331648)| ≤ 1 / 16777216 := by
    rw [abs_le]
    constructor <;> linarith
  have := Real.abs_exp_sub_one_le (x := Real.log J * -(1 / 50331648)) (by linarith)
  linarith

/-- With the C library's `sqrt`, the `J` of the stress computation is the
determinant of the elastic gradient when that is positive. -/
theorem elasticJ_real (lm : Libm ℝ) (hsqrt : ∀ x : ℝ, lm.sqrt x = Real.sqrt x) (T0 : ℝ)
    (curr_U curr_T : List ℝ) (tet : T4 ℝ)
    (hpos : 0 < matDet33 (elasticGradient T0 curr_U curr_T tet)) :
    elasticJ lm T0 curr_U curr_T tet = Real.sqrt (matDet33 (cauchyGreen T0 curr_U curr_T tet)) ∧
      elasticJ lm T0 curr_U curr_T tet = matDet33 (elasticGradient T0 curr_U curr_T tet) := by
  have hdet : matDet33 (cauchyGreen T0 curr_U curr_T tet)
      = matDet33 (elasticGradient T0 curr_U curr_T tet) ^ 2 := matDet33_gram _
  have hJ : elasticJ lm T0 curr_U curr_T tet
      = lm.sqrt (matDet33 (cauchyGreen T0 curr_U curr_T tet)) := rfl
  refine ⟨by rw [hJ, hsqrt], ?_⟩
  rw [hJ, hsqrt, hdet, Real.sqrt_sq hpos.le]

end RealPower

section StretchLemmas

theorem unitTetIn_DHDX_real : (unitTetIn ℝ).m_DHDX = DHDr := by
  funext i j
  fin_cases i <;> fin_cases j <;>
    simp [unitTetIn, T4.new, mat33x34, matInv33, matDet33, mat34x34T, DHDr, n_coords]

theorem stretch_cornerDisp_real :
    cornerDisp (stretchU ℝ) (unitTetIn ℝ) = fun n m => if n = 0 ∧ m = 1 then 1 else 0 := by
  funext n m
  fin_cases n <;> fin_cases m <;> rfl

/-- The stretched unit tetrahedron has the elastic gradient `diag(2, 1, 1)`. -/
theorem stretch_gradient_real :
    elasticGradient (37 : ℝ) (stretchU ℝ) [37, 37, 37, 37] (unitTetIn ℝ) = fun i j =>
      if i = 0 ∧ j = 0 then 2 else if i = j then 1 else 0 := by
  have hexp : (unitTetIn ℝ).m_T_expan_vals = [] := rfl
  funext i j
  unfold elasticGradient deformationGradient
  rw [hexp, stretch_cornerDisp_real, unitTetIn_DHDX_real]
  simp only [List.length_nil, ne_eq, not_true_eq_false, if_false]
  fin_cases i <;> fin_cases j <;> simp [mat34x34T, DHDr]
  norm_num

theorem stretch_det_real :
    matDet33 (elasticGradient (37 : ℝ) (stretchU ℝ) [37, 37, 37, 37] (unitTetIn ℝ)) = 2 := by
  rw [stretch_gradient_real]
  simp [matDet33]

/-- The transversely isotropic example has the geometry of the unit
tetrahedron, so the same elastic gradient in the stretched state. -/
theorem fibre_gradient_real :
    elasticGradient (37 : ℝ) (stretchU ℝ) [37, 37, 37, 37] (fibreTetIn ℝ)
      = elasticGradient (37 : ℝ) (stretchU ℝ) [37, 37, 37, 37] (unitTetIn ℝ) := rfl

end StretchLemmas

section FValArith

theorem FLT_MAX_pos : 0 < FLT_MAX := by unfold FLT_MAX; norm_num

theorem FVal.ofRat_of_abs_le {q : ℚ} (h : |q| ≤ FLT_MAX) : FVal.ofRat q = FVal.fin q := by
  unfold FVal.ofRat
  have h1 := abs_le.1 h
  rw [if_neg (not_lt.2 h1.2), if_neg (not_lt.2 h1.1)]

theorem FVal.within_iff (B : ℚ) (v : FVal) :
    FVal.within B v = true ↔ ∃ q : ℚ, v = FVal.fin q ∧ |q| ≤ B := by
  cases v with
  | fin q => simp [FVal.within]
  | pinf => simp [FVal.within]
  | ninf => simp [FVal.within]
  | nan => simp [FVal.within]

theorem FVal.isFinite_iff (v : FVal) : FVal.isFinite v = true ↔ ∃ q : ℚ, v = FVal.fin q := by
  cases v <;> simp [FVal.isFinite]

theorem FVal.fin_add (a b : ℚ) (h : |a + b| ≤ FLT_MAX) :
    FVal.fin a + FVal.fin b = FVal.fin (a + b) := FVal.ofRat_of_abs_le h

theorem FVal.fin_mul (a b : ℚ) (h : |a * b| ≤ FLT_MAX) :
    FVal.fin a * FVal.fin b = FVal.fin (a * b) := FVal.ofRat_of_abs_le h

theorem FVal.fin_sub (a b : ℚ) (h : |a - b| ≤ FLT_MAX) :
    FVal.fin a - FVal.fin b = FVal.fin (a - b) := by
  rw [sub_eq_add_neg] at h ⊢
  exact FVal.ofRat_of_abs_le h

theorem FVal.neg_fin (a : ℚ) : -FVal.fin a = FVal.fin (-a) := rfl

theorem FVal.fin_div (a b : ℚ) (hb : b ≠ 0) (h : |a / b| ≤ FLT_MAX) :
    FVal.fin a / FVal.fin b = FVal.fin (a / b) := by
  show FVal.div (FVal.fin a) (FVal.fin b) = _
  simp only [FVal.div, if_neg hb]
  exact FVal.ofRat_of_abs_le h

theorem FVal.natCast_fin (n : ℕ) (h : (n : ℚ) ≤ FLT_MAX) : ((n : ℕ) : FVal) = FVal.fin n := by
  show FVal.ofRat n = _
  apply FVal.ofRat_of_abs_le
  rw [abs_of_nonneg (Nat.cast_nonneg n)]
  exact h

theorem FVal.zero_eq : (0 : FVal) = FVal.fin 0 := rfl

theorem FVal.one_eq : (1 : FVal) = FVal.fin 1 := rfl

theorem FVal.zero_mul_fin (q : ℚ) : (0 : FVal) * FVal.fin q = 0 := by
  rw [FVal.zero_eq, FVal.fin_mul _ _ (by rw [zero_mul, abs_zero]; exact FLT_MAX_pos.le), zero_mul]

theorem FVal.fin_mul_zero (q : ℚ) : FVal.fin q * 0 = 0 := by
  rw [FVal.zero_eq, FVal.fin_mul _ _ (by rw [mul_zero, abs_zero]; exact FLT_MAX_pos.le), mul_zero]

theorem FVal.zero_add_fin (q : ℚ) (h : |q| ≤ FLT_MAX) : (0 : FVal) + FVal.fin q = FVal.fin q := by
  rw [FVal.zero_eq, FVal.fin_add _ _ (by rw [zero_add]; exact h), zero_add]

theorem FVal.fin_add_zero (q : ℚ) (h : |q| ≤ FLT_MAX) : FVal.fin q + 0 = FVal.fin q := by
  rw [FVal.zero_eq, FVal.fin_add _ _ (by rw [add_zero]; exact h), add_zero]

theorem FVal.one_mul_fin (q : ℚ) (h : |q| ≤ FLT_MAX) : (1 : FVal) * FVal.fin q = FVal.fin q := by
  rw [FVal.one_eq, FVal.fin_mul _ _ (by rw [one_mul]; exact h), one_mul]

theorem FVal.fin_mul_one (q : ℚ) (h : |q| ≤ FLT_MAX) : FVal.fin q * 1 = FVal.fin q := by
  rw [FVal.one_eq, FVal.fin_mul _ _ (by rw [mul_one]; exact h), mul_one]

theorem FVal.zero_add_zero : (0 : FVal) + 0 = 0 := by decide!

theorem FVal.zero_sub_zero : (0 : FVal) - 0 = 0 := by decide!

theorem FVal.zero_mul_zero : (0 : FVal) * 0 = 0 := by decide!

theorem FVal.zero_add_one : (0 : FVal) + 1 = 1 := by decide!

theorem FVal.one_add_zero : (1 : FVal) + 0 = 1 := by decide!

theorem FVal.one_sub_one : (1 : FVal) - 1 = 0 := by decide!

theorem FVal.one_mul_one : (1 : FVal) * 1 = 1 := by decide!

theorem FVal.one_mul_zero : (1 : FVal) * 0 = 0 := by decide!

theorem FVal.zero_mul_one : (0 : FVal) * 1 = 0 := by decide!

/-- A three-term product sum of finite numbers within bounds is the exact
sum. -/
theorem FVal.dot3 (x1 x2 x3 y1 y2 y3 a b : ℚ) (hx1 : |x1| ≤ a) (hx2 : |x2| ≤ a) (hx3 : |x3| ≤ a)
    (hy1 : |y1| ≤ b) (hy2 : |y2| ≤ b) (hy3 : |y3| ≤ b) (hab : 3 * (a * b) ≤ FLT_MAX) :
    (0 : FVal) + FVal.fin x1 * FVal.fin y1 + FVal.fin x2 * FVal.fin y2 + FVal.fin x3 * FVal.fin y3
        = FVal.fin (0 + x1 * y1 + x2 * y2 + x3 * y3) ∧
      |0 + x1 * y1 + x2 * y2 + x3 * y3| ≤ 3 * (a * b) := by
  have ha : 0 ≤ a := le_trans (abs_nonneg _) hx1
  have hb : 0 ≤ b := le_trans (abs_nonneg _) hy1
  have hab0 : 0 ≤ a * b := mul_nonneg ha hb
  have p1 : |x1 * y1| ≤ a * b := by rw [abs_mul]; exact mul_le_mul hx1 hy1 (abs_nonneg _) ha
  have p2 : |x2 * y2| ≤ a * b := by rw [abs_mul]; exact mul_le_mul hx2 hy2 (abs_nonneg _) ha
  have p3 : |x3 * y3| ≤ a * b := by rw [abs_mul]; exact mul_le_mul hx3 hy3 (abs_nonneg _) ha
  have s1 : |0 + x1 * y1| ≤ a * b := by rw [zero_add]; exact p1
  have s2 : |0 + x1 * y1 + x2 * y2| ≤ 2 * (a * b) := by
    have := abs_add (0 + x1 * y1) (x2 * y2)
    linarith
  have s3 : |0 + x1 * y1 + x2 * y2 + x3 * y3| ≤ 3 * (a * b) := by
    have := abs_add (0 + x1 * y1 + x2 * y2) (x3 * y3)
    linarith
  refine ⟨?_, s3⟩
  rw [FVal.fin_mul _ _ (by linarith), FVal.fin_mul _ _ (by linarith),
    FVal.fin_mul _ _ (by linarith), FVal.zero_eq, FVal.fin_add _ _ (by linarith),
    FVal.fin_add _ _ (by linarith), FVal.fin_add _ _ (by linarith)]

/-- A four-term product sum of finite numbers within bounds is the exact
sum. -/
theorem FVal.dot4 (x1 x2 x3 x4 y1 y2 y3 y4 a b : ℚ) (hx1 : |x1| ≤ a) (hx2 : |x2| ≤ a)
    (hx3 : |x3| ≤ a) (hx4 : |x4| ≤ a) (hy1 : |y1| ≤ b) (hy2 : |y2| ≤ b) (hy3 : |y3| ≤ b)
    (hy4 : |y4| ≤ b) (hab : 4 * (a * b) ≤ FLT_MAX) :
    FVal.fin x1 * FVal.fin y1 + FVal.fin x2 * FVal.fin y2 + FVal.fin x3 * FVal.fin y3
        + FVal.fin x4 * FVal.fin y4
        = FVal.fin (x1 * y1 + x2 * y2 + x3 * y3 + x4 * y4) := by
  have ha : 0 ≤ a := le_trans (abs_nonneg _) hx1
  have hb : 0 ≤ b := le_trans (abs_nonneg _) hy1
  have hab0 : 0 ≤ a * b := mul_nonneg ha hb
  have p1 : |x1 * y1| ≤ a * b := by rw [abs_mul]; exact mul_le_mul hx1 hy1 (abs_nonneg _) ha
  have p2 : |x2 * y2| ≤ a * b := by rw [abs_mul]; exact mul_le_mul hx2 hy2 (abs_nonneg _) ha
  have p3 : |x3 * y3| ≤ a * b := by rw [abs_mul]; exact mul_le_mul hx3 hy3 (abs_nonneg _) ha
  have p4 : |x4 * y4| ≤ a * b := by rw [abs_mul]; exact mul_le_mul hx4 hy4 (abs_nonneg _) ha
  have s2 : |x1 * y1 + x2 * y2| ≤ 2 * (a * b) := by
    have := abs_add (x1 * y1) (x2 * y2)
    linarith
  have s3 : |x1 * y1 + x2 * y2 + x3 * y3| ≤ 3 * (a * b) := by
    have := abs_add (x1 * y1 + x2 * y2) (x3 * y3)
    linarith
  have s4 : |x1 * y1 + x2 * y2 + x3 * y3 + x4 * y4| ≤ 4 * (a * b) := by
    have := abs_add (x1 * y1 + x2 * y2 + x3 * y3) (x4 * y4)
    linarith
  rw [FVal.fin_mul _ _ (by linarith), FVal.fin_mul _ _ (by linarith),
    FVal.fin_mul _ _ (by linarith), FVal.fin_mul _ _ (by linarith),
    FVal.fin_add _ _ (by linarith), FVal.fin_add _ _ (by linarith), FVal.fin_add _ _ (by linarith)]

end FValArith

section FValKernel

theorem mat33x34_fin (A : Mat33 ℚ) (B : Mat34 ℚ) (a b : ℚ) (hA : ∀ i j, |A i j| ≤ a)
    (hB : ∀ i j, |B i j| ≤ b) (hab : 3 * (a * b) ≤ FLT_MAX) :
    mat33x34 (fun i j => FVal.fin (A i j)) (fun i j => FVal.fin (B i j))
        = (fun i j => FVal.fin (mat33x34 A B i j)) ∧
      ∀ i j, |mat33x34 A B i j| ≤ 3 * (a * b) :=
  ⟨funext fun i => funext fun j =>
      (FVal.dot3 _ _ _ _ _ _ a b (hA i 0) (hA i 1) (hA i 2) (hB 0 j) (hB 1 j) (hB 2 j) hab).1,
    fun i j =>
      (FVal.dot3 _ _ _ _ _ _ a b (hA i 0) (hA i 1) (hA i 2) (hB 0 j) (hB 1 j) (hB 2 j) hab).2⟩

theorem mat33Tx34_fin (A : Mat33 ℚ) (B : Mat34 ℚ) (a b : ℚ) (hA : ∀ i j, |A i j| ≤ a)
    (hB : ∀ i j, |B i j| ≤ b) (hab : 3 * (a * b) ≤ FLT_MAX) :
    mat33Tx34 (fun i j => FVal.fin (A i j)) (fun i j => FVal.fin (B i j))
        = (fun i j => FVal.fin (mat33Tx34 A B i j)) ∧
      ∀ i j, |mat33Tx34 A B i j| ≤ 3 * (a * b) :=
  ⟨funext fun i => funext fun j =>
      (FVal.dot3 _ _ _ _ _ _ a b (hA 0 i) (hA 1 i) (hA 2 i) (hB 0 j) (hB 1 j) (hB 2 j) hab).1,
    fun i j =>
      (FVal.dot3 _ _ _ _ _ _ a b (hA 0 i) (hA 1 i) (hA 2 i) (hB 0 j) (hB 1 j) (hB 2 j) hab).2⟩

theorem mat34Tx34_fin (A B : Mat34 ℚ) (a b : ℚ) (hA : ∀ i j, |A i j| ≤ a)
    (hB : ∀ i j, |B i j| ≤ b) (hab : 3 * (a * b) ≤ FLT_MAX) :
    mat34Tx34 (fun i j => FVal.fin (A i j)) (fun i j => FVal.fin (B i j))
        = (fun i j => FVal.fin (mat34Tx34 A B i j)) ∧
      ∀ i j, |mat34Tx34 A B i j| ≤ 3 * (a * b) :=
  ⟨funext fun i => funext fun j =>
      (FVal.dot3 _ _ _ _ _ _ a b (hA 0 i) (hA 1 i) (hA 2 i) (hB 0 j) (hB 1 j) (hB 2 j) hab).1,
    fun i j =>
      (FVal.dot3 _ _ _ _ _ _ a b (hA 0 i) (hA 1 i) (hA 2 i) (hB 0 j) (hB 1 j) (hB 2 j) hab).2⟩

theorem mat44xScalar_fin (A : Mat44 ℚ) (s a b : ℚ) (hA : ∀ i j, |A i j| ≤ a) (hs : |s| ≤ b)
    (hab : a * b ≤ FLT_MAX) :
    mat44xScalar (fun i j => FVal.fin (A i j)) (FVal.fin s)
        = (fun i j => FVal.fin (mat44xScalar A s i j)) ∧
      ∀ i j, |mat44xScalar A s i j| ≤ a * b := by
  have hb : ∀ i j, |A i j * s| ≤ a * b := by
    intro i j
    rw [abs_mul]
    exact mul_le_mul (hA i j) hs (abs_nonneg _) (le_trans (abs_nonneg _) (hA i j))
  exact ⟨funext fun i => funext fun j => FVal.fin_mul _ _ (le_trans (hb i j) hab), hb⟩

theorem DHDr_fin : (DHDr : Mat34 FVal) = fun i j => FVal.fin ((DHDr : Mat34 ℚ) i j) := by
  funext i j
  fin_cases i <;> fin_cases j <;> rfl

theorem DHDr_abs_le (i : Fin 3) (j : Fin 4) : |(DHDr : Mat34 ℚ) i j| ≤ 1 := by
  fin_cases i <;> fin_cases j <;> simp [DHDr]

theorem two_pow_le_FLT_MAX (n : ℕ) (h : n ≤ 127) : (2 : ℚ) ^ n ≤ FLT_MAX := by
  have h1 : (2 : ℚ) ^ n ≤ 2 ^ 127 := pow_le_pow_right₀ (by norm_num) h
  have h2 : (2 : ℚ) ^ 127 ≤ FLT_MAX := by unfold FLT_MAX; norm_num
  exact le_trans h1 h2

/-- The reference gradient of an element built from a finite inverse Jacobian
of moderate size: finite entries within `2^24`, rows that sum to zero. -/
theorem DHDX_fin (G : Mat33 ℚ) (hG : ∀ i j, |G i j| ≤ 2 ^ 22) :
    mat33x34 (fun i j => FVal.fin (G i j)) (DHDr : Mat34 FVal)
        = (fun i j => FVal.fin (mat33x34 G DHDr i j)) ∧
      (∀ i j, |mat33x34 G (DHDr : Mat34 ℚ) i j| ≤ 2 ^ 24) ∧
      ∀ r : Fin 3, mat33x34 G (DHDr : Mat34 ℚ) r 0 + mat33x34 G DHDr r 1 + mat33x34 G DHDr r 2
        + mat33x34 G DHDr r 3 = 0 := by
  have h := mat33x34_fin G DHDr (2 ^ 22) 1 hG DHDr_abs_le
    (by unfold FLT_MAX; norm_num)
  rw [DHDr_fin]
  refine ⟨h.1, fun i j => le_trans (h.2 i j) (by norm_num), fun r => ?_⟩
  simp only [mat33x34, DHDr]
  ring

theorem matInv33_I33F : matInv33 (I33 : Mat33 FVal) = (I33, 1) := by
  apply Prod.ext
  · funext i j
    fin_cases i <;> fin_cases j <;> decide!
  · decide!

theorem mat33x33_I33F : mat33x33 (I33 : Mat33 FVal) I33 = I33 := by
  funext i j
  fin_cases i <;> fin_cases j <;> decide!

theorem mat33Tx33_I33F : mat33Tx33 (I33 : Mat33 FVal) I33 = I33 := by
  funext i j
  fin_cases i <;> fin_cases j <;> decide!

theorem mat33x33_I33_zeroF :
    mat33x33 (I33 : Mat33 FVal) (fun _ _ => 0) = fun _ _ => 0 := by
  funext i j
  fin_cases i <;> fin_cases j <;> decide!

theorem pullback_zeroF :
    mat33xScalar (mat33x33T (fun _ _ => (0 : FVal)) I33) 1 = fun _ _ => 0 := by
  funext i j
  fin_cases i <;> fin_cases j <;> decide!

theorem mat33x34_zero_leftF (B : Mat34 ℚ) :
    mat33x34 (fun _ _ => (0 : FVal)) (fun i j => FVal.fin (B i j)) = fun _ _ => 0 := by
  funext i j
  simp only [mat33x34, FVal.zero_mul_fin, FVal.zero_add_zero]

theorem deformationGradient_restF (curr_U : List FVal) (tet : T4 FVal) (B : Mat34 ℚ)
    (hB : tet.m_DHDX = fun i j => FVal.fin (B i j)) (h : ∀ k, rd curr_U k = 0) :
    deformationGradient curr_U tet = I33 := by
  funext i j
  simp only [deformationGradient, mat34x34T, cornerDisp, h, hB, FVal.zero_mul_fin,
    FVal.zero_add_zero, FVal.zero_add_one, I33]

theorem mat33Tx34_I33F (B : Mat34 ℚ) (hB : ∀ i j, |B i j| ≤ FLT_MAX) :
    mat33Tx34 (I33 : Mat33 FVal) (fun i j => FVal.fin (B i j)) = fun i j => FVal.fin (B i j) := by
  funext i j
  have e := hB i j
  fin_cases i <;>
    simp [mat33Tx34, I33, FVal.zero_mul_fin, FVal.zero_add_zero, FVal.one_mul_fin, hB,
      FVal.zero_add_fin, FVal.fin_add_zero]

theorem T_diff_restF (t : ℚ) (ht : |t| ≤ 2 ^ 24) (curr_T : List FVal) (tet : T4 FVal)
    (h : ∀ m : Fin 4, rd curr_T (tet.m_n_idx m) = FVal.fin t) :
    T_diff (FVal.fin t) curr_T tet = 0 := by
  have hM : (2 : ℚ) ^ 26 ≤ FLT_MAX := two_pow_le_FLT_MAX 26 (by norm_num)
  have a2 : |t + t| ≤ FLT_MAX := by
    have := abs_add t t
    linarith
  have a3 : |t + t + t| ≤ FLT_MAX := by
    have := abs_add (t + t) t
    have := abs_add t t
    linarith
  have a4 : |t + t + t + t| ≤ FLT_MAX := by
    have := abs_add (t + t + t) t
    have := abs_add (t + t) t
    have := abs_add t t
    linarith
  have e4 : (t + t + t + t) / ((4 : ℕ) : ℚ) = t := by push_cast; ring
  simp only [T_diff, h]
  rw [FVal.fin_add _ _ a2, FVal.fin_add _ _ a3, FVal.fin_add _ _ a4,
    FVal.natCast_fin 4 (le_trans (by norm_num) hM),
    FVal.fin_div _ _ (by norm_num) (by rw [e4]; linarith), e4,
    FVal.fin_sub _ _ (by rw [sub_self, abs_zero]; exact FLT_MAX_pos.le), sub_self]
  rfl

end FValKernel

section FValKernel2

theorem expansionGradient_restF (tet : T4 FVal)
    (hty : tet.m_T_expan_type = "T_EXPAN_ISO" ∨ tet.m_T_expan_type = "T_EXPAN_TI"
      ∨ tet.m_T_expan_type = "T_EXPAN_ORTHO")
    (hiso : tet.m_T_expan_type = "T_EXPAN_ISO" → ∀ i j : Fin 3, i ≠ j → tet.m_X_expan i j = 0)
    (hfin : ∀ k, FVal.isFinite (rd tet.m_T_expan_vals k) = true) :
    expansionGradient tet 0 = I33 := by
  have hv : ∀ k, ∃ q : ℚ, rd tet.m_T_expan_vals k = FVal.fin q :=
    fun k => (FVal.isFinite_iff _).1 (hfin k)
  choose ev hev using hv
  funext i j
  unfold expansionGradient
  rcases hty with h | h | h
  · simp only [h, if_true, hev, FVal.fin_mul_zero, FVal.one_add_zero, I33]
    by_cases hij : i = j
    · simp [hij]
    · simp [hij, hiso h i j hij]
  · simp only [h, show ¬ ("T_EXPAN_TI" = "T_EXPAN_ISO") by decide, if_false, if_true, hev,
      FVal.fin_mul_zero, FVal.one_add_zero, FVal.zero_mul_fin, FVal.zero_add_one]
    fin_cases i <;> fin_cases j <;> simp [I33]
  · simp only [h, show ¬ ("T_EXPAN_ORTHO" = "T_EXPAN_ISO") by decide,
      show ¬ ("T_EXPAN_ORTHO" = "T_EXPAN_TI") by decide, if_false, if_true, hev,
      FVal.fin_mul_zero, FVal.one_add_zero, FVal.zero_mul_fin, FVal.zero_add_one,
      FVal.zero_add_zero]
    fin_cases i <;> fin_cases j <;> simp [I33]

theorem stressNH_restF (lm : Libm FVal) (hpow : lm.powf 1 minusTwoThirds = 1) (vals : List FVal)
    (hv : ∀ k, FVal.within (2 ^ 100) (rd vals k) = true) :
    stressNH lm vals I33 I33 1 = fun _ _ => 0 := by
  obtain ⟨m, hm, hmb⟩ := (FVal.within_iff _ _).1 (hv 0)
  obtain ⟨k, hk, hkb⟩ := (FVal.within_iff _ _).1 (hv 1)
  have hM : (2 : ℚ) ^ 102 ≤ FLT_MAX := two_pow_le_FLT_MAX 102 (by norm_num)
  have h100 : (0 : ℚ) < 2 ^ 100 := by positivity
  have hI1 : (1 : FVal) + 1 + 1 = FVal.fin 3 := by decide!
  have c1 : (1 : FVal) * FVal.fin m = FVal.fin m := FVal.one_mul_fin m (by linarith)
  have e3 : -m * 3 / ((3 : ℕ) : ℚ) = -m := by push_cast; ring
  have b3 : |-m * 3| ≤ FLT_MAX := by
    rw [abs_mul, abs_neg, abs_of_pos (by norm_num : (0 : ℚ) < 3)]
    linarith
  have c2 : (-(FVal.fin m)) * FVal.fin 3 / ((3 : ℕ) : FVal)
      + FVal.fin k * 1 * (1 - 1) = FVal.fin (-m) := by
    rw [FVal.neg_fin, FVal.fin_mul _ _ b3, FVal.natCast_fin 3 (le_trans (by norm_num) hM),
      FVal.fin_div _ _ (by norm_num) (by rw [e3, abs_neg]; linarith), e3,
      FVal.fin_mul_one k (by linarith), FVal.one_sub_one, FVal.fin_mul_zero,
      FVal.fin_add_zero _ (by rw [abs_neg]; linarith)]
  have d1 : FVal.fin (-m) * 1 + FVal.fin m = 0 := by
    rw [FVal.fin_mul_one _ (by rw [abs_neg]; linarith),
      FVal.fin_add _ _ (by rw [neg_add_cancel, abs_zero]; exact FLT_MAX_pos.le), neg_add_cancel]
    rfl
  have d0 : FVal.fin (-m) * 0 = 0 := FVal.fin_mul_zero _
  have i00 : (I33 : Mat33 FVal) 0 0 = 1 := rfl
  have i11 : (I33 : Mat33 FVal) 1 1 = 1 := rfl
  have i22 : (I33 : Mat33 FVal) 2 2 = 1 := rfl
  have i01 : (I33 : Mat33 FVal) 0 1 = 0 := rfl
  have i02 : (I33 : Mat33 FVal) 0 2 = 0 := rfl
  have i12 : (I33 : Mat33 FVal) 1 2 = 0 := rfl
  funext i j
  simp only [stressNH, hpow, hm, hk, i00, i11, i22, i01, i02, i12, hI1, c1, c2]
  fin_cases i <;> fin_cases j <;> first | exact d0 | exact d1

end FValKernel2

section FValKernel3

theorem stressTI_restF (lm : Libm FVal) (hpow : lm.powf 1 minusTwoThirds = 1) (vals : List FVal)
    (hv : ∀ k, FVal.within (2 ^ 100) (rd vals k) = true)
    (htr : rd vals 3 + rd vals 6 + rd vals 8 = 1) :
    stressTI lm vals I33 I33 1 = fun _ _ => 0 := by
  have hq : ∀ k, ∃ q : ℚ, rd vals k = FVal.fin q ∧ |q| ≤ 2 ^ 100 :=
    fun k => (FVal.within_iff _ _).1 (hv k)
  choose v hv1 hvb using hq
  have hM : (2 : ℚ) ^ 102 ≤ FLT_MAX := two_pow_le_FLT_MAX 102 (by norm_num)
  have h100 : (0 : ℚ) < 2 ^ 100 := by positivity
  have r1 : ∀ k, |v k| ≤ FLT_MAX := fun k => by have := hvb k; linarith
  have m1 : ∀ k, FVal.fin (v k) * 1 = FVal.fin (v k) := fun k => FVal.fin_mul_one _ (r1 k)
  have t2 : ((2 : ℕ) : FVal) = FVal.fin 2 := by
    rw [FVal.natCast_fin 2 (le_trans (by norm_num) hM)]
    norm_num
  have t3 : ((3 : ℕ) : FVal) = FVal.fin 3 := by
    rw [FVal.natCast_fin 3 (le_trans (by norm_num) hM)]
    norm_num
  have m2 : ∀ k, FVal.fin 2 * FVal.fin (v k) = FVal.fin (2 * v k) := fun k =>
    FVal.fin_mul _ _ (by
      rw [abs_mul, abs_of_pos (by norm_num : (0 : ℚ) < 2)]
      have := hvb k
      linarith)
  have z : ∀ k, FVal.fin (v k) + 0 = FVal.fin (v k) := fun k => FVal.fin_add_zero _ (r1 k)
  have b36 : |v 3 + v 6| ≤ FLT_MAX := by
    have := abs_add (v 3) (v 6)
    have := hvb 3
    have := hvb 6
    linarith
  have s36 : FVal.fin (v 3) + FVal.fin (v 6) = FVal.fin (v 3 + v 6) := FVal.fin_add _ _ b36
  have z36 : FVal.fin (v 3 + v 6) + 0 = FVal.fin (v 3 + v 6) := FVal.fin_add_zero _ b36
  have s368 : FVal.fin (v 3 + v 6) + FVal.fin (v 8) = 1 := by
    rw [hv1, hv1, hv1, s36] at htr
    exact htr
  have hI1 : (1 : FVal) + 1 + 1 = FVal.fin 3 := by decide!
  have c1 : (1 : FVal) * FVal.fin (v 0) = FVal.fin (v 0) := FVal.one_mul_fin _ (r1 0)
  have m21 : FVal.fin 2 * 1 = FVal.fin 2 := by decide!
  have b3 : |v 0 * 3| ≤ FLT_MAX := by
    rw [abs_mul, abs_of_pos (by norm_num : (0 : ℚ) < 3)]
    have := hvb 0
    linarith
  have p3 : FVal.fin (v 0) * FVal.fin 3 = FVal.fin (v 0 * 3) := FVal.fin_mul _ _ b3
  have z3 : FVal.fin (v 0 * 3) + 0 = FVal.fin (v 0 * 3) := FVal.fin_add_zero _ b3
  have e3 : -(v 0 * 3) / 3 = -v 0 := by ring
  have d3 : FVal.fin (-(v 0 * 3)) / FVal.fin 3 = FVal.fin (-v 0) := by
    rw [FVal.fin_div _ _ (by norm_num) (by rw [e3, abs_neg]; exact r1 0), e3]
  have zn : FVal.fin (-v 0) + 0 = FVal.fin (-v 0) :=
    FVal.fin_add_zero _ (by rw [abs_neg]; exact r1 0)
  have n1 : FVal.fin (-v 0) * 1 = FVal.fin (-v 0) :=
    FVal.fin_mul_one _ (by rw [abs_neg]; exact r1 0)
  have d1 : FVal.fin (-v 0) + FVal.fin (v 0) = 0 := by
    rw [FVal.fin_add _ _ (by rw [neg_add_cancel, abs_zero]; exact FLT_MAX_pos.le), neg_add_cancel]
    rfl
  have i00 : (I33 : Mat33 FVal) 0 0 = 1 := rfl
  have i11 : (I33 : Mat33 FVal) 1 1 = 1 := rfl
  have i22 : (I33 : Mat33 FVal) 2 2 = 1 := rfl
  have i01 : (I33 : Mat33 FVal) 0 1 = 0 := rfl
  have i02 : (I33 : Mat33 FVal) 0 2 = 0 := rfl
  have i12 : (I33 : Mat33 FVal) 1 2 = 0 := rfl
  funext i j
  simp only [stressTI, hpow, hv1, i00, i11, i22, i01, i02, i12, t2, t3, hI1, m1, m2,
    FVal.fin_mul_zero, FVal.zero_mul_fin, z, s36, z36, s368, FVal.one_mul_one, c1,
    FVal.one_sub_one, m21, p3, FVal.zero_mul_one, z3, FVal.neg_fin, d3, zn, n1, d1,
    FVal.zero_add_zero]
  fin_cases i <;> fin_cases j <;> simp only [n1, zn, d1, FVal.fin_mul_zero, FVal.zero_add_zero]

theorem mat33xScalar_zero_fin (q : ℚ) :
    mat33xScalar (fun _ _ => (0 : FVal)) (FVal.fin q) = fun _ _ => 0 := by
  funext i j
  exact FVal.zero_mul_fin q

/-- A conduction matrix built from finite data of moderate size, with a
gradient whose rows sum to zero, gives no heat flow for a uniform
temperature: no intermediate result leaves the range. -/
theorem conduction_uniformF (Dq : Mat34 ℚ) (Dm : Mat33 ℚ) (V t : ℚ)
    (hDq : ∀ i j, |Dq i j| ≤ 2 ^ 24) (hDm : ∀ i j, |Dm i j| ≤ 2 ^ 24) (hV : |V| ≤ 2 ^ 24)
    (ht : |t| ≤ 2 ^ 24)
    (hrow : ∀ r : Fin 3, Dq r 0 + Dq r 1 + Dq r 2 + Dq r 3 = 0) (m : Fin 4) :
    (mat44xScalar (mat34Tx34 (fun i j => FVal.fin (Dq i j)) (fun i j => FVal.fin (Dq i j)))
          (FVal.fin V * FVal.fin (Dm 0 0)) m 0 * FVal.fin t
        + mat44xScalar (mat34Tx34 (fun i j => FVal.fin (Dq i j)) (fun i j => FVal.fin (Dq i j)))
          (FVal.fin V * FVal.fin (Dm 0 0)) m 1 * FVal.fin t
        + mat44xScalar (mat34Tx34 (fun i j => FVal.fin (Dq i j)) (fun i j => FVal.fin (Dq i j)))
          (FVal.fin V * FVal.fin (Dm 0 0)) m 2 * FVal.fin t
        + mat44xScalar (mat34Tx34 (fun i j => FVal.fin (Dq i j)) (fun i j => FVal.fin (Dq i j)))
          (FVal.fin V * FVal.fin (Dm 0 0)) m 3 * FVal.fin t = 0) ∧
      (mat44xScalar (mat34Tx34 (fun i j => FVal.fin (Dq i j))
            (mat33x34 (fun i j => FVal.fin (Dm i j)) (fun i j => FVal.fin (Dq i j))))
          (FVal.fin V) m 0 * FVal.fin t
        + mat44xScalar (mat34Tx34 (fun i j => FVal.fin (Dq i j))
            (mat33x34 (fun i j => FVal.fin (Dm i j)) (fun i j => FVal.fin (Dq i j))))
          (FVal.fin V) m 1 * FVal.fin t
        + mat44xScalar (mat34Tx34 (fun i j => FVal.fin (Dq i j))
            (mat33x34 (fun i j => FVal.fin (Dm i j)) (fun i j => FVal.fin (Dq i j))))
          (FVal.fin V) m 2 * FVal.fin t
        + mat44xScalar (mat34Tx34 (fun i j => FVal.fin (Dq i j))
            (mat33x34 (fun i j => FVal.fin (Dm i j)) (fun i j => FVal.fin (Dq i j))))
          (FVal.fin V) m 3 * FVal.fin t = 0) := by
  have hF : FLT_MAX = 340282346638528859811704183484516925440 := rfl
  constructor
  · obtain ⟨e1, b1⟩ := mat34Tx34_fin Dq Dq (2 ^ 24) (2 ^ 24) hDq hDq (by rw [hF]; norm_num)
    have bV : |V * Dm 0 0| ≤ 2 ^ 24 * 2 ^ 24 := by
      rw [abs_mul]
      exact mul_le_mul hV (hDm 0 0) (abs_nonneg _) (by norm_num)
    have eV : FVal.fin V * FVal.fin (Dm 0 0) = FVal.fin (V * Dm 0 0) :=
      FVal.fin_mul _ _ (le_trans bV (by rw [hF]; norm_num))
    obtain ⟨e2, b2⟩ := mat44xScalar_fin (mat34Tx34 Dq Dq) (V * Dm 0 0) _ _ b1 bV
      (by rw [hF]; norm_num)
    rw [e1, eV, e2]
    exact (FVal.dot4 _ _ _ _ t t t t _ (2 ^ 24) (b2 m 0) (b2 m 1) (b2 m 2) (b2 m 3) ht ht ht ht
      (by rw [hF]; norm_num)).trans (congrArg FVal.fin (conduction_uniform Dq Dq _ t hrow m))
  · obtain ⟨e0, b0⟩ := mat33x34_fin Dm Dq (2 ^ 24) (2 ^ 24) hDm hDq (by rw [hF]; norm_num)
    obtain ⟨e1, b1⟩ := mat34Tx34_fin Dq (mat33x34 Dm Dq) (2 ^ 24) _ hDq b0
      (by rw [hF]; norm_num)
    obtain ⟨e2, b2⟩ := mat44xScalar_fin (mat34Tx34 Dq (mat33x34 Dm Dq)) V _ (2 ^ 24) b1 hV
      (by rw [hF]; norm_num)
    rw [e0, e1, e2]
    exact (FVal.dot4 _ _ _ _ t t t t _ (2 ^ 24) (b2 m 0) (b2 m 1) (b2 m 2) (b2 m 3) ht ht ht ht
      (by rw [hF]; norm_num)).trans
      (congrArg FVal.fin (conduction_uniform Dq (mat33x34 Dm Dq) _ t
        (mat33x34_row_sum Dm Dq hrow) m))

end FValKernel3

section FValKernel4

/-- The element kernel at rest over `FVal`: for an element with finite data of
moderate size, zero displacements and the four corners at the reference
temperature give zero corner forces and zero corner heat flows. -/
theorem elementKernel_restF (lm : Libm FVal) (hsqrt : lm.sqrt 1 = 1)
    (hpow : lm.powf 1 minusTwoThirds = 1) (T0 : FVal) (hT0 : FVal.within (2 ^ 24) T0 = true)
    (curr_U curr_T : List FVal) (tet : T4 FVal) (n1 n2 n3 n4 : Node FVal)
    (hb : tet.builtFrom n1 n2 n3 n4)
    (hJ : ∀ i j, FVal.within (2 ^ 22)
      ((matInv33 (mat34x34T (DHDr : Mat34 FVal) (n_coords n1 n2 n3 n4))).1 i j) = true)
    (hU : ∀ k, rd curr_U k = 0) (hT : ∀ m : Fin 4, rd curr_T (tet.m_n_idx m) = T0)
    (hmat : tet.m_M_material_type = "NH" ∨ (tet.m_M_material_type = "TI" ∧
      rd tet.m_M_material_vals 3 + rd tet.m_M_material_vals 6 + rd tet.m_M_material_vals 8 = 1))
    (hexp : tet.m_T_expan_vals.length = 0 ∨ tet.m_T_expan_type = "T_EXPAN_ISO"
      ∨ tet.m_T_expan_type = "T_EXPAN_TI" ∨ tet.m_T_expan_type = "T_EXPAN_ORTHO")
    (hVol : FVal.within (2 ^ 24) tet.m_Vol = true)
    (hD : ∀ i j, FVal.within (2 ^ 24) (tet.m_D i j) = true)
    (hmv : ∀ k, FVal.within (2 ^ 100) (rd tet.m_M_material_vals k) = true)
    (hev : ∀ k, FVal.isFinite (rd tet.m_T_expan_vals k) = true) :
    (elementKernel lm T0 curr_U curr_T tet).f = (fun _ _ => 0) ∧
      (elementKernel lm T0 curr_U curr_T tet).q = (fun _ => 0) := by
  obtain ⟨t, rfl, ht⟩ := (FVal.within_iff _ _).1 hT0
  have hG0 : ∀ i j, ∃ q : ℚ,
      (matInv33 (mat34x34T (DHDr : Mat34 FVal) (n_coords n1 n2 n3 n4))).1 i j = FVal.fin q ∧
        |q| ≤ 2 ^ 22 := fun i j => (FVal.within_iff _ _).1 (hJ i j)
  choose G hG hGb using hG0
  obtain ⟨hB, hBb, hrow⟩ := DHDX_fin G hGb
  have hDX : tet.m_DHDX = fun i j => FVal.fin (mat33x34 G DHDr i j) := by
    have hGm : (matInv33 (mat34x34T (DHDr : Mat34 FVal) (n_coords n1 n2 n3 n4))).1
        = fun i j => FVal.fin (G i j) := by
      funext i j
      exact hG i j
    rw [hb.1, hGm, hB]
  have hM : (2 : ℚ) ^ 24 ≤ FLT_MAX := two_pow_le_FLT_MAX 24 (by norm_num)
  obtain ⟨V, hV, hVb⟩ := (FVal.within_iff _ _).1 hVol
  have hD0 : ∀ i j, ∃ q : ℚ, tet.m_D i j = FVal.fin q ∧ |q| ≤ 2 ^ 24 :=
    fun i j => (FVal.within_iff _ _).1 (hD i j)
  choose Dm hDm hDmb using hD0
  have hDm' : tet.m_D = fun i j => FVal.fin (Dm i j) := by
    funext i j
    exact hDm i j
  have hX : deformationGradient curr_U tet = I33 :=
    deformationGradient_restF curr_U tet _ hDX hU
  have hTd : T_diff (FVal.fin t) curr_T tet = 0 := T_diff_restF t ht curr_T tet hT
  have hS0 : (if tet.m_M_material_type = "NH" then
        stressNH lm tet.m_M_material_vals I33 I33 1
      else if tet.m_M_material_type = "TI" then
        stressTI lm tet.m_M_material_vals I33 I33 1
      else tet.m_S) = fun _ _ => 0 := by
    rcases hmat with h | ⟨h, htr⟩
    · rw [if_pos h, stressNH_restF lm hpow _ hmv]
    · rw [if_neg (by rw [h]; decide), if_pos h, stressTI_restF lm hpow _ hmv htr]
  have hDHDx : mat33Tx34 (I33 : Mat33 FVal) (fun i j => FVal.fin (mat33x34 G DHDr i j))
      = fun i j => FVal.fin (mat33x34 G DHDr i j) :=
    mat33Tx34_I33F _ (fun i j => le_trans (hBb i j) hM)
  have hvol : FVal.fin V * 1 = FVal.fin V := FVal.fin_mul_one V (le_trans hVb hM)
  constructor
  · unfold elementKernel
    by_cases he : tet.m_T_expan_vals.length = 0
    · simp only [he, ne_eq, not_true_eq_false, if_false, hX, mat33Tx33_I33F, matInv33_I33F,
        hsqrt, hS0, mat33x33_I33_zeroF, hV, mat33xScalar_zero_fin, hDX, mat33x34_zero_leftF]
    · have hty := hexp.resolve_left he
      simp only [he, ne_eq, not_false_eq_true, if_true, hX, hTd,
        expansionGradient_restF tet hty hb.2 hev, matInv33_I33F, mat33x33_I33F, mat33Tx33_I33F,
        hsqrt, hS0, mat33x33_I33_zeroF, pullback_zeroF, hV, mat33xScalar_zero_fin, hDX,
        mat33x34_zero_leftF]
  · funext m
    unfold elementKernel
    simp only [hT, hX, matInv33_I33F, hDX, hDHDx, hV, hvol, hDm']
    obtain ⟨c1, c2⟩ := conduction_uniformF (mat33x34 G DHDr) Dm V t hBb hDmb hVb ht hrow m
    by_cases hty : tet.m_T_material_type = "T_ISO"
    · rw [if_pos hty]
      exact c1
    · rw [if_neg hty]
      exact c2

end FValKernel4

section FValStep

theorem gather_zeroF (model : Model FVal) (ms : ModelStates FVal) (i : Nat)
    (hF : ∀ k, rd ms.m_ele_nodal_internal_F k = 0)
    (hQ : ∀ k, rd ms.m_ele_nodal_internal_Q k = 0) :
    gather model ms i = (fun _ => 0, 0) := by
  dsimp only [gather]
  generalize List.range (model.m_tracking_num_eles_i_eles_per_node_j.getD (i * 2 + 1) 0) = l
  simp only [hF, hQ]
  induction l with
  | nil => rfl
  | cons a l ih =>
    rw [List.foldl_cons]
    simp only [FVal.zero_add_zero]
    exact ih

/-- After the element pass of a mesh whose kernels all give zero, every entry
of the two per-corner buffers reads zero. -/
theorem elementPass_zeroF (lm : Libm FVal) (NUM_THREADS : Nat) (hT : 1 ≤ NUM_THREADS)
    (model : Model FVal) (ms : ModelStates FVal)
    (hids : ∀ (p : Nat) (tet : T4 FVal), model.m_tets[p]? = some tet → tet.m_idx = p)
    (hF : ms.m_ele_nodal_internal_F.length = model.m_tets.length * 12)
    (hQ : ms.m_ele_nodal_internal_Q.length = model.m_tets.length * 4)
    (hker : ∀ tet ∈ model.m_tets,
      (elementKernel lm model.m_T0 ms.m_curr_U ms.m_curr_T tet).f = (fun _ _ => 0) ∧
        (elementKernel lm model.m_T0 ms.m_curr_U ms.m_curr_T tet).q = (fun _ => 0)) :
    (∀ k, rd (elementPass lm NUM_THREADS model ms).2.m_ele_nodal_internal_F k = 0) ∧
      ∀ k, rd (elementPass lm NUM_THREADS model ms).2.m_ele_nodal_internal_Q k = 0 := by
  obtain ⟨-, -, e3, e4, -, e6, e7⟩ := elementPass_spec lm NUM_THREADS hT model ms hids hF hQ
  constructor
  · intro k
    by_cases hk : k < model.m_tets.length * 12
    · have hp : k / 12 < model.m_tets.length := by omega
      have hget : model.m_tets[k / 12]? = some (model.m_tets[k / 12]) :=
        List.getElem?_eq_getElem hp
      have hm : k % 12 / 3 < 4 := by omega
      have hn : k % 12 % 3 < 3 := by omega
      have := e6 (k / 12) _ hget ⟨k % 12 / 3, hm⟩ ⟨k % 12 % 3, hn⟩
      have ek : k / 12 * 12 + k % 12 / 3 * 3 + k % 12 % 3 = k := by omega
      simp only [ek] at this
      rw [this, (hker _ (List.getElem_mem hp)).1]
    · unfold rd
      rw [List.getD_eq_default _ _ (by rw [e3]; omega)]
  · intro k
    by_cases hk : k < model.m_tets.length * 4
    · have hp : k / 4 < model.m_tets.length := by omega
      have hget : model.m_tets[k / 4]? = some (model.m_tets[k / 4]) :=
        List.getElem?_eq_getElem hp
      have hm : k % 4 < 4 := by omega
      have := e7 (k / 4) _ hget ⟨k % 4, hm⟩
      have ek : k / 4 * 4 + k % 4 = k := by omega
      simp only [ek] at this
      rw [this, (hker _ (List.getElem_mem hp)).2]
    · unfold rd
      rw [List.getD_eq_default _ _ (by rw [e4]; omega)]

end FValStep

section RestExamplesF

theorem restTwoTetF_tets (tet : T4 FVal) (h : tet ∈ restTwoTetF.m_tets) :
    tet = T4.new (fun _ _ => 0) 0 ⟨0, 0, 0, 0⟩ ⟨1, 1, 0, 0⟩ ⟨2, 0, 1, 0⟩ ⟨3, 0, 0, 1⟩ 1
          "NH" [1, 10] "T_ISO" [4, 1] "T_EXPAN_NONE" [] ∨
      tet = T4.new (fun _ _ => 0) 1 ⟨1, 1, 0, 0⟩ ⟨2, 0, 1, 0⟩ ⟨3, 0, 0, 1⟩ ⟨4, 1, 1, 1⟩ 1
          "TI" [1, 10, 2, 1, 0, 0, 0, 0, 0] "T_ORTHO" [4, 1, 2, 3] "T_EXPAN_ISO"
          [.fin (1 / 100)] := by
  have e : restTwoTetF.m_tets =
      [T4.new (fun _ _ => 0) 0 ⟨0, 0, 0, 0⟩ ⟨1, 1, 0, 0⟩ ⟨2, 0, 1, 0⟩ ⟨3, 0, 0, 1⟩ 1
          "NH" [1, 10] "T_ISO" [4, 1] "T_EXPAN_NONE" [],
        T4.new (fun _ _ => 0) 1 ⟨1, 1, 0, 0⟩ ⟨2, 0, 1, 0⟩ ⟨3, 0, 0, 1⟩ ⟨4, 1, 1, 1⟩ 1
          "TI" [1, 10, 2, 1, 0, 0, 0, 0, 0] "T_ORTHO" [4, 1, 2, 3] "T_EXPAN_ISO"
          [.fin (1 / 100)]] := rfl
  rw [e] at h
  simpa using h

end RestExamplesF

/-! ### The claims -/

/-- C2 (connectivity index exactness).  After `postCreate`, for tetrahedra with
pairwise distinct ids and node indices below the number of nodes: every corner
`(tet, m)` occurs exactly once in the slice of its node `tet.m_n_idx m` and in
the slice of no other node, and every pair of the slice of node `i` is a corner
`(tet.m_idx, m)` of the mesh with `tet.m_n_idx m = i`. -/
theorem connectivity_index_exact {α : Type} (model : Model α)
    (hids : (model.m_tets.map fun t => t.m_idx).Nodup)
    (hnodes : ∀ tet ∈ model.m_tets, ∀ m : Fin 4, tet.m_n_idx m < model.m_nodes.length) :
    (∀ tet ∈ model.m_tets, ∀ m : Fin 4,
        (slice model.postCreate (tet.m_n_idx m)).count (tet.m_idx, m.val) = 1 ∧
        ∀ i, i < model.m_nodes.length → i ≠ tet.m_n_idx m →
          (tet.m_idx, m.val) ∉ slice model.postCreate i) ∧
      (∀ i, i < model.m_nodes.length → ∀ c ∈ slice model.postCreate i,
        ∃ tet ∈ model.m_tets, ∃ m : Fin 4, tet.m_n_idx m = i ∧ c = (tet.m_idx, m.val)) := by
  refine ⟨fun tet ht m => ⟨?_, ?_⟩, ?_⟩
  · rw [slice_postCreate model _ (hnodes tet ht m), count_cornersAt _ hids]
    exact if_pos ⟨tet, ht, rfl, rfl⟩
  · intro i hi hne hmem
    rw [slice_postCreate model _ hi] at hmem
    have hc := count_cornersAt model.m_tets hids i tet.m_idx m
    have hpos : 0 < List.count (tet.m_idx, m.val) (cornersAt model.m_tets i) :=
      List.count_pos_iff.2 hmem
    by_cases hex : ∃ t ∈ model.m_tets, t.m_idx = tet.m_idx ∧ t.m_n_idx m = i
    · obtain ⟨t, ht', hid, hn⟩ := hex
      have : t = tet := by
        have hinj := List.inj_on_of_nodup_map hids
        exact hinj ht' ht hid
      subst this
      exact hne hn.symm
    · rw [if_neg hex] at hc
      omega
  · intro i hi c hc
    rw [slice_postCreate model _ hi] at hc
    exact (mem_cornersAt _ _ _).1 hc

/-- C1 (scatter-then-gather equals direct assembly).  For a model whose
tetrahedra have ids equal to their positions, after `postCreate` and the
element pass of `computeOneStep`, the gather of the node pass gives for every
node `i` of the model the sums, over the corners
`(tet, m)` with `tet.m_n_idx m = i`, of the buffer entries
`m_ele_nodal_internal_F[tet.m_idx * 12 + m * 3 + n]` and
`m_ele_nodal_internal_Q[tet.m_idx * 4 + m]`; these sums are the direct assembly
of the corner forces and heat flows of the element kernels. -/
theorem scatter_gather_eq_direct_assembly {α : Type} [Field α] (lm : Libm α)
    (NUM_THREADS : Nat) (hT : 1 ≤ NUM_THREADS) (model : Model α) (modelstates : ModelStates α)
    (hids : ∀ (p : Nat) (tet : T4 α), model.m_tets[p]? = some tet → tet.m_idx = p)
    (hF : modelstates.m_ele_nodal_internal_F.length = model.m_tets.length * 12)
    (hQ : modelstates.m_ele_nodal_internal_Q.length = model.m_tets.length * 4)
    (i : Nat) (hi : i < model.m_nodes.length) :
    gather { model.postCreate with
          m_tets := (elementPass lm NUM_THREADS model.postCreate modelstates).1 }
        (elementPass lm NUM_THREADS model.postCreate modelstates).2 i
      = (fun n => directAssemblyF model.m_tets
            (elementPass lm NUM_THREADS model.postCreate modelstates).2.m_ele_nodal_internal_F i n,
          directAssemblyQ model.m_tets
            (elementPass lm NUM_THREADS model.postCreate modelstates).2.m_ele_nodal_internal_Q i) ∧
      (∀ n, directAssemblyF model.m_tets
            (elementPass lm NUM_THREADS model.postCreate modelstates).2.m_ele_nodal_internal_F i n
          = assembledF lm model.m_T0 modelstates.m_curr_U modelstates.m_curr_T model.m_tets i n) ∧
      directAssemblyQ model.m_tets
          (elementPass lm NUM_THREADS model.postCreate modelstates).2.m_ele_nodal_internal_Q i
        = assembledQ lm model.m_T0 modelstates.m_curr_U modelstates.m_curr_T model.m_tets i := by
  have hpc : model.postCreate.m_tets = model.m_tets := rfl
  have hT0 : model.postCreate.m_T0 = model.m_T0 := rfl
  obtain ⟨-, -, -, -, -, h6, h7⟩ :=
    elementPass_spec lm NUM_THREADS hT model.postCreate modelstates (by rw [hpc]; exact hids)
      (by rw [hpc]; exact hF) (by rw [hpc]; exact hQ)
  rw [hpc, hT0] at h6 h7
  refine ⟨?_, ?_, ?_⟩
  · have hg : gather { model.postCreate with
          m_tets := (elementPass lm NUM_THREADS model.postCreate modelstates).1 }
        (elementPass lm NUM_THREADS model.postCreate modelstates).2 i
        = gather model.postCreate (elementPass lm NUM_THREADS model.postCreate modelstates).2 i :=
      rfl
    rw [hg, gather_eq_foldl_slice, slice_postCreate model i hi, foldl_gather_eq
      (fun a b n => rd (elementPass lm NUM_THREADS model.postCreate
        modelstates).2.m_ele_nodal_internal_F (a * 12 + b * 3 + n.val))
      (fun a b => rd (elementPass lm NUM_THREADS model.postCreate
        modelstates).2.m_ele_nodal_internal_Q (a * 4 + b))]
    simp only [zero_add]
    congr 1
    · funext n
      exact sum_cornersAt model.m_tets i (fun a b => rd (elementPass lm NUM_THREADS
        model.postCreate modelstates).2.m_ele_nodal_internal_F (a * 12 + b * 3 + n.val))
    · exact sum_cornersAt model.m_tets i (fun a b => rd (elementPass lm NUM_THREADS
        model.postCreate modelstates).2.m_ele_nodal_internal_Q (a * 4 + b))
  · intro n
    unfold directAssemblyF assembledF
    apply sum_map_congr_mem
    intro tet ht
    obtain ⟨p, hp⟩ := List.mem_iff_getElem?.1 ht
    apply sum_map_congr_mem
    intro m _
    rw [hids p tet hp, h6 p tet hp m n]
  · unfold directAssemblyQ assembledQ
    apply sum_map_congr_mem
    intro tet ht
    obtain ⟨p, hp⟩ := List.mem_iff_getElem?.1 ht
    apply sum_map_congr_mem
    intro m _
    rw [hids p tet hp, h7 p tet hp m]

/-- Witness of C1: the two-element mesh in the deformed and heated state
`shearedTwoTet`, two threads, node 1, which is a corner of both elements.  The
element pass leaves the x-forces `139333689/156250000` (corner 1 of element 0)
and `162347481373/160000000000` (corner 0 of element 1); the gather returns
their sum, and the sum of the two heat flows `27/55` and `-34553/9636`. -/
theorem scatter_gather_eq_direct_assembly_witness :
    gather { (twoTetRaw 1).postCreate with
          m_tets := (elementPass restLibm 2 (twoTetRaw 1).postCreate shearedTwoTet).1 }
        (elementPass restLibm 2 (twoTetRaw 1).postCreate shearedTwoTet).2 1
      = (fun n => directAssemblyF (twoTetRaw 1).m_tets
            (elementPass restLibm 2 (twoTetRaw 1).postCreate
              shearedTwoTet).2.m_ele_nodal_internal_F 1 n,
          directAssemblyQ (twoTetRaw 1).m_tets
            (elementPass restLibm 2 (twoTetRaw 1).postCreate
              shearedTwoTet).2.m_ele_nodal_internal_Q 1) ∧
      (∀ n, directAssemblyF (twoTetRaw 1).m_tets
            (elementPass restLibm 2 (twoTetRaw 1).postCreate
              shearedTwoTet).2.m_ele_nodal_internal_F 1 n
          = assembledF restLibm (twoTetRaw 1).m_T0 shearedTwoTet.m_curr_U
              shearedTwoTet.m_curr_T (twoTetRaw 1).m_tets 1 n) ∧
      directAssemblyQ (twoTetRaw 1).m_tets
          (elementPass restLibm 2 (twoTetRaw 1).postCreate
            shearedTwoTet).2.m_ele_nodal_internal_Q 1
        = assembledQ restLibm (twoTetRaw 1).m_T0 shearedTwoTet.m_curr_U
            shearedTwoTet.m_curr_T (twoTetRaw 1).m_tets 1 ∧
      rd (elementPass restLibm 2 (twoTetRaw 1).postCreate
          shearedTwoTet).2.m_ele_nodal_internal_F (0 * 12 + 1 * 3 + 0) = 139333689 / 156250000 ∧
      rd (elementPass restLibm 2 (twoTetRaw 1).postCreate
          shearedTwoTet).2.m_ele_nodal_internal_F (1 * 12 + 0 * 3 + 0)
        = 162347481373 / 160000000000 ∧
      (gather { (twoTetRaw 1).postCreate with
          m_tets := (elementPass restLibm 2 (twoTetRaw 1).postCreate shearedTwoTet).1 }
        (elementPass restLibm 2 (twoTetRaw 1).postCreate shearedTwoTet).2 1).1 0
        = 139333689 / 156250000 + 162347481373 / 160000000000 ∧
      (gather { (twoTetRaw 1).postCreate with
          m_tets := (elementPass restLibm 2 (twoTetRaw 1).postCreate shearedTwoTet).1 }
        (elementPass restLibm 2 (twoTetRaw 1).postCreate shearedTwoTet).2 1).2
        = 27 / 55 + -34553 / 9636 :=
  have h := scatter_gather_eq_direct_assembly restLibm 2 (by decide) (twoTetRaw 1)
    shearedTwoTet (twoTetRaw_ids 1) (by decide!) (by decide!) 1 (by decide)
  ⟨h.1, h.2.1, h.2.2, by decide!, by decide!, by decide!, by decide!⟩

/-- Witness of C2 on the one-element model. -/
theorem connectivity_index_exact_witness :
    (∀ tet ∈ unitModelRaw.m_tets, ∀ m : Fin 4,
        (slice unitModelRaw.postCreate (tet.m_n_idx m)).count (tet.m_idx, m.val) = 1 ∧
        ∀ i, i < unitModelRaw.m_nodes.length → i ≠ tet.m_n_idx m →
          (tet.m_idx, m.val) ∉ slice unitModelRaw.postCreate i) ∧
      (∀ i, i < unitModelRaw.m_nodes.length → ∀ c ∈ slice unitModelRaw.postCreate i,
        ∃ tet ∈ unitModelRaw.m_tets, ∃ m : Fin 4, tet.m_n_idx m = i ∧ c = (tet.m_idx, m.val)) :=
  connectivity_index_exact unitModelRaw (by simp [unitModelRaw]) unitModelRaw_nodes

/-- C3 (central-difference update).  For a DOF that has no nonzero displacement
target and no fixed-position flag, with lumped nodal mass `m > 0`, `dt > 0` and
`alpha ≥ 0`, and the constants the state constructor computed, the node pass
sets `next_U = c₁·(F_ext − F_int) + c₂·curr_U + c₃·prev_U` with the constants
of the specification; this value solves the damped central-difference equation
`m·(u⁺ − 2·curr_U + prev_U)/dt² + alpha·m·(u⁺ − prev_U)/(2·dt) = F_ext − F_int`
and is its only solution. -/
theorem central_difference_update {α : Type} [LinearOrderedField α] (lm : Libm α)
    (NUM_THREADS : Nat) (hT : 1 ≤ NUM_THREADS) (model : Model α) (modelstates : ModelStates α)
    (hD : model.m_num_M_DOFs = model.m_nodes.length * 3)
    (hc1 : modelstates.m_central_diff_const1 = (ModelStates.new model).m_central_diff_const1)
    (hc2 : modelstates.m_central_diff_const2 = (ModelStates.new model).m_central_diff_const2)
    (hc3 : modelstates.m_central_diff_const3 = (ModelStates.new model).m_central_diff_const3)
    (hU : modelstates.m_next_U.length = model.m_nodes.length * 3)
    (hTl : modelstates.m_next_T.length = model.m_nodes.length)
    (i : Nat) (hi : i < model.m_nodes.length) (j : Fin 3)
    (hdisp : rd modelstates.m_disp_mag_t (i * 3 + j.val) = 0)
    (hfix : modelstates.m_fixP_flag.getD (i * 3 + j.val) false = false)
    (hm : 0 < lumpedMass model.m_tets i) (hdt : 0 < model.m_dt) (halpha : 0 ≤ model.m_alpha) :
    rd (nodePass lm NUM_THREADS model modelstates).1.m_next_U (i * 3 + j.val)
        = specC1 model.m_alpha (lumpedMass model.m_tets i) model.m_dt
            * (rd modelstates.m_external_F (i * 3 + j.val) - (gather model modelstates i).1 j)
          + specC2 model.m_alpha (lumpedMass model.m_tets i) model.m_dt
            * rd modelstates.m_curr_U (i * 3 + j.val)
          + specC3 model.m_alpha (lumpedMass model.m_tets i) model.m_dt
            * rd modelstates.m_prev_U (i * 3 + j.val) ∧
      ∀ u : α,
        (lumpedMass model.m_tets i
              * (u - 2 * rd modelstates.m_curr_U (i * 3 + j.val)
                  + rd modelstates.m_prev_U (i * 3 + j.val)) / model.m_dt ^ 2
            + model.m_alpha * lumpedMass model.m_tets i
              * (u - rd modelstates.m_prev_U (i * 3 + j.val)) / (2 * model.m_dt)
          = rd modelstates.m_external_F (i * 3 + j.val) - (gather model modelstates i).1 j) ↔
        u = rd (nodePass lm NUM_THREADS model modelstates).1.m_next_U (i * 3 + j.val) := by
  obtain ⟨-, -, -, h4, -, -⟩ := nodePass_spec lm NUM_THREADS hT model modelstates hU hTl
  have hk : i * 3 + j.val < model.m_num_M_DOFs := by have := j.isLt; omega
  obtain ⟨k1, k2, k3⟩ := centralDiffConsts_rd model _ hk
  obtain ⟨s1, s2, s3⟩ := cdConst_eq_spec model (nodal_M_mass model) (i * 3 + j.val)
  rw [nodal_M_mass_rd model i j hk] at s1 s2 s3
  have hval : rd (nodePass lm NUM_THREADS model modelstates).1.m_next_U (i * 3 + j.val)
      = specC1 model.m_alpha (lumpedMass model.m_tets i) model.m_dt
            * (rd modelstates.m_external_F (i * 3 + j.val) - (gather model modelstates i).1 j)
          + specC2 model.m_alpha (lumpedMass model.m_tets i) model.m_dt
            * rd modelstates.m_curr_U (i * 3 + j.val)
          + specC3 model.m_alpha (lumpedMass model.m_tets i) model.m_dt
            * rd modelstates.m_prev_U (i * 3 + j.val) := by
    rw [h4 i hi j]
    unfold nextUValue
    simp only [hdisp, ne_eq, not_true_eq_false, if_false, hfix, Bool.false_eq_true]
    rw [hc1, hc2, hc3]
    show rd (centralDiffConsts model).1 _ * _ + rd (centralDiffConsts model).2.1 _ * _
      + rd (centralDiffConsts model).2.2 _ * _ = _
    rw [k1, k2, k3, s1, s2, s3]
  refine ⟨hval, ?_⟩
  intro u
  rw [hval]
  have hpos := specC1_inv model.m_alpha (lumpedMass model.m_tets i) model.m_dt hm hdt halpha
  have hdt' : model.m_dt ≠ 0 := ne_of_gt hdt
  have hne : model.m_alpha * lumpedMass model.m_tets i / (2 * model.m_dt)
      + lumpedMass model.m_tets i / model.m_dt ^ 2 ≠ 0 := ne_of_gt hpos
  unfold specC3 specC2 specC1
  generalize lumpedMass model.m_tets i = m at *
  generalize model.m_dt = dt at *
  generalize model.m_alpha = a at *
  generalize rd modelstates.m_external_F (i * 3 + j.val) - (gather model modelstates i).1 j = R
  generalize rd modelstates.m_curr_U (i * 3 + j.val) = uc
  generalize rd modelstates.m_prev_U (i * 3 + j.val) = up
  have key : m * (u - 2 * uc + up) / dt ^ 2 + a * m * (u - up) / (2 * dt)
      = (a * m / (2 * dt) + m / dt ^ 2) * u - 2 * (m / dt ^ 2) * uc
        - (a * m / (2 * dt) - m / dt ^ 2) * up := by
    ring
  have e2 : 2 * m * (1 / (a * m / (2 * dt) + m / dt ^ 2)) / dt ^ 2
      = 2 * (m / dt ^ 2) / (a * m / (2 * dt) + m / dt ^ 2) := by
    ring
  have e3 : a * m * (1 / (a * m / (2 * dt) + m / dt ^ 2)) / (2 * dt)
        - 2 * (m / dt ^ 2) / (a * m / (2 * dt) + m / dt ^ 2) / 2
      = a * m / (2 * dt) / (a * m / (2 * dt) + m / dt ^ 2)
        - m / dt ^ 2 / (a * m / (2 * dt) + m / dt ^ 2) := by
    ring
  rw [key, e2, e3]
  exact cd_algebra (m / dt ^ 2) (a * m / (2 * dt)) R u uc up hne

/-- Witness of C3: the damped one-element model (`alpha = 1`, `dt = 1/2`, lumped
mass `1/24`, so `c1 = 24/5`, `c2 = 8/5`, `c3 = -3/5`) in the state the element
pass leaves from `movingState`, DOF x of node 1: `F_ext = 2`, `F_int = 154/375`,
`curr_U = 1/10`, `prev_U = 1/20`, and the node pass writes
`24/5 * (2 - 154/375) + 8/5 * (1/10) - 3/5 * (1/20) = 19397/2500`, the only
solution of the central-difference equation. -/
theorem central_difference_update_witness :
    (rd (nodePass restLibm 1 dampedModel
          (elementPass restLibm 1 dampedModel movingState).2).1.m_next_U (1 * 3 + (0 : Fin 3).val)
        = specC1 dampedModel.m_alpha (lumpedMass dampedModel.m_tets 1) dampedModel.m_dt
            * (rd (elementPass restLibm 1 dampedModel movingState).2.m_external_F
                (1 * 3 + (0 : Fin 3).val)
              - (gather dampedModel (elementPass restLibm 1 dampedModel movingState).2 1).1 0)
          + specC2 dampedModel.m_alpha (lumpedMass dampedModel.m_tets 1) dampedModel.m_dt
            * rd (elementPass restLibm 1 dampedModel movingState).2.m_curr_U
                (1 * 3 + (0 : Fin 3).val)
          + specC3 dampedModel.m_alpha (lumpedMass dampedModel.m_tets 1) dampedModel.m_dt
            * rd (elementPass restLibm 1 dampedModel movingState).2.m_prev_U
                (1 * 3 + (0 : Fin 3).val) ∧
      ∀ u : ℚ,
        (lumpedMass dampedModel.m_tets 1
              * (u - 2 * rd (elementPass restLibm 1 dampedModel movingState).2.m_curr_U
                      (1 * 3 + (0 : Fin 3).val)
                  + rd (elementPass restLibm 1 dampedModel movingState).2.m_prev_U
                      (1 * 3 + (0 : Fin 3).val)) / dampedModel.m_dt ^ 2
            + dampedModel.m_alpha * lumpedMass dampedModel.m_tets 1
              * (u - rd (elementPass restLibm 1 dampedModel movingState).2.m_prev_U
                      (1 * 3 + (0 : Fin 3).val)) / (2 * dampedModel.m_dt)
          = rd (elementPass restLibm 1 dampedModel movingState).2.m_external_F
                (1 * 3 + (0 : Fin 3).val)
              - (gather dampedModel (elementPass restLibm 1 dampedModel movingState).2 1).1 0) ↔
        u = rd (nodePass restLibm 1 dampedModel
              (elementPass restLibm 1 dampedModel movingState).2).1.m_next_U
            (1 * 3 + (0 : Fin 3).val)) ∧
      rd (nodePass restLibm 1 dampedModel
          (elementPass restLibm 1 dampedModel movingState).2).1.m_next_U 3 = 19397 / 2500 ∧
      specC1 dampedModel.m_alpha (lumpedMass dampedModel.m_tets 1) dampedModel.m_dt = 24 / 5 ∧
      specC2 dampedModel.m_alpha (lumpedMass dampedModel.m_tets 1) dampedModel.m_dt = 8 / 5 ∧
      specC3 dampedModel.m_alpha (lumpedMass dampedModel.m_tets 1) dampedModel.m_dt = -3 / 5 ∧
      rd (elementPass restLibm 1 dampedModel movingState).2.m_external_F 3 = 2 ∧
      (gather dampedModel (elementPass restLibm 1 dampedModel movingState).2 1).1 0
        = 154 / 375 ∧
      rd (elementPass restLibm 1 dampedModel movingState).2.m_curr_U 3 = 1 / 10 ∧
      rd (elementPass restLibm 1 dampedModel movingState).2.m_prev_U 3 = 1 / 20 :=
  ⟨central_difference_update restLibm 1 (Nat.le_refl 1) dampedModel
      (elementPass restLibm 1 dampedModel movingState).2
      (by decide) (by decide!) (by decide!) (by decide!) (by decide!) (by decide!)
      1 (by decide) 0 (by decide!) (by decide!) (by decide!) (by decide!) (by decide!),
    by decide!, by decide!, by decide!, by decide!, by decide!, by decide!, by decide!,
    by decide!⟩

/-- C4, amended (rest state is a fixed point of the step).  Over the values of
`float` with their infinities and NaN (`FVal`), with `isnan` the NaN test,
`sqrt 1 = 1` and `powf 1 (-0.66666667f) = 1`: for a mesh whose elements carry
the constructor's reference gradients, Neo-Hookean or transversely isotropic
with a unit fibre (`A₀₀ + A₁₁ + A₂₂ = 1`), with no expansion or one of the three
expansion types, whose data are finite numbers of moderate size (inverse
Jacobian within `2^22`; `V0`, the conductivities and `T0` within `2^24`; the
mechanical material values within `2^100`; finite expansion values), and for
a state whose constants `c1`, `c2`, `c3` and `A` are finite numbers: if
`prev_U = curr_U = 0`, `curr_T = T0` at every node, there is no external force,
no external heat, no displacement target and no fixed temperature, then
`computeOneStep` reports no divergence, writes `0` in every DOF of `next_U` and
`T0` in every entry of `next_T`, and returns them as the new `curr_U` and
`curr_T`. -/
theorem rest_state_fixed_point (lm : Libm FVal)
    (hsqrt : lm.sqrt 1 = 1) (hpow : lm.powf 1 minusTwoThirds = 1)
    (hnan : ∀ x, lm.isnan x = true ↔ x = FVal.nan)
    (NUM_THREADS : Nat) (hT : 1 ≤ NUM_THREADS) (model : Model FVal)
    (modelstates : ModelStates FVal)
    (hids : ∀ (p : Nat) (tet : T4 FVal), model.m_tets[p]? = some tet → tet.m_idx = p)
    (hnodes : ∀ tet ∈ model.m_tets, ∀ m : Fin 4, tet.m_n_idx m < model.m_nodes.length)
    (hbuilt : ∀ tet ∈ model.m_tets, ∃ n1 n2 n3 n4, tet.builtFrom n1 n2 n3 n4 ∧
      ∀ i j, FVal.within (2 ^ 22)
        ((matInv33 (mat34x34T (DHDr : Mat34 FVal) (n_coords n1 n2 n3 n4))).1 i j) = true)
    (hmat : ∀ tet ∈ model.m_tets, tet.m_M_material_type = "NH" ∨
      (tet.m_M_material_type = "TI" ∧
        rd tet.m_M_material_vals 3 + rd tet.m_M_material_vals 6 + rd tet.m_M_material_vals 8 = 1))
    (hexp : ∀ tet ∈ model.m_tets, tet.m_T_expan_vals.length = 0 ∨
      tet.m_T_expan_type = "T_EXPAN_ISO" ∨ tet.m_T_expan_type = "T_EXPAN_TI" ∨
      tet.m_T_expan_type = "T_EXPAN_ORTHO")
    (hdata : ∀ tet ∈ model.m_tets, FVal.within (2 ^ 24) tet.m_Vol = true ∧
      (∀ i j, FVal.within (2 ^ 24) (tet.m_D i j) = true) ∧
      (∀ v ∈ tet.m_M_material_vals, FVal.within (2 ^ 100) v = true) ∧
      ∀ v ∈ tet.m_T_expan_vals, FVal.isFinite v = true)
    (hT0 : FVal.within (2 ^ 24) model.m_T0 = true)
    (hconst : ∀ k, k < model.m_nodes.length * 3 →
      FVal.isFinite (rd modelstates.m_central_diff_const1 k) = true ∧
      FVal.isFinite (rd modelstates.m_central_diff_const2 k) = true ∧
      FVal.isFinite (rd modelstates.m_central_diff_const3 k) = true)
    (hA : ∀ i, i < model.m_nodes.length → FVal.isFinite (rd modelstates.m_constA i) = true)
    (hF : modelstates.m_ele_nodal_internal_F.length = model.m_tets.length * 12)
    (hQ : modelstates.m_ele_nodal_internal_Q.length = model.m_tets.length * 4)
    (hU : modelstates.m_next_U.length = model.m_nodes.length * 3)
    (hTl : modelstates.m_next_T.length = model.m_nodes.length)
    (hprev : ∀ k, rd modelstates.m_prev_U k = 0) (hcurr : ∀ k, rd modelstates.m_curr_U k = 0)
    (htemp : ∀ i, i < model.m_nodes.length → rd modelstates.m_curr_T i = model.m_T0)
    (hextF : ∀ k, rd modelstates.m_external_F k = 0)
    (hextQ : ∀ i, rd modelstates.m_external_Q i = 0)
    (hdisp : ∀ k, rd modelstates.m_disp_mag_t k = 0)
    (hfixT : ∀ i, modelstates.m_fixT_flag.getD i false = false) :
    (computeOneStep lm NUM_THREADS model modelstates).no_err = true ∧
      (∀ i, i < model.m_nodes.length → ∀ j : Fin 3,
        rd (nodePass lm NUM_THREADS
              { model with m_tets := (elementPass lm NUM_THREADS model modelstates).1 }
              (elementPass lm NUM_THREADS model modelstates).2).1.m_next_U (i * 3 + j.val) = 0 ∧
        rd (computeOneStep lm NUM_THREADS model modelstates).modelstates.m_curr_U
            (i * 3 + j.val) = 0) ∧
      (∀ i, i < model.m_nodes.length →
        rd (nodePass lm NUM_THREADS
              { model with m_tets := (elementPass lm NUM_THREADS model modelstates).1 }
              (elementPass lm NUM_THREADS model modelstates).2).1.m_next_T i = model.m_T0 ∧
        rd (computeOneStep lm NUM_THREADS model modelstates).modelstates.m_curr_T i
          = model.m_T0) := by
  have hwithin0 : ∀ B : ℚ, 0 ≤ B → FVal.within B 0 = true := by
    intro B hB
    show decide (|(0 : ℚ)| ≤ B) = true
    rw [abs_zero]
    exact decide_eq_true hB
  have hrdw : ∀ (B : ℚ) (l : List FVal), 0 ≤ B → (∀ v ∈ l, FVal.within B v = true) →
      ∀ k, FVal.within B (rd l k) = true := by
    intro B l hB h k
    unfold rd
    by_cases hk : k < l.length
    · rw [List.getD_eq_getElem _ _ hk]
      exact h _ (List.getElem_mem hk)
    · rw [List.getD_eq_default _ _ (by omega)]
      exact hwithin0 B hB
  have hrdf : ∀ l : List FVal, (∀ v ∈ l, FVal.isFinite v = true) →
      ∀ k, FVal.isFinite (rd l k) = true := by
    intro l h k
    unfold rd
    by_cases hk : k < l.length
    · rw [List.getD_eq_getElem _ _ hk]
      exact h _ (List.getElem_mem hk)
    · rw [List.getD_eq_default _ _ (by omega)]
      rfl
  -- the element pass
  have hker : ∀ tet ∈ model.m_tets,
      (elementKernel lm model.m_T0 modelstates.m_curr_U modelstates.m_curr_T tet).f
          = (fun _ _ => 0) ∧
        (elementKernel lm model.m_T0 modelstates.m_curr_U modelstates.m_curr_T tet).q
          = (fun _ => 0) := by
    intro tet ht
    obtain ⟨n1, n2, n3, n4, hb, hJ⟩ := hbuilt tet ht
    obtain ⟨d1, d2, d3, d4⟩ := hdata tet ht
    exact elementKernel_restF lm hsqrt hpow model.m_T0 hT0 _ _ tet n1 n2 n3 n4 hb hJ hcurr
      (fun m => htemp _ (hnodes tet ht m)) (hmat tet ht) (hexp tet ht) d1 d2
      (hrdw _ _ (by positivity) d3) (hrdf _ d4)
  obtain ⟨hbF, hbQ⟩ := elementPass_zeroF lm NUM_THREADS hT model modelstates hids hF hQ hker
  have hgather : ∀ i, gatherOf lm NUM_THREADS model modelstates i = (fun _ => 0, 0) :=
    fun i => gather_zeroF _ _ i hbF hbQ
  -- the node pass
  obtain ⟨t, ht0, htb⟩ := (FVal.within_iff _ _).1 hT0
  have hM : (2 : ℚ) ^ 24 ≤ FLT_MAX := two_pow_le_FLT_MAX 24 (by norm_num)
  obtain ⟨-, n4, n5, n6⟩ := nodePassOf_spec lm NUM_THREADS hT model modelstates hU hTl
  have hUv : ∀ i, i < model.m_nodes.length → ∀ j : Fin 3,
      nextUValue modelstates (gatherOf lm NUM_THREADS model modelstates i).1 i j = 0 := by
    intro i hi j
    have hk : i * 3 + j.val < model.m_nodes.length * 3 := by have := j.isLt; omega
    obtain ⟨k1, k2, k3⟩ := hconst _ hk
    obtain ⟨c1, e1⟩ := (FVal.isFinite_iff _).1 k1
    obtain ⟨c2, e2⟩ := (FVal.isFinite_iff _).1 k2
    obtain ⟨c3, e3⟩ := (FVal.isFinite_iff _).1 k3
    rw [hgather i]
    unfold nextUValue
    simp only [hdisp, hextF, hcurr, hprev, ne_eq, not_true_eq_false, if_false, e1, e2, e3,
      FVal.zero_sub_zero, FVal.fin_mul_zero, FVal.zero_add_zero, ite_self]
  have hTv : ∀ i, i < model.m_nodes.length →
      nextTValue modelstates (gatherOf lm NUM_THREADS model modelstates i).2 i = model.m_T0 := by
    intro i hi
    obtain ⟨a, ea⟩ := (FVal.isFinite_iff _).1 (hA i hi)
    rw [hgather i]
    unfold nextTValue
    simp only [hfixT, hextQ, htemp i hi, Bool.false_eq_true, if_false, ea, FVal.zero_sub_zero,
      FVal.fin_mul_zero]
    rw [ht0]
    exact FVal.fin_add_zero t (le_trans htb hM)
  have hne : (nodePassOf lm NUM_THREADS model modelstates).2 = true := by
    rw [n6]
    intro i hi
    refine ⟨fun j _ => ?_, fun _ => ?_⟩
    · rw [hUv i hi j]
      cases h : lm.isnan 0
      · rfl
      · exact absurd ((hnan 0).1 h) (by decide)
    · rw [hTv i hi, ht0]
      cases h : lm.isnan (FVal.fin t)
      · rfl
      · exact absurd ((hnan _).1 h) (by simp)
  have hUval : ∀ i, i < model.m_nodes.length → ∀ j : Fin 3,
      rd (nodePassOf lm NUM_THREADS model modelstates).1.m_next_U (i * 3 + j.val) = 0 :=
    fun i hi j => (n4 i hi j).trans (hUv i hi j)
  have hTval : ∀ i, i < model.m_nodes.length →
      rd (nodePassOf lm NUM_THREADS model modelstates).1.m_next_T i = model.m_T0 :=
    fun i hi => (n5 i hi).trans (hTv i hi)
  rw [computeOneStep_ok lm NUM_THREADS model modelstates hne]
  exact ⟨rfl, fun i hi j => ⟨hUval i hi j, hUval i hi j⟩, fun i hi => ⟨hTval i hi, hTval i hi⟩⟩

/-- Witness of the amended C4: the two-element mesh `restTwoTetF` (a Neo-Hookean
element and a transversely isotropic element with isotropic expansion, damping
`1/2`, time step `1/10`) right after the construction of its state is at rest;
the step reports no divergence and returns zero displacement and the reference
temperature at node 4, whose constants are `c1 = 24/205` and `A = 3/10`. -/
theorem rest_state_fixed_point_witness :
    (computeOneStep restLibmF 1 restTwoTetF (ModelStates.new restTwoTetF)).no_err = true ∧
      rd (computeOneStep restLibmF 1 restTwoTetF
          (ModelStates.new restTwoTetF)).modelstates.m_curr_U (4 * 3 + (2 : Fin 3).val) = 0 ∧
      rd (computeOneStep restLibmF 1 restTwoTetF
          (ModelStates.new restTwoTetF)).modelstates.m_curr_T 4 = 37 ∧
      rd (ModelStates.new restTwoTetF).m_central_diff_const1 12 = FVal.fin (24 / 205) ∧
      rd (ModelStates.new restTwoTetF).m_constA 4 = FVal.fin (3 / 10) :=
  have h := rest_state_fixed_point restLibmF rfl rfl (fun x => by simp [restLibmF]) 1
    (Nat.le_refl 1) restTwoTetF (ModelStates.new restTwoTetF)
    (by
      intro p tet h
      have e : restTwoTetF.m_tets.length = 2 := rfl
      have hp : p < 2 := by
        rw [← e]
        exact (List.getElem?_eq_some_iff.1 h).1
      match p, hp with
      | 0, _ =>
        simp only [restTwoTetF, Model.postCreate, List.getElem?_cons_zero,
          Option.some.injEq] at h
        subst h
        rfl
      | 1, _ =>
        simp only [restTwoTetF, Model.postCreate, List.getElem?_cons_succ,
          List.getElem?_cons_zero, Option.some.injEq] at h
        subst h
        rfl)
    (by
      intro tet h m
      rcases restTwoTetF_tets tet h with rfl | rfl <;> fin_cases m <;> decide)
    (by
      intro tet h
      rcases restTwoTetF_tets tet h with rfl | rfl
      · exact ⟨_, _, _, _, ⟨rfl, fun _ _ _ _ => rfl⟩, by decide!⟩
      · exact ⟨_, _, _, _, ⟨rfl, fun _ _ _ _ => rfl⟩, by decide!⟩)
    (by
      intro tet h
      rcases restTwoTetF_tets tet h with rfl | rfl
      · exact Or.inl rfl
      · exact Or.inr ⟨rfl, by decide!⟩)
    (by
      intro tet h
      rcases restTwoTetF_tets tet h with rfl | rfl
      · exact Or.inl rfl
      · exact Or.inr (Or.inl rfl))
    (by
      intro tet h
      rcases restTwoTetF_tets tet h with rfl | rfl <;> decide!)
    (by decide!) (by decide!) (by decide!) rfl rfl rfl rfl
    (fun k => rd_replicate_zero _ k) (fun k => rd_replicate_zero _ k)
    (fun i hi => rd_replicate _ i _ hi)
    (fun k => rd_replicate_zero _ k) (fun k => rd_replicate_zero _ k)
    (fun k => rd_replicate_zero _ k)
    (by intro i; simp [ModelStates.new, List.getD_eq_getElem?_getD, List.getElem?_replicate]
        split_ifs <;> rfl)
  ⟨h.1, (h.2.1 4 (by decide) 2).2, (h.2.2 4 (by decide)).2, by decide!, by decide!⟩

/-- Counterexample to C4 as stated: the one-element model with `alpha = -2` and
`dt = 1` meets the preconditions of the claim (`V0 = 1/6`, element mass `1/6`,
Neo-Hookean, `dt = 1`, `c = 1`, state at rest, no load, no condition); its
constant `c1` is `1 / 0 = +inf`, the node pass writes NaN into `m_next_U[0]`
and the step reports divergence.  So does the step of `stiffModelF`, at rest
too, whose shear modulus `2^127` makes `3 * mu` overflow. -/
theorem rest_state_fixed_point_counterexample :
    ((restModelF (.fin (-2)) 1).m_tets.map fun tet =>
          (tet.m_Vol, tet.m_mass, tet.m_M_material_type))
        = [(FVal.fin (1 / 6), FVal.fin (1 / 6), "NH")] ∧
      (restModelF (.fin (-2)) 1).m_dt = 1 ∧
      rd (restModelF (.fin (-2)) 1).m_T_material_vals 0 = 1 ∧
      (ModelStates.new (restModelF (.fin (-2)) 1)).m_curr_U = List.replicate 12 0 ∧
      (ModelStates.new (restModelF (.fin (-2)) 1)).m_prev_U = List.replicate 12 0 ∧
      (ModelStates.new (restModelF (.fin (-2)) 1)).m_curr_T = List.replicate 4 37 ∧
      (ModelStates.new (restModelF (.fin (-2)) 1)).m_external_F = List.replicate 12 0 ∧
      (ModelStates.new (restModelF (.fin (-2)) 1)).m_external_Q = List.replicate 4 0 ∧
      rd (ModelStates.new (restModelF (.fin (-2)) 1)).m_central_diff_const1 0 = FVal.pinf ∧
      rd (nodePassOf restLibmF 1 (restModelF (.fin (-2)) 1)
          (ModelStates.new (restModelF (.fin (-2)) 1))).1.m_next_U 0 = FVal.nan ∧
      (computeOneStep restLibmF 1 (restModelF (.fin (-2)) 1)
          (ModelStates.new (restModelF (.fin (-2)) 1))).no_err = false ∧
      (computeOneStep restLibmF 1 stiffModelF (ModelStates.new stiffModelF)).no_err = false := by
  decide!

/-- C5, amended (FixP invariance).  For a mechanical DOF listed in a FixP
condition whose displacement target `m_disp_mag_t` is zero, in any state whose
flags are those `initBC` set: the node pass writes `0` into `m_next_U` at that
DOF, a successful `computeOneStep` returns it in `m_curr_U`, and the step
leaves the flags as they are. -/
theorem fixP_invariance {α : Type} [Add α] [Sub α] [Mul α] [Div α] [Neg α] [Zero α] [One α]
    [NatCast α] [DecidableEq α] (lm : Libm α) (NUM_THREADS : Nat) (hT : 1 ≤ NUM_THREADS)
    (model : Model α) (ms0 modelstates : ModelStates α)
    (hflag : modelstates.m_fixP_flag = (initBC model ms0).m_fixP_flag)
    (hlen0 : ms0.m_fixP_flag.length = model.m_nodes.length * 3)
    (hU : modelstates.m_next_U.length = model.m_nodes.length * 3)
    (hTl : modelstates.m_next_T.length = model.m_nodes.length)
    (node : Nat) (hnode : node < model.m_nodes.length) (j : Fin 3)
    (hlisted : (j = 0 ∧ node ∈ model.m_fixP_idx_x) ∨ (j = 1 ∧ node ∈ model.m_fixP_idx_y)
      ∨ (j = 2 ∧ node ∈ model.m_fixP_idx_z))
    (hnodisp : rd modelstates.m_disp_mag_t (node * 3 + j.val) = 0) :
    rd (nodePassOf lm NUM_THREADS model modelstates).1.m_next_U (node * 3 + j.val) = 0 ∧
      ((computeOneStep lm NUM_THREADS model modelstates).no_err = true →
        rd (computeOneStep lm NUM_THREADS model modelstates).modelstates.m_curr_U
          (node * 3 + j.val) = 0) ∧
      (computeOneStep lm NUM_THREADS model modelstates).modelstates.m_fixP_flag
        = modelstates.m_fixP_flag := by
  obtain ⟨⟨F, Q, U, T, hfr⟩, hval, -, -⟩ :=
    nodePassOf_spec lm NUM_THREADS hT model modelstates hU hTl
  have hset : modelstates.m_fixP_flag.getD (node * 3 + j.val) false = true := by
    rw [hflag, initBC_fixP_flag]
    right
    refine ⟨by have := j.isLt; omega, ?_⟩
    rcases hlisted with ⟨rfl, h⟩ | ⟨rfl, h⟩ | ⟨rfl, h⟩
    · exact Or.inl ⟨node, h, rfl⟩
    · exact Or.inr (Or.inl ⟨node, h, rfl⟩)
    · exact Or.inr (Or.inr ⟨node, h, rfl⟩)
  have h0 : rd (nodePassOf lm NUM_THREADS model modelstates).1.m_next_U (node * 3 + j.val) = 0 := by
    rw [hval node hnode j]
    unfold nextUValue
    simp only [hnodisp, ne_eq, not_true_eq_false, if_false, hset, if_true]
  refine ⟨h0, ?_, ?_⟩
  · intro hne
    rw [computeOneStep_no_err] at hne
    rw [computeOneStep_ok lm NUM_THREADS model modelstates hne]
    exact h0
  · cases hne : (nodePassOf lm NUM_THREADS model modelstates).2
    · rw [computeOneStep_diverged lm NUM_THREADS model modelstates hne, hfr]
      rfl
    · rw [computeOneStep_ok lm NUM_THREADS model modelstates hne, hfr]
      rfl

/-- Witness of the amended C5 on the static pull: DOF x of the fixed node 0,
first step. -/
theorem fixP_invariance_witness :
    rd (nodePassOf restLibm 1 pullModel
          (computeRunTimeBC pullModel (initBC pullModel (ModelStates.new pullModel)) 0)).1.m_next_U
        (0 * 3 + (0 : Fin 3).val) = 0 :=
  (fixP_invariance restLibm 1 (Nat.le_refl 1) pullModel (ModelStates.new pullModel)
    (computeRunTimeBC pullModel (initBC pullModel (ModelStates.new pullModel)) 0)
    rfl rfl rfl rfl 0 (by decide) 0 (Or.inl ⟨rfl, by decide⟩) (by decide)).1

/-- Counterexample to C5 as stated: in `dispFixModel` the DOF x of node 3 is
listed in a FixP condition and in a Disp condition; the first step writes the
displacement target `1/10`, not `0`, into `m_next_U[9]` and returns it in
`m_curr_U[9]`. -/
theorem fixP_invariance_counterexample :
    3 ∈ dispFixModel.m_fixP_idx_x ∧
      rd (nodePassOf restLibm 1 dispFixModel
            (computeRunTimeBC dispFixModel (initBC dispFixModel (ModelStates.new dispFixModel))
              0)).1.m_next_U 9 = 1 / 10 ∧
      (computeOneStep restLibm 1 dispFixModel
          (computeRunTimeBC dispFixModel (initBC dispFixModel (ModelStates.new dispFixModel))
            0)).no_err = true ∧
      rd (computeOneStep restLibm 1 dispFixModel
          (computeRunTimeBC dispFixModel (initBC dispFixModel (ModelStates.new dispFixModel))
            0)).modelstates.m_curr_U 9 = 1 / 10 := by
  have hne := restLibm_no_err dispFixModel
    (computeRunTimeBC dispFixModel (initBC dispFixModel (ModelStates.new dispFixModel)) 0)
    rfl rfl
  have hd : rd (computeRunTimeBC dispFixModel (initBC dispFixModel (ModelStates.new dispFixModel))
      0).m_disp_mag_t 9 = 1 / 10 := by
    show (1 / 10 : ℚ) * (((0 + 1 : ℕ) : ℚ) * 1 / 1) = 1 / 10
    norm_num
  have hv := (nodePassOf_spec restLibm 1 (Nat.le_refl 1) dispFixModel
    (computeRunTimeBC dispFixModel (initBC dispFixModel (ModelStates.new dispFixModel)) 0)
    rfl rfl).2.1 3 (by decide) 0
  have h9 : rd (nodePassOf restLibm 1 dispFixModel
      (computeRunTimeBC dispFixModel (initBC dispFixModel (ModelStates.new dispFixModel))
        0)).1.m_next_U 9 = 1 / 10 := by
    have e : (3 * 3 + (0 : Fin 3).val) = 9 := rfl
    rw [e] at hv
    rw [hv]
    simp only [nextUValue, e, hd]
    norm_num
  refine ⟨by decide, h9, ?_, ?_⟩
  · rw [computeOneStep_no_err]
    exact hne
  · rw [computeOneStep_ok _ _ _ _ hne]
    exact h9

/-- C6 (FixT invariance).  For a node listed in a FixT condition, entry `p` of
the model with value `m_fixT_mag[p]`, the node having this one fixed value (no
later entry lists the node again), in any state whose FixT flags and magnitudes
are those `initBC` set: the node pass writes that value into `m_next_T` at the
node, whatever the heat loads, conduction and temperatures are, a successful
`computeOneStep` returns it in `m_curr_T`, and the step leaves the FixT flags
and magnitudes as they are, so the same holds after every later step. -/
theorem fixT_invariance {α : Type} [Add α] [Sub α] [Mul α] [Div α] [Neg α] [Zero α] [One α]
    [NatCast α] [DecidableEq α] (lm : Libm α) (NUM_THREADS : Nat) (hT : 1 ≤ NUM_THREADS)
    (model : Model α) (ms0 modelstates : ModelStates α)
    (hflag : modelstates.m_fixT_flag = (initBC model ms0).m_fixT_flag)
    (hmag : modelstates.m_fixT_mag = (initBC model ms0).m_fixT_mag)
    (hlenf : ms0.m_fixT_flag.length = model.m_nodes.length)
    (hlenm : ms0.m_fixT_mag.length = model.m_nodes.length)
    (hU : modelstates.m_next_U.length = model.m_nodes.length * 3)
    (hTl : modelstates.m_next_T.length = model.m_nodes.length)
    (p : Nat) (hp : p < model.m_fixT_idx.length)
    (hnode : model.m_fixT_idx.getD p 0 < model.m_nodes.length)
    (hlast : ∀ q, p < q → q < model.m_fixT_idx.length →
      model.m_fixT_idx.getD q 0 ≠ model.m_fixT_idx.getD p 0) :
    rd (nodePassOf lm NUM_THREADS model modelstates).1.m_next_T (model.m_fixT_idx.getD p 0)
        = rd model.m_fixT_mag p ∧
      ((computeOneStep lm NUM_THREADS model modelstates).no_err = true →
        rd (computeOneStep lm NUM_THREADS model modelstates).modelstates.m_curr_T
          (model.m_fixT_idx.getD p 0) = rd model.m_fixT_mag p) ∧
      (computeOneStep lm NUM_THREADS model modelstates).modelstates.m_fixT_flag
        = modelstates.m_fixT_flag ∧
      (computeOneStep lm NUM_THREADS model modelstates).modelstates.m_fixT_mag
        = modelstates.m_fixT_mag := by
  obtain ⟨⟨F, Q, U, T, hfr⟩, -, hval, -⟩ :=
    nodePassOf_spec lm NUM_THREADS hT model modelstates hU hTl
  obtain ⟨hset, hm⟩ := initBC_fixT model ms0 p hp hlast (by rw [hlenf]; exact hnode)
    (by rw [hlenm]; exact hnode)
  have h0 : rd (nodePassOf lm NUM_THREADS model modelstates).1.m_next_T
      (model.m_fixT_idx.getD p 0) = rd model.m_fixT_mag p := by
    rw [hval _ hnode]
    unfold nextTValue
    rw [hflag, hmag, if_pos hset, hm]
  refine ⟨h0, ?_, ?_, ?_⟩
  · intro hne
    rw [computeOneStep_no_err] at hne
    rw [computeOneStep_ok lm NUM_THREADS model modelstates hne]
    exact h0
  · cases hne : (nodePassOf lm NUM_THREADS model modelstates).2
    · rw [computeOneStep_diverged lm NUM_THREADS model modelstates hne, hfr]
      rfl
    · rw [computeOneStep_ok lm NUM_THREADS model modelstates hne, hfr]
      rfl
  · cases hne : (nodePassOf lm NUM_THREADS model modelstates).2
    · rw [computeOneStep_diverged lm NUM_THREADS model modelstates hne, hfr]
      rfl
    · rw [computeOneStep_ok lm NUM_THREADS model modelstates hne, hfr]
      rfl

/-- Witness of C6: node 0 of `fixTModel`, held at 47 while `T0 = 37`, first
step. -/
theorem fixT_invariance_witness :
    rd (nodePassOf restLibm 1 fixTModel
          (computeRunTimeBC fixTModel (initBC fixTModel (ModelStates.new fixTModel)) 0)).1.m_next_T
        (fixTModel.m_fixT_idx.getD 0 0) = rd fixTModel.m_fixT_mag 0 :=
  (fixT_invariance restLibm 1 (Nat.le_refl 1) fixTModel (ModelStates.new fixTModel)
    (computeRunTimeBC fixTModel (initBC fixTModel (ModelStates.new fixTModel)) 0)
    rfl rfl rfl rfl rfl rfl 0 (by decide) (by decide)
    (by intro q h1 h2; simp only [fixTModel, List.length_singleton] at h2; omega)).1

/-- C7, amended (Disp ramp reaches its target).  For a Disp entry `p` of axis
`j` with magnitude `u ≠ 0` that is the last entry listing its node, with
nonzero `dt` and `total_t`, in exact arithmetic: at step index `n`
`computeRunTimeBC` sets the target of the DOF `node * 3 + j` to
`u · (n + 1) · dt / total_t`, the node pass writes that target into `m_next_U`,
and, when `total_t = num_steps · dt > 0` and the run returns a state, the
displacement `m_curr_U` of that DOF in the returned state equals `u`. -/
theorem disp_ramp_reaches_target {α : Type} [LinearOrderedField α] (lm : Libm α)
    (NUM_THREADS : Nat) (hT : 1 ≤ NUM_THREADS) (model : Model α)
    (hD : model.m_num_M_DOFs = model.m_nodes.length * 3)
    (hTD : model.m_num_T_DOFs = model.m_nodes.length)
    (j : Fin 3) (p : Nat) (hp : p < (model.dispIdx j).length)
    (hnode : (model.dispIdx j).getD p 0 < model.m_nodes.length)
    (hlast : ∀ q, p < q → q < (model.dispIdx j).length →
      (model.dispIdx j).getD q 0 ≠ (model.dispIdx j).getD p 0)
    (hu : rd (model.dispMag j) p ≠ 0) (hdt : model.m_dt ≠ 0) (htt : model.m_total_t ≠ 0) :
    (∀ (modelstates : ModelStates α) (n : Nat), modelstates.sized model.m_nodes.length →
      rd (computeRunTimeBC model modelstates n).m_disp_mag_t
            ((model.dispIdx j).getD p 0 * 3 + j.val)
          = rd (model.dispMag j) p * (((n + 1 : ℕ) : α) * model.m_dt / model.m_total_t) ∧
        rd (nodePassOf lm NUM_THREADS model (computeRunTimeBC model modelstates n)).1.m_next_U
            ((model.dispIdx j).getD p 0 * 3 + j.val)
          = rd (model.dispMag j) p * (((n + 1 : ℕ) : α) * model.m_dt / model.m_total_t)) ∧
      (∀ s : ModelStates α, 0 < model.m_total_t →
        model.m_total_t = (model.m_num_steps : α) * model.m_dt →
        (runSimulation lm NUM_THREADS model).modelstates = some s →
        rd s.m_curr_U ((model.dispIdx j).getD p 0 * 3 + j.val) = rd (model.dispMag j) p) := by
  refine ⟨fun ms n hs => disp_step lm NUM_THREADS hT model ms n hs j p hp hnode hlast hu hdt htt,
    ?_⟩
  intro s hpos htot hrun
  -- there is at least one step
  have hsteps : model.m_num_steps ≠ 0 := by
    intro h0
    rw [h0] at htot
    simp only [Nat.cast_zero, zero_mul] at htot
    exact htt htot
  obtain ⟨todo, htodo⟩ := Nat.exists_eq_succ_of_ne_zero hsteps
  -- the invariant of the run
  have hinit : model.sameData model ∧
      (initBC model (ModelStates.new model)).sized model.m_nodes.length :=
    ⟨⟨model.m_tets, rfl⟩, by
      refine ⟨?_, ?_, ?_, ?_, ?_, ?_⟩ <;>
        simp [initBC, ModelStates.new, hD, hTD]⟩
  have hstep : ∀ (model' : Model α) (ms : ModelStates α) (k : Nat),
      (model.sameData model' ∧ ms.sized model.m_nodes.length) →
      (computeOneStep lm NUM_THREADS model' (computeRunTimeBC model' ms k)).no_err = true →
      (model.sameData (computeOneStep lm NUM_THREADS model'
          (computeRunTimeBC model' ms k)).model ∧
        (computeOneStep lm NUM_THREADS model'
          (computeRunTimeBC model' ms k)).modelstates.sized model.m_nodes.length) := by
    intro model' ms k hi hne
    obtain ⟨i1, i2, -, -⟩ := computeOneStep_inv lm NUM_THREADS hT model model'
      (computeRunTimeBC model' ms k) hi.1 (computeRunTimeBC_sized model' ms k _ hi.2) hne
    exact ⟨i1, i2⟩
  unfold runSimulation at hrun
  rw [htodo] at hrun
  obtain ⟨model', ms', ⟨hM, hsz⟩, hne, hs⟩ :=
    simulationLoop_last lm NUM_THREADS
      (fun m ms => model.sameData m ∧ ms.sized model.m_nodes.length) hstep todo 0 0 model
      (initBC model (ModelStates.new model)) s hinit hrun
  obtain ⟨f1, f2, f3, f4, f5⟩ := sameData_fields model model' hM
  obtain ⟨-, -, hcu, -⟩ := computeOneStep_inv lm NUM_THREADS hT model model'
    (computeRunTimeBC model' ms' (0 + todo)) hM
    (computeRunTimeBC_sized model' ms' (0 + todo) _ hsz) hne
  have hd := (disp_step lm NUM_THREADS hT model' ms' (0 + todo) (by rw [f1]; exact hsz) j p
    (by rw [f2]; exact hp) (by rw [f2, f1]; exact hnode) (by rw [f2]; exact hlast)
    (by rw [f3]; exact hu) (by rw [f4]; exact hdt) (by rw [f5]; exact htt)).2
  rw [f2, f3, f4, f5] at hd
  rw [hs, hcu, hd]
  have hcast : ((0 + todo + 1 : ℕ) : α) = (model.m_num_steps : α) := by
    rw [htodo]
    congr 1
    omega
  rw [hcast, ← htot, div_self htt, mul_one]

/-- Witness of the amended C7 on the static pull: the Disp entry of node 3,
axis x, at the first step. -/
theorem disp_ramp_reaches_target_witness :
    rd (computeRunTimeBC pullModel (initBC pullModel (ModelStates.new pullModel)) 0).m_disp_mag_t
          ((pullModel.dispIdx 0).getD 0 0 * 3 + (0 : Fin 3).val)
        = rd (pullModel.dispMag 0) 0 * (((0 + 1 : ℕ) : ℚ) * pullModel.m_dt / pullModel.m_total_t) ∧
      rd (nodePassOf restLibm 1 pullModel
            (computeRunTimeBC pullModel (initBC pullModel (ModelStates.new pullModel)) 0)).1.m_next_U
          ((pullModel.dispIdx 0).getD 0 0 * 3 + (0 : Fin 3).val)
        = rd (pullModel.dispMag 0) 0 * (((0 + 1 : ℕ) : ℚ) * pullModel.m_dt / pullModel.m_total_t) :=
  (disp_ramp_reaches_target restLibm 1 (Nat.le_refl 1) pullModel rfl rfl 0 0 (by decide)
    (by decide) (by intro q h1 h2; simp only [Model.dispIdx, pullModel, List.length_singleton] at h2
                    omega)
    (by show (1 / 10 : ℚ) ≠ 0; norm_num) (by show (1 / 2 : ℚ) ≠ 0; norm_num)
    (by show (1 : ℚ) ≠ 0; norm_num)).1
    (initBC pullModel (ModelStates.new pullModel)) 0 ⟨rfl, rfl, rfl, rfl, rfl, rfl⟩

/-- Counterexample to C7 as stated: `zeroDispModel` has the condition
Disp(x, 0, node 3), `total_t = num_steps · dt = 1` and gravity along x.  The
target of DOF 9 is `0`, the node pass does not write it but integrates the DOF:
it writes `1` into `m_next_U[9]`, and the run, which does not diverge, ends with
displacement `1`, not `0`. -/
theorem disp_ramp_reaches_target_counterexample :
    (3, (0 : ℚ)) ∈ zeroDispModel.m_disp_idx_x.zip zeroDispModel.m_disp_mag_x ∧
      zeroDispModel.m_total_t = (zeroDispModel.m_num_steps : ℚ) * zeroDispModel.m_dt ∧
      0 < zeroDispModel.m_total_t ∧
      rd (computeRunTimeBC zeroDispModel (initBC zeroDispModel (ModelStates.new zeroDispModel))
        0).m_disp_mag_t 9 = 0 ∧
      rd (nodePassOf restLibm 1 zeroDispModel
          (computeRunTimeBC zeroDispModel (initBC zeroDispModel (ModelStates.new zeroDispModel))
            0)).1.m_next_U 9 = 1 ∧
      (runSimulation restLibm 1 zeroDispModel).modelstates.map (fun s => rd s.m_curr_U 9)
        = some 1 := by
  have hne := restLibm_no_err zeroDispModel
    (computeRunTimeBC zeroDispModel (initBC zeroDispModel (ModelStates.new zeroDispModel)) 0)
    rfl rfl
  have hv := (nodePassOf_spec restLibm 1 (Nat.le_refl 1) zeroDispModel
    (computeRunTimeBC zeroDispModel (initBC zeroDispModel (ModelStates.new zeroDispModel)) 0)
    rfl rfl).2.1 3 (by decide) 0
  have e : (3 * 3 + (0 : Fin 3).val) = 9 := rfl
  rw [e] at hv
  have hd : rd (computeRunTimeBC zeroDispModel (initBC zeroDispModel
      (ModelStates.new zeroDispModel)) 0).m_disp_mag_t 9 = 0 := by
    show (0 : ℚ) * (((0 + 1 : ℕ) : ℚ) * 1 / 1) = 0
    norm_num
  have hfix : (computeRunTimeBC zeroDispModel (initBC zeroDispModel
      (ModelStates.new zeroDispModel)) 0).m_fixP_flag.getD 9 false = false := by decide
  have hext : rd (computeRunTimeBC zeroDispModel (initBC zeroDispModel
      (ModelStates.new zeroDispModel)) 0).m_external_F 9 = 1 / 24 := by
    show (0 : ℚ) + 1 / 24 = 1 / 24
    norm_num
  have hcu : rd (computeRunTimeBC zeroDispModel (initBC zeroDispModel
      (ModelStates.new zeroDispModel)) 0).m_curr_U 9 = 0 := rd_replicate_zero _ _
  have hpu : rd (computeRunTimeBC zeroDispModel (initBC zeroDispModel
      (ModelStates.new zeroDispModel)) 0).m_prev_U 9 = 0 := rd_replicate_zero _ _
  have hc1 : rd (computeRunTimeBC zeroDispModel (initBC zeroDispModel
      (ModelStates.new zeroDispModel)) 0).m_central_diff_const1 9 = 24 := by
    have h1 := (centralDiffConsts_rd zeroDispModel 9 (by decide)).1
    have h2 := (cdConst_eq_spec zeroDispModel (nodal_M_mass zeroDispModel) 9).1
    have h3 := nodal_M_mass_rd zeroDispModel 3 0 (by decide)
    rw [e, show zeroDispModel.m_tets = unitModel.m_tets from rfl,
      unitModel_lumpedMass 3 (by decide)] at h3
    rw [h3] at h2
    show rd (centralDiffConsts zeroDispModel).1 9 = 24
    rw [h1, h2]
    show specC1 (0 : ℚ) (1 / 24) 1 = 24
    unfold specC1
    norm_num
  have h9 : rd (nodePassOf restLibm 1 zeroDispModel
      (computeRunTimeBC zeroDispModel (initBC zeroDispModel (ModelStates.new zeroDispModel))
        0)).1.m_next_U 9 = 1 := by
    rw [hv, zeroDispModel_gather 3 (by decide)]
    simp only [nextUValue, e, hd, hfix, hext, hcu, hpu, hc1]
    norm_num
  refine ⟨by simp [zeroDispModel], by show (1 : ℚ) = ((1 : ℕ) : ℚ) * 1; norm_num,
    by show (0 : ℚ) < 1; norm_num, hd, h9, ?_⟩
  have hno : (computeOneStep restLibm 1 zeroDispModel
      (computeRunTimeBC zeroDispModel (initBC zeroDispModel (ModelStates.new zeroDispModel))
        0)).no_err = true := by
    rw [computeOneStep_no_err]
    exact hne
  have hrun : runSimulation restLibm 1 zeroDispModel
      = simulationLoop restLibm 1 (0 + 1) 0 0 zeroDispModel
          (initBC zeroDispModel (ModelStates.new zeroDispModel)) := rfl
  rw [hrun, simulationLoop_succ, if_neg (by rw [hno]; decide)]
  simp only [simulationLoop, Option.map_some']
  rw [computeOneStep_ok _ _ _ _ hne]
  exact congrArg some h9

/-- C8 (amended).  Over the float model `FVal`, for any libm whose `isnan` is the
NaN test, any thread count `≥ 1` and any state with `m_next_U` and `m_next_T`
of the sizes of the model: `computeOneStep` returns false exactly when a value
the node pass computed in an integration branch and wrote is NaN, that is a
`next_U` value of a DOF with zero displacement target and no FixP flag, or a
`next_T` value of a node without FixT flag; and it returns true when every
`next_U` and `next_T` value the node pass wrote is finite.  The values are read
from the state the node pass leaves, before the histories are rotated. -/
theorem divergence_detection (lm : Libm FVal) (hnan : ∀ x, lm.isnan x = true ↔ x = FVal.nan)
    (NUM_THREADS : Nat) (hT : 1 ≤ NUM_THREADS) (model : Model FVal) (modelstates : ModelStates FVal)
    (hU : modelstates.m_next_U.length = model.m_nodes.length * 3)
    (hTl : modelstates.m_next_T.length = model.m_nodes.length) :
    ((computeOneStep lm NUM_THREADS model modelstates).no_err = false ↔
      ∃ i, i < model.m_nodes.length ∧
        ((∃ j : Fin 3, integratedU modelstates (i * 3 + j.val) = true ∧
            rd (nodePassOf lm NUM_THREADS model modelstates).1.m_next_U (i * 3 + j.val)
              = FVal.nan) ∨
          (modelstates.m_fixT_flag.getD i false = false ∧
            rd (nodePassOf lm NUM_THREADS model modelstates).1.m_next_T i = FVal.nan))) ∧
      ((∀ i, i < model.m_nodes.length →
          (∀ j : Fin 3, FVal.isFinite
            (rd (nodePassOf lm NUM_THREADS model modelstates).1.m_next_U (i * 3 + j.val)) = true) ∧
          FVal.isFinite (rd (nodePassOf lm NUM_THREADS model modelstates).1.m_next_T i) = true) →
        (computeOneStep lm NUM_THREADS model modelstates).no_err = true) := by
  have key := nodePassOf_diverged_iff lm NUM_THREADS hT model modelstates hU hTl
  simp only [hnan] at key
  rw [computeOneStep_no_err]
  refine ⟨key, fun hfin => ?_⟩
  cases hne : (nodePassOf lm NUM_THREADS model modelstates).2
  · exfalso
    obtain ⟨i, hi, h⟩ := key.1 hne
    obtain ⟨h1, h2⟩ := hfin i hi
    rcases h with ⟨j, -, hn⟩ | ⟨-, hn⟩
    · have := h1 j
      rw [hn] at this
      cases this
    · rw [hn] at h2
      cases h2
  · rfl

/-- Witness of the amended C8: the first step of the overflowing one-element
model. -/
theorem divergence_detection_witness :
    ((computeOneStep restLibmF 1 overflowModel
        (computeRunTimeBC overflowModel (initBC overflowModel (ModelStates.new overflowModel))
          0)).no_err = false ↔
      ∃ i, i < overflowModel.m_nodes.length ∧
        ((∃ j : Fin 3, integratedU (computeRunTimeBC overflowModel
              (initBC overflowModel (ModelStates.new overflowModel)) 0) (i * 3 + j.val) = true ∧
            rd (nodePassOf restLibmF 1 overflowModel (computeRunTimeBC overflowModel
              (initBC overflowModel (ModelStates.new overflowModel)) 0)).1.m_next_U (i * 3 + j.val)
              = FVal.nan) ∨
          ((computeRunTimeBC overflowModel (initBC overflowModel (ModelStates.new overflowModel))
              0).m_fixT_flag.getD i false = false ∧
            rd (nodePassOf restLibmF 1 overflowModel (computeRunTimeBC overflowModel
              (initBC overflowModel (ModelStates.new overflowModel)) 0)).1.m_next_T i
              = FVal.nan))) :=
  (divergence_detection restLibmF (fun x => by simp [restLibmF]) 1 (Nat.le_refl 1) overflowModel
    (computeRunTimeBC overflowModel (initBC overflowModel (ModelStates.new overflowModel)) 0)
    rfl rfl).1

/-- Counterexample to C8 as stated: in the first step of `overflowModel` (gravity
load `2^126` along x on each node, `c1 = 24`) the central-difference branch
writes `+inf` into `m_next_U[9]`, a value that is not finite, and `computeOneStep`
returns true; the run of one step ends normally with that displacement. -/
theorem divergence_detection_counterexample :
    rd (nodePassOf restLibmF 1 overflowModel (computeRunTimeBC overflowModel
        (initBC overflowModel (ModelStates.new overflowModel)) 0)).1.m_next_U 9 = FVal.pinf ∧
      FVal.isFinite (rd (nodePassOf restLibmF 1 overflowModel (computeRunTimeBC overflowModel
        (initBC overflowModel (ModelStates.new overflowModel)) 0)).1.m_next_U 9) = false ∧
      integratedU (computeRunTimeBC overflowModel
        (initBC overflowModel (ModelStates.new overflowModel)) 0) 9 = true ∧
      (computeOneStep restLibmF 1 overflowModel (computeRunTimeBC overflowModel
        (initBC overflowModel (ModelStates.new overflowModel)) 0)).no_err = true ∧
      (runSimulation restLibmF 1 overflowModel).modelstates.map (fun s => rd s.m_curr_U 9)
        = some FVal.pinf := by
  decide!

/-- C9.  Divergence aborts cleanly, for every libm, thread count and model:
(a) a call of `computeOneStep` that returns false leaves `m_prev_U`, `m_curr_U`
and `m_curr_T` as they were before the call; (b) when step `k < num_steps` is
the first whose `computeOneStep` returns false, `runSimulation` has called
`computeOneStep` `k + 1` times and returns no state, and (c) `main` then returns
a non-zero exit code and has not called `exportVTK`; when no step returns
false, `runSimulation` calls `computeOneStep` exactly `num_steps` times and
returns the state the last step left. -/
theorem divergence_aborts_cleanly {α : Type} [Add α] [Sub α] [Mul α] [Div α] [Neg α] [Zero α]
    [One α] [NatCast α] [DecidableEq α] (lm : Libm α) (NUM_THREADS : Nat) (model : Model α) :
    (∀ modelstates : ModelStates α,
        (computeOneStep lm NUM_THREADS model modelstates).no_err = false →
        (computeOneStep lm NUM_THREADS model modelstates).modelstates.m_prev_U
            = modelstates.m_prev_U ∧
          (computeOneStep lm NUM_THREADS model modelstates).modelstates.m_curr_U
            = modelstates.m_curr_U ∧
          (computeOneStep lm NUM_THREADS model modelstates).modelstates.m_curr_T
            = modelstates.m_curr_T) ∧
      (∀ k, k < model.m_num_steps →
        (∀ i, i < k → stepNoErr lm NUM_THREADS model i = true) →
        stepNoErr lm NUM_THREADS model k = false →
        (runSimulation lm NUM_THREADS model).steps_run = k + 1 ∧
          (runSimulation lm NUM_THREADS model).modelstates = none ∧
          ∀ exportVTK : Model α → ModelStates α → Int,
            (main lm NUM_THREADS (some model) exportVTK).exit_code ≠ 0 ∧
              (main lm NUM_THREADS (some model) exportVTK).exported = none) ∧
      ((∀ i, i < model.m_num_steps → stepNoErr lm NUM_THREADS model i = true) →
        (runSimulation lm NUM_THREADS model).steps_run = model.m_num_steps ∧
          (runSimulation lm NUM_THREADS model).modelstates
            = some (stepInput lm NUM_THREADS model model.m_num_steps).2) := by
  refine ⟨fun ms h => computeOneStep_no_rotation lm NUM_THREADS model ms h, ?_,
    fun h => runSimulation_complete lm NUM_THREADS model h⟩
  intro k hk hok hbad
  obtain ⟨h1, h2⟩ := runSimulation_abort lm NUM_THREADS model k hk hok hbad
  refine ⟨h1, h2, fun exportVTK => ?_⟩
  rw [main_of_none lm NUM_THREADS model exportVTK h2]
  exact ⟨show EXIT_FAILURE ≠ 0 by decide, rfl⟩

/-- An instance of C9 with a divergence: the run of `blowupModel`, whose first
step overflows without NaN and whose second step computes NaN, makes two steps
and returns no state, and `main` returns `EXIT_FAILURE` without exporting. -/
theorem divergence_aborts_cleanly_witness :
    stepNoErr restLibmF 1 blowupModel 0 = true ∧ stepNoErr restLibmF 1 blowupModel 1 = false ∧
      (runSimulation restLibmF 1 blowupModel).steps_run = 1 + 1 ∧
      (runSimulation restLibmF 1 blowupModel).modelstates = none ∧
      ∀ exportVTK : Model FVal → ModelStates FVal → Int,
        (main restLibmF 1 (some blowupModel) exportVTK).exit_code ≠ 0 ∧
          (main restLibmF 1 (some blowupModel) exportVTK).exported = none :=
  have h0 : stepNoErr restLibmF 1 blowupModel 0 = true := by decide!
  have h1 : stepNoErr restLibmF 1 blowupModel 1 = false := by decide!
  ⟨h0, h1, (divergence_aborts_cleanly restLibmF 1 blowupModel).2.1 1 (by decide)
    (fun i hi => by rw [Nat.lt_one_iff.1 hi]; exact h0) h1⟩

/-- C10 (amended).  The `T4` constructor has no degeneracy check: in exact
arithmetic, for every four nodes and every other argument it returns an element
whose reference volume `m_Vol` is `detJ0 / 6`, with `detJ0` the determinant of
`J0 = DHDr * n_coords^T`, that is the triple product of the edges from the
first node, and whose mass is `rho * m_Vol`.  So `m_Vol ≤ 0` exactly when
`detJ0 ≤ 0`: coplanar or negatively oriented corners give an element of zero or
negative volume, and no error. -/
theorem degenerate_elements_are_built {α : Type} [LinearOrderedField α] (D_uninit : Mat33 α)
    (idx : Nat) (n1 n2 n3 n4 : Node α) (rho : α)
    (M_material_type : String) (M_material_vals : List α)
    (T_material_type : String) (T_material_vals : List α)
    (T_expan_type : String) (T_expan_vals : List α) :
    (T4.new D_uninit idx n1 n2 n3 n4 rho M_material_type M_material_vals T_material_type
          T_material_vals T_expan_type T_expan_vals).m_Vol
        = matDet33 (mat34x34T (DHDr : Mat34 α) (n_coords n1 n2 n3 n4)) / 6 ∧
      matDet33 (mat34x34T (DHDr : Mat34 α) (n_coords n1 n2 n3 n4))
        = (n2.m_x - n1.m_x)
              * ((n3.m_y - n1.m_y) * (n4.m_z - n1.m_z) - (n3.m_z - n1.m_z) * (n4.m_y - n1.m_y))
          - (n2.m_y - n1.m_y)
              * ((n3.m_x - n1.m_x) * (n4.m_z - n1.m_z) - (n3.m_z - n1.m_z) * (n4.m_x - n1.m_x))
          + (n2.m_z - n1.m_z)
              * ((n3.m_x - n1.m_x) * (n4.m_y - n1.m_y) - (n3.m_y - n1.m_y) * (n4.m_x - n1.m_x)) ∧
      (T4.new D_uninit idx n1 n2 n3 n4 rho M_material_type M_material_vals T_material_type
          T_material_vals T_expan_type T_expan_vals).m_mass
        = rho * (T4.new D_uninit idx n1 n2 n3 n4 rho M_material_type M_material_vals
            T_material_type T_material_vals T_expan_type T_expan_vals).m_Vol ∧
      ((T4.new D_uninit idx n1 n2 n3 n4 rho M_material_type M_material_vals T_material_type
          T_material_vals T_expan_type T_expan_vals).m_Vol ≤ 0 ↔
        matDet33 (mat34x34T (DHDr : Mat34 α) (n_coords n1 n2 n3 n4)) ≤ 0) := by
  have hV : (T4.new D_uninit idx n1 n2 n3 n4 rho M_material_type M_material_vals T_material_type
        T_material_vals T_expan_type T_expan_vals).m_Vol
      = matDet33 (mat34x34T (DHDr : Mat34 α) (n_coords n1 n2 n3 n4)) / 6 := by
    show matDet33 _ / ((6 : ℕ) : α) = _
    rw [Nat.cast_ofNat]
  refine ⟨hV, ?_, rfl, ?_⟩
  · simp only [matDet33, mat34x34T, DHDr, n_coords]
    ring
  · rw [hV]
    constructor
    · intro h
      by_contra hc
      have : 0 < matDet33 (mat34x34T (DHDr : Mat34 α) (n_coords n1 n2 n3 n4)) / 6 :=
        div_pos (not_le.1 hc) (by norm_num)
      exact absurd h (not_le.2 this)
    · intro h
      exact div_nonpos_of_nonpos_of_nonneg h (by norm_num)

/-- Counterexample to C10 as stated: the negatively oriented unit tetrahedron
has `detJ0 = -1`, the flat element has `detJ0 = 0`; the constructor returns
both, with reference volumes `-1/6` and `0` and masses `-1/6` and `0`, and the
first is the element of the model `flippedModel`. -/
theorem degenerate_elements_counterexample :
    matDet33 (mat34x34T (DHDr : Mat34 ℚ)
        (n_coords ⟨0, 0, 0, 0⟩ ⟨2, 0, 1, 0⟩ ⟨1, 1, 0, 0⟩ ⟨3, 0, 0, 1⟩)) = -1 ∧
      flippedTet.m_Vol = -1 / 6 ∧ flippedTet.m_Vol ≤ 0 ∧ flippedTet.m_mass = -1 / 6 ∧
      flippedModel.m_tets = [flippedTet] ∧
      matDet33 (mat34x34T (DHDr : Mat34 ℚ)
        (n_coords ⟨0, 0, 0, 0⟩ ⟨1, 1, 0, 0⟩ ⟨2, 0, 1, 0⟩ ⟨3, 1, 1, 0⟩)) = 0 ∧
      flatTet.m_Vol = 0 ∧ flatTet.m_mass = 0 := by
  refine ⟨by decide!, by decide!, by decide!, by decide!, rfl, by decide!, by decide!, by decide!⟩

/-- C11 (amended).  Over the float model `FVal`, `matInv33` has no failure path:
for every matrix it returns a matrix together with `detA = matDet33 A`.  When
the determinant is zero or NaN no entry of the returned matrix is finite (each
is a quotient by the determinant: an infinity or NaN), and when the determinant
is an infinity every entry is `0` or NaN. -/
theorem matInv33_never_fails (A : Mat33 FVal) :
    (matInv33 A).2 = matDet33 A ∧
      (matDet33 A = 0 ∨ matDet33 A = FVal.nan →
        ∀ i j : Fin 3, FVal.isFinite ((matInv33 A).1 i j) = false) ∧
      (matDet33 A = FVal.pinf ∨ matDet33 A = FVal.ninf →
        ∀ i j : Fin 3, (matInv33 A).1 i j = 0 ∨ (matInv33 A).1 i j = FVal.nan) := by
  refine ⟨rfl, ?_, ?_⟩
  · intro h i j
    have key : ∀ x : FVal, FVal.isFinite (x / matDet33 A) = false := by
      intro x
      rcases h with h | h
      · rw [h]; exact FVal.div_zero_isFinite x
      · rw [h, FVal.div_nan]; rfl
    fin_cases i <;> fin_cases j <;> exact key _
  · intro h i j
    fin_cases i <;> fin_cases j <;> exact FVal.div_inf _ _ h

/-- An instance of the amended C11, at the singular matrix `diag(1, 1, 0)`. -/
theorem matInv33_never_fails_witness :
    (fun i j => FVal.isFinite ((matInv33 singularMat).1 i j)) = fun _ _ => false :=
  funext fun i => funext fun j =>
    (matInv33_never_fails singularMat).2.1 (Or.inl (by decide!)) i j

/-- Counterexample to C11 as stated: `diag(1, 1, 0)` has determinant `0` and
`matInv33` returns, with `detA = 0`, a matrix whose entry `[2][2]` is `+inf`
and whose entry `[0][0]` is NaN; `diag(+inf, 1, 1)` has determinant `+inf` and
`matInv33` returns a matrix with `[0][0] = 0` and `[1][1] = NaN`. -/
theorem matInv33_singular_counterexample :
    matDet33 singularMat = 0 ∧ (matInv33 singularMat).2 = 0 ∧
      (matInv33 singularMat).1 2 2 = FVal.pinf ∧ (matInv33 singularMat).1 0 0 = FVal.nan ∧
      matDet33 infiniteMat = FVal.pinf ∧ (matInv33 infiniteMat).2 = FVal.pinf ∧
      (matInv33 infiniteMat).1 0 0 = 0 ∧ (matInv33 infiniteMat).1 1 1 = FVal.nan := by
  decide!

/-- C12.  In exact arithmetic (a field), for every 3x3 matrix `A`: `matDet33`
returns the determinant of `A`; and when that determinant is not zero,
`matInv33` returns `detA = det A` and a matrix `invA` with `A * invA = I` and
`invA * A = I`. -/
theorem matInv33_correct {α : Type} [Field α] (A : Mat33 α) :
    matDet33 A = Matrix.det (Matrix.of A) ∧
      (Matrix.det (Matrix.of A) ≠ 0 →
        (matInv33 A).2 = Matrix.det (Matrix.of A) ∧
          mat33x33 A (matInv33 A).1 = I33 ∧ mat33x33 (matInv33 A).1 A = I33 ∧
          Matrix.of A * Matrix.of (matInv33 A).1 = 1 ∧
          Matrix.of (matInv33 A).1 * Matrix.of A = 1) := by
  refine ⟨matDet33_eq_det A, fun h => ?_⟩
  rw [← matDet33_eq_det] at h ⊢
  have h1 := self_mul_matInv33 A h
  have h2 := matInv33_mul_self A h
  refine ⟨rfl, h1, h2, ?_, ?_⟩
  · ext i j
    have := congrFun (congrFun h1 i) j
    rw [Matrix.mul_apply, Fin.sum_univ_three]
    simp only [Matrix.of_apply, Matrix.one_apply]
    simp only [mat33x33, I33, zero_add] at this
    exact this
  · ext i j
    have := congrFun (congrFun h2 i) j
    rw [Matrix.mul_apply, Fin.sum_univ_three]
    simp only [Matrix.of_apply, Matrix.one_apply]
    simp only [mat33x33, I33, zero_add] at this
    exact this

/-- An instance of C12: the matrix with rows `(2, 0, 0)`, `(1, 1, 0)`,
`(0, 0, 1)` has determinant `2`, and `matInv33` returns its inverse. -/
theorem matInv33_correct_witness :
    (matInv33 (fun i j => (![![2, 0, 0], ![1, 1, 0], ![0, 0, 1]] : Fin 3 → Fin 3 → ℚ) i j)).2
        = Matrix.det (Matrix.of
            (fun i j => (![![2, 0, 0], ![1, 1, 0], ![0, 0, 1]] : Fin 3 → Fin 3 → ℚ) i j)) ∧
      mat33x33 (fun i j => (![![2, 0, 0], ![1, 1, 0], ![0, 0, 1]] : Fin 3 → Fin 3 → ℚ) i j)
          (matInv33
            (fun i j => (![![2, 0, 0], ![1, 1, 0], ![0, 0, 1]] : Fin 3 → Fin 3 → ℚ) i j)).1
        = I33 :=
  have h := (matInv33_correct
    (fun i j => (![![2, 0, 0], ![1, 1, 0], ![0, 0, 1]] : Fin 3 → Fin 3 → ℚ) i j)).2
    (by rw [← matDet33_eq_det]; simp [matDet33])
  ⟨h.1, h.2.1⟩

/-- C13.  In exact arithmetic, for every four nodes and every other argument
the `T4` constructor sets `m_Vol` to the signed geometric volume
`((n2 - n1) . ((n3 - n1) x (n4 - n1))) / 6`, `m_vol = m_Vol` and
`m_mass = rho * m_Vol`; so `m_Vol > 0` for positively oriented corners (positive
triple product), the sum of `m_Vol` over the elements the constructor built for
a list of corner quadruples is the sum of the geometric volumes of the
quadruples, and the corners `(0,0,0), (1,0,0), (0,1,0), (0,0,1)` give
`m_Vol = 1/6`. -/
theorem reference_volume_is_geometric {α : Type} [LinearOrderedField α] (D_uninit : Mat33 α)
    (idx : Nat) (n1 n2 n3 n4 : Node α) (rho : α)
    (M_material_type : String) (M_material_vals : List α)
    (T_material_type : String) (T_material_vals : List α)
    (T_expan_type : String) (T_expan_vals : List α) :
    (T4.new D_uninit idx n1 n2 n3 n4 rho M_material_type M_material_vals T_material_type
          T_material_vals T_expan_type T_expan_vals).m_Vol = signedVolume n1 n2 n3 n4 ∧
      (T4.new D_uninit idx n1 n2 n3 n4 rho M_material_type M_material_vals T_material_type
          T_material_vals T_expan_type T_expan_vals).m_vol = signedVolume n1 n2 n3 n4 ∧
      (T4.new D_uninit idx n1 n2 n3 n4 rho M_material_type M_material_vals T_material_type
          T_material_vals T_expan_type T_expan_vals).m_mass = rho * signedVolume n1 n2 n3 n4 ∧
      (0 < tripleProduct n1 n2 n3 n4 →
        0 < (T4.new D_uninit idx n1 n2 n3 n4 rho M_material_type M_material_vals T_material_type
          T_material_vals T_expan_type T_expan_vals).m_Vol) ∧
      (∀ (tets : List (T4 α)) (corners : List (Node α × Node α × Node α × Node α)),
        List.Forall₂ T4.constructedFor tets corners →
        (tets.map fun tet => tet.m_Vol).sum
          = (corners.map fun c => signedVolume c.1 c.2.1 c.2.2.1 c.2.2.2).sum) ∧
      (∀ i1 i2 i3 i4 : Nat,
        (T4.new D_uninit idx ⟨i1, 0, 0, 0⟩ ⟨i2, 1, 0, 0⟩ ⟨i3, 0, 1, 0⟩ ⟨i4, 0, 0, 1⟩ rho
          M_material_type M_material_vals T_material_type T_material_vals T_expan_type
          T_expan_vals).m_Vol = 1 / 6) := by
  have hV := new_Vol D_uninit idx n1 n2 n3 n4 rho M_material_type M_material_vals T_material_type
    T_material_vals T_expan_type T_expan_vals
  refine ⟨hV, hV, ?_, ?_, ?_, ?_⟩
  · rw [← hV]
    rfl
  · intro h
    rw [hV]
    unfold signedVolume
    exact div_pos h (by norm_num)
  · intro tets corners h
    induction h with
    | nil => rfl
    | cons hc _ ih =>
      obtain ⟨D, i, r, a, b, c, d, e, f, rfl⟩ := hc
      rw [List.map_cons, List.map_cons, List.sum_cons, List.sum_cons, ih, new_Vol]
  · intro i1 i2 i3 i4
    rw [new_Vol]
    simp only [signedVolume, tripleProduct, dot3, cross3, Node.pos]
    norm_num

/-- An instance of C13: the mesh of the unit tetrahedron and of its mirror
image; the reference volumes `1/6` and `-1/6` sum to the sum of the geometric
volumes. -/
theorem reference_volume_is_geometric_witness :
    ([unitTet, flippedTet].map fun tet => tet.m_Vol).sum
      = ([((⟨0, 0, 0, 0⟩ : Node ℚ), (⟨1, 1, 0, 0⟩ : Node ℚ), (⟨2, 0, 1, 0⟩ : Node ℚ),
            (⟨3, 0, 0, 1⟩ : Node ℚ)),
          ((⟨0, 0, 0, 0⟩ : Node ℚ), (⟨2, 0, 1, 0⟩ : Node ℚ), (⟨1, 1, 0, 0⟩ : Node ℚ),
            (⟨3, 0, 0, 1⟩ : Node ℚ))].map
          fun c => signedVolume c.1 c.2.1 c.2.2.1 c.2.2.2).sum :=
  (reference_volume_is_geometric (fun _ _ => (0 : ℚ)) 0 ⟨0, 0, 0, 0⟩ ⟨1, 1, 0, 0⟩ ⟨2, 0, 1, 0⟩
    ⟨3, 0, 0, 1⟩ 1 "NH" [1, 10] "T_ISO" [1, 1] "T_EXPAN_NONE" []).2.2.2.2.1 _ _
    (List.Forall₂.cons ⟨_, _, _, _, _, _, _, _, _, rfl⟩
      (List.Forall₂.cons ⟨_, _, _, _, _, _, _, _, _, rfl⟩ List.Forall₂.nil))

/-- C14.  In exact arithmetic, for an element that carries the reference
gradient `m_DHDX = invJ0 * DHDr` the constructor computes for corners `n1 .. n4`
with `detJ0 ≠ 0`: the element pass sets `m_X = u * DHDXᵀ + I`, with `u` the 3x4
matrix of the current corner displacements; and when the corner displacements
are those of an affine field `G * x + b` at the reference positions of the
corners, `m_X = I + G`; for a uniform translation (`G = 0`) `m_X = I`. -/
theorem affine_deformation_gradient {α : Type} [Field α] (lm : Libm α) (T0 : α)
    (curr_U curr_T : List α) (tet : T4 α) (n1 n2 n3 n4 : Node α) (G : Mat33 α) (b : Fin 3 → α)
    (hDHDX : tet.m_DHDX
      = mat33x34 (matInv33 (mat34x34T (DHDr : Mat34 α) (n_coords n1 n2 n3 n4))).1 DHDr)
    (hdet : matDet33 (mat34x34T (DHDr : Mat34 α) (n_coords n1 n2 n3 n4)) ≠ 0)
    (hu : ∀ (m : Fin 4) (n : Fin 3),
      cornerDisp curr_U tet n m = affineDisp G b (fun k => n_coords n1 n2 n3 n4 k m) n) :
    (∀ i j : Fin 3, (elementKernel lm T0 curr_U curr_T tet).tet.m_X i j
        = mat34x34T (cornerDisp curr_U tet) tet.m_DHDX i j + I33 i j) ∧
      (∀ i j : Fin 3, (elementKernel lm T0 curr_U curr_T tet).tet.m_X i j = I33 i j + G i j) ∧
      ((∀ i j : Fin 3, G i j = 0) → (elementKernel lm T0 curr_U curr_T tet).tet.m_X = I33) := by
  have hX : (elementKernel lm T0 curr_U curr_T tet).tet.m_X = deformationGradient curr_U tet := rfl
  have h1 : ∀ i j : Fin 3, deformationGradient curr_U tet i j
      = mat34x34T (cornerDisp curr_U tet) tet.m_DHDX i j + I33 i j := by
    intro i j
    unfold deformationGradient I33
    by_cases h : i = j
    · rw [if_pos h, if_pos h]
    · rw [if_neg h, if_neg h, add_zero]
  have h2 : ∀ i j : Fin 3, deformationGradient curr_U tet i j = I33 i j + G i j := by
    intro i j
    rw [h1, affine_gradient n1 n2 n3 n4 tet.m_DHDX (cornerDisp curr_U tet) G b hDHDX hdet hu,
      add_comm]
  rw [hX]
  refine ⟨h1, h2, fun hG => ?_⟩
  funext i j
  rw [h2, hG, add_zero]

/-- Witness of C14: the unit tetrahedron with the corner displacements of the
field `G * x + b`, `G` with rows `(1, 2, 0)`, `(0, 1, 0)`, `(0, 0, 1)` and
`b = (1, 0, 0)`. -/
theorem affine_deformation_gradient_witness :
    (elementKernel restLibm 37 [1, 0, 0, 2, 0, 0, 3, 1, 0, 1, 0, 1]
        [37, 37, 37, 37] unitTet).tet.m_X
      = fun i j =>
          I33 i j + (![![1, 2, 0], ![0, 1, 0], ![0, 0, 1]] : Fin 3 → Fin 3 → ℚ) i j :=
  funext fun i => funext fun j =>
    (affine_deformation_gradient restLibm 37 [1, 0, 0, 2, 0, 0, 3, 1, 0, 1, 0, 1]
      [37, 37, 37, 37] unitTet ⟨0, 0, 0, 0⟩ ⟨1, 1, 0, 0⟩ ⟨2, 0, 1, 0⟩ ⟨3, 0, 0, 1⟩
      (fun i j => (![![1, 2, 0], ![0, 1, 0], ![0, 0, 1]] : Fin 3 → Fin 3 → ℚ) i j)
      (fun n => (![1, 0, 0] : Fin 3 → ℚ) n) rfl (by decide!) (by decide!)).2.1 i j

/-- C15.  With the real square root and the real power for the C library's `sqrt`
and `powf`, exact arithmetic otherwise, for every element of material type `NH`
whose elastic gradient `Xel` has positive determinant: the element pass computes
`C = Xelᵀ * Xel`, `J = sqrt(det C) = det Xel` and `I1 = tr C`, the matrix `invC`
of `matInv33` is the inverse of `C`, and the material branch stores
`S = (J23 * mu) * I + (-J23 * mu * I1 / 3 + K * J * (J - 1)) * invC` with
`J23 = powf(J, -0.66666667f)`.  The literal is the `float` nearest to `-2/3`,
`-2/3 - 1/(3 * 2^24)`, so `J23 = J^(-2/3) * J^(-1/(3 * 2^24))`, and the last
factor is within `2^-23` of `1` for `1/4 ≤ J ≤ 4`.  `m_S` is this `S` when no
expansion is configured, its pull-back otherwise. -/
theorem neo_hookean_stress (lm : Libm ℝ) (hsqrt : ∀ x : ℝ, lm.sqrt x = Real.sqrt x)
    (hpow : ∀ x y : ℝ, lm.powf x y = x ^ y) (T0 : ℝ) (curr_U curr_T : List ℝ) (tet : T4 ℝ)
    (hNH : tet.m_M_material_type = "NH")
    (hpos : 0 < matDet33 (elasticGradient T0 curr_U curr_T tet)) :
    cauchyGreen T0 curr_U curr_T tet
        = mat33Tx33 (elasticGradient T0 curr_U curr_T tet) (elasticGradient T0 curr_U curr_T tet) ∧
      elasticJ lm T0 curr_U curr_T tet
        = Real.sqrt (matDet33 (cauchyGreen T0 curr_U curr_T tet)) ∧
      elasticJ lm T0 curr_U curr_T tet = matDet33 (elasticGradient T0 curr_U curr_T tet) ∧
      mat33x33 (cauchyGreen T0 curr_U curr_T tet) (matInv33 (cauchyGreen T0 curr_U curr_T tet)).1
        = I33 ∧
      mat33x33 (matInv33 (cauchyGreen T0 curr_U curr_T tet)).1 (cauchyGreen T0 curr_U curr_T tet)
        = I33 ∧
      lm.powf (elasticJ lm T0 curr_U curr_T tet) minusTwoThirds
        = matDet33 (elasticGradient T0 curr_U curr_T tet) ^ (-(2 / 3) : ℝ)
          * matDet33 (elasticGradient T0 curr_U curr_T tet) ^ (-(1 / 50331648) : ℝ) ∧
      materialStress lm T0 curr_U curr_T tet
        = specStressNH (rd tet.m_M_material_vals 0) (rd tet.m_M_material_vals 1)
            (matDet33 (elasticGradient T0 curr_U curr_T tet) ^ (-(2 / 3) : ℝ)
              * matDet33 (elasticGradient T0 curr_U curr_T tet) ^ (-(1 / 50331648) : ℝ))
            (matDet33 (elasticGradient T0 curr_U curr_T tet))
            (cauchyGreen T0 curr_U curr_T tet 0 0 + cauchyGreen T0 curr_U curr_T tet 1 1
              + cauchyGreen T0 curr_U curr_T tet 2 2)
            (matInv33 (cauchyGreen T0 curr_U curr_T tet)).1 ∧
      (1 / 4 ≤ matDet33 (elasticGradient T0 curr_U curr_T tet) →
        matDet33 (elasticGradient T0 curr_U curr_T tet) ≤ 4 →
        |matDet33 (elasticGradient T0 curr_U curr_T tet) ^ (-(1 / 50331648) : ℝ) - 1|
          ≤ 1 / 8388608) ∧
      (elementKernel lm T0 curr_U curr_T tet).tet.m_S
        = if tet.m_T_expan_vals.length ≠ 0 then
            pullBack (matInv33 (expansionGradient tet (T_diff T0 curr_T tet))).1
              (matInv33 (expansionGradient tet (T_diff T0 curr_T tet))).2
              (materialStress lm T0 curr_U curr_T tet)
          else materialStress lm T0 curr_U curr_T tet := by
  have hdet : matDet33 (cauchyGreen T0 curr_U curr_T tet)
      = matDet33 (elasticGradient T0 curr_U curr_T tet) ^ 2 := matDet33_gram _
  have hne : matDet33 (cauchyGreen T0 curr_U curr_T tet) ≠ 0 := by
    rw [hdet]
    exact pow_ne_zero 2 (ne_of_gt hpos)
  obtain ⟨hJ1, hJ2⟩ := elasticJ_real lm hsqrt T0 curr_U curr_T tet hpos
  have hJ23 : lm.powf (elasticJ lm T0 curr_U curr_T tet) minusTwoThirds
      = matDet33 (elasticGradient T0 curr_U curr_T tet) ^ (-(2 / 3) : ℝ)
        * matDet33 (elasticGradient T0 curr_U curr_T tet) ^ (-(1 / 50331648) : ℝ) := by
    rw [hpow, hJ2, rpow_minusTwoThirds _ hpos]
  refine ⟨rfl, hJ1, hJ2, self_mul_matInv33 _ hne, matInv33_mul_self _ hne, hJ23, ?_,
    rpow_literal_close _, elementKernel_S lm T0 curr_U curr_T tet⟩
  rw [materialStress_NH lm T0 curr_U curr_T tet hNH, hJ23, hJ2]

/-- Witness of C15: the Neo-Hookean unit tetrahedron stretched to twice its
length along x, so `Xel = diag(2, 1, 1)` and `J = 2`, with the real `sqrt` and
`powf`. -/
theorem neo_hookean_stress_witness :
    matDet33 (elasticGradient (37 : ℝ) (stretchU ℝ) [37, 37, 37, 37] (unitTetIn ℝ)) = 2 ∧
      elasticJ ⟨Real.sqrt, fun x y => x ^ y, fun _ => false⟩ (37 : ℝ) (stretchU ℝ)
          [37, 37, 37, 37] (unitTetIn ℝ) = 2 ∧
      (2 : ℝ) ^ (minusTwoThirds : ℝ)
        = (2 : ℝ) ^ (-(2 / 3) : ℝ) * (2 : ℝ) ^ (-(1 / 50331648) : ℝ) ∧
      materialStress ⟨Real.sqrt, fun x y => x ^ y, fun _ => false⟩ (37 : ℝ) (stretchU ℝ)
          [37, 37, 37, 37] (unitTetIn ℝ)
        = specStressNH (rd (unitTetIn ℝ).m_M_material_vals 0)
            (rd (unitTetIn ℝ).m_M_material_vals 1)
            ((2 : ℝ) ^ (-(2 / 3) : ℝ) * (2 : ℝ) ^ (-(1 / 50331648) : ℝ)) 2
            (cauchyGreen (37 : ℝ) (stretchU ℝ) [37, 37, 37, 37] (unitTetIn ℝ) 0 0
              + cauchyGreen (37 : ℝ) (stretchU ℝ) [37, 37, 37, 37] (unitTetIn ℝ) 1 1
              + cauchyGreen (37 : ℝ) (stretchU ℝ) [37, 37, 37, 37] (unitTetIn ℝ) 2 2)
            (matInv33 (cauchyGreen (37 : ℝ) (stretchU ℝ) [37, 37, 37, 37] (unitTetIn ℝ))).1 ∧
      |(2 : ℝ) ^ (-(1 / 50331648) : ℝ) - 1| ≤ 1 / 8388608 := by
  have h := neo_hookean_stress ⟨Real.sqrt, fun x y => x ^ y, fun _ => false⟩ (fun _ => rfl)
    (fun _ _ => rfl) (37 : ℝ) (stretchU ℝ) [37, 37, 37, 37] (unitTetIn ℝ) rfl
    (by rw [stretch_det_real]; norm_num)
  rw [stretch_det_real] at h
  exact ⟨stretch_det_real, h.2.2.1, by rw [← h.2.2.2.2.2.1, h.2.2.1], h.2.2.2.2.2.2.1,
    h.2.2.2.2.2.2.2.1 (by norm_num) (by norm_num)⟩

/-- C16.  With the real square root and the real power for the C library's `sqrt`
and `powf`, exact arithmetic otherwise, for every element of material type `TI`
with stored values `(mu, K, eta, A00, A01, A02, A11, A12, A22)`, `A` the
symmetric tensor of the six stored entries, and an elastic gradient of positive
determinant, `C`, `J = det Xel` and `I1` as for NH: the material branch computes
`I4 = A : C` (which is `aᵀ * C * a` when `A = a ⊗ a`), `I4cap = J23 * I4` and
stores
`S = (J23 * mu) * I + 2 * J23 * eta * (I4cap - 1) * A
  + (-(J23 * mu * I1 + 2 * eta * (I4cap - 1) * I4cap) / 3 + K * J * (J - 1)) * invC`
with `J23 = powf(J, -0.66666667f) = J^(-2/3) * J^(-1/(3 * 2^24))`, the last
factor within `2^-23` of `1` for `1/4 ≤ J ≤ 4`; `m_S` is this `S` when no
expansion is configured, its pull-back otherwise. -/
theorem transversely_isotropic_stress (lm : Libm ℝ)
    (hsqrt : ∀ x : ℝ, lm.sqrt x = Real.sqrt x) (hpow : ∀ x y : ℝ, lm.powf x y = x ^ y)
    (T0 : ℝ) (curr_U curr_T : List ℝ) (tet : T4 ℝ) (hTI : tet.m_M_material_type = "TI")
    (hpos : 0 < matDet33 (elasticGradient T0 curr_U curr_T tet)) :
    elasticJ lm T0 curr_U curr_T tet = matDet33 (elasticGradient T0 curr_U curr_T tet) ∧
      lm.powf (elasticJ lm T0 curr_U curr_T tet) minusTwoThirds
        = matDet33 (elasticGradient T0 curr_U curr_T tet) ^ (-(2 / 3) : ℝ)
          * matDet33 (elasticGradient T0 curr_U curr_T tet) ^ (-(1 / 50331648) : ℝ) ∧
      materialStress lm T0 curr_U curr_T tet
        = specStressTI (rd tet.m_M_material_vals 0) (rd tet.m_M_material_vals 1)
            (rd tet.m_M_material_vals 2) (fibreTensor tet.m_M_material_vals)
            (matDet33 (elasticGradient T0 curr_U curr_T tet) ^ (-(2 / 3) : ℝ)
              * matDet33 (elasticGradient T0 curr_U curr_T tet) ^ (-(1 / 50331648) : ℝ))
            (matDet33 (elasticGradient T0 curr_U curr_T tet))
            (cauchyGreen T0 curr_U curr_T tet 0 0 + cauchyGreen T0 curr_U curr_T tet 1 1
              + cauchyGreen T0 curr_U curr_T tet 2 2)
            (matDet33 (elasticGradient T0 curr_U curr_T tet) ^ (-(2 / 3) : ℝ)
              * matDet33 (elasticGradient T0 curr_U curr_T tet) ^ (-(1 / 50331648) : ℝ)
              * doubleContraction (fibreTensor tet.m_M_material_vals)
                  (cauchyGreen T0 curr_U curr_T tet))
            (matInv33 (cauchyGreen T0 curr_U curr_T tet)).1 ∧
      (1 / 4 ≤ matDet33 (elasticGradient T0 curr_U curr_T tet) →
        matDet33 (elasticGradient T0 curr_U curr_T tet) ≤ 4 →
        |matDet33 (elasticGradient T0 curr_U curr_T tet) ^ (-(1 / 50331648) : ℝ) - 1|
          ≤ 1 / 8388608) ∧
      mat33x33 (cauchyGreen T0 curr_U curr_T tet) (matInv33 (cauchyGreen T0 curr_U curr_T tet)).1
        = I33 ∧
      (∀ i j : Fin 3, fibreTensor tet.m_M_material_vals i j
        = fibreTensor tet.m_M_material_vals j i) ∧
      (∀ a : Fin 3 → ℝ, (∀ i j : Fin 3, fibreTensor tet.m_M_material_vals i j = a i * a j) →
        doubleContraction (fibreTensor tet.m_M_material_vals) (cauchyGreen T0 curr_U curr_T tet)
          = dot3 a (fun i => dot3 (fun j => cauchyGreen T0 curr_U curr_T tet i j) a)) ∧
      (elementKernel lm T0 curr_U curr_T tet).tet.m_S
        = if tet.m_T_expan_vals.length ≠ 0 then
            pullBack (matInv33 (expansionGradient tet (T_diff T0 curr_T tet))).1
              (matInv33 (expansionGradient tet (T_diff T0 curr_T tet))).2
              (materialStress lm T0 curr_U curr_T tet)
          else materialStress lm T0 curr_U curr_T tet := by
  have hdet : matDet33 (cauchyGreen T0 curr_U curr_T tet)
      = matDet33 (elasticGradient T0 curr_U curr_T tet) ^ 2 := matDet33_gram _
  have hne : matDet33 (cauchyGreen T0 curr_U curr_T tet) ≠ 0 := by
    rw [hdet]
    exact pow_ne_zero 2 (ne_of_gt hpos)
  obtain ⟨-, hJ2⟩ := elasticJ_real lm hsqrt T0 curr_U curr_T tet hpos
  have hJ23 : lm.powf (elasticJ lm T0 curr_U curr_T tet) minusTwoThirds
      = matDet33 (elasticGradient T0 curr_U curr_T tet) ^ (-(2 / 3) : ℝ)
        * matDet33 (elasticGradient T0 curr_U curr_T tet) ^ (-(1 / 50331648) : ℝ) := by
    rw [hpow, hJ2, rpow_minusTwoThirds _ hpos]
  refine ⟨hJ2, hJ23, ?_, rpow_literal_close _, self_mul_matInv33 _ hne, ?_, ?_,
    elementKernel_S lm T0 curr_U curr_T tet⟩
  · rw [materialStress_TI lm T0 curr_U curr_T tet hTI, hJ23, hJ2]
  · intro i j
    fin_cases i <;> fin_cases j <;> rfl
  · intro a ha
    simp only [doubleContraction, dot3, ha]
    ring

/-- Witness of C16: the transversely isotropic unit tetrahedron with fibre along
x, stretched to twice its length along the fibre, so `J = 2`, with the real
`sqrt` and `powf`. -/
theorem transversely_isotropic_stress_witness :
    matDet33 (elasticGradient (37 : ℝ) (stretchU ℝ) [37, 37, 37, 37] (fibreTetIn ℝ)) = 2 ∧
      elasticJ ⟨Real.sqrt, fun x y => x ^ y, fun _ => false⟩ (37 : ℝ) (stretchU ℝ)
          [37, 37, 37, 37] (fibreTetIn ℝ) = 2 ∧
      materialStress ⟨Real.sqrt, fun x y => x ^ y, fun _ => false⟩ (37 : ℝ) (stretchU ℝ)
          [37, 37, 37, 37] (fibreTetIn ℝ)
        = specStressTI (rd (fibreTetIn ℝ).m_M_material_vals 0)
            (rd (fibreTetIn ℝ).m_M_material_vals 1) (rd (fibreTetIn ℝ).m_M_material_vals 2)
            (fibreTensor (fibreTetIn ℝ).m_M_material_vals)
            ((2 : ℝ) ^ (-(2 / 3) : ℝ) * (2 : ℝ) ^ (-(1 / 50331648) : ℝ)) 2
            (cauchyGreen (37 : ℝ) (stretchU ℝ) [37, 37, 37, 37] (fibreTetIn ℝ) 0 0
              + cauchyGreen (37 : ℝ) (stretchU ℝ) [37, 37, 37, 37] (fibreTetIn ℝ) 1 1
              + cauchyGreen (37 : ℝ) (stretchU ℝ) [37, 37, 37, 37] (fibreTetIn ℝ) 2 2)
            ((2 : ℝ) ^ (-(2 / 3) : ℝ) * (2 : ℝ) ^ (-(1 / 50331648) : ℝ)
              * doubleContraction (fibreTensor (fibreTetIn ℝ).m_M_material_vals)
                  (cauchyGreen (37 : ℝ) (stretchU ℝ) [37, 37, 37, 37] (fibreTetIn ℝ)))
            (matInv33 (cauchyGreen (37 : ℝ) (stretchU ℝ) [37, 37, 37, 37] (fibreTetIn ℝ))).1 ∧
      |(2 : ℝ) ^ (-(1 / 50331648) : ℝ) - 1| ≤ 1 / 8388608 := by
  have hd : matDet33 (elasticGradient (37 : ℝ) (stretchU ℝ) [37, 37, 37, 37] (fibreTetIn ℝ))
      = 2 := by
    rw [fibre_gradient_real]
    exact stretch_det_real
  have h := transversely_isotropic_stress ⟨Real.sqrt, fun x y => x ^ y, fun _ => false⟩
    (fun _ => rfl) (fun _ _ => rfl) (37 : ℝ) (stretchU ℝ) [37, 37, 37, 37] (fibreTetIn ℝ) rfl
    (by rw [hd]; norm_num)
  rw [hd] at h
  exact ⟨hd, h.1, h.2.2.1, h.2.2.2.1 (by norm_num) (by norm_num)⟩

/-- C17.  In exact arithmetic, for every element of material type `NH` or `TI`
and every current state, the stress `m_S` the element pass leaves is symmetric,
`S[i][j] = S[j][i]`: the stress of the material branch is symmetric, and so is
its pull-back `(invX_exp * S * invX_expᵀ) * J_exp` for every matrix `invX_exp`
and factor `J_exp`, the one the element pass applies when expansion is
configured. -/
theorem stress_symmetry {α : Type} [Field α] (lm : Libm α) (T0 : α) (curr_U curr_T : List α)
    (tet : T4 α) (h : tet.m_M_material_type = "NH" ∨ tet.m_M_material_type = "TI") :
    (∀ i j : Fin 3, (elementKernel lm T0 curr_U curr_T tet).tet.m_S i j
        = (elementKernel lm T0 curr_U curr_T tet).tet.m_S j i) ∧
      (∀ i j : Fin 3, materialStress lm T0 curr_U curr_T tet i j
        = materialStress lm T0 curr_U curr_T tet j i) ∧
      (∀ (invX_expan : Mat33 α) (J_invX_expan : α) (i j : Fin 3),
        pullBack invX_expan J_invX_expan (materialStress lm T0 curr_U curr_T tet) i j
          = pullBack invX_expan J_invX_expan (materialStress lm T0 curr_U curr_T tet) j i) := by
  have hm := materialStress_symm lm T0 curr_U curr_T tet h
  refine ⟨fun i j => ?_, hm, fun M c i j => pullBack_symm M c _ hm i j⟩
  rw [elementKernel_S]
  by_cases he : tet.m_T_expan_vals.length ≠ 0
  · rw [if_pos he]
    exact pullBack_symm _ _ _ hm i j
  · rw [if_neg he]
    exact hm i j

/-- Witness of C17: the expanding unit tetrahedron, stretched along x and
heated by 10 degrees. -/
theorem stress_symmetry_witness :
    (elementKernel restLibm 37 [0, 0, 0, 1, 0, 0, 0, 0, 0, 0, 0, 0] [47, 47, 47, 47]
        expanTet).tet.m_S
      = fun i j =>
          (elementKernel restLibm 37 [0, 0, 0, 1, 0, 0, 0, 0, 0, 0, 0, 0] [47, 47, 47, 47]
            expanTet).tet.m_S j i :=
  funext fun i => funext fun j =>
    (stress_symmetry restLibm 37 [0, 0, 0, 1, 0, 0, 0, 0, 0, 0, 0, 0] [47, 47, 47, 47] expanTet
      (Or.inl rfl)).1 i j

/-- C18.  In exact arithmetic, for every argument list of the `T4` constructor:
the conductivity `m_D` is `k * I` for `T_ISO`, `diag(k11, k22, k33)` for
`T_ORTHO` and the symmetric tensor of `k11, k12, k13, k22, k23, k33` for
`T_ANISO` (the values stored after the specific heat); the constructor leaves
`m_K = V0 * (DHDXᵀ * D * DHDX)`; and for the three thermal types this 4x4 matrix
is symmetric. -/
theorem reference_conduction_matrix {α : Type} [Field α] (D_uninit : Mat33 α) (idx : Nat)
    (n1 n2 n3 n4 : Node α) (rho : α) (M_material_type : String) (M_material_vals : List α)
    (T_material_type : String) (T_material_vals : List α)
    (T_expan_type : String) (T_expan_vals : List α) :
    (T_material_type = "T_ISO" →
        Matrix.of (T4.new D_uninit idx n1 n2 n3 n4 rho M_material_type M_material_vals
          T_material_type T_material_vals T_expan_type T_expan_vals).m_D
          = rd T_material_vals 1 • (1 : Matrix (Fin 3) (Fin 3) α)) ∧
      (T_material_type = "T_ORTHO" →
        Matrix.of (T4.new D_uninit idx n1 n2 n3 n4 rho M_material_type M_material_vals
          T_material_type T_material_vals T_expan_type T_expan_vals).m_D
          = Matrix.diagonal
              ![rd T_material_vals 1, rd T_material_vals 2, rd T_material_vals 3]) ∧
      (T_material_type = "T_ANISO" →
        Matrix.of (T4.new D_uninit idx n1 n2 n3 n4 rho M_material_type M_material_vals
          T_material_type T_material_vals T_expan_type T_expan_vals).m_D
          = Matrix.of ![![rd T_material_vals 1, rd T_material_vals 2, rd T_material_vals 3],
              ![rd T_material_vals 2, rd T_material_vals 4, rd T_material_vals 5],
              ![rd T_material_vals 3, rd T_material_vals 5, rd T_material_vals 6]]) ∧
      Matrix.of (T4.new D_uninit idx n1 n2 n3 n4 rho M_material_type M_material_vals
          T_material_type T_material_vals T_expan_type T_expan_vals).m_K
        = (T4.new D_uninit idx n1 n2 n3 n4 rho M_material_type M_material_vals
              T_material_type T_material_vals T_expan_type T_expan_vals).m_Vol
            • ((Matrix.of (T4.new D_uninit idx n1 n2 n3 n4 rho M_material_type M_material_vals
                  T_material_type T_material_vals T_expan_type T_expan_vals).m_DHDX).transpose
                * Matrix.of (T4.new D_uninit idx n1 n2 n3 n4 rho M_material_type M_material_vals
                  T_material_type T_material_vals T_expan_type T_expan_vals).m_D
                * Matrix.of (T4.new D_uninit idx n1 n2 n3 n4 rho M_material_type M_material_vals
                  T_material_type T_material_vals T_expan_type T_expan_vals).m_DHDX) ∧
      (T_material_type = "T_ISO" ∨ T_material_type = "T_ORTHO" ∨ T_material_type = "T_ANISO" →
        ∀ i j : Fin 4,
          (T4.new D_uninit idx n1 n2 n3 n4 rho M_material_type M_material_vals
            T_material_type T_material_vals T_expan_type T_expan_vals).m_K i j
          = (T4.new D_uninit idx n1 n2 n3 n4 rho M_material_type M_material_vals
            T_material_type T_material_vals T_expan_type T_expan_vals).m_K j i) := by
  have hD : (T4.new D_uninit idx n1 n2 n3 n4 rho M_material_type M_material_vals
      T_material_type T_material_vals T_expan_type T_expan_vals).m_D
      = conductivity D_uninit T_material_type T_material_vals := rfl
  refine ⟨fun h => ?_, fun h => ?_, fun h => ?_, conduction_eq _ _ _, fun h i j => ?_⟩
  · rw [hD]
    ext i j
    simp only [conductivity, if_pos h, Matrix.of_apply, Matrix.smul_apply, Matrix.one_apply,
      smul_eq_mul, mul_ite, mul_one, mul_zero]
  · rw [hD]
    ext i j
    unfold conductivity
    rw [if_neg (by rw [h]; decide), if_pos h]
    fin_cases i <;> fin_cases j <;> simp [Matrix.diagonal]
  · rw [hD]
    ext i j
    unfold conductivity
    rw [if_neg (by rw [h]; decide), if_neg (by rw [h]; decide), if_pos h]
    fin_cases i <;> fin_cases j <;> rfl
  · exact conduction_symm _ _ _ (conductivity_symm D_uninit T_material_type T_material_vals h) i j

/-- An instance of C18: the conduction matrix of the unit tetrahedron
(`T_ISO`, `k = 1`) is symmetric. -/
theorem reference_conduction_matrix_witness :
    unitTet.m_K = fun i j => unitTet.m_K j i :=
  funext fun i => funext fun j =>
    (reference_conduction_matrix (fun _ _ => (0 : ℚ)) 0 ⟨0, 0, 0, 0⟩ ⟨1, 1, 0, 0⟩ ⟨2, 0, 1, 0⟩
      ⟨3, 0, 0, 1⟩ 1 "NH" [1, 10] "T_ISO" [1, 1] "T_EXPAN_NONE" []).2.2.2.2 (Or.inl rfl) i j

/-- C19.  In exact arithmetic, for a model as the loader leaves it (`m_num_T_DOFs`
the number of nodes, `m_num_M_DOFs` three times that, node indices of the
elements in range): the nodal thermal mass the `ModelStates` constructor builds
for node `i` is the sum, over the corners `(tet, m)` at node `i`, of
`tet.m_mass / 4`; the nodal thermal masses sum to the sum of the element
masses, which is `rho` times the sum of the reference volumes when every element
has `m_mass = rho * m_Vol`, as the constructor sets it; and each of the three
mechanical DOFs of node `i` carries the thermal mass of node `i`. -/
theorem lumped_mass_conservation {α : Type} [LinearOrderedField α] (model : Model α)
    (hTD : model.m_num_T_DOFs = model.m_nodes.length)
    (hD : model.m_num_M_DOFs = model.m_nodes.length * 3)
    (hnodes : ∀ tet ∈ model.m_tets, ∀ m : Fin 4, tet.m_n_idx m < model.m_nodes.length)
    (hmass : ∀ tet ∈ model.m_tets, tet.m_mass = model.m_rho * tet.m_Vol) :
    (∀ i, i < model.m_nodes.length → rd (nodal_T_mass model) i = lumpedMass model.m_tets i) ∧
      (Finset.range model.m_nodes.length).sum (fun i => rd (nodal_T_mass model) i)
        = (model.m_tets.map fun tet => tet.m_mass).sum ∧
      (model.m_tets.map fun tet => tet.m_mass).sum
        = model.m_rho * (model.m_tets.map fun tet => tet.m_Vol).sum ∧
      (∀ i, i < model.m_nodes.length → ∀ j : Fin 3,
        rd (nodal_M_mass model) (i * 3 + j.val) = rd (nodal_T_mass model) i) := by
  have h1 : ∀ i, i < model.m_nodes.length →
      rd (nodal_T_mass model) i = lumpedMass model.m_tets i :=
    fun i hi => nodal_T_mass_rd model i (by rw [hTD]; exact hi)
  refine ⟨h1, ?_, ?_, ?_⟩
  · rw [Finset.sum_congr rfl (fun i hi => h1 i (Finset.mem_range.1 hi))]
    exact sum_lumpedMass (by norm_num) model.m_tets model.m_nodes.length hnodes
  · generalize model.m_tets = tets at hmass
    induction tets with
    | nil => simp
    | cons tet tets ih =>
      rw [List.map_cons, List.map_cons, List.sum_cons, List.sum_cons,
        ih (fun t ht => hmass t (List.mem_cons_of_mem _ ht)),
        hmass tet (List.mem_cons_self _ _), mul_add]
  · intro i hi j
    have hj := j.isLt
    rw [h1 i hi, nodal_M_mass_rd model i j (by rw [hD]; omega)]

/-- Witness of C19: the one-element model. -/
theorem lumped_mass_conservation_witness :
    (Finset.range unitModel.m_nodes.length).sum (fun i => rd (nodal_T_mass unitModel) i)
        = (unitModel.m_tets.map fun tet => tet.m_mass).sum ∧
      (unitModel.m_tets.map fun tet => tet.m_mass).sum
        = unitModel.m_rho * (unitModel.m_tets.map fun tet => tet.m_Vol).sum :=
  have h := lumped_mass_conservation unitModel rfl rfl unitModelRaw_nodes
    (by intro tet ht
        rw [unitModel_fields.2.1, List.mem_singleton] at ht
        subst ht
        rfl)
  ⟨h.2.1, h.2.2.1⟩

/-- What `computeRunTimeBC` leaves in `m_external_Q` when several `<Perfu>`
conditions were read (the behaviour behind the failing input of C20).  In exact
arithmetic, for the model the loader builds from a
model without perfusion entries by reading the `<Perfu>` conditions `conds`, a
state whose `m_external_Q` has one entry per node, and a node `i`: after
`computeRunTimeBC`, `m_external_Q[i]` is the value the last condition with a
non-zero coefficient at node `i` wrote, `external_Q0[i]` minus the sum, over the
corners of the elements that condition lists that coincide with node `i`, of
`wb * V0 / 4 * cb * (curr_T[i] - refT)`; a node at which every condition has
coefficient zero keeps its entry, which is `external_Q0[i]` as `initBC` leaves
it; with a single condition the entry is `external_Q0[i]` minus the sum of that
condition. -/
theorem perfusion_load {α : Type} [Field α] [DecidableEq α] (model : Model α)
    (conds : List (PerfuCondition α))
    (h0 : model.m_perfu_idx = [] ∧ model.m_perfu_const1 = [] ∧ model.m_perfu_refT = [])
    (modelstates : ModelStates α)
    (hQ : modelstates.m_external_Q.length = model.m_nodes.length)
    (curr_step i : Nat) (hi : i < model.m_nodes.length) :
    rd (computeRunTimeBC (readPerfuAll model conds) modelstates curr_step).m_external_Q i
        = perfusedQ model conds (rd modelstates.m_external_Q i) (rd modelstates.m_external_Q0 i)
            (rd modelstates.m_curr_T i) i ∧
      (∀ pre c post, conds = pre ++ c :: post → perfuCoeff model c i ≠ 0 →
        (∀ c' ∈ post, perfuCoeff model c' i = 0) →
        rd (computeRunTimeBC (readPerfuAll model conds) modelstates curr_step).m_external_Q i
          = rd modelstates.m_external_Q0 i - perfuLoad model c (rd modelstates.m_curr_T i) i) ∧
      ((∀ c ∈ conds, perfuCoeff model c i = 0) →
        rd (computeRunTimeBC (readPerfuAll model conds) modelstates curr_step).m_external_Q i
          = rd modelstates.m_external_Q i) ∧
      (∀ c, conds = [c] → rd modelstates.m_external_Q i = rd modelstates.m_external_Q0 i →
        rd (computeRunTimeBC (readPerfuAll model conds) modelstates curr_step).m_external_Q i
          = rd modelstates.m_external_Q0 i - perfuLoad model c (rd modelstates.m_curr_T i) i) ∧
      (∀ modelstates0 : ModelStates α,
        (initBC (readPerfuAll model conds) modelstates0).m_external_Q
          = (initBC (readPerfuAll model conds) modelstates0).m_external_Q0) := by
  have hrun : (computeRunTimeBC (readPerfuAll model conds) modelstates curr_step).m_external_Q
      = setPerfu (readPerfuAll model conds) modelstates := rfl
  have hset := setPerfu_entries (readPerfuAll model conds) modelstates
    (conds.flatMap (perfuEntries model))
    (by rw [readPerfuAll_eq]; show model.m_perfu_idx ++ _ = _; rw [h0.1, List.nil_append])
    (by rw [readPerfuAll_eq]; show model.m_perfu_const1 ++ _ = _; rw [h0.2.1, List.nil_append])
    (by rw [readPerfuAll_eq]; show model.m_perfu_refT ++ _ = _; rw [h0.2.2, List.nil_append])
  have key : rd (computeRunTimeBC (readPerfuAll model conds) modelstates curr_step).m_external_Q i
      = perfusedQ model conds (rd modelstates.m_external_Q i) (rd modelstates.m_external_Q0 i)
          (rd modelstates.m_curr_T i) i := by
    rw [hrun, hset]
    exact foldl_perfuWrite_all model conds _ _ _ i (by rw [hQ]; exact hi) hi
  refine ⟨key, ?_, ?_, ?_, fun _ => rfl⟩
  · intro pre c post hc hne hpost
    rw [key, hc]
    exact perfusedQ_last model pre post c _ _ _ i hne hpost
  · intro h
    rw [key]
    exact perfusedQ_untouched model conds _ _ _ i h
  · intro c hc hinv
    rw [key, hc]
    by_cases hne : perfuCoeff model c i ≠ 0
    · exact perfusedQ_last model [] [] c _ _ _ i hne (fun _ h => by cases h)
    · rw [perfusedQ_untouched model [c] _ _ _ i
        (fun c' hc' => by rw [List.mem_singleton.1 hc']; exact not_not.1 hne),
        perfuLoad_eq, not_not.1 hne, zero_mul, sub_zero, hinv]

/-- The value `computeRunTimeBC` leaves at node 0 of the one-element model with
the two perfusion conditions of `twoPerfusions`, at the initial state. -/
theorem perfusion_load_witness :
    rd (computeRunTimeBC (readPerfuAll unitModel twoPerfusions)
        (initBC twoPerfuModel (ModelStates.new twoPerfuModel)) 0).m_external_Q 0
      = perfusedQ unitModel twoPerfusions
          (rd (initBC twoPerfuModel (ModelStates.new twoPerfuModel)).m_external_Q 0)
          (rd (initBC twoPerfuModel (ModelStates.new twoPerfuModel)).m_external_Q0 0)
          (rd (initBC twoPerfuModel (ModelStates.new twoPerfuModel)).m_curr_T 0) 0 :=
  (perfusion_load unitModel twoPerfusions ⟨rfl, rfl, rfl⟩
    (initBC twoPerfuModel (ModelStates.new twoPerfuModel)) (by decide!) 0 0 (by decide)).1

/-- C20 at its failing input: the element of the one-element model is
listed by two perfusion conditions, with coefficients `1` and `2` at every node
and reference temperatures 27 and 17.  At the initial state (`curr_T = 37`,
`external_Q0 = 0`) the sum over both conditions is `1 * 10 + 2 * 20 = 50`, so the
claim gives `external_Q[0] = -50`; `computeRunTimeBC` leaves `-40`, the value of
the second condition alone. -/
theorem perfusion_load_counterexample :
    rd (initBC twoPerfuModel (ModelStates.new twoPerfuModel)).m_external_Q0 0
        - (twoPerfusions.map fun c => perfuLoad unitModel c
            (rd (initBC twoPerfuModel (ModelStates.new twoPerfuModel)).m_curr_T 0) 0).sum
        = -50 ∧
      rd (computeRunTimeBC twoPerfuModel (initBC twoPerfuModel (ModelStates.new twoPerfuModel))
        0).m_external_Q 0 = -40 := by
  decide!

/-- C21.  In exact arithmetic, for the model the loader builds from a model
without heat source entries by reading the constant heat sources `conds` (HFlux,
BodyHFlux and Metabo blocks in any order), a state whose `m_external_Q0` has one
entry per node, and a node `i`: after `initBC`, `m_external_Q0[i]` and
`m_external_Q[i]` hold the sum over the sources of `q` for every HFlux entry
listing node `i`, of `q * V0 / 4` for every corner at node `i` of every listed
element of a BodyHFlux, and of `q * V0 / 4` for every corner at node `i` of
every element of the mesh for a Metabo. -/
theorem constant_heat_sources {α : Type} [Field α] [DecidableEq α] (model : Model α)
    (conds : List (HeatCondition α))
    (h0 : model.m_hflux_idx = [] ∧ model.m_hflux_mag = [] ∧ model.m_bhflux_idx = [] ∧
      model.m_bhflux_mag = [] ∧ model.m_metabo_mag = [])
    (modelstates : ModelStates α)
    (hQ : modelstates.m_external_Q0.length = model.m_nodes.length)
    (i : Nat) (hi : i < model.m_nodes.length) :
    rd (initBC (readHeatAll model conds) modelstates).m_external_Q0 i
        = (conds.map fun c => heatLoad model c i).sum ∧
      rd (initBC (readHeatAll model conds) modelstates).m_external_Q i
        = (conds.map fun c => heatLoad model c i).sum := by
  obtain ⟨a1, a2, a3, a4, a5⟩ := h0
  have hQ0 : (initBC (readHeatAll model conds) modelstates).m_external_Q0
      = addAll
          (addIndexed
            (addIndexed (modelstates.m_external_Q0.map fun _ => (0 : α))
              ((conds.flatMap (hfluxEntries model)).map fun e => e.1)
              ((conds.flatMap (hfluxEntries model)).map fun e => e.2))
            ((conds.flatMap (bhfluxEntries model)).map fun e => e.1)
            ((conds.flatMap (bhfluxEntries model)).map fun e => e.2))
          (conds.foldl (metaboStep model) []) := by
    rw [readHeatAll_eq, a1, a2, a3, a4, a5]
    rfl
  have hQeq : (initBC (readHeatAll model conds) modelstates).m_external_Q
      = (initBC (readHeatAll model conds) modelstates).m_external_Q0 := rfl
  have hz : rd (modelstates.m_external_Q0.map fun _ => (0 : α)) i = 0 := by
    unfold rd
    rw [List.getD_eq_getElem?_getD, List.getElem?_map]
    cases modelstates.m_external_Q0[i]? <;> rfl
  obtain ⟨h1, l1⟩ := addIndexed_rd (modelstates.m_external_Q0.map fun _ => (0 : α))
    (conds.flatMap (hfluxEntries model)) i (by rw [List.length_map, hQ]; exact hi)
  obtain ⟨h2, l2⟩ := addIndexed_rd _ (conds.flatMap (bhfluxEntries model)) i
    (by rw [l1, List.length_map, hQ]; exact hi)
  obtain ⟨h3, -⟩ := addAll_rd _ (conds.foldl (metaboStep model) []) i
    (by rw [l2, l1, List.length_map, hQ]; exact hi)
  obtain ⟨h4, -⟩ := metaboStep_rd model conds [] (Nat.zero_le _) i hi
  have hsum : rd (initBC (readHeatAll model conds) modelstates).m_external_Q0 i
      = (conds.map fun c => heatLoad model c i).sum := by
    rw [hQ0, h3, h2, h1, hz, h4, zero_add, sum_flatMap, sum_flatMap]
    have hnil : rd ([] : List α) i = 0 := rfl
    rw [hnil, zero_add, ← List.sum_map_add, ← List.sum_map_add]
    apply sum_map_congr_mem
    intro c _
    cases c with
    | hflux q nodes =>
      simp only [hfluxEntries, bhfluxEntries, heatLoad, List.map_map, Function.comp_def,
        List.map_nil, List.sum_nil, add_zero]
    | bodyHFlux q tets =>
      simp only [hfluxEntries, bhfluxEntries, List.map_nil, List.sum_nil, zero_add, add_zero,
        List.map_map, Function.comp_def]
      rw [sum_ite_nodup _ ((List.nodup_range _).filter _)
        (fun k => heatLoad model (.bodyHFlux q tets) k) i]
      by_cases hc : heatLoad model (.bodyHFlux q tets) i = 0
      · rw [hc, ite_self]
      · rw [if_pos (List.mem_filter.2 ⟨List.mem_range.2 hi, by simpa using hc⟩)]
    | metabo q =>
      simp only [hfluxEntries, bhfluxEntries, List.map_nil, List.sum_nil, zero_add]
  exact ⟨hsum, by rw [hQeq]; exact hsum⟩

/-- Witness of C21: the one-element model with the three sources of
`threeSources`; node 0 gets `5 + 5 + 1 + 2`. -/
theorem constant_heat_sources_witness :
    rd (initBC (readHeatAll unitModel threeSources)
        (ModelStates.new (readHeatAll unitModel threeSources))).m_external_Q0 0
      = (threeSources.map fun c => heatLoad unitModel c 0).sum ∧
    (threeSources.map fun c => heatLoad unitModel c 0).sum = 13 :=
  ⟨(constant_heat_sources unitModel threeSources ⟨rfl, rfl, rfl, rfl, rfl⟩
    (ModelStates.new (readHeatAll unitModel threeSources)) (by decide!) 0 (by decide)).1,
    by decide!⟩

/-- C22.  In exact arithmetic, for the model the loader builds from a model
without gravity entries by reading the `<Gravity>` conditions `conds`, a state
whose `m_external_F` has three entries per node, a node `i` and an axis `a`:
after `initBC`, `m_external_F[3 * i + a]` is `g * m_i`, with `m_i` the lumped
mass of the node (the sum over the corners at node `i` of `tet.m_mass / 4`) and
`g` the sum of the accelerations of the conditions of the axis `a`; so it is
`0` on an axis without gravity condition. -/
theorem gravity_load {α : Type} [Field α] (model : Model α)
    (conds : List (GravityCondition α))
    (h0 : model.m_grav_f_x = [] ∧ model.m_grav_f_y = [] ∧ model.m_grav_f_z = [])
    (modelstates : ModelStates α)
    (hF : modelstates.m_external_F.length = model.m_nodes.length * 3)
    (i : Nat) (hi : i < model.m_nodes.length) (a : Fin 3) :
    rd (initBC (readGravityAll model conds) modelstates).m_external_F (i * 3 + a.val)
        = gravityOf conds a * lumpedMass model.m_tets i ∧
      ((∀ c ∈ conds, c.xyz ≠ axisName a) →
        rd (initBC (readGravityAll model conds) modelstates).m_external_F (i * 3 + a.val) = 0) := by
  obtain ⟨a1, a2, a3⟩ := h0
  have ha := a.isLt
  have hE : (initBC (readGravityAll model conds) modelstates).m_external_F
      = addGravity
          (addGravity
            (addGravity (modelstates.m_external_F.map fun _ => (0 : α))
              (conds.foldl (gravStep model 0) []) 0)
            (conds.foldl (gravStep model 1) []) 1)
          (conds.foldl (gravStep model 2) []) 2 := by
    rw [readGravityAll_eq, a1, a2, a3]
    rfl
  have hz : rd (modelstates.m_external_F.map fun _ => (0 : α)) (i * 3 + a.val) = 0 := by
    unfold rd
    rw [List.getD_eq_getElem?_getD, List.getElem?_map]
    cases modelstates.m_external_F[i * 3 + a.val]? <;> rfl
  obtain ⟨h1, l1⟩ := addGravity_rd (modelstates.m_external_F.map fun _ => (0 : α))
    (conds.foldl (gravStep model 0) []) 0 (by omega) i a
    (by rw [List.length_map, hF]; omega)
  obtain ⟨h2, l2⟩ := addGravity_rd _ (conds.foldl (gravStep model 1) []) 1 (by omega) i a
    (by rw [l1, List.length_map, hF]; omega)
  obtain ⟨h3, -⟩ := addGravity_rd _ (conds.foldl (gravStep model 2) []) 2 (by omega) i a
    (by rw [l2, l1, List.length_map, hF]; omega)
  have hnil : rd ([] : List α) i = 0 := rfl
  have g0 := (gravStep_rd model 0 conds [] (Nat.zero_le _) i hi).1
  have g1 := (gravStep_rd model 1 conds [] (Nat.zero_le _) i hi).1
  have g2 := (gravStep_rd model 2 conds [] (Nat.zero_le _) i hi).1
  rw [hnil, zero_add] at g0 g1 g2
  have key : rd (initBC (readGravityAll model conds) modelstates).m_external_F (i * 3 + a.val)
      = gravityOf conds a * lumpedMass model.m_tets i := by
    rw [hE, h3, h2, h1, hz, g0, g1, g2]
    fin_cases a <;> simp
  refine ⟨key, fun hno => ?_⟩
  rw [key]
  have : gravityOf conds a = 0 := by
    unfold gravityOf
    apply sum_map_zero
    intro c hc
    rw [if_neg (hno c hc)]
  rw [this, zero_mul]

/-- Witness of C22: the one-element model with gravity `2` and `3` along x and
`5` along z; the x DOF of node 1 carries `(2 + 3) * m_1`, the y DOF `0`. -/
theorem gravity_load_witness :
    rd (initBC (readGravityAll unitModel threeGravities)
        (ModelStates.new (readGravityAll unitModel threeGravities))).m_external_F
        (1 * 3 + (0 : Fin 3).val)
      = gravityOf threeGravities 0 * lumpedMass unitModel.m_tets 1 ∧
    gravityOf threeGravities 0 = 5 :=
  ⟨(gravity_load unitModel threeGravities ⟨rfl, rfl, rfl⟩
    (ModelStates.new (readGravityAll unitModel threeGravities)) (by decide!) 1 (by decide) 0).1,
    by decide!⟩

/-- C23.  For every libm, thread count, model and state: the rotation at the
end of a successful `computeOneStep` is the three `swap` calls of the source;
on return `m_prev_U` holds the pre-step `m_curr_U`, `m_curr_U` the `m_next_U`
the node pass just computed, `m_next_U` the pre-step `m_prev_U`, `m_curr_T` the
`m_next_T` just computed and `m_next_T` the pre-step `m_curr_T`; every other
vector is as the node pass left it, and the loads, constants and flags are those
of the state before the call. -/
theorem history_rotation {α : Type} [Add α] [Sub α] [Mul α] [Div α] [Neg α] [Zero α] [One α]
    [NatCast α] [DecidableEq α] (lm : Libm α) (NUM_THREADS : Nat) (model : Model α)
    (modelstates : ModelStates α)
    (h : (computeOneStep lm NUM_THREADS model modelstates).no_err = true) :
    (computeOneStep lm NUM_THREADS model modelstates).modelstates
        = swapCurrNextT (swapCurrNextU (swapPrevCurrU
            (nodePassOf lm NUM_THREADS model modelstates).1)) ∧
      (computeOneStep lm NUM_THREADS model modelstates).modelstates.m_prev_U
        = modelstates.m_curr_U ∧
      (computeOneStep lm NUM_THREADS model modelstates).modelstates.m_curr_U
        = (nodePassOf lm NUM_THREADS model modelstates).1.m_next_U ∧
      (computeOneStep lm NUM_THREADS model modelstates).modelstates.m_next_U
        = modelstates.m_prev_U ∧
      (computeOneStep lm NUM_THREADS model modelstates).modelstates.m_curr_T
        = (nodePassOf lm NUM_THREADS model modelstates).1.m_next_T ∧
      (computeOneStep lm NUM_THREADS model modelstates).modelstates.m_next_T
        = modelstates.m_curr_T ∧
      ((computeOneStep lm NUM_THREADS model modelstates).modelstates.m_ele_nodal_internal_F
          = (nodePassOf lm NUM_THREADS model modelstates).1.m_ele_nodal_internal_F ∧
        (computeOneStep lm NUM_THREADS model modelstates).modelstates.m_ele_nodal_internal_Q
          = (nodePassOf lm NUM_THREADS model modelstates).1.m_ele_nodal_internal_Q) ∧
      ((computeOneStep lm NUM_THREADS model modelstates).modelstates.m_external_F
          = modelstates.m_external_F ∧
        (computeOneStep lm NUM_THREADS model modelstates).modelstates.m_disp_mag_t
          = modelstates.m_disp_mag_t ∧
        (computeOneStep lm NUM_THREADS model modelstates).modelstates.m_central_diff_const1
          = modelstates.m_central_diff_const1 ∧
        (computeOneStep lm NUM_THREADS model modelstates).modelstates.m_central_diff_const2
          = modelstates.m_central_diff_const2 ∧
        (computeOneStep lm NUM_THREADS model modelstates).modelstates.m_central_diff_const3
          = modelstates.m_central_diff_const3 ∧
        (computeOneStep lm NUM_THREADS model modelstates).modelstates.m_external_Q
          = modelstates.m_external_Q ∧
        (computeOneStep lm NUM_THREADS model modelstates).modelstates.m_external_Q0
          = modelstates.m_external_Q0 ∧
        (computeOneStep lm NUM_THREADS model modelstates).modelstates.m_fixT_mag
          = modelstates.m_fixT_mag ∧
        (computeOneStep lm NUM_THREADS model modelstates).modelstates.m_constA
          = modelstates.m_constA ∧
        (computeOneStep lm NUM_THREADS model modelstates).modelstates.m_fixP_flag
          = modelstates.m_fixP_flag ∧
        (computeOneStep lm NUM_THREADS model modelstates).modelstates.m_fixT_flag
          = modelstates.m_fixT_flag) := by
  have hr := computeOneStep_rotated lm NUM_THREADS model modelstates h
  obtain ⟨F, Q, U, T, hf⟩ := nodePassOf_frame lm NUM_THREADS model modelstates
  rw [hr]
  refine ⟨rfl, ?_, rfl, ?_, rfl, ?_, ⟨rfl, rfl⟩, ?_⟩
  · rw [hf]; rfl
  · rw [hf]; rfl
  · rw [hf]; rfl
  · rw [hf]
    exact ⟨rfl, rfl, rfl, rfl, rfl, rfl, rfl, rfl, rfl, rfl, rfl⟩

/-- Witness of C23: the first step of the one-element model with a Disp
condition; the step succeeds, `m_curr_U` is the vector the node pass computed
and `m_next_U` is the pre-step `m_prev_U`. -/
theorem history_rotation_witness :
    (computeOneStep restLibm 1 zeroDispModel (computeRunTimeBC zeroDispModel
        (initBC zeroDispModel (ModelStates.new zeroDispModel)) 0)).modelstates.m_curr_U
      = (nodePassOf restLibm 1 zeroDispModel (computeRunTimeBC zeroDispModel
        (initBC zeroDispModel (ModelStates.new zeroDispModel)) 0)).1.m_next_U ∧
    (computeOneStep restLibm 1 zeroDispModel (computeRunTimeBC zeroDispModel
        (initBC zeroDispModel (ModelStates.new zeroDispModel)) 0)).modelstates.m_next_U
      = (computeRunTimeBC zeroDispModel
        (initBC zeroDispModel (ModelStates.new zeroDispModel)) 0).m_prev_U :=
  have h := history_rotation restLibm 1 zeroDispModel (computeRunTimeBC zeroDispModel
    (initBC zeroDispModel (ModelStates.new zeroDispModel)) 0) (by decide!)
  ⟨h.2.2.1, h.2.2.2.1⟩

/-- C24 (amended).  Along a run, for every libm, thread count and model: after a
successful step `k` (its rotation done) `m_curr_U` holds the displacement that
step just computed, `m_prev_U` the displacement of one step ago (the `m_curr_U`
the step was called with) and `m_next_U` the `m_prev_U` the step was called
with; when the step before succeeded too, that is the displacement of two steps
ago. -/
theorem history_invariant {α : Type} [Add α] [Sub α] [Mul α] [Div α] [Neg α] [Zero α] [One α]
    [NatCast α] [DecidableEq α] (lm : Libm α) (NUM_THREADS : Nat) (model : Model α) (k : Nat)
    (hk : stepNoErr lm NUM_THREADS model k = true) :
    (stepInput lm NUM_THREADS model (k + 1)).2.m_curr_U
        = (nodePassOf lm NUM_THREADS (stepInput lm NUM_THREADS model k).1
            (computeRunTimeBC (stepInput lm NUM_THREADS model k).1
              (stepInput lm NUM_THREADS model k).2 k)).1.m_next_U ∧
      (stepInput lm NUM_THREADS model (k + 1)).2.m_prev_U
        = (stepInput lm NUM_THREADS model k).2.m_curr_U ∧
      (stepInput lm NUM_THREADS model (k + 1)).2.m_next_U
        = (stepInput lm NUM_THREADS model k).2.m_prev_U ∧
      (∀ j, k = j + 1 → stepNoErr lm NUM_THREADS model j = true →
        (stepInput lm NUM_THREADS model (k + 1)).2.m_next_U
          = (stepInput lm NUM_THREADS model j).2.m_curr_U) := by
  have step : ∀ i, stepNoErr lm NUM_THREADS model i = true →
      (stepInput lm NUM_THREADS model (i + 1)).2.m_curr_U
          = (nodePassOf lm NUM_THREADS (stepInput lm NUM_THREADS model i).1
              (computeRunTimeBC (stepInput lm NUM_THREADS model i).1
                (stepInput lm NUM_THREADS model i).2 i)).1.m_next_U ∧
        (stepInput lm NUM_THREADS model (i + 1)).2.m_prev_U
          = (stepInput lm NUM_THREADS model i).2.m_curr_U ∧
        (stepInput lm NUM_THREADS model (i + 1)).2.m_next_U
          = (stepInput lm NUM_THREADS model i).2.m_prev_U := by
    intro i hi
    have hr := computeOneStep_rotated lm NUM_THREADS (stepInput lm NUM_THREADS model i).1
      (computeRunTimeBC (stepInput lm NUM_THREADS model i).1
        (stepInput lm NUM_THREADS model i).2 i) hi
    obtain ⟨F, Q, U, T, hf⟩ := nodePassOf_frame lm NUM_THREADS
      (stepInput lm NUM_THREADS model i).1
      (computeRunTimeBC (stepInput lm NUM_THREADS model i).1
        (stepInput lm NUM_THREADS model i).2 i)
    have e : (stepInput lm NUM_THREADS model (i + 1)).2
        = rotate (nodePassOf lm NUM_THREADS (stepInput lm NUM_THREADS model i).1
            (computeRunTimeBC (stepInput lm NUM_THREADS model i).1
              (stepInput lm NUM_THREADS model i).2 i)).1 := hr
    rw [e]
    refine ⟨rfl, ?_, ?_⟩
    · rw [hf]; rfl
    · rw [hf]; rfl
  obtain ⟨h1, h2, h3⟩ := step k hk
  refine ⟨h1, h2, h3, ?_⟩
  intro j hj hjs
  subst hj
  rw [h3]
  exact (step j hjs).2.1

/-- Witness of C24 (amended): the second step of the one-element model with
gravity along x run for two steps; both steps succeed. -/
theorem history_invariant_witness :
    (stepInput restLibm 1 gravityRun 2).2.m_prev_U = (stepInput restLibm 1 gravityRun 1).2.m_curr_U ∧
      (stepInput restLibm 1 gravityRun 2).2.m_next_U
        = (stepInput restLibm 1 gravityRun 0).2.m_curr_U :=
  have h := history_invariant restLibm 1 gravityRun 1 (by decide!)
  ⟨h.2.1, h.2.2.2 0 rfl (by decide!)⟩

/-- Counterexample to C24 as stated: the one-element model with gravity along
x run for two steps, both successful.  The displacement of DOF 0 is `0` at the
start, `1` after the first step and `3` after the second.  After the second
step `m_next_U[0]` is `0`, not the `3` that step computed; `m_curr_U[0]` is that
`3`, not the `1` of one step ago; and `m_prev_U[0]` is `1`, not the `0` of two
steps ago. -/
theorem history_invariant_counterexample :
    stepNoErr restLibm 1 gravityRun 0 = true ∧ stepNoErr restLibm 1 gravityRun 1 = true ∧
      rd (stepInput restLibm 1 gravityRun 0).2.m_curr_U 0 = 0 ∧
      rd (stepInput restLibm 1 gravityRun 1).2.m_curr_U 0 = 1 ∧
      rd (nodePassOf restLibm 1 (stepInput restLibm 1 gravityRun 1).1
        (computeRunTimeBC (stepInput restLibm 1 gravityRun 1).1
          (stepInput restLibm 1 gravityRun 1).2 1)).1.m_next_U 0 = 3 ∧
      rd (stepInput restLibm 1 gravityRun 2).2.m_next_U 0 = 0 ∧
      rd (stepInput restLibm 1 gravityRun 2).2.m_curr_U 0 = 3 ∧
      rd (stepInput restLibm 1 gravityRun 2).2.m_prev_U 0 = 1 := by
  decide!

/-- C25, amended.  For a model over binary32 whose `m_dt` and `m_total_t` are
finite with `2^-125 ≤ m_dt ≤ m_total_t ≤ 2^126` and whose step count is the
`m_num_steps = (size_t)ceil(m_total_t / m_dt)` that `readModel` computes from
the `float` quotient: there is a last step, `m_num_steps - 1`; the target
`computeRunTimeBC` writes on that step for the DOF of a Disp entry is the
magnitude times the `float` factor `m_num_steps * m_dt / m_total_t`; this factor
is finite and at least `(1 - 2^-24)^4` (it can be below `1`).  Computed without
rounding, with the step count `ceil(m_total_t / m_dt)` of the exact quotient,
the factor is at least `1`, it is `1` exactly when `m_total_t` is an integer
multiple of `m_dt`, and it is greater than `1` otherwise. -/
theorem ramp_factor_last_step (model : Model F32) (ms : ModelStates F32) (d t : ℚ)
    (hmd : model.m_dt = ⟨FVal.fin d⟩) (hmt : model.m_total_t = ⟨FVal.fin t⟩)
    (hd : (2 : ℚ) ^ (-125 : ℤ) ≤ d) (hle : d ≤ t) (ht : t ≤ (2 : ℚ) ^ (126 : ℤ))
    (hn : numSteps model.m_total_t model.m_dt = some model.m_num_steps) :
    1 ≤ model.m_num_steps ∧
      (∀ (j : Fin 3) (p : Nat), p < (model.dispIdx j).length →
        (∀ q, p < q → q < (model.dispIdx j).length →
          (model.dispIdx j).getD q 0 ≠ (model.dispIdx j).getD p 0) →
        (model.dispIdx j).getD p 0 * 3 + j.val < ms.m_disp_mag_t.length →
        rd (computeRunTimeBC model ms (model.m_num_steps - 1)).m_disp_mag_t
            ((model.dispIdx j).getD p 0 * 3 + j.val)
          = rd (model.dispMag j) p
            * rampFactor (model.m_num_steps - 1) model.m_dt model.m_total_t) ∧
      (∃ n : ℚ, rampFactor (model.m_num_steps - 1) model.m_dt model.m_total_t = ⟨FVal.fin n⟩ ∧
        (1 - (2 : ℚ) ^ (-24 : ℤ)) ^ 4 ≤ n) ∧
      (∀ M : Nat, specNumSteps t d = some M →
        1 ≤ (M : ℚ) * d / t ∧ ((M : ℚ) * d / t = 1 ↔ ∃ k : ℤ, t = (k : ℚ) * d) ∧
          ((¬ ∃ k : ℤ, t = (k : ℚ) * d) → 1 < (M : ℚ) * d / t)) := by
  have hdpos : 0 < d := lt_of_lt_of_le (zpow_pos (by norm_num) _) hd
  have htpos : 0 < t := lt_of_lt_of_le hdpos hle
  rw [hmd, hmt] at hn
  obtain ⟨h1, n, h2, h3⟩ := binary32_last_factor d t model.m_num_steps hd hle ht hn
  refine ⟨h1, ?_, ⟨n, by rw [hmd, hmt]; exact h2, h3⟩, ?_⟩
  · intro j p hp hlast hlen
    exact computeRunTimeBC_disp model ms (model.m_num_steps - 1) j p hp hlast hlen
  · intro M hM
    obtain ⟨-, a2, a3⟩ := last_factor t d M hdpos htpos hM
    exact ⟨a2, a3, fun hk => lt_of_le_of_ne a2 (fun e => hk (a3.1 e.symm))⟩

/-- Witness of the amended C25: `m_dt = 0.1f`, `m_total_t = 0.3f`, three steps;
the `float` factor of the last step is `1`. -/
theorem ramp_factor_last_step_witness :
    1 ≤ (rampModel (F32.round (1 / 10)) (F32.round (3 / 10)) 3).m_num_steps ∧
      (∃ n : ℚ, rampFactor ((rampModel (F32.round (1 / 10)) (F32.round (3 / 10)) 3).m_num_steps - 1)
            (rampModel (F32.round (1 / 10)) (F32.round (3 / 10)) 3).m_dt
            (rampModel (F32.round (1 / 10)) (F32.round (3 / 10)) 3).m_total_t = ⟨FVal.fin n⟩ ∧
        (1 - (2 : ℚ) ^ (-24 : ℤ)) ^ 4 ≤ n) ∧
      rampFactor 2 (F32.round (1 / 10)) (F32.round (3 / 10)) = ⟨FVal.fin 1⟩ :=
  have h := ramp_factor_last_step (rampModel (F32.round (1 / 10)) (F32.round (3 / 10)) 3)
    (ModelStates.new (rampModel (F32.round (1 / 10)) (F32.round (3 / 10)) 3))
    (13421773 / 134217728) (5033165 / 16777216) (by decide!) (by decide!)
    (by norm_num) (by norm_num) (by norm_num) (by decide!)
  ⟨h.1, h.2.2.1, by decide!⟩

/-- Counterexample to C25 as stated: `m_dt = 0.0001f > 0` and
`m_total_t = 0.0017f > 0`.  The `float` quotient is exactly `17`, so `readModel`
sets 17 steps; the factor `computeRunTimeBC` uses on the last step, step 16, is
`16777215/16777216 = 1 - 2^-24 < 1`, and the target it writes for the Disp
condition of magnitude `1` is that value: below the magnitude. -/
theorem ramp_factor_last_step_counterexample :
    dtTenThousandth = ⟨FVal.fin (13743895 / 137438953472)⟩ ∧
      totalSeventeen = ⟨FVal.fin (14602889 / 8589934592)⟩ ∧
      (0 : ℚ) < 13743895 / 137438953472 ∧ (0 : ℚ) < 14602889 / 8589934592 ∧
      numSteps totalSeventeen dtTenThousandth = some 17 ∧
      rampFactor (17 - 1) dtTenThousandth totalSeventeen
        = ⟨FVal.fin (16777215 / 16777216)⟩ ∧
      (16777215 / 16777216 : ℚ) < 1 ∧
      rd (computeRunTimeBC (rampModel dtTenThousandth totalSeventeen 17)
          (ModelStates.new (rampModel dtTenThousandth totalSeventeen 17)) (17 - 1)).m_disp_mag_t 0
        = ⟨FVal.fin (16777215 / 16777216)⟩ := by
  decide!

/-- C28.  For every element whose conductivity tensor is `D = k * I` (which is
what the constructor builds for the type `T_ISO`): for every deformed gradient
`DHDx` and deformed volume `v` the `T_ISO` branch
`(DHDxᵀ * DHDx) * (v * D[0][0])` of `computeOneStep` equals the general branch
`DHDxᵀ * (D * DHDx) * v` entry for entry, so the conduction matrix and the
per-corner heat flows the element kernel computes do not depend on which branch
the thermal type selects (exact arithmetic). -/
theorem isotropic_shortcut {α : Type} [Field α] [DecidableEq α] (lm : Libm α) (T0 : α)
    (curr_U curr_T : List α) (tet : T4 α) (k : α)
    (hD : ∀ i j, tet.m_D i j = if i = j then k else 0) :
    (∀ (DHDx : Mat34 α) (v : α) (i j : Fin 4),
        mat44xScalar (mat34Tx34 DHDx DHDx) (v * tet.m_D 0 0) i j
          = mat44xScalar (mat34Tx34 DHDx (mat33x34 tet.m_D DHDx)) v i j) ∧
      (∀ (D_uninit : Mat33 α) (vals : List α) (i j : Fin 3),
        conductivity D_uninit "T_ISO" vals i j = if i = j then rd vals 1 else 0) ∧
      (∀ s : String,
        (elementKernel lm T0 curr_U curr_T { tet with m_T_material_type := "T_ISO" }).tet.m_K
            = (elementKernel lm T0 curr_U curr_T { tet with m_T_material_type := s }).tet.m_K ∧
          (elementKernel lm T0 curr_U curr_T { tet with m_T_material_type := "T_ISO" }).q
            = (elementKernel lm T0 curr_U curr_T { tet with m_T_material_type := s }).q) := by
  have hK : ∀ s : String,
      (elementKernel lm T0 curr_U curr_T { tet with m_T_material_type := "T_ISO" }).tet.m_K
        = (elementKernel lm T0 curr_U curr_T { tet with m_T_material_type := s }).tet.m_K := by
    intro s
    rw [elementKernel_K, elementKernel_K]
    by_cases hs : s = "T_ISO"
    · subst hs; rfl
    · have h1 : ({ tet with m_T_material_type := "T_ISO" } : T4 α).m_T_material_type = "T_ISO" :=
        rfl
      have h2 : ¬ ({ tet with m_T_material_type := s } : T4 α).m_T_material_type = "T_ISO" := hs
      rw [if_pos h1, if_neg h2]
      have e := conduction_branches tet.m_D k hD
        (mat33Tx34 (matInv33 (deformationGradient curr_U tet)).1 tet.m_DHDX)
        (tet.m_Vol * (matInv33 (deformationGradient curr_U tet)).2)
      exact e
  refine ⟨fun DHDx v i j => congrFun (congrFun (conduction_branches tet.m_D k hD DHDx v) i) j,
    fun _ _ _ _ => rfl, fun s => ⟨hK s, ?_⟩⟩
  funext m
  rw [elementKernel_q, elementKernel_q, hK s]

/-- Witness of C28: the unit element, whose tensor is the identity, at rest;
its conduction matrix is the same when its thermal type is read as `T_ANISO`. -/
theorem isotropic_shortcut_witness :
    (elementKernel restLibm 37 (List.replicate 12 0) (List.replicate 4 37)
        { unitTet with m_T_material_type := "T_ISO" }).tet.m_K
      = (elementKernel restLibm 37 (List.replicate 12 0) (List.replicate 4 37)
        { unitTet with m_T_material_type := "T_ANISO" }).tet.m_K :=
  ((isotropic_shortcut restLibm 37 (List.replicate 12 0) (List.replicate 4 37) unitTet 1
    (by decide!)).2.2 "T_ANISO").1

/-- C29.  For every libm, every thread count `NUM_THREADS ≥ 1`, every model
whose tetrahedra have ids equal to their positions and every state whose two
per-corner buffers, `m_next_U` and `m_next_T` have the sizes the constructor
gives them: the element pass, the node pass that follows it and `computeOneStep`
as a whole (return value, state, element scratch) are the same as with one
thread.  The reason: the strided loops visit every tetrahedron and every node
exactly once, the visit of a tetrahedron leaves every buffer entry outside
`m_idx * 12 .. m_idx * 12 + 11` and `m_idx * 4 .. m_idx * 4 + 3`, and the visit
of node `i` leaves every entry of `m_next_U` outside `3i .. 3i + 2` and every
entry of `m_next_T` other than `i`. -/
theorem thread_count_independence {α : Type} [Add α] [Sub α] [Mul α] [Div α] [Neg α] [Zero α]
    [One α] [NatCast α] [DecidableEq α] (lm : Libm α) (NUM_THREADS : Nat)
    (hT : 1 ≤ NUM_THREADS) (model : Model α) (modelstates : ModelStates α)
    (hids : ∀ (p : Nat) (tet : T4 α), model.m_tets[p]? = some tet → tet.m_idx = p)
    (hF : modelstates.m_ele_nodal_internal_F.length = model.m_tets.length * 12)
    (hQ : modelstates.m_ele_nodal_internal_Q.length = model.m_tets.length * 4)
    (hU : modelstates.m_next_U.length = model.m_nodes.length * 3)
    (hTl : modelstates.m_next_T.length = model.m_nodes.length) :
    elementPass lm NUM_THREADS model modelstates = elementPass lm 1 model modelstates ∧
      nodePassOf lm NUM_THREADS model modelstates = nodePassOf lm 1 model modelstates ∧
      computeOneStep lm NUM_THREADS model modelstates = computeOneStep lm 1 model modelstates ∧
      (elementPass lm NUM_THREADS model modelstates
          = (visitOrder NUM_THREADS model.m_tets.length).foldl (elementIter lm model.m_T0)
              (model.m_tets, modelstates) ∧
        (visitOrder NUM_THREADS model.m_tets.length).Nodup ∧
        ∀ i, i ∈ visitOrder NUM_THREADS model.m_tets.length ↔ i < model.m_tets.length) ∧
      (∀ M : Model α, ∀ ms : ModelStates α,
        nodePass lm NUM_THREADS M ms
          = (visitOrder NUM_THREADS M.m_nodes.length).foldl (nodeIter lm M) (ms, true)) ∧
      ((visitOrder NUM_THREADS model.m_nodes.length).Nodup ∧
        ∀ i, i ∈ visitOrder NUM_THREADS model.m_nodes.length ↔ i < model.m_nodes.length) ∧
      (∀ (st : List (T4 α) × ModelStates α) (i : Nat) (tet : T4 α), st.1[i]? = some tet →
        (∀ k, (k < tet.m_idx * 12 ∨ tet.m_idx * 12 + 12 ≤ k) →
          rd (elementIter lm model.m_T0 st i).2.m_ele_nodal_internal_F k
            = rd st.2.m_ele_nodal_internal_F k) ∧
        (∀ k, (k < tet.m_idx * 4 ∨ tet.m_idx * 4 + 4 ≤ k) →
          rd (elementIter lm model.m_T0 st i).2.m_ele_nodal_internal_Q k
            = rd st.2.m_ele_nodal_internal_Q k)) ∧
      (∀ (M : Model α) (st : ModelStates α × Bool) (i : Nat),
        (∀ k, (k < i * 3 ∨ i * 3 + 3 ≤ k) →
          rd (nodeIter lm M st i).1.m_next_U k = rd st.1.m_next_U k) ∧
        (∀ k, k ≠ i → rd (nodeIter lm M st i).1.m_next_T k = rd st.1.m_next_T k)) := by
  have hE := elementPass_threads lm NUM_THREADS hT model modelstates hids hF hQ
  obtain ⟨F, Q, hfr⟩ := elementPass_frame lm 1 model modelstates
  have hN : nodePassOf lm NUM_THREADS model modelstates = nodePassOf lm 1 model modelstates := by
    unfold nodePassOf
    rw [hE]
    exact nodePass_threads lm NUM_THREADS hT _ _ (by rw [hfr]; exact hU) (by rw [hfr]; exact hTl)
  refine ⟨hE, hN, ?_, ⟨?_, visitOrder_nodup _ _ hT, fun i => mem_visitOrder _ _ _ hT⟩, ?_,
    ⟨visitOrder_nodup _ _ hT, fun i => mem_visitOrder _ _ _ hT⟩,
    fun st i tet h => elementIter_untouched lm model.m_T0 st i tet h,
    fun M st i => nodeIter_untouched lm M st i⟩
  · unfold nodePassOf at hN
    rw [computeOneStep_eq, computeOneStep_eq, hN, hE]
  · unfold elementPass visitOrder
    rw [foldl_flatMap]
  · intro M ms
    unfold nodePass visitOrder
    rw [foldl_flatMap]

/-- Witness of C29: one step of the one-element model with gravity, with three
threads and with one. -/
theorem thread_count_independence_witness :
    computeOneStep restLibm 3 gravityRun (initBC gravityRun (ModelStates.new gravityRun))
      = computeOneStep restLibm 1 gravityRun (initBC gravityRun (ModelStates.new gravityRun)) :=
  (thread_count_independence restLibm 3 (by decide) gravityRun
    (initBC gravityRun (ModelStates.new gravityRun)) unitModelRaw_ids
    (by decide) (by decide) (by decide) (by decide)).2.2.1

/-- C30.  After `postCreate`, for every model: the directory has one entry
`(offset, count)` per node; for every node `i` the count is the number of
corners `(tet, m)` with `tet.m_n_idx[m] = i` and the offset is the sum of the
counts of the nodes before `i`; so the slices are contiguous (each starts where
the one before ends, the first at `0`), pairwise disjoint, and cover the buffer
exactly (the buffer holds as many pairs as the counts add up to, and every pair
position lies in the slice of exactly one node); and when every corner names a
node of the model the counts add up to four times the number of tetrahedra. -/
theorem directory_layout {α : Type} (model : Model α) :
    model.postCreate.m_tracking_num_eles_i_eles_per_node_j.length = 2 * model.m_nodes.length ∧
      (∀ i, i < model.m_nodes.length →
        model.postCreate.dirCount i = cornerCount model.m_tets i ∧
        model.postCreate.dirOffset i
          = ((List.range i).map fun j => model.postCreate.dirCount j).sum) ∧
      (∀ i, i + 1 < model.m_nodes.length →
        model.postCreate.dirOffset (i + 1)
          = model.postCreate.dirOffset i + model.postCreate.dirCount i) ∧
      (∀ i j, i < j → j < model.m_nodes.length →
        model.postCreate.dirOffset i + model.postCreate.dirCount i
          ≤ model.postCreate.dirOffset j) ∧
      model.postCreate.m_ele_node_local_idx_pair.length
        = 2 * ((List.range model.m_nodes.length).map fun i => model.postCreate.dirCount i).sum ∧
      (∀ p, 2 * p < model.postCreate.m_ele_node_local_idx_pair.length →
        ∃! i, i < model.m_nodes.length ∧ model.postCreate.dirOffset i ≤ p ∧
          p < model.postCreate.dirOffset i + model.postCreate.dirCount i) ∧
      ((∀ tet ∈ model.m_tets, ∀ m : Fin 4, tet.m_n_idx m < model.m_nodes.length) →
        ((List.range model.m_nodes.length).map fun i => model.postCreate.dirCount i).sum
          = 4 * model.m_tets.length) := by
  have hd := postCreate_dir model
  have hsum : ∀ n, n ≤ model.m_nodes.length →
      ((List.range n).map fun j => model.postCreate.dirCount j).sum
        = offsetOf (cornersAt model.m_tets) n := by
    intro n hn
    unfold offsetOf
    apply sum_map_congr_mem
    intro x hx
    exact (hd x (by have := List.mem_range.1 hx; omega)).2
  have hlen : model.postCreate.m_ele_node_local_idx_pair.length
      = 2 * offsetOf (cornersAt model.m_tets) model.m_nodes.length := by
    rw [(postCreate_eq model).1, flatMap_flatPairs_length]
  refine ⟨?_, ?_, ?_, ?_, ?_, ?_, ?_⟩
  · rw [(postCreate_eq model).2, flatMap_dir_length]
  · intro i hi
    refine ⟨?_, ?_⟩
    · rw [(hd i hi).2, cornersAt_length]
    · rw [(hd i hi).1, hsum i (by omega)]
  · intro i hi
    rw [(hd (i + 1) hi).1, (hd i (by omega)).1, (hd i (by omega)).2, offsetOf_succ]
  · intro i j hij hj
    rw [(hd i (by omega)).1, (hd i (by omega)).2, (hd j hj).1]
    exact offsetOf_disjoint _ i j hij
  · rw [hlen, hsum _ (Nat.le_refl _)]
  · intro p hp
    rw [hlen] at hp
    obtain ⟨i, hi, h1, h2⟩ := offsetOf_locate (cornersAt model.m_tets) model.m_nodes.length p
      (by omega)
    refine ⟨i, ⟨hi, ?_, ?_⟩, ?_⟩
    · rw [(hd i hi).1]; exact h1
    · rw [(hd i hi).1, (hd i hi).2]; exact h2
    · rintro j ⟨hj, g1, g2⟩
      rw [(hd j hj).1] at g1 g2
      rw [(hd j hj).2] at g2
      by_contra hne
      rcases Nat.lt_or_gt_of_ne hne with hlt | hgt
      · have := offsetOf_disjoint (cornersAt model.m_tets) j i hlt
        omega
      · have := offsetOf_disjoint (cornersAt model.m_tets) i j hgt
        omega
  · intro hnodes
    rw [← sum_cornerCount model.m_tets model.m_nodes.length hnodes]
    apply sum_map_congr_mem
    intro x hx
    rw [(hd x (List.mem_range.1 hx)).2, cornersAt_length]

/-- C26 (amended).  In exact arithmetic, for every libm, thread count and model
the loader builds from a mesh without thermal condition (ids equal to positions,
node indices in range, elements as the constructor returns them for the density
of the model, `V0 > 0`, `rho > 0`, `c ≠ 0`, each node on at least one element) by
reading one `<Metabo>` block with the value `q`: after `k` successful steps the
temperature of every node `i` is `T0 + k * dt * q * V_i / (m_i * c)`, which is
`T0 + k * dt * q / (rho * c)`, with `V_i` and `m_i` the lumped volume and mass of
the node, whatever the mechanical loads and displacements of the model; it
stays `T0` for `q = 0`, and for `dt > 0` and `c > 0` it rises strictly from each
step to the next when `q > 0`. -/
theorem uniform_heating {α : Type} [LinearOrderedField α] (lm : Libm α) (NUM_THREADS : Nat)
    (hT : 1 ≤ NUM_THREADS) (base : Model α) (q : α)
    (hTD : base.m_num_T_DOFs = base.m_nodes.length)
    (hD : base.m_num_M_DOFs = base.m_nodes.length * 3)
    (hids : ∀ (p : Nat) (tet : T4 α), base.m_tets[p]? = some tet → tet.m_idx = p)
    (hnodes : ∀ tet ∈ base.m_tets, ∀ m : Fin 4, tet.m_n_idx m < base.m_nodes.length)
    (hnew : ∀ tet ∈ base.m_tets, ∃ D idx n1 n2 n3 n4 mt mv tt tv et ev,
      tet = T4.new D idx n1 n2 n3 n4 base.m_rho mt mv tt tv et ev)
    (hVol : ∀ tet ∈ base.m_tets, 0 < tet.m_Vol)
    (hcover : ∀ i, i < base.m_nodes.length → ∃ tet ∈ base.m_tets, ∃ m : Fin 4, tet.m_n_idx m = i)
    (hrho : 0 < base.m_rho) (hc : rd base.m_T_material_vals 0 ≠ 0)
    (hh : base.m_hflux_idx = [] ∧ base.m_bhflux_idx = [] ∧ base.m_fixT_idx = [] ∧
      base.m_perfu_idx = [] ∧ base.m_metabo_mag = [])
    (n : Nat)
    (hok : ∀ j, j < n → stepNoErr lm NUM_THREADS (readMetabo base q).postCreate j = true) :
    (∀ k, k ≤ n → ∀ i, i < base.m_nodes.length →
        rd (stepInput lm NUM_THREADS (readMetabo base q).postCreate k).2.m_curr_T i
            = base.m_T0 + (k : α) * base.m_dt * q * lumpedVolume base.m_tets i
                / (lumpedMass base.m_tets i * rd base.m_T_material_vals 0) ∧
          rd (stepInput lm NUM_THREADS (readMetabo base q).postCreate k).2.m_curr_T i
            = base.m_T0 + (k : α) * base.m_dt * q / (base.m_rho * rd base.m_T_material_vals 0)) ∧
      (q = 0 → ∀ k, k ≤ n → ∀ i, i < base.m_nodes.length →
        rd (stepInput lm NUM_THREADS (readMetabo base q).postCreate k).2.m_curr_T i = base.m_T0) ∧
      (0 < base.m_dt → 0 < rd base.m_T_material_vals 0 → 0 < q →
        ∀ k, k < n → ∀ i, i < base.m_nodes.length →
          rd (stepInput lm NUM_THREADS (readMetabo base q).postCreate k).2.m_curr_T i
            < rd (stepInput lm NUM_THREADS (readMetabo base q).postCreate (k + 1)).2.m_curr_T i) := by
  have hrow : ∀ tet ∈ base.m_tets, ∀ r : Fin 3,
      tet.m_DHDX r 0 + tet.m_DHDX r 1 + tet.m_DHDX r 2 + tet.m_DHDX r 3 = 0 := by
    intro tet ht r
    obtain ⟨D, idx, n1, n2, n3, n4, mt, mv, tt, tv, et, ev, rfl⟩ := hnew tet ht
    exact DHDX_row_sum _ n1 n2 n3 n4 (new_builtFrom _ _ _ _ _ _ _ _ _ _ _ _ _) r
  have hmass : ∀ tet ∈ base.m_tets, tet.m_mass = base.m_rho * tet.m_Vol := by
    intro tet ht
    obtain ⟨D, idx, n1, n2, n3, n4, mt, mv, tt, tv, et, ev, rfl⟩ := hnew tet ht
    rfl
  have hV : ∀ i, i < base.m_nodes.length → 0 < lumpedVolume base.m_tets i :=
    fun i hi => lumpedVolume_pos base.m_tets hVol i (hcover i hi)
  have key : ∀ k, k ≤ n → ∀ i, i < base.m_nodes.length →
      rd (stepInput lm NUM_THREADS (readMetabo base q).postCreate k).2.m_curr_T i
        = base.m_T0 + (k : α) * (base.m_dt * q / (base.m_rho * rd base.m_T_material_vals 0)) :=
    fun k hk => (heating_trajectory lm NUM_THREADS hT base q hTD hD hids hnodes hrow hmass hh
      hrho.ne' hc (fun i hi => (hV i hi).ne') k (fun j hj => hok j (by omega))).2
  refine ⟨?_, ?_, ?_⟩
  · intro k hk i hi
    have hv := (hV i hi).ne'
    have hr := hrho.ne'
    rw [key k hk i hi, lumpedMass_eq base.m_tets base.m_rho hmass i]
    constructor
    · field_simp
      ring
    · field_simp
      ring
  · intro hq k hk i hi
    rw [key k hk i hi, hq]
    simp
  · intro hdt hcp hq k hk i hi
    rw [key k (by omega) i hi, key (k + 1) (by omega) i hi, Nat.cast_succ]
    have hpos : 0 < base.m_dt * q / (base.m_rho * rd base.m_T_material_vals 0) :=
      div_pos (mul_pos hdt hq) (mul_pos hrho hcp)
    linarith

/-- Witness of C26 (amended): the two-element mesh with `c = 1`, `rho = 1`,
`dt = 1` and metabolic heat `q = 24`; the lumped volumes of the nodes are `1/24`,
`1/8`, `1/8`, `1/8`, `1/12`, and after two steps every node has the temperature
`37 + 2 * 24`. -/
theorem uniform_heating_witness :
    rd (stepInput restLibm 1 (readMetabo (twoTetRaw 1) 24).postCreate 2).2.m_curr_T 0
        = 37 + ((2 : ℕ) : ℚ) * 1 * 24 / (1 * 1) ∧
      rd (stepInput restLibm 1 (readMetabo (twoTetRaw 1) 24).postCreate 2).2.m_curr_T 4
        = 37 + ((2 : ℕ) : ℚ) * 1 * 24 / (1 * 1) :=
  have h := (uniform_heating restLibm 1 (Nat.le_refl 1) (twoTetRaw 1) 24 rfl rfl
    (twoTetRaw_ids 1) (by decide!) (twoTetRaw_new 1)
    (by decide!) (by decide!) (by decide!) (by decide!) ⟨rfl, rfl, rfl, rfl, rfl⟩ 2
    (by decide!)).1 2 (Nat.le_refl 2)
  ⟨(h 0 (by decide)).2, (h 4 (by decide)).2⟩

/-- Counterexample to C26 as stated: the two-element mesh with `V0 > 0`,
`rho = 1 > 0`, the specific heat `c = -1 ≠ 0`, `dt = 1` and metabolic heat
`q = 24 > 0`.  The first step succeeds and takes every node from `37` to
`37 + 1 * 24 / (1 * -1) = 13`: the temperature falls. -/
theorem uniform_heating_counterexample :
    (∀ tet ∈ (twoTetRaw (-1)).m_tets, 0 < tet.m_Vol) ∧ 0 < (twoTetRaw (-1)).m_rho ∧
      rd (twoTetRaw (-1)).m_T_material_vals 0 ≠ 0 ∧ (0 : ℚ) < 24 ∧
      stepNoErr restLibm 1 (readMetabo (twoTetRaw (-1)) 24).postCreate 0 = true ∧
      (∀ i, i < 5 →
        rd (stepInput restLibm 1 (readMetabo (twoTetRaw (-1)) 24).postCreate 0).2.m_curr_T i = 37 ∧
        rd (stepInput restLibm 1 (readMetabo (twoTetRaw (-1)) 24).postCreate 1).2.m_curr_T i
          = 13) := by
  decide!

/-- C27.  In exact arithmetic, for every libm, thread count and model the loader
builds from a mesh without thermal condition (ids equal to positions, node
indices in range, elements as the constructor returns them for the density of
the model, positive volumes, each node on at least one element) by reading one
`<Metabo>` block with `q > 0` and one `<Perfu>` block `(wb, cb, refT, ids)` that
lists every element once, in either order, with `wb * cb > 0`, `T0 = refT` and
`kappa = dt * wb * cb / (rho * c)` between `0` and `1`: after `n` successful
steps the temperature of every node is
`refT + q / (wb * cb) * (1 - (1 - kappa)^n)`; it is above `refT` for `n ≥ 1` and
not above the un-perfused `T0 + n * dt * q / (rho * c)`; and along a run of
successful steps it converges to `refT + q / (wb * cb)`. -/
theorem perfusion_equilibrium {α : Type} [LinearOrderedField α] [Archimedean α] (lm : Libm α)
    (NUM_THREADS : Nat) (hT : 1 ≤ NUM_THREADS) (base : Model α) (q : α) (c : PerfuCondition α)
    (hTD : base.m_num_T_DOFs = base.m_nodes.length)
    (hD : base.m_num_M_DOFs = base.m_nodes.length * 3)
    (hids : ∀ (p : Nat) (tet : T4 α), base.m_tets[p]? = some tet → tet.m_idx = p)
    (hnodes : ∀ tet ∈ base.m_tets, ∀ m : Fin 4, tet.m_n_idx m < base.m_nodes.length)
    (hnew : ∀ tet ∈ base.m_tets, ∃ D idx n1 n2 n3 n4 mt mv tt tv et ev,
      tet = T4.new D idx n1 n2 n3 n4 base.m_rho mt mv tt tv et ev)
    (hVol : ∀ tet ∈ base.m_tets, 0 < tet.m_Vol)
    (hcover : ∀ i, i < base.m_nodes.length → ∃ tet ∈ base.m_tets, ∃ m : Fin 4, tet.m_n_idx m = i)
    (hh : base.m_hflux_idx = [] ∧ base.m_bhflux_idx = [] ∧ base.m_fixT_idx = [] ∧
      base.m_perfu_idx = [] ∧ base.m_perfu_const1 = [] ∧ base.m_perfu_refT = [] ∧
      base.m_metabo_mag = [])
    (hlist : (c.ids.map base.tetOfId).Perm (base.m_tets.map some))
    (hq : 0 < q) (hw : 0 < c.wb * c.cb) (hT0 : base.m_T0 = c.refT)
    (hk0 : 0 < base.m_dt * c.wb * c.cb / (base.m_rho * rd base.m_T_material_vals 0))
    (hk1 : base.m_dt * c.wb * c.cb / (base.m_rho * rd base.m_T_material_vals 0) < 1) :
    (∀ n, (∀ j, j < n → stepNoErr lm NUM_THREADS
          (readPerfu (readMetabo base q) c.wb c.cb c.refT c.ids).postCreate j = true) →
        ∀ i, i < base.m_nodes.length →
          rd (stepInput lm NUM_THREADS
              (readPerfu (readMetabo base q) c.wb c.cb c.refT c.ids).postCreate n).2.m_curr_T i
            = c.refT + q / (c.wb * c.cb)
                * (1 - (1 - base.m_dt * c.wb * c.cb
                    / (base.m_rho * rd base.m_T_material_vals 0)) ^ n) ∧
          (1 ≤ n → c.refT < rd (stepInput lm NUM_THREADS
              (readPerfu (readMetabo base q) c.wb c.cb c.refT c.ids).postCreate n).2.m_curr_T i) ∧
          rd (stepInput lm NUM_THREADS
              (readPerfu (readMetabo base q) c.wb c.cb c.refT c.ids).postCreate n).2.m_curr_T i
            ≤ base.m_T0 + (n : α) * base.m_dt * q / (base.m_rho * rd base.m_T_material_vals 0)) ∧
      ((∀ j, stepNoErr lm NUM_THREADS
          (readPerfu (readMetabo base q) c.wb c.cb c.refT c.ids).postCreate j = true) →
        ∀ ε : α, 0 < ε → ∃ n0 : Nat, ∀ n, n0 ≤ n → ∀ i, i < base.m_nodes.length →
          |rd (stepInput lm NUM_THREADS
              (readPerfu (readMetabo base q) c.wb c.cb c.refT c.ids).postCreate n).2.m_curr_T i
            - (c.refT + q / (c.wb * c.cb))| < ε) ∧
      readPerfu (readMetabo base q) c.wb c.cb c.refT c.ids
        = readMetabo (readPerfu base c.wb c.cb c.refT c.ids) q := by
  obtain ⟨g1, g2, g3, g4, g5, g6, g7⟩ := hh
  have hrc : base.m_rho * rd base.m_T_material_vals 0 ≠ 0 := by
    intro h0
    rw [h0, div_zero] at hk0
    exact lt_irrefl _ hk0
  have hrho : base.m_rho ≠ 0 := left_ne_zero_of_mul hrc
  have hc : rd base.m_T_material_vals 0 ≠ 0 := right_ne_zero_of_mul hrc
  have hrow : ∀ tet ∈ base.m_tets, ∀ r : Fin 3,
      tet.m_DHDX r 0 + tet.m_DHDX r 1 + tet.m_DHDX r 2 + tet.m_DHDX r 3 = 0 := by
    intro tet ht r
    obtain ⟨D, idx, n1, n2, n3, n4, mt, mv, tt, tv, et, ev, rfl⟩ := hnew tet ht
    exact DHDX_row_sum _ n1 n2 n3 n4 (new_builtFrom _ _ _ _ _ _ _ _ _ _ _ _ _) r
  have hmass : ∀ tet ∈ base.m_tets, tet.m_mass = base.m_rho * tet.m_Vol := by
    intro tet ht
    obtain ⟨D, idx, n1, n2, n3, n4, mt, mv, tt, tv, et, ev, rfl⟩ := hnew tet ht
    rfl
  have hV : ∀ i, i < base.m_nodes.length → 0 < lumpedVolume base.m_tets i :=
    fun i hi => lumpedVolume_pos base.m_tets hVol i (hcover i hi)
  have hco : ∀ i, perfuCoeff (readMetabo base q) c i
      = c.wb * c.cb * lumpedVolume base.m_tets i :=
    fun i => perfuCoeff_all (readMetabo base q) c hlist i
  have hP := readPerfu_eq (readMetabo base q) c
  have key : ∀ n, (∀ j, j < n → stepNoErr lm NUM_THREADS
        (readPerfu (readMetabo base q) c.wb c.cb c.refT c.ids).postCreate j = true) →
      ∀ i, i < base.m_nodes.length →
        rd (stepInput lm NUM_THREADS
            (readPerfu (readMetabo base q) c.wb c.cb c.refT c.ids).postCreate n).2.m_curr_T i
          = c.refT + q / (c.wb * c.cb)
              * (1 - (1 - base.m_dt * c.wb * c.cb
                  / (base.m_rho * rd base.m_T_material_vals 0)) ^ n) := by
    intro n hok i hi
    have h := perfusion_trajectory lm NUM_THREADS hT
      (readPerfu (readMetabo base q) c.wb c.cb c.refT c.ids).postCreate
      (postCreate_indexed _) (by rw [hP]; exact hTD) (by rw [hP]; exact hD)
      (by rw [hP]; exact hids) (by rw [hP]; exact hnodes) (by rw [hP]; exact hrow)
      (by rw [hP]; exact hmass) (by rw [hP]; exact ⟨g1, g2, g3⟩) q
      (by
        intro i hi
        rw [hP] at hi ⊢
        exact readMetabo_rd base q g7 i hi)
      ((List.range base.m_nodes.length).filter
        fun i => decide (perfuCoeff (readMetabo base q) c i ≠ 0))
      (fun i => perfuCoeff (readMetabo base q) c i) c.refT (c.wb * c.cb)
      (by
        intro i hi
        rw [hP] at hi
        refine List.mem_filter.2 ⟨List.mem_range.2 hi, ?_⟩
        rw [hco i]
        exact decide_eq_true (mul_ne_zero hw.ne' (hV i hi).ne'))
      (by rw [hP]; show base.m_perfu_idx ++ _ = _; rw [g4, List.nil_append]; rfl)
      (by rw [hP]; show base.m_perfu_const1 ++ _ = _; rw [g5, List.nil_append]; rfl)
      (by rw [hP]; show base.m_perfu_refT ++ _ = _; rw [g6, List.nil_append]; rfl)
      (by intro i _; rw [hP]; exact hco i)
      (by rw [hP]; exact hrho) (by rw [hP]; exact hc) hw.ne'
      (by intro i hi; rw [hP] at hi ⊢; exact (hV i hi).ne')
      (by rw [hP]; exact hT0) n hok i (by rw [hP]; exact hi)
    rw [h, hP]
    show c.refT + q / (c.wb * c.cb) * (1 - (1 - base.m_dt * (c.wb * c.cb)
      / (base.m_rho * rd base.m_T_material_vals 0)) ^ n) = _
    rw [mul_assoc]
  have hqw : 0 < q / (c.wb * c.cb) := div_pos hq hw
  have hk0' : 0 ≤ 1 - base.m_dt * c.wb * c.cb / (base.m_rho * rd base.m_T_material_vals 0) := by
    linarith
  have hk1' : 1 - base.m_dt * c.wb * c.cb / (base.m_rho * rd base.m_T_material_vals 0) < 1 := by
    linarith
  refine ⟨?_, ?_, readPerfu_readMetabo base q c⟩
  · intro n hok i hi
    refine ⟨key n hok i hi, ?_, ?_⟩
    · intro hn
      rw [key n hok i hi]
      have hp : (1 - base.m_dt * c.wb * c.cb / (base.m_rho * rd base.m_T_material_vals 0)) ^ n
          < 1 := pow_lt_one₀ hk0' hk1' (by omega)
      have : 0 < q / (c.wb * c.cb) * (1 - (1 - base.m_dt * c.wb * c.cb
          / (base.m_rho * rd base.m_T_material_vals 0)) ^ n) := mul_pos hqw (by linarith)
      linarith
    · rw [key n hok i hi, hT0]
      have hb := one_add_mul_le_pow (show (-2 : α) ≤ -(base.m_dt * c.wb * c.cb
        / (base.m_rho * rd base.m_T_material_vals 0)) by linarith) n
      have e : (n : α) * base.m_dt * q / (base.m_rho * rd base.m_T_material_vals 0)
          = q / (c.wb * c.cb) * ((n : α) * (base.m_dt * c.wb * c.cb
              / (base.m_rho * rd base.m_T_material_vals 0))) := by
        have := hw.ne'
        field_simp
        ring
      rw [e]
      have : q / (c.wb * c.cb) * (1 - (1 - base.m_dt * c.wb * c.cb
            / (base.m_rho * rd base.m_T_material_vals 0)) ^ n)
          ≤ q / (c.wb * c.cb) * ((n : α) * (base.m_dt * c.wb * c.cb
              / (base.m_rho * rd base.m_T_material_vals 0))) := by
        apply mul_le_mul_of_nonneg_left _ hqw.le
        rw [← sub_eq_add_neg] at hb
        linarith
      linarith
  · intro hok ε hε
    obtain ⟨n0, hn0⟩ := exists_pow_lt_of_lt_one (div_pos hε hqw) hk1'
    refine ⟨n0, fun n hn i hi => ?_⟩
    rw [key n (fun j _ => hok j) i hi]
    have hle : (1 - base.m_dt * c.wb * c.cb / (base.m_rho * rd base.m_T_material_vals 0)) ^ n
        ≤ (1 - base.m_dt * c.wb * c.cb / (base.m_rho * rd base.m_T_material_vals 0)) ^ n0 :=
      pow_le_pow_of_le_one hk0' hk1'.le hn
    have hnn : 0 ≤ (1 - base.m_dt * c.wb * c.cb
        / (base.m_rho * rd base.m_T_material_vals 0)) ^ n := pow_nonneg hk0' n
    have e : c.refT + q / (c.wb * c.cb) * (1 - (1 - base.m_dt * c.wb * c.cb
          / (base.m_rho * rd base.m_T_material_vals 0)) ^ n) - (c.refT + q / (c.wb * c.cb))
        = -(q / (c.wb * c.cb) * (1 - base.m_dt * c.wb * c.cb
          / (base.m_rho * rd base.m_T_material_vals 0)) ^ n) := by ring
    rw [e, abs_neg, abs_of_nonneg (mul_nonneg hqw.le hnn)]
    calc q / (c.wb * c.cb) * (1 - base.m_dt * c.wb * c.cb
          / (base.m_rho * rd base.m_T_material_vals 0)) ^ n
        ≤ q / (c.wb * c.cb) * (1 - base.m_dt * c.wb * c.cb
          / (base.m_rho * rd base.m_T_material_vals 0)) ^ n0 :=
          mul_le_mul_of_nonneg_left hle hqw.le
      _ < q / (c.wb * c.cb) * (ε / (q / (c.wb * c.cb))) := mul_lt_mul_of_pos_left hn0 hqw
      _ = ε := by rw [mul_comm, div_mul_cancel₀ ε hqw.ne']

/-- Witness of C27: the two-element mesh with `c = 1`, `rho = 1`, `dt = 1`,
metabolic heat `q = 24` and the perfusion `wb = 1`, `cb = 1/2`, `refT = 37` on
both elements, so `kappa = 1/2`; after two steps the nodes 0 and 4 have the
temperature `37 + 48 * (1 - (1/2)^2)`. -/
theorem perfusion_equilibrium_witness :
    rd (stepInput restLibm 1
          (readPerfu (readMetabo (twoTetRaw 1) 24) 1 (1 / 2) 37 [0, 1]).postCreate 2).2.m_curr_T 0
        = 37 + 24 / (1 * (1 / 2)) * (1 - (1 - 1 * 1 * (1 / 2) / (1 * 1)) ^ 2) ∧
      rd (stepInput restLibm 1
          (readPerfu (readMetabo (twoTetRaw 1) 24) 1 (1 / 2) 37 [0, 1]).postCreate 2).2.m_curr_T 4
        = 37 + 24 / (1 * (1 / 2)) * (1 - (1 - 1 * 1 * (1 / 2) / (1 * 1)) ^ 2) :=
  have h := (perfusion_equilibrium restLibm 1 (Nat.le_refl 1) (twoTetRaw 1) 24
    ⟨1, 1 / 2, 37, [0, 1]⟩ rfl rfl (twoTetRaw_ids 1) (by decide!) (twoTetRaw_new 1)
    (by decide!) (by decide!) ⟨rfl, rfl, rfl, rfl, rfl, rfl, rfl⟩ (List.Perm.of_eq rfl)
    (by decide!) (by decide!) rfl (by decide!) (by decide!)).1 2 (by decide!)
  ⟨(h 0 (by decide)).1, (h 4 (by decide)).1⟩

/-- C31.  In exact arithmetic, for every element, temperature state, gradient
`X` and orthogonal `Q` (`Qᵀ * Q = I`): the element kernel, which is the loop
body at `X = deformationGradient curr_U tet`, stores for the gradient `Q * X` the
stress `S` it stores for `X` (every material type, with the expansion gradient of
the state when expansion is configured) and computes the corner forces
`Q * f` where `f` are the corner forces for `X`; and for `X = Q`, a libm that is
exact at `1`, the material `NH` or `TI` with a unit fibre, and no expansion or
the expansion gradient `I`, the stress and the twelve corner forces are zero. -/
theorem frame_indifference {α : Type} [Field α] [CharZero α] (lm : Libm α) (T0 : α)
    (curr_T : List α) (tet : T4 α) (X Q : Mat33 α) (hQ : mat33Tx33 Q Q = I33) :
    (∀ curr_U : List α, elementKernel lm T0 curr_U curr_T tet
        = elementKernelAt lm T0 curr_T tet (deformationGradient curr_U tet)) ∧
      (elementKernelAt lm T0 curr_T tet (mat33x33 Q X)).tet.m_S
        = (elementKernelAt lm T0 curr_T tet X).tet.m_S ∧
      (elementKernelAt lm T0 curr_T tet (mat33x33 Q X)).f
        = mat33x34 Q (elementKernelAt lm T0 curr_T tet X).f ∧
      (lm.sqrt 1 = 1 → (∀ e, lm.powf 1 e = 1) →
        (tet.m_M_material_type = "NH" ∨ (tet.m_M_material_type = "TI" ∧
          rd tet.m_M_material_vals 3 + rd tet.m_M_material_vals 6
            + rd tet.m_M_material_vals 8 = 1)) →
        (tet.m_T_expan_vals.length ≠ 0 →
          expansionGradient tet (T_diff T0 curr_T tet) = I33) →
        (elementKernelAt lm T0 curr_T tet Q).tet.m_S = (fun _ _ => 0) ∧
          (elementKernelAt lm T0 curr_T tet Q).f = (fun _ _ => 0)) := by
  refine ⟨fun _ => rfl, elementKernelAt_S_rotate lm T0 curr_T tet X Q hQ, ?_,
    fun hsqrt hpow hmat hexp => elementKernelAt_rigid lm hsqrt hpow T0 curr_T tet Q hQ hmat hexp⟩
  rw [elementKernelAt_f, elementKernelAt_f, elementKernelAt_S_rotate lm T0 curr_T tet X Q hQ]
  exact force_rotate Q X _ tet.m_Vol tet.m_DHDX

/-- Witness of C31: the unit element, a shear with a stretch as gradient, and
the quarter turn about the z axis. -/
theorem frame_indifference_witness :
    (elementKernelAt restLibm 37 [37, 37, 37, 37] unitTet
        (mat33x33 quarterTurn shearStretch)).tet.m_S
      = (elementKernelAt restLibm 37 [37, 37, 37, 37] unitTet shearStretch).tet.m_S ∧
    (elementKernelAt restLibm 37 [37, 37, 37, 37] unitTet (mat33x33 quarterTurn shearStretch)).f
      = mat33x34 quarterTurn
          (elementKernelAt restLibm 37 [37, 37, 37, 37] unitTet shearStretch).f :=
  have h := frame_indifference restLibm 37 [37, 37, 37, 37] unitTet shearStretch quarterTurn
    (by funext i j; fin_cases i <;> fin_cases j <;> decide!)
  ⟨h.2.1, h.2.2.1⟩

/-- C32.  In exact arithmetic, for every libm, thread count, model whose
tetrahedra have ids equal to their positions, state with per-corner buffers of
the constructor's sizes, and every element that carries the reference gradient
of the constructor (whatever its material type, expansion type, the current
displacements and temperatures): the four corner forces the element kernel
computes sum to zero along every axis, and so do the four entries
`m_ele_nodal_internal_F[tet.m_idx * 12 + m * 3 + n]`, `m = 0 .. 3`, the element
pass writes. -/
theorem element_forces_self_equilibrated {α : Type} [Field α] (lm : Libm α) (NUM_THREADS : Nat)
    (hT : 1 ≤ NUM_THREADS) (model : Model α) (modelstates : ModelStates α)
    (hids : ∀ (p : Nat) (tet : T4 α), model.m_tets[p]? = some tet → tet.m_idx = p)
    (hF : modelstates.m_ele_nodal_internal_F.length = model.m_tets.length * 12)
    (hQ : modelstates.m_ele_nodal_internal_Q.length = model.m_tets.length * 4)
    (tet : T4 α) (ht : tet ∈ model.m_tets) (n1 n2 n3 n4 : Node α)
    (hb : tet.builtFrom n1 n2 n3 n4) (n : Fin 3) :
    (elementKernel lm model.m_T0 modelstates.m_curr_U modelstates.m_curr_T tet).f n 0
        + (elementKernel lm model.m_T0 modelstates.m_curr_U modelstates.m_curr_T tet).f n 1
        + (elementKernel lm model.m_T0 modelstates.m_curr_U modelstates.m_curr_T tet).f n 2
        + (elementKernel lm model.m_T0 modelstates.m_curr_U modelstates.m_curr_T tet).f n 3 = 0 ∧
      rd (elementPass lm NUM_THREADS model modelstates).2.m_ele_nodal_internal_F
          (tet.m_idx * 12 + 0 * 3 + n.val)
        + rd (elementPass lm NUM_THREADS model modelstates).2.m_ele_nodal_internal_F
          (tet.m_idx * 12 + 1 * 3 + n.val)
        + rd (elementPass lm NUM_THREADS model modelstates).2.m_ele_nodal_internal_F
          (tet.m_idx * 12 + 2 * 3 + n.val)
        + rd (elementPass lm NUM_THREADS model modelstates).2.m_ele_nodal_internal_F
          (tet.m_idx * 12 + 3 * 3 + n.val) = 0 := by
  have hsum := elementKernel_f_sum lm model.m_T0 modelstates.m_curr_U modelstates.m_curr_T tet
    (DHDX_row_sum tet n1 n2 n3 n4 hb) n
  refine ⟨hsum, ?_⟩
  obtain ⟨p, hp⟩ := List.mem_iff_getElem?.1 ht
  obtain ⟨-, -, -, -, -, h6, -⟩ := elementPass_spec lm NUM_THREADS hT model modelstates hids hF hQ
  rw [hids p tet hp]
  have e0 := h6 p tet hp 0 n
  have e1 := h6 p tet hp 1 n
  have e2 := h6 p tet hp 2 n
  have e3 := h6 p tet hp 3 n
  simp only [fin4_val] at e0 e1 e2 e3
  rw [e0, e1, e2, e3]
  exact hsum

/-- Witness of C32: the one-element model with node 1 displaced; the forces
along x the element pass writes, three threads. -/
theorem element_forces_self_equilibrated_witness :
    rd (elementPass restLibm 3 unitModel stretchedState).2.m_ele_nodal_internal_F (0 * 12 + 0 * 3 + 0)
      + rd (elementPass restLibm 3 unitModel stretchedState).2.m_ele_nodal_internal_F
        (0 * 12 + 1 * 3 + 0)
      + rd (elementPass restLibm 3 unitModel stretchedState).2.m_ele_nodal_internal_F
        (0 * 12 + 2 * 3 + 0)
      + rd (elementPass restLibm 3 unitModel stretchedState).2.m_ele_nodal_internal_F
        (0 * 12 + 3 * 3 + 0) = 0 :=
  (element_forces_self_equilibrated restLibm 3 (by decide) unitModel stretchedState
    unitModelRaw_ids (by decide) (by decide) unitTet (List.mem_singleton.2 rfl) _ _ _ _
    (new_builtFrom _ _ _ _ _ _ _ _ _ _ _ _ _) 0).2

/-- C33.  In exact arithmetic, for every libm, thread count, indexed model
(ids equal to positions, node indices in range, elements with the reference
gradient of the constructor, one thermal DOF per node) and state with vectors of
the constructor's sizes and the constructor's `m_constA`, in which no node
carries the FixT flag and `m_T[i] * c ≠ 0` for every node (`m_T` the nodal
thermal mass, `c = m_T_material_vals[0]`): the temperatures `next_T` the node
pass of `computeOneStep` writes satisfy
`sum_i m_T[i] * c * (next_T[i] - curr_T[i]) = dt * sum_i external_Q[i]`; the four
corner heat flows of every element sum to zero; and after a successful call
`next_T` is in `m_curr_T` and the old `m_curr_T` in `m_next_T`. -/
theorem global_heat_balance {α : Type} [Field α] [DecidableEq α] (lm : Libm α)
    (NUM_THREADS : Nat) (hT : 1 ≤ NUM_THREADS) (model : Model α) (modelstates : ModelStates α)
    (hidx : model.indexed)
    (hids : ∀ (p : Nat) (tet : T4 α), model.m_tets[p]? = some tet → tet.m_idx = p)
    (hnodes : ∀ tet ∈ model.m_tets, ∀ m : Fin 4, tet.m_n_idx m < model.m_nodes.length)
    (hbuilt : ∀ tet ∈ model.m_tets, ∃ n1 n2 n3 n4, tet.builtFrom n1 n2 n3 n4)
    (hTD : model.m_num_T_DOFs = model.m_nodes.length)
    (hF : modelstates.m_ele_nodal_internal_F.length = model.m_tets.length * 12)
    (hQ : modelstates.m_ele_nodal_internal_Q.length = model.m_tets.length * 4)
    (hU : modelstates.m_next_U.length = model.m_nodes.length * 3)
    (hTl : modelstates.m_next_T.length = model.m_nodes.length)
    (hA : modelstates.m_constA = constA model)
    (hflag : ∀ i, i < model.m_nodes.length → modelstates.m_fixT_flag.getD i false = false)
    (hmc : ∀ i, i < model.m_nodes.length →
      rd (nodal_T_mass model) i * rd model.m_T_material_vals 0 ≠ 0) :
    (Finset.range model.m_nodes.length).sum (fun i =>
        rd (nodal_T_mass model) i * rd model.m_T_material_vals 0
          * (rd (nodePassOf lm NUM_THREADS model modelstates).1.m_next_T i
            - rd modelstates.m_curr_T i))
      = model.m_dt * (Finset.range model.m_nodes.length).sum
          (fun i => rd modelstates.m_external_Q i) ∧
      (∀ tet ∈ model.m_tets,
        (elementKernel lm model.m_T0 modelstates.m_curr_U modelstates.m_curr_T tet).q 0
          + (elementKernel lm model.m_T0 modelstates.m_curr_U modelstates.m_curr_T tet).q 1
          + (elementKernel lm model.m_T0 modelstates.m_curr_U modelstates.m_curr_T tet).q 2
          + (elementKernel lm model.m_T0 modelstates.m_curr_U modelstates.m_curr_T tet).q 3
          = 0) ∧
      ((computeOneStep lm NUM_THREADS model modelstates).no_err = true →
        (computeOneStep lm NUM_THREADS model modelstates).modelstates.m_curr_T
            = (nodePassOf lm NUM_THREADS model modelstates).1.m_next_T ∧
          (computeOneStep lm NUM_THREADS model modelstates).modelstates.m_next_T
            = modelstates.m_curr_T) := by
  have hrow : ∀ tet ∈ model.m_tets, ∀ r : Fin 3,
      tet.m_DHDX r 0 + tet.m_DHDX r 1 + tet.m_DHDX r 2 + tet.m_DHDX r 3 = 0 := by
    intro tet ht r
    obtain ⟨n1, n2, n3, n4, hb⟩ := hbuilt tet ht
    exact DHDX_row_sum tet n1 n2 n3 n4 hb r
  obtain ⟨-, -, hval, -⟩ := nodePassOf_spec lm NUM_THREADS hT model modelstates hU hTl
  have hnode : ∀ i, i < model.m_nodes.length →
      rd (nodal_T_mass model) i * rd model.m_T_material_vals 0
          * (rd (nodePassOf lm NUM_THREADS model modelstates).1.m_next_T i
            - rd modelstates.m_curr_T i)
        = model.m_dt * rd modelstates.m_external_Q i
          - model.m_dt * assembledQ lm model.m_T0 modelstates.m_curr_U modelstates.m_curr_T
              model.m_tets i := by
    intro i hi
    rw [hval i hi]
    unfold gatherOf
    rw [gather_elementPass lm NUM_THREADS hT model modelstates hidx hids hF hQ i hi]
    unfold nextTValue
    rw [if_neg (by rw [hflag i hi]; decide), hA, constA_rd model i (by rw [hTD]; exact hi)]
    have := hmc i hi
    field_simp
    ring
  refine ⟨?_, fun tet ht => elementKernel_q_sum lm model.m_T0 modelstates.m_curr_U
    modelstates.m_curr_T tet (hrow tet ht), ?_⟩
  · rw [Finset.sum_congr rfl (fun i hi => hnode i (Finset.mem_range.1 hi)),
      Finset.sum_sub_distrib, ← Finset.mul_sum, ← Finset.mul_sum,
      sum_assembledQ lm model.m_T0 modelstates.m_curr_U modelstates.m_curr_T model.m_tets
        model.m_nodes.length hnodes hrow, mul_zero, sub_zero]
  · intro hne
    have hr := computeOneStep_rotated lm NUM_THREADS model modelstates hne
    obtain ⟨F, Q, U, T', hf⟩ := nodePassOf_frame lm NUM_THREADS model modelstates
    rw [hr]
    refine ⟨rfl, ?_⟩
    rw [hf]
    rfl

/-- Witness of C33: the two-element mesh with a temperature gradient and the
nodal heat loads `1 .. 5`, two threads. -/
theorem global_heat_balance_witness :
    (Finset.range (twoTetRaw 1).postCreate.m_nodes.length).sum (fun i =>
        rd (nodal_T_mass (twoTetRaw 1).postCreate) i * rd (twoTetRaw 1).postCreate.m_T_material_vals 0
          * (rd (nodePassOf restLibm 2 (twoTetRaw 1).postCreate heatedState).1.m_next_T i
            - rd heatedState.m_curr_T i))
      = (twoTetRaw 1).postCreate.m_dt * (Finset.range (twoTetRaw 1).postCreate.m_nodes.length).sum
          (fun i => rd heatedState.m_external_Q i) :=
  (global_heat_balance restLibm 2 (by decide) (twoTetRaw 1).postCreate heatedState
    (postCreate_indexed _) (twoTetRaw_ids 1) (by decide!)
    (fun tet ht => by
      obtain ⟨D, idx, n1, n2, n3, n4, mt, mv, tt, tv, et, ev, rfl⟩ := twoTetRaw_new 1 tet ht
      exact ⟨n1, n2, n3, n4, new_builtFrom _ _ _ _ _ _ _ _ _ _ _ _ _⟩)
    rfl (by decide) (by decide) (by decide) (by decide) rfl (by decide!) (by decide!)).1

/-- C34.  In exact arithmetic, with a libm that is exact at `1`, for every
model whose tetrahedra have ids equal to their positions, state with buffers of
the constructor's sizes, and element of the model built by the constructor from
four nodes with `detJ0 ≠ 0`, of material `NH` or `TI` with a unit fibre, with
expansion configured and an expansion gradient `X_exp` (built from the mean
corner temperature) of non-zero determinant: if the displacement of every corner
`k` is `(X_exp - I) * x_k`, the element pass finds the deformation gradient
`X_exp` and the elastic gradient `I`, stores `S = 0`, and writes zero into the
twelve entries `m_ele_nodal_internal_F[tet.m_idx * 12 + m * 3 + n]`. -/
theorem free_expansion_stress_free {α : Type} [Field α] [CharZero α] [DecidableEq α]
    (lm : Libm α) (hsqrt : lm.sqrt 1 = 1) (hpow : ∀ e, lm.powf 1 e = 1)
    (NUM_THREADS : Nat) (hT : 1 ≤ NUM_THREADS) (model : Model α) (modelstates : ModelStates α)
    (hids : ∀ (p : Nat) (tet : T4 α), model.m_tets[p]? = some tet → tet.m_idx = p)
    (hF : modelstates.m_ele_nodal_internal_F.length = model.m_tets.length * 12)
    (hQ : modelstates.m_ele_nodal_internal_Q.length = model.m_tets.length * 4)
    (tet : T4 α) (ht : tet ∈ model.m_tets) (n1 n2 n3 n4 : Node α)
    (hb : tet.builtFrom n1 n2 n3 n4)
    (hJ0 : matDet33 (mat34x34T (DHDr : Mat34 α) (n_coords n1 n2 n3 n4)) ≠ 0)
    (hmat : tet.m_M_material_type = "NH" ∨ (tet.m_M_material_type = "TI" ∧
      rd tet.m_M_material_vals 3 + rd tet.m_M_material_vals 6 + rd tet.m_M_material_vals 8 = 1))
    (hexp : tet.m_T_expan_vals.length ≠ 0)
    (hdet : matDet33 (expansionGradient tet (T_diff model.m_T0 modelstates.m_curr_T tet)) ≠ 0)
    (hu : ∀ (m : Fin 4) (n : Fin 3),
      rd modelstates.m_curr_U (tet.m_n_idx m * 3 + n.val)
        = affineDisp
            (fun i j => expansionGradient tet (T_diff model.m_T0 modelstates.m_curr_T tet) i j
              - I33 i j)
            (fun _ => 0) (fun k => n_coords n1 n2 n3 n4 k m) n) :
    deformationGradient modelstates.m_curr_U tet
        = expansionGradient tet (T_diff model.m_T0 modelstates.m_curr_T tet) ∧
      elasticGradient model.m_T0 modelstates.m_curr_U modelstates.m_curr_T tet = I33 ∧
      (elementKernel lm model.m_T0 modelstates.m_curr_U modelstates.m_curr_T tet).tet.m_S
        = (fun _ _ => 0) ∧
      (elementKernel lm model.m_T0 modelstates.m_curr_U modelstates.m_curr_T tet).f
        = (fun _ _ => 0) ∧
      (∀ (m : Fin 4) (n : Fin 3),
        rd (elementPass lm NUM_THREADS model modelstates).2.m_ele_nodal_internal_F
          (tet.m_idx * 12 + m.val * 3 + n.val) = 0) := by
  have hX := deformationGradient_affine modelstates.m_curr_U tet n1 n2 n3 n4 hb hJ0 _ hu
  obtain ⟨h1, h2, h3⟩ := elementKernelAt_free lm hsqrt hpow model.m_T0 modelstates.m_curr_T tet
    hmat hexp hdet
  have hf : (elementKernel lm model.m_T0 modelstates.m_curr_U modelstates.m_curr_T tet).f
      = (fun _ _ => 0) := by
    rw [elementKernel_eq_at, hX]; exact h3
  refine ⟨hX, ?_, ?_, hf, ?_⟩
  · unfold elasticGradient
    rw [if_pos hexp, hX]
    exact h1
  · rw [elementKernel_eq_at, hX]; exact h2
  · intro m n
    obtain ⟨p, hp⟩ := List.mem_iff_getElem?.1 ht
    obtain ⟨-, -, -, -, -, h6, -⟩ := elementPass_spec lm NUM_THREADS hT model modelstates hids hF hQ
    rw [hids p tet hp, h6 p tet hp m n, hf]

/-- Witness of C34: the unit element with isotropic expansion coefficient
`1/100`, every node ten degrees above `T0` and displaced by a tenth of its
position; the element pass writes zero forces. -/
theorem free_expansion_stress_free_witness :
    (elementKernel restLibm expanModel.m_T0 freeExpansionState.m_curr_U
        freeExpansionState.m_curr_T expanTet).tet.m_S = (fun _ _ => 0) ∧
      (elementKernel restLibm expanModel.m_T0 freeExpansionState.m_curr_U
        freeExpansionState.m_curr_T expanTet).f = (fun _ _ => 0) :=
  have h := free_expansion_stress_free restLibm rfl (fun _ => rfl) 1 (Nat.le_refl 1) expanModel
    freeExpansionState
    (by
      intro p tet hp
      match p with
      | 0 =>
        simp only [expanModel, List.getElem?_cons_zero, Option.some.injEq] at hp
        subst hp
        rfl
      | p + 1 => simp [expanModel] at hp)
    (by decide) (by decide) expanTet (List.mem_singleton.2 rfl) _ _ _ _
    (new_builtFrom _ _ _ _ _ _ _ _ _ _ _ _ _) (by decide!) (Or.inl rfl) (by decide) (by decide!)
    (by decide!)
  ⟨h.2.2.1, h.2.2.2.1⟩

/-- C35.  In exact arithmetic, for every libm, thread count, model whose
tetrahedra have ids equal to their positions, state with buffers of the
constructor's sizes, and element of the model with expansion configured
(`T_EXPAN_ISO`, whose off-diagonal entries of `m_X_expan` are the zeros of the
constructor, `T_EXPAN_TI` or `T_EXPAN_ORTHO`): if the mean of `curr_T` over the
four corners is `T0`, then `X_exp = I`, `J_exp = 1`, and the stress the element
pass stores and the corner forces it writes are those the element kernel
computes for the same element with no expansion configured
(`m_T_expan_vals` empty), for the same displacements and temperatures. -/
theorem expansion_noop_at_reference {α : Type} [Field α] (lm : Libm α) (NUM_THREADS : Nat)
    (hT : 1 ≤ NUM_THREADS) (model : Model α) (modelstates : ModelStates α)
    (hids : ∀ (p : Nat) (tet : T4 α), model.m_tets[p]? = some tet → tet.m_idx = p)
    (hF : modelstates.m_ele_nodal_internal_F.length = model.m_tets.length * 12)
    (hQ : modelstates.m_ele_nodal_internal_Q.length = model.m_tets.length * 4)
    (tet : T4 α) (ht : tet ∈ model.m_tets)
    (hexp : tet.m_T_expan_vals.length ≠ 0)
    (hty : tet.m_T_expan_type = "T_EXPAN_ISO" ∨ tet.m_T_expan_type = "T_EXPAN_TI"
      ∨ tet.m_T_expan_type = "T_EXPAN_ORTHO")
    (hiso : tet.m_T_expan_type = "T_EXPAN_ISO" → ∀ i j : Fin 3, i ≠ j → tet.m_X_expan i j = 0)
    (hmean : (rd modelstates.m_curr_T (tet.m_n_idx 0) + rd modelstates.m_curr_T (tet.m_n_idx 1)
      + rd modelstates.m_curr_T (tet.m_n_idx 2) + rd modelstates.m_curr_T (tet.m_n_idx 3))
        / ((4 : ℕ) : α) = model.m_T0)
    (s : String) :
    expansionGradient tet (T_diff model.m_T0 modelstates.m_curr_T tet) = I33 ∧
      (matInv33 (expansionGradient tet (T_diff model.m_T0 modelstates.m_curr_T tet))).2 = 1 ∧
      (elementKernel lm model.m_T0 modelstates.m_curr_U modelstates.m_curr_T tet).tet.m_X_expan
        = I33 ∧
      (elementKernel lm model.m_T0 modelstates.m_curr_U modelstates.m_curr_T tet).tet.m_S
        = (elementKernel lm model.m_T0 modelstates.m_curr_U modelstates.m_curr_T
            { tet with m_T_expan_vals := [], m_T_expan_type := s }).tet.m_S ∧
      (elementKernel lm model.m_T0 modelstates.m_curr_U modelstates.m_curr_T tet).f
        = (elementKernel lm model.m_T0 modelstates.m_curr_U modelstates.m_curr_T
            { tet with m_T_expan_vals := [], m_T_expan_type := s }).f ∧
      (∀ (m : Fin 4) (n : Fin 3),
        rd (elementPass lm NUM_THREADS model modelstates).2.m_ele_nodal_internal_F
            (tet.m_idx * 12 + m.val * 3 + n.val)
          = (elementKernel lm model.m_T0 modelstates.m_curr_U modelstates.m_curr_T
              { tet with m_T_expan_vals := [], m_T_expan_type := s }).f n m) := by
  have hI : expansionGradient tet (T_diff model.m_T0 modelstates.m_curr_T tet) = I33 := by
    rw [T_diff_mean model.m_T0 modelstates.m_curr_T tet hmean]
    exact expansionGradient_rest tet hty hiso
  obtain ⟨h1, h2⟩ := elementKernelAt_no_expansion lm model.m_T0 modelstates.m_curr_T tet
    (deformationGradient modelstates.m_curr_U tet) hexp hI s
  have hf : (elementKernel lm model.m_T0 modelstates.m_curr_U modelstates.m_curr_T tet).f
      = (elementKernel lm model.m_T0 modelstates.m_curr_U modelstates.m_curr_T
          { tet with m_T_expan_vals := [], m_T_expan_type := s }).f := h2
  refine ⟨hI, ?_, ?_, h1, hf, ?_⟩
  · rw [hI, matInv33_I33]
  · show (if tet.m_T_expan_vals.length ≠ 0 then
        expansionGradient tet (T_diff model.m_T0 modelstates.m_curr_T tet)
      else tet.m_X_expan) = I33
    rw [if_pos hexp, hI]
  · intro m n
    obtain ⟨p, hp⟩ := List.mem_iff_getElem?.1 ht
    obtain ⟨-, -, -, -, -, h6, -⟩ := elementPass_spec lm NUM_THREADS hT model modelstates hids hF hQ
    have e := h6 p tet hp m n
    rw [hf, ← hids p tet hp] at e
    exact e

/-- Witness of C35: the unit element with isotropic expansion, node 1 displaced
and the corner temperatures 27, 37, 37, 47, whose mean is `T0 = 37`. -/
theorem expansion_noop_at_reference_witness :
    (elementKernel restLibm expanModel.m_T0 referenceMeanState.m_curr_U
        referenceMeanState.m_curr_T expanTet).f
      = (elementKernel restLibm expanModel.m_T0 referenceMeanState.m_curr_U
          referenceMeanState.m_curr_T
          { expanTet with m_T_expan_vals := [], m_T_expan_type := "T_EXPAN_NONE" }).f :=
  (expansion_noop_at_reference restLibm 1 (Nat.le_refl 1) expanModel referenceMeanState
    (by
      intro p tet hp
      match p with
      | 0 =>
        simp only [expanModel, List.getElem?_cons_zero, Option.some.injEq] at hp
        subst hp
        rfl
      | p + 1 => simp [expanModel] at hp)
    (by decide) (by decide) expanTet (List.mem_singleton.2 rfl) (by decide) (Or.inl rfl)
    (fun _ _ _ _ => rfl) (by decide!) "T_EXPAN_NONE").2.2.2.2.1

/-- Claim C36.  Index safety of the step.  For a model whose connectivity index
is the one `postCreate` builds, whose tetrahedra carry their position as
`m_idx` and node indices below the number of nodes, with
`m_num_M_DOFs = 3 * N_nodes` and `m_num_T_DOFs = N_nodes`, with the node indices
of the Disp and Perfu conditions below the number of nodes (and as many
magnitudes, coefficients and reference temperatures as indices, as `readModel`
pushes them), with material and expansion parameter vectors as long as the
branch of their type reads, and for a state whose vectors have the sizes the
constructor gives them: every indexing `computeRunTimeBC` performs is in bounds,
`computeRunTimeBC` keeps the sizes, every indexing `computeOneStep` then performs
is in bounds, and `computeOneStep` keeps the sizes.  In particular
`(offset_i + j) * 2 + 1 < 2 * sum_k count_k`, the size of the pair buffer, for
every node `i` and `j < count_i`, and `m_idx * 12 + 11 < 12 * N_tets` and
`m_idx * 4 + 3 < 4 * N_tets`, the sizes of the two per-corner buffers, for every
tetrahedron. -/
theorem index_safety {α : Type} [Add α] [Sub α] [Mul α] [Div α] [Neg α] [Zero α] [One α]
    [NatCast α] [DecidableEq α] (lm : Libm α) (NUM_THREADS : Nat) (hT : 1 ≤ NUM_THREADS)
    (model : Model α) (modelstates : ModelStates α) (curr_step : Nat)
    (hpost : model.indexed)
    (hids : ∀ (p : Nat) (tet : T4 α), model.m_tets[p]? = some tet → tet.m_idx = p)
    (hnodes : ∀ tet ∈ model.m_tets, ∀ m : Fin 4, tet.m_n_idx m < model.m_nodes.length)
    (hMD : model.m_num_M_DOFs = 3 * model.m_nodes.length)
    (hTD : model.m_num_T_DOFs = model.m_nodes.length)
    (hx : (∀ k ∈ model.m_disp_idx_x, k < model.m_nodes.length) ∧
      model.m_disp_mag_x.length = model.m_disp_idx_x.length)
    (hy : (∀ k ∈ model.m_disp_idx_y, k < model.m_nodes.length) ∧
      model.m_disp_mag_y.length = model.m_disp_idx_y.length)
    (hz : (∀ k ∈ model.m_disp_idx_z, k < model.m_nodes.length) ∧
      model.m_disp_mag_z.length = model.m_disp_idx_z.length)
    (hperfu : (∀ k ∈ model.m_perfu_idx, k < model.m_nodes.length) ∧
      model.m_perfu_const1.length = model.m_perfu_idx.length ∧
      model.m_perfu_refT.length = model.m_perfu_idx.length)
    (hmat : ∀ tet ∈ model.m_tets,
      (tet.m_M_material_type = "NH" → 2 ≤ tet.m_M_material_vals.length) ∧
      (tet.m_M_material_type = "TI" → 9 ≤ tet.m_M_material_vals.length))
    (hexpan : ∀ tet ∈ model.m_tets, tet.m_T_expan_vals.length ≠ 0 →
      (tet.m_T_expan_type = "T_EXPAN_TI" → 8 ≤ tet.m_T_expan_vals.length) ∧
      (tet.m_T_expan_type = "T_EXPAN_ORTHO" → 15 ≤ tet.m_T_expan_vals.length))
    (hsizes : (ModelStates.new model).sameSizes modelstates) :
    (∀ a ∈ runTimeBCAccesses model modelstates, a.index < a.size) ∧
      (ModelStates.new model).sameSizes (computeRunTimeBC model modelstates curr_step) ∧
      (∀ a ∈ stepAccesses model (computeRunTimeBC model modelstates curr_step),
        a.index < a.size) ∧
      (ModelStates.new model).sameSizes
        (computeOneStep lm NUM_THREADS model
          (computeRunTimeBC model modelstates curr_step)).modelstates ∧
      (∀ i, i < model.m_nodes.length → ∀ j, j < model.dirCount i →
        (model.dirOffset i + j) * 2 + 1
          < 2 * ((List.range model.m_nodes.length).map fun k => model.dirCount k).sum) ∧
      model.m_ele_node_local_idx_pair.length
        = 2 * ((List.range model.m_nodes.length).map fun k => model.dirCount k).sum ∧
      (∀ tet ∈ model.m_tets,
        tet.m_idx * 12 + 11 < 12 * model.m_tets.length ∧
          tet.m_idx * 4 + 3 < 4 * model.m_tets.length) ∧
      modelstates.m_ele_nodal_internal_F.length = 12 * model.m_tets.length ∧
      modelstates.m_ele_nodal_internal_Q.length = 4 * model.m_tets.length := by
  have hMD' : model.m_num_M_DOFs = model.m_nodes.length * 3 := by omega
  have inb : ∀ ms : ModelStates α, (ModelStates.new model).sameSizes ms →
      (∀ a ∈ runTimeBCAccesses model ms, a.index < a.size) ∧
        (∀ a ∈ stepAccesses model ms, a.index < a.size) := by
    intro ms hs
    obtain ⟨s1, s2, s3, s4, s5, s6, s7, s8, s9, s10, s11, s12, s13, s14, s15, s16, s17, s18⟩ :=
      sameSizes_new model ms hs
    rw [hMD'] at s1 s3 s4 s5 s6 s7 s8 s9 s17
    rw [hTD] at s10 s11 s13 s14 s15 s16 s18
    refine ⟨?_, ?_⟩
    · intro a ha
      simp only [runTimeBCAccesses, List.mem_append] at ha
      rcases ha with ((ha | ha) | ha) | ha
      · exact dispAccesses_inBounds ms _ _ 0 _ (by omega) hx.1 hx.2 s3 a ha
      · exact dispAccesses_inBounds ms _ _ 1 _ (by omega) hy.1 hy.2 s3 a ha
      · exact dispAccesses_inBounds ms _ _ 2 _ (by omega) hz.1 hz.2 s3 a ha
      · exact perfuAccesses_inBounds model ms _ hperfu.1 hperfu.2.1 hperfu.2.2 s10 s11 s15 a ha
    · intro a ha
      simp only [stepAccesses, List.mem_append, List.mem_flatMap, List.mem_range] at ha
      rcases ha with ⟨i, hi, ha⟩ | ⟨i, hi, ha⟩
      · have ht : model.m_tets[i]? = some model.m_tets[i] := List.getElem?_eq_getElem hi
        rw [ht] at ha
        have hmem : model.m_tets[i] ∈ model.m_tets := List.getElem_mem hi
        exact elementAccesses_inBounds model ms i _ ht hids (hnodes _ hmem) (hmat _ hmem).1
          (hmat _ hmem).2 (fun h1 h2 => (hexpan _ hmem h2).1 h1)
          (fun h1 h2 => (hexpan _ hmem h2).2 h1) s8 s15 s2 s12 a ha
      · simp only [nodeAccesses, List.mem_append, List.mem_flatMap, List.mem_finRange,
          true_and] at ha
        rcases ha with (ha | ⟨j, ha⟩) | ha
        · exact gatherAccesses_inBounds model ms hpost hids i hi s2 s12 a ha
        · exact dofAccesses_inBounds ms model.m_nodes.length _
            (by have := j.isLt; omega) s3 s9 s17 s4 s5 s6 s1 s8 s7 a ha
        · exact temperatureAccesses_inBounds ms model.m_nodes.length i hi s18 s16 s13 s15 s14
            s10 a ha
  have hrt := computeRunTimeBC_sameSizes model _ modelstates curr_step hsizes
  have hsum : ((List.range model.m_nodes.length).map fun k => model.dirCount k).sum
      = offsetOf (cornersAt model.m_tets) model.m_nodes.length := by
    unfold offsetOf
    apply sum_map_congr_mem
    intro x hx
    exact (indexed_slice model hpost hids x (List.mem_range.1 hx)).2.2.2.1
  obtain ⟨-, s2, -, -, -, -, -, -, -, -, -, s12, -⟩ := sameSizes_new model modelstates hsizes
  refine ⟨(inb modelstates hsizes).1, hrt, (inb _ hrt).2,
    computeOneStep_sameSizes lm NUM_THREADS hT model _ hids hMD' hTD hrt, ?_, ?_, ?_, ?_, ?_⟩
  · intro i hi j hj
    obtain ⟨-, -, -, -, s5, -⟩ := indexed_slice model hpost hids i hi
    rw [hsum]
    omega
  · cases hn : model.m_nodes.length with
    | zero =>
      obtain ⟨b, -⟩ := postCreate_eq model
      rw [hpost.1.trans b, hn]
      simp
    | succ n =>
      rw [← hn, hsum]
      exact (indexed_slice model hpost hids 0 (by omega)).2.1
  · intro tet ht
    have := mem_tets_idx model.m_tets hids tet ht
    omega
  · omega
  · omega


/-- Witness for C36: the two-element mesh with a Disp condition on node 4 and
perfusion at the nodes 0 and 4, in the state `initBC` leaves, two threads, first
step. -/
theorem index_safety_witness :
    (∀ a ∈ runTimeBCAccesses loadedTwoTet (initBC loadedTwoTet (ModelStates.new loadedTwoTet)),
        a.index < a.size) ∧
      (∀ a ∈ stepAccesses loadedTwoTet
          (computeRunTimeBC loadedTwoTet (initBC loadedTwoTet (ModelStates.new loadedTwoTet)) 0),
        a.index < a.size) ∧
      (∀ i, i < 5 → ∀ j, j < loadedTwoTet.dirCount i →
        (loadedTwoTet.dirOffset i + j) * 2 + 1
          < 2 * ((List.range 5).map fun k => loadedTwoTet.dirCount k).sum) ∧
      (∀ tet ∈ loadedTwoTet.m_tets,
        tet.m_idx * 12 + 11 < 12 * loadedTwoTet.m_tets.length ∧
          tet.m_idx * 4 + 3 < 4 * loadedTwoTet.m_tets.length) :=
  have h := index_safety restLibm 2 (by decide) loadedTwoTet
    (initBC loadedTwoTet (ModelStates.new loadedTwoTet)) 0
    (by unfold Model.indexed; decide!) (twoTetRaw_ids 1) (by decide!) (by decide) (by decide)
    (by decide!) (by decide!) (by decide!) (by decide!) (by decide!) (by decide!)
    (by unfold ModelStates.sameSizes; decide!)
  ⟨h.1, h.2.2.1, h.2.2.2.2.1, h.2.2.2.2.2.2.1⟩

end BioheatExpan
